import Mathlib

/-!
# image_editor.c : a shallow embedding

The C program `src/image_editor.c` is an interactive editor for PNM images
(P2, P3, P5, P6).  This development embeds its data model and its functions
as Lean definitions and proves properties of them.

Conventions of the embedding.

* `unsigned short` values are `Nat` (kept below `65536` by the code that stores
  them), `signed short` and `int` values are `Int`; conversions between them are
  the explicit wrap-around functions `to_short`, `to_ushort`, `to_int`.
* `double` values are rationals, and every floating point operation rounds its
  exact result to the nearest `double` (`to_double`: IEEE 754 binary64, 53
  significant bits, round to nearest, ties to even; each operation is rounded
  once, as with `FLT_EVAL_METHOD` 0).  The exponent range, infinities and NaN
  are not modelled: no value of the program comes near the limits of the
  format, and a division by zero is excluded where the program can make one.
* A `FILE *` open for reading is the list of bytes not consumed yet.
* A C string (`char []`) is the list of its bytes up to the terminating NUL.
* `pixel_t **` is `Option (List (List pixel_t))`: `none` is the `NULL` pointer.
  Allocation (`malloc`) always succeeds in the embedding.
* A function whose C execution can read a variable that was never assigned,
  use the `NULL` picture, or run a loop that never ends returns an `Option`, and
  `none` stands for those runs.
* `picture[line][column]` is `pixel_at`, which gives a default pixel outside the
  picture; the statements about functions that index a picture assume a
  selection inside the picture.
-/

set_option linter.unusedVariables false

namespace image_editor

/-! ## Data model -/

/-- Maximum pixel value in the image (`#define MAX_VALUE 255`). -/
def MAX_VALUE : Nat := 255

/-- Maximum length of an input line (`#define MAX_INPUT_LINE_LENGTH 1000`). -/
def MAX_INPUT_LINE_LENGTH : Nat := 1000

/-- Structure representing a pixel in an image (three `unsigned short` channels). -/
structure pixel_t where
  red : Nat
  green : Nat
  blue : Nat
deriving DecidableEq, Inhabited

/-- Structure representing an image.  `picture = none` is the `NULL` pointer
("no image loaded"). -/
structure image_t where
  picture : Option (List (List pixel_t))
  color : Bool
  height : Nat
  width : Nat
deriving DecidableEq, Inhabited

/-- Structure representing an area within an image (end indices exclusive). -/
structure area_t where
  all : Bool
  column_start : Nat
  line_start : Nat
  column_end : Nat
  line_end : Nat
deriving DecidableEq, Inhabited

/-- The C type `double`: the rational numbers, among which the operations
below only produce those that the format represents. -/
abbrev double := ℚ

/-! ## Machine integers -/

/-- Conversion of an integer to `signed short` (16 bits, two's complement wrap). -/
def to_short (n : Int) : Int := (n + 32768) % 65536 - 32768

/-- Conversion of an integer to `unsigned short` (reduction modulo `2^16`). -/
def to_ushort (n : Int) : Nat := (n % 65536).toNat

/-- Conversion of a `long` to `int` (32 bits, two's complement wrap). -/
def to_int (n : Int) : Int := (n + 2147483648) % 4294967296 - 2147483648

/-- Conversion of a `double` to an integer type: the fractional part is
discarded (truncation toward zero). -/
def truncate (value : double) : Int := if 0 ≤ value then ⌊value⌋ else ⌈value⌉

/-! ## Floating point -/

/-- Rounding of a rational number to the nearest integer, a tie going to the
even integer. -/
def round_half_even (q : ℚ) : Int :=
  if q - ⌊q⌋ < 1 / 2 then ⌊q⌋
  else if 1 / 2 < q - ⌊q⌋ then ⌊q⌋ + 1
  else if ⌊q⌋ % 2 = 0 then ⌊q⌋ else ⌊q⌋ + 1

/-- The exponent of the last of the 53 significant bits of the `double`s next
to `q`: with `2 ^ k ≤ |q| < 2 ^ (k + 1)` it is `k - 52`. -/
def ulp_exponent (q : ℚ) : Int := Int.log 2 |q| - 52

/-- The `double` nearest to a rational number (round to nearest, ties to even):
the number is rounded to a multiple of `2 ^ ulp_exponent`. -/
def to_double (q : ℚ) : double :=
  if q < 0 then -((round_half_even (-q / 2 ^ ulp_exponent q) : ℚ) * 2 ^ ulp_exponent q)
  else (round_half_even (q / 2 ^ ulp_exponent q) : ℚ) * 2 ^ ulp_exponent q

/-- The conversion of an integer to `double`. -/
def double_of_int (n : Int) : double := to_double (n : ℚ)

/-- The sum `x + y` of two `double`s. -/
def double_add (x y : double) : double := to_double (x + y)

/-- The product `x * y` of two `double`s. -/
def double_mul (x y : double) : double := to_double (x * y)

/-- The quotient `x / y` of two `double`s (`y` is not zero). -/
def double_div (x y : double) : double := to_double (x / y)

/-- Function to round a double to a signed short:
`return (signed short)(value + 0.5);`.  C defines the conversion only for values
within the range of `signed short`; outside it the embedding wraps around. -/
def round_double (value : double) : Int := to_short (truncate (double_add value (1 / 2)))

/-- Function to clamp a value between 0 and 255.  The parameter is a
`signed short`, the result an `unsigned short`. -/
def clamp (number : Int) : Nat :=
  if number ≤ 0 then 0
  else if number ≥ (MAX_VALUE : Int) then MAX_VALUE
  else number.toNat

/-! ## Pictures -/

/-- The pixel `picture[line][column]`. -/
def pixel_at (picture : List (List pixel_t)) (line column : Nat) : pixel_t :=
  (picture.getD line []).getD column default

/-- A picture filled by a doubly nested loop `for line < height, for column < width`
that stores `f line column` in `picture[line][column]`. -/
def fill_picture (height width : Nat) (f : Nat → Nat → pixel_t) : List (List pixel_t) :=
  (List.range height).map (fun line => (List.range width).map (fun column => f line column))

/-- The picture has `height` rows of `width` pixels each (what `create_picture`
allocates). -/
def picture_shape (picture : List (List pixel_t)) (height width : Nat) : Prop :=
  picture.length = height ∧ ∀ row ∈ picture, row.length = width

instance (picture : List (List pixel_t)) (height width : Nat) :
    Decidable (picture_shape picture height width) := by
  unfold picture_shape
  exact inferInstance

/-- The image holds a picture of the dimensions its fields announce, and the
dimensions fit their `unsigned short` fields. -/
def image_ok (image : image_t) : Prop :=
  image.height < 65536 ∧ image.width < 65536 ∧
    ∃ picture, image.picture = some picture ∧ picture_shape picture image.height image.width

/-! ## Strings -/

/-- The bytes of a string literal of the program. -/
def str (s : String) : List Nat := s.toList.map Char.toNat

/-! ## Reading from a stream -/

/-- An input stream: the bytes that have not been read yet. -/
abbrev FILE := List Nat

/-- The C library predicate `isspace` in the "C" locale. -/
def isspace (c : Nat) : Bool := c = 32 || (9 ≤ c && c ≤ 13)

/-- The C library predicate `isdigit`. -/
def isdigit (c : Nat) : Bool := 48 ≤ c && c ≤ 57

/-- Skip the white space a numeric conversion of `fscanf` skips first. -/
def skip_space : FILE → FILE
  | [] => []
  | c :: cs => if isspace c then skip_space cs else c :: cs

/-- Read the longest run of decimal digits, accumulating its value. -/
def scan_digits (acc : Nat) : FILE → Nat × FILE
  | [] => (acc, [])
  | c :: cs => if isdigit c then scan_digits (acc * 10 + (c - 48)) cs else (acc, c :: cs)

/-- The integer syntax shared by `fscanf("%hd")` and `atoi`: white space, an
optional sign, decimal digits.  Returns the number read (`none`: no digit was
there) and the rest of the stream. -/
def scan_int (file : FILE) : Option Int × FILE :=
  match skip_space file with
  | [] => (none, [])
  | c :: cs =>
    if c = 45 then
      match cs with
      | [] => (none, [])
      | d :: ds =>
        if isdigit d then (some (-((scan_digits 0 (d :: ds)).1 : Int)), (scan_digits 0 (d :: ds)).2)
        else (none, d :: ds)
    else if c = 43 then
      match cs with
      | [] => (none, [])
      | d :: ds =>
        if isdigit d then (some ((scan_digits 0 (d :: ds)).1 : Int), (scan_digits 0 (d :: ds)).2)
        else (none, d :: ds)
    else if isdigit c then
      (some ((scan_digits 0 (c :: cs)).1 : Int), (scan_digits 0 (c :: cs)).2)
    else (none, c :: cs)

/-- The value `strtol` returns for a decimal number: out of range numbers are
replaced by `LONG_MAX` or `LONG_MIN` (64 bits). -/
def to_long (n : Int) : Int :=
  if n > 9223372036854775807 then 9223372036854775807
  else if n < -9223372036854775808 then -9223372036854775808
  else n

/-- The conversion `fscanf(file, "%hd", &x)` where `x` is an `unsigned short`:
the number is converted to 16 bits and stored.  Returns the value stored
(`none`: nothing was stored, `x` keeps what it held) and the rest of the stream. -/
def fscanf_hd (file : FILE) : Option Nat × FILE :=
  ((scan_int file).1.map (fun n => to_ushort (to_long n)), (scan_int file).2)

/-- The conversion `fscanf(file, "%c", &c)` for a character that is not used
afterwards: one byte is consumed, if there is one. -/
def fscanf_c (file : FILE) : FILE := file.tail

/-- The call `fgets(comment, MAX_INPUT_LINE_LENGTH, file)`: at most `limit` bytes are
consumed (`limit = MAX_INPUT_LINE_LENGTH - 1`), stopping after a newline. -/
def fgets : Nat → FILE → FILE
  | 0, file => file
  | _ + 1, [] => []
  | limit + 1, c :: cs => if c = 10 then cs else fgets limit cs

/-- The loop of `skip_comments`.  `check` is the character read last; the
stream is returned with that character pushed back by `ungetc`.  At the end of
the stream `fscanf` stores nothing, so `check` keeps its value: either it was
never assigned, or it is still `'#'` and the loop never ends. -/
def skip_comments_loop : Nat → FILE → Option FILE
  | 0, _ => none
  | _ + 1, [] => none
  | fuel + 1, check :: file =>
    if check = 35 then skip_comments_loop fuel (fgets (MAX_INPUT_LINE_LENGTH - 1) file)
    else some (check :: file)

/-- Function to skip comments in the header of a file.  Every turn of the loop
consumes a byte, so `file.length + 1` turns are enough. -/
def skip_comments (file : FILE) : Option FILE :=
  skip_comments_loop (file.length + 1) file

/-- The sample conversion of the four readers,
`clamp(round_double((value * MAX_VALUE * 1.) / max_value))`.  With
`max_value = 0` the quotient is infinite or not a number and its conversion to
`signed short` is not defined. -/
def rescale (value max_value : Nat) : Option Nat :=
  if max_value = 0 then none
  else some (clamp (round_double (double_div
    (double_mul (double_of_int ((value : Int) * (MAX_VALUE : Int))) 1)
    (double_of_int (max_value : Int)))))

/-- One `fscanf(file, "%hd", &value)` of the ASCII readers followed by the use
of `value`: returns the value of the variable after the call. -/
def next_value (file : FILE) (value : Option Nat) : Option Nat × FILE :=
  (((fscanf_hd file).1).orElse (fun _ => value), (fscanf_hd file).2)

/-- One `fread(&byte, 1, 1, file)` of the binary readers: returns the value of
`byte` after the call (an `unsigned char`). -/
def next_byte (file : FILE) (byte : Option Nat) : Option Nat × FILE :=
  match file with
  | [] => (byte, [])
  | b :: rest => (some (b % 256), rest)

/-- The inner loop of `read_P2` over the `n` remaining columns of a line. -/
def read_P2_line (max_value : Nat) : Nat → FILE → Option Nat →
    Option (List pixel_t × FILE × Option Nat)
  | 0, file, value => some ([], file, value)
  | n + 1, file, value =>
    match next_value file value with
    | (none, _) => none
    | (some v, file1) =>
      match rescale v max_value with
      | none => none
      | some red =>
        match read_P2_line max_value n file1 (some v) with
        | none => none
        | some (rest, st) => some (⟨red, red, red⟩ :: rest, st)

/-- The outer loop of `read_P2` over the `n` remaining lines. -/
def read_P2_lines (max_value width : Nat) : Nat → FILE → Option Nat →
    Option (List (List pixel_t))
  | 0, _, _ => some []
  | n + 1, file, value =>
    match read_P2_line max_value width file value with
    | none => none
    | some (row, file1, value1) =>
      match read_P2_lines max_value width n file1 value1 with
      | none => none
      | some rows => some (row :: rows)

/-- Function to read grayscale pixels from a P2 (ASCII) image file.  Returns
the picture stored in `image->picture`. -/
def read_P2 (file : FILE) (image : image_t) (max_value : Nat) : Option (List (List pixel_t)) :=
  read_P2_lines max_value image.width image.height file none

/-- The inner loop of `read_P3` over the `n` remaining columns of a line. -/
def read_P3_line (max_value : Nat) : Nat → FILE → Option Nat →
    Option (List pixel_t × FILE × Option Nat)
  | 0, file, value => some ([], file, value)
  | n + 1, file, value =>
    match next_value file value with
    | (none, _) => none
    | (some v1, file1) =>
      match next_value file1 (some v1) with
      | (none, _) => none
      | (some v2, file2) =>
        match next_value file2 (some v2) with
        | (none, _) => none
        | (some v3, file3) =>
          match rescale v1 max_value, rescale v2 max_value, rescale v3 max_value with
          | some red, some green, some blue =>
            match read_P3_line max_value n file3 (some v3) with
            | none => none
            | some (rest, st) => some (⟨red, green, blue⟩ :: rest, st)
          | _, _, _ => none

/-- The outer loop of `read_P3` over the `n` remaining lines. -/
def read_P3_lines (max_value width : Nat) : Nat → FILE → Option Nat →
    Option (List (List pixel_t))
  | 0, _, _ => some []
  | n + 1, file, value =>
    match read_P3_line max_value width file value with
    | none => none
    | some (row, file1, value1) =>
      match read_P3_lines max_value width n file1 value1 with
      | none => none
      | some rows => some (row :: rows)

/-- Function to read color pixels from a P3 (ASCII) image file. -/
def read_P3 (file : FILE) (image : image_t) (max_value : Nat) : Option (List (List pixel_t)) :=
  read_P3_lines max_value image.width image.height file none

/-- The inner loop of `read_P5` over the `n` remaining columns of a line. -/
def read_P5_line (max_value : Nat) : Nat → FILE → Option Nat →
    Option (List pixel_t × FILE × Option Nat)
  | 0, file, byte => some ([], file, byte)
  | n + 1, file, byte =>
    match next_byte file byte with
    | (none, _) => none
    | (some b, file1) =>
      match rescale b max_value with
      | none => none
      | some value =>
        match read_P5_line max_value n file1 (some b) with
        | none => none
        | some (rest, st) => some (⟨value, value, value⟩ :: rest, st)

/-- The outer loop of `read_P5` over the `n` remaining lines. -/
def read_P5_lines (max_value width : Nat) : Nat → FILE → Option Nat →
    Option (List (List pixel_t))
  | 0, _, _ => some []
  | n + 1, file, byte =>
    match read_P5_line max_value width file byte with
    | none => none
    | some (row, file1, byte1) =>
      match read_P5_lines max_value width n file1 byte1 with
      | none => none
      | some rows => some (row :: rows)

/-- Function to read grayscale pixels from a P5 (binary) image file. -/
def read_P5 (file : FILE) (image : image_t) (max_value : Nat) : Option (List (List pixel_t)) :=
  read_P5_lines max_value image.width image.height file none

/-- The inner loop of `read_P6` over the `n` remaining columns of a line. -/
def read_P6_line (max_value : Nat) : Nat → FILE → Option Nat →
    Option (List pixel_t × FILE × Option Nat)
  | 0, file, byte => some ([], file, byte)
  | n + 1, file, byte =>
    match next_byte file byte with
    | (none, _) => none
    | (some b1, file1) =>
      match next_byte file1 (some b1) with
      | (none, _) => none
      | (some b2, file2) =>
        match next_byte file2 (some b2) with
        | (none, _) => none
        | (some b3, file3) =>
          match rescale b1 max_value, rescale b2 max_value, rescale b3 max_value with
          | some red, some green, some blue =>
            match read_P6_line max_value n file3 (some b3) with
            | none => none
            | some (rest, st) => some (⟨red, green, blue⟩ :: rest, st)
          | _, _, _ => none

/-- The outer loop of `read_P6` over the `n` remaining lines. -/
def read_P6_lines (max_value width : Nat) : Nat → FILE → Option Nat →
    Option (List (List pixel_t))
  | 0, _, _ => some []
  | n + 1, file, byte =>
    match read_P6_line max_value width file byte with
    | none => none
    | some (row, file1, byte1) =>
      match read_P6_lines max_value width n file1 byte1 with
      | none => none
      | some rows => some (row :: rows)

/-- Function to read color pixels from a P6 (binary) image file. -/
def read_P6 (file : FILE) (image : image_t) (max_value : Nat) : Option (List (List pixel_t)) :=
  read_P6_lines max_value image.width image.height file none

/-- The directive `fscanf(file, "P%hd", &magic_number)`: the letter `P` has to be
the next byte, then a number is converted. -/
def fscanf_magic (file : FILE) : Option Nat × FILE :=
  match file with
  | 80 :: rest => fscanf_hd rest
  | _ => (none, file)

/-- The `switch (magic_number)` of `read_image`, reached with a magic number
among 2, 3, 5, 6: the pixels are read by the reader of the format. -/
def read_pixels (magic_number : Nat) (file : FILE) (image : image_t) (max_value : Nat) :
    Option (List (List pixel_t)) :=
  if magic_number = 2 then read_P2 file image max_value
  else if magic_number = 3 then read_P3 file image max_value
  else if magic_number = 5 then read_P5 file image max_value
  else read_P6 file image max_value

/-- Function to read the magic number and determine the color type of the image,
then the dimensions, the maximum value and the pixels.

The outer `Option` is `none` when the C run reads a variable that no
conversion has assigned (`magic_number`, `width`, `height`, `max_value`, a
sample) or never ends; the inner one is `none` when the function returns
`false`, and `some image` when it returns `true` with `*image` filled. -/
def read_image (file : FILE) : Option (Option image_t) :=
  match skip_comments file with
  | none => none
  | some file1 =>
    match fscanf_magic file1 with
    | (none, _) => none
    | (some magic_number, file2) =>
      if magic_number = 2 ∨ magic_number = 5 ∨ magic_number = 3 ∨ magic_number = 6 then
        match skip_comments (fscanf_c file2) with
        | none => none
        | some file3 =>
          match fscanf_hd file3 with
          | (none, _) => none
          | (some width, file4) =>
            match fscanf_hd file4 with
            | (none, _) => none
            | (some height, file5) =>
              match skip_comments file5 with
              | none => none
              | some file6 =>
                match fscanf_hd file6 with
                | (none, _) => none
                | (some max_value, file7) =>
                  match read_pixels magic_number (fscanf_c file7)
                      { picture := none, color := decide (magic_number = 3 ∨ magic_number = 6),
                        height := height, width := width } max_value with
                  | none => none
                  | some picture =>
                    some (some { picture := some picture,
                                 color := decide (magic_number = 3 ∨ magic_number = 6),
                                 height := height, width := width })
      else some none

/-! ## Messages and files -/

/-- The lines the program prints on its standard output. -/
inductive message where
  /-- The line `"Failed to load %s\n"`. -/
  | failed_to_load (file_name : List Nat)
  /-- The line `"Loaded %s\n"`. -/
  | loaded (file_name : List Nat)
  /-- The line `"No image loaded\n"`. -/
  | no_image_loaded
  /-- The line `"Invalid set of coordinates\n"`. -/
  | invalid_set_of_coordinates
  /-- The line `"Selected %hd %hd %hd %hd\n"`. -/
  | selected (column_start line_start column_end line_end : Nat)
  /-- The line `"Selected ALL\n"`. -/
  | selected_all
  /-- The line `"Invalid command\n"`. -/
  | invalid_command
  /-- The line `print_stars` prints: the number, then that many stars. -/
  | stars (number : Nat)
  /-- The line `"Black and white image needed\n"`. -/
  | black_and_white_image_needed
  /-- The line `"Equalize done\n"`. -/
  | equalize_done
  /-- The line `"Rotated %hd\n"`. -/
  | rotated (angle : Int)
  /-- The line `"Unsupported rotation angle\n"`. -/
  | unsupported_rotation_angle
  /-- The line `"The selection must be square\n"`. -/
  | the_selection_must_be_square
  /-- The line `"Image cropped\n"`. -/
  | image_cropped
  /-- The line `"Easy, Charlie Chaplin\n"`. -/
  | easy_charlie_chaplin
  /-- The line `"APPLY parameter invalid\n"`. -/
  | apply_parameter_invalid
  /-- The line `"APPLY %s done\n"`. -/
  | apply_done (parameter_1 : List Nat)
  /-- The line `"Saved %s\n"`. -/
  | saved (file_name : List Nat)
deriving DecidableEq

/-- The files the program can open: `read name` is the content `fopen(name, "r")`
gives access to (`none`: the call fails), `writable name` tells whether
`fopen(name, "w")` succeeds. -/
structure disk_t where
  read : List Nat → Option FILE
  writable : List Nat → Bool

/-- The disk after `bytes` have been written to the file `name`. -/
def disk_t.write (disk : disk_t) (name : List Nat) (bytes : FILE) : disk_t :=
  { disk with read := fun n => if n = name then some bytes else disk.read n }

/-- The image `load_image` returns when the load fails: `picture` is `NULL`, the
other fields are not assigned (and never read while `picture` is `NULL`). -/
def empty_image : image_t := { picture := none, color := false, height := 0, width := 0 }

/-- Function to load an image from a file. -/
def load_image (disk : disk_t) (file_name : List Nat) : Option (image_t × List message) :=
  match disk.read file_name with
  | none => some (empty_image, [message.failed_to_load file_name])
  | some file =>
    match read_image file with
    | none => none
    | some none => some (empty_image, [message.failed_to_load file_name])
    | some (some image) => some (image, [message.loaded file_name])

/-- Function to handle the "LOAD" command: the existing image is freed, the
result of `load_image` is stored in `*image`, and the selection is set to the
whole image if the image is loaded. -/
def load_command (disk : disk_t) (image : image_t) (selection : area_t) (file_name : List Nat) :
    Option (image_t × area_t × List message) :=
  match load_image disk file_name with
  | none => none
  | some (loaded, out) =>
    if loaded.picture.isSome then
      some (loaded,
        { all := true, column_start := 0, column_end := loaded.width,
          line_start := 0, line_end := loaded.height }, out)
    else some (loaded, selection, out)

/-! ## Selection -/

/-- Function to select an area within the image.  The four values are
`signed short`. -/
def area_select (selection : area_t) (image : image_t)
    (first_value second_value third_value fourth_value : Int) : area_t × List message :=
  if (first_value < 0 ∨ first_value > image.width) ∨
      (second_value < 0 ∨ second_value > image.height) ∨
      (third_value < 0 ∨ third_value > image.width) ∨
      (fourth_value < 0 ∨ fourth_value > image.height) ∨
      (first_value = third_value ∨ second_value = fourth_value) then
    (selection, [message.invalid_set_of_coordinates])
  else
    let column_start :=
      if first_value < third_value then to_ushort first_value else to_ushort third_value
    let column_end :=
      if first_value < third_value then to_ushort third_value else to_ushort first_value
    let line_start :=
      if second_value < fourth_value then to_ushort second_value else to_ushort fourth_value
    let line_end :=
      if second_value < fourth_value then to_ushort fourth_value else to_ushort second_value
    ({ all := decide (line_start = 0 ∧ line_end = image.height ∧
                      column_start = 0 ∧ column_end = image.width),
       column_start := column_start, line_start := line_start,
       column_end := column_end, line_end := line_end },
     [message.selected column_start line_start column_end line_end])

/-- The C library function `atoi`: the number at the start of the string, `0`
when there is none, as an `int`. -/
def atoi (s : List Nat) : Int :=
  match (scan_int s).1 with
  | none => 0
  | some n => to_int (to_long n)

/-- The first character `s[0]` of a C string (the terminating NUL when it is
empty). -/
def first_char (s : List Nat) : Nat := s.headD 0

/-- Function to handle the "SELECT" command. -/
def select_command (image : image_t) (selection : area_t)
    (parameter_1 parameter_2 parameter_3 parameter_4 parameter_5 : List Nat) :
    area_t × List message :=
  if image.picture.isNone then (selection, [message.no_image_loaded])
  else if parameter_1 = str "ALL" ∧ parameter_2.length = 0 then
    ({ all := true, line_start := 0, column_start := 0,
       line_end := image.height, column_end := image.width }, [message.selected_all])
  else if parameter_1.length ≠ 0 ∧ parameter_2.length ≠ 0 ∧ parameter_3.length ≠ 0 ∧
      parameter_4.length ≠ 0 ∧ parameter_5.length = 0 then
    if (atoi parameter_1 = 0 ∧ first_char parameter_1 ≠ 48) ∨
        (atoi parameter_2 = 0 ∧ first_char parameter_2 ≠ 48) ∨
        (atoi parameter_3 = 0 ∧ first_char parameter_3 ≠ 48) ∨
        (atoi parameter_4 = 0 ∧ first_char parameter_4 ≠ 48) then
      (selection, [message.invalid_command])
    else
      area_select selection image (to_short (atoi parameter_1)) (to_short (atoi parameter_2))
        (to_short (atoi parameter_3)) (to_short (atoi parameter_4))
  else (selection, [message.invalid_command])

/-! ## Loops with a `short` counter -/

/-- The values a `short` counter takes in `for (i = 0; i < bound; i++)` where
`bound` is an `int`.  When `bound` exceeds `32767` the counter cannot reach it:
the increment of `32767` is converted back to `short`, the condition stays true
whatever the converted value is, and the loop does not end normally (`none`). -/
def short_loop (bound : Int) : Option (List Nat) :=
  if bound ≤ 32767 then some (List.range bound.toNat) else none

/-- The results of the successive turns of a loop, one for each value of the
counter; `none` as soon as one turn does not end. -/
def for_each {α β : Type} (body : α → Option β) : List α → Option (List β)
  | [] => some []
  | a :: rest =>
    match body a with
    | none => none
    | some b =>
      match for_each body rest with
      | none => none
      | some bs => some (b :: bs)

/-- The doubly nested loop `for (line = 0; line < lines; line++) for (column = 0;
column < columns; column++)` with `short` counters, storing `f line column` in a
new picture: the picture filled when both loops end. -/
def short_fill (lines columns : Int) (f : Nat → Nat → pixel_t) : Option (List (List pixel_t)) :=
  match short_loop lines with
  | none => none
  | some ls =>
    for_each (fun line =>
      match short_loop columns with
      | none => none
      | some cs => some (cs.map (fun column => f line column))) ls

/-! ## Histogram and equalization -/

/-- The number of pixels of the picture whose red value satisfies `p`. -/
def count_red (picture : List (List pixel_t)) (p : Nat → Bool) : Nat :=
  (picture.map (fun row => (row.filter (fun px => p px.red)).length)).sum

/-- The array `frequency` of `make_histogram` after the first loop: the entry
of bin `index` counts the pixels with `previous_value ≤ red < value`, where
`value = (index + 1) * step` and `previous_value` is the `value` of the bin
before (both `unsigned short`). -/
def histogram_frequency (picture : List (List pixel_t)) (step : Nat) (index : Nat) : Nat :=
  count_red picture (fun red =>
    decide (to_ushort (index * step) ≤ red ∧ red < to_ushort ((index + 1) * step)))

/-- Function to print stars representing a histogram bin. -/
def print_stars (number : Nat) : message := message.stars number

/-- The array `frequency` of `make_histogram` after its first loop, which
fills `number_of_bins` entries with `step = (MAX_VALUE + 1) / number_of_bins`. -/
def histogram_frequencies (picture : List (List pixel_t)) (number_of_bins : Int) : List Nat :=
  (List.range number_of_bins.toNat).map
    (histogram_frequency picture (to_ushort (Int.tdiv ((MAX_VALUE : Int) + 1) number_of_bins)))

/-- The variable `max_value` of `make_histogram` after its second loop: the
largest entry of `frequency`. -/
def histogram_max (frequency : List Nat) : Nat :=
  frequency.foldl (fun m f => if m < f then f else m) (frequency.headD 0)

/-- The argument `make_histogram` passes to `print_stars` for a bin:
`(1. * frequency[index]) / (1. * max_value) * (1. * number_of_stars)`, converted
to `unsigned short` (the fractional part is discarded). -/
def histogram_stars (frequency max_value : Nat) (number_of_stars : Int) : Nat :=
  to_ushort (truncate (double_mul
    (double_div (double_mul 1 (double_of_int frequency)) (double_mul 1 (double_of_int max_value)))
    (double_mul 1 (double_of_int number_of_stars))))

/-- Function that constructs and prints a histogram for an image.  The
parameters are `short`.  `none`: division by zero in `step`, more bins than the
array `frequency` has entries, or a maximum frequency of zero (the quotient is
then not a number). -/
def make_histogram (image : image_t) (number_of_stars number_of_bins : Int) :
    Option (List message) :=
  match image.picture with
  | none => none
  | some picture =>
    if number_of_bins = 0 then none
    else if number_of_bins < 0 then some []
    else if number_of_bins > (MAX_VALUE : Int) + 1 then none
    else
      let frequency := histogram_frequencies picture number_of_bins
      let max_value := histogram_max frequency
      if max_value = 0 then none
      else
        some (frequency.map (fun f => print_stars (histogram_stars f max_value number_of_stars)))

/-- Function to handle the "HISTOGRAM" command. -/
def histogram_command (image : image_t) (parameter_1 parameter_2 parameter_3 : List Nat) :
    Option (List message) :=
  if image.picture.isNone then some [message.no_image_loaded]
  else if parameter_1.length ≠ 0 ∧ parameter_2.length ≠ 0 ∧ parameter_3.length = 0 then
    if image.color then some [message.black_and_white_image_needed]
    else make_histogram image (to_short (atoi parameter_1)) (to_short (atoi parameter_2))
  else some [message.invalid_command]

/-- The array `cumulative_distribution` of `equalize`: entry 0 is
`(double)frequency[0] / (height * width)` and entry `index` adds
`(double)frequency[index] / (height * width)` to the entry before, where
`frequency[i]` counts the pixels with red value `i`. -/
def cumulative_distribution (picture : List (List pixel_t)) (height width : Nat) :
    Nat → double
  | 0 =>
    double_div (double_of_int (count_red picture (fun red => decide (red = 0))))
      (double_of_int ((height : Int) * (width : Int)))
  | index + 1 =>
    double_add (cumulative_distribution picture height width index)
      (double_div (double_of_int (count_red picture (fun red => decide (red = index + 1))))
        (double_of_int ((height : Int) * (width : Int))))

/-- The value `equalize` stores in the three channels of a pixel whose red value
is `red`: `clamp(round_double(cumulative_distribution[red] * MAX_VALUE))`. -/
def equalize_red (picture : List (List pixel_t)) (height width red : Nat) : Nat :=
  clamp (round_double (double_mul (cumulative_distribution picture height width red)
    (double_of_int (MAX_VALUE : Int))))

/-- Function to perform histogram equalization on an image.  `none`: no picture,
or a red value above `MAX_VALUE` (it indexes the arrays of 256 entries), or a
product `height * width` that does not fit an `int`. -/
def equalize (image : image_t) : Option (image_t × List message) :=
  match image.picture with
  | none => none
  | some picture =>
    if (picture.all (fun row => row.all (fun px => decide (px.red ≤ MAX_VALUE)))) = false then none
    else if image.height * image.width > 2147483647 then none
    else
      some ({ image with
              picture := some (fill_picture image.height image.width (fun line column =>
                let result : double :=
                  double_mul (cumulative_distribution picture image.height image.width
                    (pixel_at picture line column).red) (double_of_int (MAX_VALUE : Int))
                let red := clamp (round_double result)
                { red := red, green := red, blue := red })) },
            [message.equalize_done])

/-! ## Rotation -/

/-- The number of quarter turns `rotate_area` and `rotate_all` compute from the
angle (a `signed short`): `flip = angle; if (flip < 0) flip += 360;
flip = (flip / 90) % 4;` with the division and remainder of C. -/
def rotate_flip (angle : Int) : Int :=
  to_short (Int.tmod (Int.tdiv (if angle < 0 then to_short (angle + 360) else angle) 90) 4)

/-- One turn of the loop of `rotate_area`: the selected area is copied, turned,
into `copy`, then `copy` is written back over the area.  `none`: a `short`
counter cannot reach the size of the area. -/
def rotate_area_step (height width : Nat) (selection : area_t)
    (picture : List (List pixel_t)) : Option (List (List pixel_t)) :=
  match short_fill ((selection.line_end : Int) - selection.line_start)
      ((selection.column_end : Int) - selection.column_start)
      (fun line column =>
        pixel_at picture (selection.line_end - 1 - column) (line + selection.column_start)) with
  | none => none
  | some copy =>
    some (fill_picture height width (fun line column =>
      if selection.line_start ≤ line ∧ line < selection.line_end ∧
          selection.column_start ≤ column ∧ column < selection.column_end then
        pixel_at copy (line - selection.line_start) (column - selection.column_start)
      else pixel_at picture line column))

/-- The loop `for (index = flip; index != 0; index--)` of `rotate_area`. -/
def rotate_area_loop (height width : Nat) (selection : area_t) :
    Nat → List (List pixel_t) → Option (List (List pixel_t))
  | 0, picture => some picture
  | index + 1, picture =>
    match rotate_area_step height width selection picture with
    | none => none
    | some turned => rotate_area_loop height width selection index turned

/-- Function to rotate a selected area within an image. -/
def rotate_area (image : image_t) (selection : area_t) (angle : Int) :
    Option (image_t × List message) :=
  match image.picture with
  | none => none
  | some picture =>
    if rotate_flip angle = 0 then some (image, [message.rotated angle])
    else
      match rotate_area_loop image.height image.width selection
          (to_ushort (rotate_flip angle)) picture with
      | none => none
      | some turned => some ({ image with picture := some turned }, [message.rotated angle])

/-- One turn of the loop of `rotate_all`: `copy[line][column] =
picture[height - column - 1][line]` for `line < width`, `column < height`; the
dimensions are swapped and `copy` is copied into the new picture. -/
def rotate_all_step (image : image_t) (picture : List (List pixel_t)) : image_t :=
  let copy := fill_picture image.width image.height (fun line column =>
    pixel_at picture (image.height - column - 1) line)
  { image with
    height := image.width
    width := image.height
    picture := some (fill_picture image.width image.height (fun line column =>
      pixel_at copy line column)) }

/-- The loop `for (index = flip; index != 0; index--)` of `rotate_all`. -/
def rotate_all_loop : Nat → image_t → Option image_t
  | 0, image => some image
  | index + 1, image =>
    match image.picture with
    | none => none
    | some picture => rotate_all_loop index (rotate_all_step image picture)

/-- Function to rotate the entire image. -/
def rotate_all (image : image_t) (angle : Int) : Option (image_t × List message) :=
  if rotate_flip angle = 0 then some (image, [message.rotated angle])
  else
    match rotate_all_loop (to_ushort (rotate_flip angle)) image with
    | none => none
    | some turned => some (turned, [message.rotated angle])

/-- Function to handle the "ROTATE" command.  The selection is passed by value:
the caller's selection is not changed. -/
def rotate_command (image : image_t) (selection : area_t) (parameter_1 : List Nat) :
    Option (image_t × List message) :=
  if parameter_1.length = 0 then some (image, [message.invalid_command])
  else
    let angle := to_short (atoi parameter_1)
    if image.picture.isNone then some (image, [message.no_image_loaded])
    else if angle ≠ -360 ∧ angle ≠ -270 ∧ angle ≠ -180 ∧ angle ≠ -90 ∧ angle ≠ 0 ∧
        angle ≠ 90 ∧ angle ≠ 180 ∧ angle ≠ 270 ∧ angle ≠ 360 then
      some (image, [message.unsupported_rotation_angle])
    else if selection.all then rotate_all image angle
    else if (selection.line_end : Int) - selection.line_start ≠
        (selection.column_end : Int) - selection.column_start then
      some (image, [message.the_selection_must_be_square])
    else rotate_area image selection angle

/-! ## Crop -/

/-- Function to crop the image based on the specified selection area.  The
counters `line` and `column` are `short`.  `none` also stands for a selection
whose end lies before its start (the program never builds one): the sizes
passed to `create_picture` would wrap around and the copy would not be filled. -/
def crop (image : image_t) (selection : area_t) : Option (image_t × area_t × List message) :=
  match image.picture with
  | none => none
  | some picture =>
    if selection.line_end < selection.line_start ∨
        selection.column_end < selection.column_start then none
    else
    match short_fill ((selection.line_end : Int) - selection.line_start)
        ((selection.column_end : Int) - selection.column_start)
        (fun line column =>
          pixel_at picture (line + selection.line_start) (column + selection.column_start)) with
    | none => none
    | some copy =>
      let height := to_ushort ((selection.line_end : Int) - selection.line_start)
      let width := to_ushort ((selection.column_end : Int) - selection.column_start)
      some ({ image with picture := some copy, height := height, width := width },
            { all := true, line_start := 0, line_end := height,
              column_start := 0, column_end := width },
            [message.image_cropped])

/-! ## Filters -/

/-- The test of the four filters that a pixel is copied as it is: it lies
outside the selection, or on the border of the image. -/
def filter_copies (image : image_t) (selection : area_t) (line column : Nat) : Bool :=
  decide (((line : Int) < selection.line_start ∨ (line : Int) > (selection.line_end : Int) - 1 ∨
      (column : Int) < selection.column_start ∨ (column : Int) > (selection.column_end : Int) - 1) ∨
    ((line : Int) = (image.height : Int) - 1 ∨ line = 0 ∨
      (column : Int) = (image.width : Int) - 1 ∨ column = 0))

/-- The loop shared by the four filters: a new picture of the size of the
image, where a pixel is either copied or computed channel by channel with
`kernel`, which receives the picture, the channel and the position. -/
def apply_filter (kernel : List (List pixel_t) → (pixel_t → Nat) → Nat → Nat → Nat)
    (image : image_t) (selection : area_t) : Option (List (List pixel_t)) :=
  match image.picture with
  | none => none
  | some picture =>
    some (fill_picture image.height image.width (fun line column =>
      if filter_copies image selection line column then pixel_at picture line column
      else
        { red := kernel picture pixel_t.red line column,
          green := kernel picture pixel_t.green line column,
          blue := kernel picture pixel_t.blue line column }))

/-- The value `apply_edge` stores in one channel of an inner pixel. -/
def edge_kernel (picture : List (List pixel_t)) (channel : pixel_t → Nat)
    (line column : Nat) : Nat :=
  clamp (to_short (8 * (channel (pixel_at picture line column) : Int) -
    channel (pixel_at picture (line - 1) (column - 1)) -
    channel (pixel_at picture (line - 1) column) -
    channel (pixel_at picture (line - 1) (column + 1)) -
    channel (pixel_at picture line (column - 1)) -
    channel (pixel_at picture line (column + 1)) -
    channel (pixel_at picture (line + 1) (column - 1)) -
    channel (pixel_at picture (line + 1) column) -
    channel (pixel_at picture (line + 1) (column + 1))))

/-- Function to apply an edge filter to the specified area of the image. -/
def apply_edge (image : image_t) (selection : area_t) : Option (List (List pixel_t)) :=
  apply_filter edge_kernel image selection

/-- The value `apply_sharpen` stores in one channel of an inner pixel. -/
def sharpen_kernel (picture : List (List pixel_t)) (channel : pixel_t → Nat)
    (line column : Nat) : Nat :=
  clamp (to_short (5 * (channel (pixel_at picture line column) : Int) -
    channel (pixel_at picture (line - 1) column) -
    channel (pixel_at picture line (column - 1)) -
    channel (pixel_at picture line (column + 1)) -
    channel (pixel_at picture (line + 1) column)))

/-- Function to apply a sharpening filter to the specified area of the image. -/
def apply_sharpen (image : image_t) (selection : area_t) : Option (List (List pixel_t)) :=
  apply_filter sharpen_kernel image selection

/-- The value `apply_blur` stores in one channel of an inner pixel: the result
of `round_double`, a `signed short`, converted to `unsigned short`. -/
def blur_kernel (picture : List (List pixel_t)) (channel : pixel_t → Nat)
    (line column : Nat) : Nat :=
  to_ushort (round_double (double_div (double_mul 1 (double_of_int
    ((channel (pixel_at picture (line - 1) (column - 1)) +
      channel (pixel_at picture (line - 1) column) +
      channel (pixel_at picture (line - 1) (column + 1)) +
      channel (pixel_at picture line (column - 1)) +
      channel (pixel_at picture line column) +
      channel (pixel_at picture line (column + 1)) +
      channel (pixel_at picture (line + 1) (column - 1)) +
      channel (pixel_at picture (line + 1) column) +
      channel (pixel_at picture (line + 1) (column + 1)) : Nat) : Int))) 9))

/-- Function to apply a blur filter to the specified area of the image. -/
def apply_blur (image : image_t) (selection : area_t) : Option (List (List pixel_t)) :=
  apply_filter blur_kernel image selection

/-- The value `apply_gaussian_blur` stores in one channel of an inner pixel. -/
def gaussian_blur_kernel (picture : List (List pixel_t)) (channel : pixel_t → Nat)
    (line column : Nat) : Nat :=
  to_ushort (round_double (double_div (double_mul 1 (double_of_int
    ((channel (pixel_at picture (line - 1) (column - 1)) +
      2 * channel (pixel_at picture (line - 1) column) +
      channel (pixel_at picture (line - 1) (column + 1)) +
      2 * channel (pixel_at picture line (column - 1)) +
      4 * channel (pixel_at picture line column) +
      2 * channel (pixel_at picture line (column + 1)) +
      channel (pixel_at picture (line + 1) (column - 1)) +
      2 * channel (pixel_at picture (line + 1) column) +
      channel (pixel_at picture (line + 1) (column + 1)) : Nat) : Int))) 16))

/-- Function to apply a Gaussian blur filter to the specified area of the image. -/
def apply_gaussian_blur (image : image_t) (selection : area_t) : Option (List (List pixel_t)) :=
  apply_filter gaussian_blur_kernel image selection

/-- Function to apply a specified filter to the specified area of the image. -/
def apply_command (image : image_t) (selection : area_t) (parameter_1 parameter_2 : List Nat) :
    Option (image_t × List message) :=
  if image.picture.isNone then some (image, [message.no_image_loaded])
  else if parameter_1.length = 0 ∨ parameter_2.length ≠ 0 then
    some (image, [message.invalid_command])
  else if image.color = false then some (image, [message.easy_charlie_chaplin])
  else
    let new_image :=
      if parameter_1 = str "EDGE" then some (apply_edge image selection)
      else if parameter_1 = str "SHARPEN" then some (apply_sharpen image selection)
      else if parameter_1 = str "BLUR" then some (apply_blur image selection)
      else if parameter_1 = str "GAUSSIAN_BLUR" then some (apply_gaussian_blur image selection)
      else none
    match new_image with
    | none => some (image, [message.apply_parameter_invalid])
    | some none => none
    | some (some picture) =>
      some ({ image with picture := some picture }, [message.apply_done parameter_1])

/-! ## Saving -/

/-- The decimal digits of `n`, most significant first, put in front of `acc`;
`fuel` bounds the number of digits. -/
def print_digits : Nat → Nat → List Nat → List Nat
  | 0, _, acc => acc
  | fuel + 1, n, acc =>
    if n < 10 then (48 + n) :: acc else print_digits fuel (n / 10) ((48 + n % 10) :: acc)

/-- The conversion `%hd` of `fprintf`: the argument is converted to `short` and
written in decimal (at most five digits), with a minus sign when negative. -/
def print_hd (value : Int) : List Nat :=
  if to_short value < 0 then 45 :: print_digits 5 (to_short value).natAbs []
  else print_digits 5 (to_short value).natAbs []

/-- The conversion `%3hd` of `fprintf`: as `%hd`, padded on the left with
spaces to three characters. -/
def print_3hd (value : Int) : List Nat :=
  List.replicate (3 - (print_hd value).length) 32 ++ print_hd value

/-- The header the four save functions write:
`"P?\n# %s\n%hd %hd\n%hd\n"` with the file name, the width, the height and
`MAX_VALUE`; `magic` is the digit after `P`. -/
def save_header (magic : Nat) (image : image_t) (file_name : List Nat) : List Nat :=
  [80, magic, 10] ++ str "# " ++ file_name ++ [10] ++
    print_hd image.width ++ [32] ++ print_hd image.height ++ [10] ++
    print_hd MAX_VALUE ++ [10]

/-- The bytes written by the pixel loops of the save functions, which have
`short` counters: `cell line column` for every pixel, and `eol` after every
line.  `none`: a counter cannot reach its bound. -/
def save_lines (image : image_t) (cell : Nat → Nat → List Nat) (eol : List Nat) :
    Option (List Nat) :=
  match short_loop image.height with
  | none => none
  | some ls =>
    (for_each (fun line =>
      match short_loop image.width with
      | none => none
      | some cs => some ((cs.map (fun column => cell line column)).flatten ++ eol)) ls).map
      List.flatten

/-- What a save function does once its content is known: nothing when the file
cannot be opened, else the file is written and `Saved` is printed. -/
def save_file (disk : disk_t) (file_name : List Nat) (header : List Nat)
    (body : Option (List Nat)) : Option (disk_t × List message) :=
  if disk.writable file_name = false then some (disk, [])
  else
    match body with
    | none => none
    | some bytes => some (disk.write file_name (header ++ bytes), [message.saved file_name])

/-- Function to save an image in P2 format. -/
def save_P2 (disk : disk_t) (image : image_t) (file_name : List Nat) :
    Option (disk_t × List message) :=
  match image.picture with
  | none => none
  | some picture =>
    save_file disk file_name (save_header 50 image file_name)
      (save_lines image (fun line column =>
        print_3hd (pixel_at picture line column).red ++ [32]) [10])

/-- Function to save an image in P3 format. -/
def save_P3 (disk : disk_t) (image : image_t) (file_name : List Nat) :
    Option (disk_t × List message) :=
  match image.picture with
  | none => none
  | some picture =>
    save_file disk file_name (save_header 51 image file_name)
      (save_lines image (fun line column =>
        print_3hd (pixel_at picture line column).red ++ [32] ++
        print_3hd (pixel_at picture line column).green ++ [32] ++
        print_3hd (pixel_at picture line column).blue ++ [32]) [10])

/-- The byte `fputc` writes: its argument converted to `unsigned char`. -/
def fputc (value : Nat) : List Nat := [value % 256]

/-- Function to save an image in P5 format. -/
def save_P5 (disk : disk_t) (image : image_t) (file_name : List Nat) :
    Option (disk_t × List message) :=
  match image.picture with
  | none => none
  | some picture =>
    save_file disk file_name (save_header 53 image file_name)
      (save_lines image (fun line column => fputc (pixel_at picture line column).red) [])

/-- Function to save an image in P6 format. -/
def save_P6 (disk : disk_t) (image : image_t) (file_name : List Nat) :
    Option (disk_t × List message) :=
  match image.picture with
  | none => none
  | some picture =>
    save_file disk file_name (save_header 54 image file_name)
      (save_lines image (fun line column =>
        fputc (pixel_at picture line column).red ++
        fputc (pixel_at picture line column).green ++
        fputc (pixel_at picture line column).blue) [])

/-- Function to save an image based on the required format: ASCII when
`parameter_2` starts with `"ascii"`, binary otherwise. -/
def save_command (disk : disk_t) (image : image_t) (file_name parameter_2 : List Nat) :
    Option (disk_t × List message) :=
  if image.picture.isNone then some (disk, [message.no_image_loaded])
  else if parameter_2.take 5 = str "ascii" then
    if image.color = false then save_P2 disk image file_name else save_P3 disk image file_name
  else
    if image.color = false then save_P5 disk image file_name else save_P6 disk image file_name

/-! ## The command loop -/

/-- The variables of `main` that live across commands, and the files. -/
structure session_t where
  image : image_t
  selection : area_t
  disk : disk_t

/-- One turn of the loop of `main`, after `get_command` has split the input
line into the command and five parameters.  Returns the session after the
command, the lines printed, and whether the program has exited. -/
def main_step (s : session_t)
    (command parameter_1 parameter_2 parameter_3 parameter_4 parameter_5 : List Nat) :
    Option (session_t × List message × Bool) :=
  if command = str "EXIT" then
    if s.image.picture.isNone then some (s, [message.no_image_loaded], true)
    else some ({ s with image := { s.image with picture := none } }, [], true)
  else if command = str "LOAD" ∧ parameter_1.length ≠ 0 ∧ parameter_2.length = 0 then
    match load_command s.disk s.image s.selection parameter_1 with
    | none => none
    | some (image, selection, out) =>
      some ({ s with image := image, selection := selection }, out, false)
  else if command = str "SELECT" then
    some ({ s with selection := (select_command s.image s.selection parameter_1 parameter_2
              parameter_3 parameter_4 parameter_5).1 },
          (select_command s.image s.selection parameter_1 parameter_2
              parameter_3 parameter_4 parameter_5).2, false)
  else if command = str "HISTOGRAM" then
    match histogram_command s.image parameter_1 parameter_2 parameter_3 with
    | none => none
    | some out => some (s, out, false)
  else if command = str "EQUALIZE" ∧ parameter_1.length = 0 then
    if s.image.picture.isNone then some (s, [message.no_image_loaded], false)
    else if s.image.color then some (s, [message.black_and_white_image_needed], false)
    else
      match equalize s.image with
      | none => none
      | some (image, out) => some ({ s with image := image }, out, false)
  else if command = str "ROTATE" then
    match rotate_command s.image s.selection parameter_1 with
    | none => none
    | some (image, out) => some ({ s with image := image }, out, false)
  else if command = str "CROP" ∧ parameter_1.length = 0 then
    if s.image.picture.isNone then some (s, [message.no_image_loaded], false)
    else if s.selection.all then some (s, [message.image_cropped], false)
    else
      match crop s.image s.selection with
      | none => none
      | some (image, selection, out) =>
        some ({ s with image := image, selection := selection }, out, false)
  else if command = str "APPLY" then
    match apply_command s.image s.selection parameter_1 parameter_2 with
    | none => none
    | some (image, out) => some ({ s with image := image }, out, false)
  else if command = str "SAVE" ∧ parameter_1.length ≠ 0 then
    match save_command s.disk s.image parameter_1 parameter_2 with
    | none => none
    | some (disk, out) => some ({ s with disk := disk }, out, false)
  else some (s, [message.invalid_command], false)

/-! ## Notions used by the statements -/

/-- Round-half-up of `v * 255 / max_value`, as the specification words it:
`floor(v * 255 / max_value + 1/2)`. -/
def round_half_up (v max_value : Nat) : Int := ⌊((v : ℚ) * 255) / (max_value : ℚ) + 1 / 2⌋

/-- The test `area_select` makes on its four coordinates. -/
def invalid_coordinates (image : image_t) (c1 r1 c2 r2 : Int) : Prop :=
  (c1 < 0 ∨ c1 > image.width) ∨ (r1 < 0 ∨ r1 > image.height) ∨
    (c2 < 0 ∨ c2 > image.width) ∨ (r2 < 0 ∨ r2 > image.height) ∨ (c1 = c2 ∨ r1 = r2)

/-- The invariant the specification states for a selection over an image:
`0 ≤ row_start < row_end ≤ height`, `0 ≤ col_start < col_end ≤ width`, and
`all` is true iff the rectangle is the full extent of the image. -/
def selection_ok (image : image_t) (selection : area_t) : Prop :=
  selection.line_start < selection.line_end ∧ selection.line_end ≤ image.height ∧
  selection.column_start < selection.column_end ∧ selection.column_end ≤ image.width ∧
  (selection.all = true ↔
    (selection.line_start = 0 ∧ selection.line_end = image.height ∧
      selection.column_start = 0 ∧ selection.column_end = image.width))

instance (image : image_t) (selection : area_t) : Decidable (selection_ok image selection) := by
  unfold selection_ok
  exact inferInstance

/-- The angles `rotate_command` accepts: the multiples of 90 in `[-360, 360]`. -/
def supported_angle (angle : Int) : Prop :=
  angle = -360 ∨ angle = -270 ∨ angle = -180 ∨ angle = -90 ∨ angle = 0 ∨
    angle = 90 ∨ angle = 180 ∨ angle = 270 ∨ angle = 360

instance (angle : Int) : Decidable (supported_angle angle) := by
  unfold supported_angle
  exact inferInstance

/-- The number of quarter turns the specification gives for an angle:
`k = (((angle mod 360) + 360) mod 360) / 90`. -/
def quarter_turns (angle : Int) : Nat := ((((angle % 360) + 360) % 360) / 90).toNat

/-- One clockwise quarter turn as the specification words it: an `h`-by-`w`
buffer becomes the `w`-by-`h` buffer with `new[i][j] = old[h-1-j][i]`. -/
def quarter_turn (image : image_t) : image_t :=
  { picture := image.picture.map (fun old =>
      fill_picture image.width image.height (fun i j => pixel_at old (image.height - 1 - j) i))
    color := image.color
    height := image.width
    width := image.height }

/-- The messages that report a failure of the command. -/
def message.is_error : message → Bool
  | message.failed_to_load _ => true
  | message.no_image_loaded => true
  | message.invalid_set_of_coordinates => true
  | message.invalid_command => true
  | message.black_and_white_image_needed => true
  | message.unsupported_rotation_angle => true
  | message.the_selection_must_be_square => true
  | message.easy_charlie_chaplin => true
  | message.apply_parameter_invalid => true
  | _ => false

/-- An image of 32768 lines and 2 columns. -/
def tall_image : image_t :=
  { picture := some (List.replicate 32768 [default, default]), color := false,
    height := 32768, width := 2 }

/-- A disk on which no file can be opened for reading and every file can be
written. -/
def empty_disk : disk_t := { read := fun _ => none, writable := fun _ => true }

/-- A disk whose only readable file, `bad.pgm`, starts with the magic number
`P7`. -/
def bad_disk : disk_t :=
  { read := fun name => if name = str "bad.pgm" then some (str "P7\n1 1\n255\n0\n") else none,
    writable := fun _ => true }

/-- A grayscale image of 2 lines and 3 columns. -/
def small_image : image_t :=
  { picture := some [[⟨1, 1, 1⟩, ⟨2, 2, 2⟩, ⟨3, 3, 3⟩], [⟨4, 4, 4⟩, ⟨5, 5, 5⟩, ⟨6, 6, 6⟩]],
    color := false, height := 2, width := 3 }

/-- The selection of the whole of `small_image`. -/
def small_selection : area_t :=
  { all := true, column_start := 0, line_start := 0, column_end := 3, line_end := 2 }

/-- The bytes the pixel loops of a save function write for a picture, row by
row: `cell` for every pixel, and `eol` after every row. -/
def encode_picture (cell : pixel_t → List Nat) (eol : List Nat)
    (picture : List (List pixel_t)) : List Nat :=
  (picture.map (fun row => (row.map cell).flatten ++ eol)).flatten

/-- Every channel of every pixel of the picture is in `[0, 255]`. -/
def channels_in_range (picture : List (List pixel_t)) : Prop :=
  ∀ row ∈ picture, ∀ p ∈ row, p.red ≤ 255 ∧ p.green ≤ 255 ∧ p.blue ≤ 255

instance (picture : List (List pixel_t)) : Decidable (channels_in_range picture) := by
  unfold channels_in_range
  exact inferInstance

/-- Every pixel of the picture has equal red, green and blue values. -/
def grayscale (picture : List (List pixel_t)) : Prop :=
  ∀ row ∈ picture, ∀ p ∈ row, p.green = p.red ∧ p.blue = p.red

instance (picture : List (List pixel_t)) : Decidable (grayscale picture) := by
  unfold grayscale
  exact inferInstance

/-- The name can be passed to SAVE: it holds no newline and fits the line buffer
of `skip_comments` together with the `#`, the space and the newline around it. -/
def file_name_ok (file_name : List Nat) : Prop :=
  10 ∉ file_name ∧ file_name.length + 3 ≤ MAX_INPUT_LINE_LENGTH

instance (file_name : List Nat) : Decidable (file_name_ok file_name) := by
  unfold file_name_ok
  exact inferInstance

/-- A PNM header with a comment line, as the save functions write it:
`"P?\n# name\nwidth height\n255\n"`, for dimensions below `65536` written
without sign; `magic` is the digit after `P`. -/
def pnm_header (magic width height : Nat) (file_name : List Nat) : List Nat :=
  [80, magic, 10] ++ str "# " ++ file_name ++ [10] ++
    print_digits 5 width [] ++ [32] ++ print_digits 5 height [] ++ [10] ++
    print_digits 5 255 [] ++ [10]

/-- A disk whose only readable file, `t.pgm`, is a P5 file of 32768 lines and 2
columns of zero bytes. -/
def tall_disk : disk_t :=
  { read := fun name =>
      if name = str "t.pgm" then some (str "P5\n# t\n2 32768\n255\n" ++ List.replicate 65536 0)
      else none,
    writable := fun _ => true }

/-- The pixel `(line, column)` lies inside the selection rectangle. -/
def inside_selection (selection : area_t) (line column : Nat) : Prop :=
  selection.line_start ≤ line ∧ line < selection.line_end ∧
    selection.column_start ≤ column ∧ column < selection.column_end

instance (selection : area_t) (line column : Nat) :
    Decidable (inside_selection selection line column) := by
  unfold inside_selection
  exact inferInstance

/-- The selection is a rectangle inside the image (in-bounds):
`0 ≤ row_start < row_end ≤ height` and `0 ≤ col_start < col_end ≤ width`. -/
def selection_in_bounds (image : image_t) (selection : area_t) : Prop :=
  selection.line_start < selection.line_end ∧ selection.line_end ≤ image.height ∧
    selection.column_start < selection.column_end ∧ selection.column_end ≤ image.width

instance (image : image_t) (selection : area_t) :
    Decidable (selection_in_bounds image selection) := by
  unfold selection_in_bounds
  exact inferInstance

/-- The selection is square: `row_end - row_start = col_end - col_start`. -/
def square_selection (selection : area_t) : Prop :=
  selection.line_end - selection.line_start = selection.column_end - selection.column_start

instance (selection : area_t) : Decidable (square_selection selection) := by
  unfold square_selection
  exact inferInstance

/-- Four successive rotations, each applied to the image the one before
returned: `rotate(rotate(rotate(rotate(B))))`. -/
def rotate_four_times (rotate : image_t → Option (image_t × List message)) (image : image_t) :
    Option image_t :=
  (rotate image).bind (fun r1 => (rotate r1.1).bind (fun r2 => (rotate r2.1).bind (fun r3 =>
    (rotate r3.1).map Prod.fst)))

/-- One clockwise quarter turn of the selected square, on the pixels as a
function of their position: inside the selection the pixel `(line, column)`
receives the pixel of row `line_end - 1 - (column - column_start)` and column
`(line - line_start) + column_start`; the pixels outside stay. -/
def area_quarter_turn (selection : area_t) (old : Nat → Nat → pixel_t) :
    Nat → Nat → pixel_t :=
  fun line column =>
    if inside_selection selection line column then
      old (selection.line_end - 1 - (column - selection.column_start))
        (line - selection.line_start + selection.column_start)
    else old line column

/-- An image of 32769 lines and 32768 columns. -/
def huge_image : image_t :=
  { picture := some (List.replicate 32769 (List.replicate 32768 default)), color := true,
    height := 32769, width := 32768 }

/-- The pixel is not on the border of the image: not in row 0, row `height - 1`,
column 0 or column `width - 1`. -/
def inner_pixel (image : image_t) (line column : Nat) : Prop :=
  0 < line ∧ line + 1 < image.height ∧ 0 < column ∧ column + 1 < image.width

instance (image : image_t) (line column : Nat) : Decidable (inner_pixel image line column) := by
  unfold inner_pixel
  exact inferInstance

/-- The value `clamp(x, 0, 255)` of the specification. -/
def clamp_0_255 (x : Int) : Int := max 0 (min 255 x)

/-- The value of one channel of the pixel `(line, column)` of a picture. -/
def channel_at (picture : List (List pixel_t)) (channel : pixel_t → Nat) (line column : Nat) :
    Int :=
  (channel (pixel_at picture line column) : Int)

/-- The sum of the eight neighbours of a pixel, in one channel. -/
def neighbours_sum (picture : List (List pixel_t)) (channel : pixel_t → Nat)
    (line column : Nat) : Int :=
  channel_at picture channel (line - 1) (column - 1) + channel_at picture channel (line - 1) column +
    channel_at picture channel (line - 1) (column + 1) + channel_at picture channel line (column - 1) +
    channel_at picture channel line (column + 1) + channel_at picture channel (line + 1) (column - 1) +
    channel_at picture channel (line + 1) column + channel_at picture channel (line + 1) (column + 1)

/-- The sum `S` of the nine values of the 3-by-3 neighbourhood of a pixel (the
pixel itself and its eight neighbours), in one channel. -/
def neighbourhood_sum (picture : List (List pixel_t)) (channel : pixel_t → Nat)
    (line column : Nat) : Int :=
  channel_at picture channel line column + neighbours_sum picture channel line column

/-- The sum `S` of the 3-by-3 neighbourhood of a pixel weighted by
`[1,2,1; 2,4,2; 1,2,1]`, in one channel. -/
def gaussian_sum (picture : List (List pixel_t)) (channel : pixel_t → Nat)
    (line column : Nat) : Int :=
  1 * channel_at picture channel (line - 1) (column - 1) +
    2 * channel_at picture channel (line - 1) column +
    1 * channel_at picture channel (line - 1) (column + 1) +
    2 * channel_at picture channel line (column - 1) +
    4 * channel_at picture channel line column +
    2 * channel_at picture channel line (column + 1) +
    1 * channel_at picture channel (line + 1) (column - 1) +
    2 * channel_at picture channel (line + 1) column +
    1 * channel_at picture channel (line + 1) (column + 1)

/-- The three channels of a pixel. -/
def channels : List (pixel_t → Nat) := [pixel_t.red, pixel_t.green, pixel_t.blue]

/-- A colour image of 3 lines and 3 columns. -/
def colour_image : image_t :=
  { picture := some [[⟨10, 0, 255⟩, ⟨20, 0, 255⟩, ⟨30, 0, 255⟩],
                     [⟨40, 0, 255⟩, ⟨50, 200, 255⟩, ⟨60, 0, 255⟩],
                     [⟨70, 0, 255⟩, ⟨80, 0, 255⟩, ⟨95, 0, 255⟩]],
    color := true, height := 3, width := 3 }

/-- The selection of the whole of `colour_image`. -/
def colour_selection : area_t :=
  { all := true, column_start := 0, line_start := 0, column_end := 3, line_end := 3 }

/-- The number of pixels of a picture of `height` by `width` whose red value `v`
satisfies `lo ≤ v < hi`. -/
def pixels_between (picture : List (List pixel_t)) (height width lo hi : Nat) : Nat :=
  ((List.range height).map (fun line => ((List.range width).filter (fun column =>
    decide (lo ≤ (pixel_at picture line column).red ∧
      (pixel_at picture line column).red < hi))).length)).sum

/-- The number of stars the specification gives for a bin:
`floor(count * num_stars / max(counts))`. -/
def stars_floor (count max_count num_stars : Nat) : Nat := count * num_stars / max_count

/-- The value the specification gives for a pixel of red value `v` after
equalization: `clamp(round-half-up(255 * cdf[v]))`, where `cdf[v]` is the number
of pixels of red value at most `v` divided by `height * width`. -/
def equalized_value (picture : List (List pixel_t)) (height width v : Nat) : Int :=
  clamp_0_255 ⌊(255 * (pixels_between picture height width 0 (v + 1) : ℚ)) /
    ((height * width : Nat) : ℚ) + 1 / 2⌋

/-- A grayscale image of one line and two columns: a black pixel and a white one. -/
def two_tone_image : image_t :=
  { picture := some [[⟨0, 0, 0⟩, ⟨255, 255, 255⟩]], color := false, height := 1, width := 2 }

/-- A grayscale image of one line and 17 columns: seven black pixels and ten
white ones. -/
def histogram_image : image_t :=
  { picture := some [[⟨0, 0, 0⟩, ⟨0, 0, 0⟩, ⟨0, 0, 0⟩, ⟨0, 0, 0⟩, ⟨0, 0, 0⟩, ⟨0, 0, 0⟩,
      ⟨0, 0, 0⟩, ⟨255, 255, 255⟩, ⟨255, 255, 255⟩, ⟨255, 255, 255⟩, ⟨255, 255, 255⟩,
      ⟨255, 255, 255⟩, ⟨255, 255, 255⟩, ⟨255, 255, 255⟩, ⟨255, 255, 255⟩, ⟨255, 255, 255⟩,
      ⟨255, 255, 255⟩]],
    color := false, height := 1, width := 17 }

/-- A grayscale image of one line and six columns, with the red values 0 to 5. -/
def ramp_image : image_t :=
  { picture := some [[⟨0, 0, 0⟩, ⟨1, 1, 1⟩, ⟨2, 2, 2⟩, ⟨3, 3, 3⟩, ⟨4, 4, 4⟩, ⟨5, 5, 5⟩]],
    color := false, height := 1, width := 6 }


/-- The red values of the pixels of a picture, line after line. -/
def red_values (picture : List (List pixel_t)) : List Nat :=
  picture.flatten.map (fun px => px.red)

/-- The largest red value of a picture (0 for a picture without pixels). -/
def max_red (picture : List (List pixel_t)) : Nat :=
  match red_values picture with
  | [] => 0
  | v :: rest => rest.foldl max v

/-- The smallest red value of a picture (0 for a picture without pixels). -/
def min_red (picture : List (List pixel_t)) : Nat :=
  match red_values picture with
  | [] => 0
  | v :: rest => rest.foldl min v

/-- An image of 65535 lines and 65535 columns, every pixel black. -/
def vast_image : image_t :=
  { picture := some (List.replicate 65535 (List.replicate 65535 ⟨0, 0, 0⟩)), color := false,
    height := 65535, width := 65535 }

theorem to_ushort_of_range (n : Int) (h0 : 0 ≤ n) (h1 : n < 65536) : (to_ushort n : Int) = n := by
  unfold to_ushort
  rw [Int.emod_eq_of_lt h0 h1]
  exact Int.toNat_of_nonneg h0

theorem to_ushort_natCast (n : Nat) (h1 : n < 65536) : to_ushort (n : Int) = n := by
  have h := to_ushort_of_range (n : Int) (by omega) (by omega)
  exact_mod_cast h

/-! ## Selection -/

theorem area_select_of_invalid (selection : area_t) (image : image_t) (c1 r1 c2 r2 : Int)
    (h : invalid_coordinates image c1 r1 c2 r2) :
    area_select selection image c1 r1 c2 r2 = (selection, [message.invalid_set_of_coordinates]) := by
  unfold invalid_coordinates at h
  unfold area_select
  rw [if_pos h]

theorem area_select_of_valid (selection : area_t) (image : image_t) (c1 r1 c2 r2 : Int)
    (h : ¬ invalid_coordinates image c1 r1 c2 r2) :
    ∃ area, area_select selection image c1 r1 c2 r2 =
      (area, [message.selected area.column_start area.line_start area.column_end area.line_end]) ∧
      area.column_start = to_ushort (min c1 c2) ∧ area.column_end = to_ushort (max c1 c2) ∧
      area.line_start = to_ushort (min r1 r2) ∧ area.line_end = to_ushort (max r1 r2) ∧
      area.all = decide (area.line_start = 0 ∧ area.line_end = image.height ∧
        area.column_start = 0 ∧ area.column_end = image.width) := by
  unfold invalid_coordinates at h
  unfold area_select
  rw [if_neg h]
  refine ⟨_, rfl, ?_, ?_, ?_, ?_, rfl⟩
  · by_cases hc : c1 < c2
    · simp [hc, min_eq_left (le_of_lt hc)]
    · simp [hc, min_eq_right (not_lt.mp hc)]
  · by_cases hc : c1 < c2
    · simp [hc, max_eq_right (le_of_lt hc)]
    · simp [hc, max_eq_left (not_lt.mp hc)]
  · by_cases hc : r1 < r2
    · simp [hc, min_eq_left (le_of_lt hc)]
    · simp [hc, min_eq_right (not_lt.mp hc)]
  · by_cases hc : r1 < r2
    · simp [hc, max_eq_right (le_of_lt hc)]
    · simp [hc, max_eq_left (not_lt.mp hc)]

/-- Claim C5.  `area_select` fails (prints "Invalid set of coordinates") if and only
if `c1` or `c2` is outside `[0, width]`, or `r1` or `r2` is outside `[0, height]`,
or `c1 = c2`, or `r1 = r2`; whenever it fails it returns the selection it was
given; and `SELECT 1 1 1 1` on any loaded image fails and leaves the selection
as it was. -/
theorem area_select_fails_iff (selection : area_t) (image : image_t) (c1 r1 c2 r2 : Int) :
    ((area_select selection image c1 r1 c2 r2).2 = [message.invalid_set_of_coordinates] ↔
      ((c1 < 0 ∨ c1 > image.width) ∨ (c2 < 0 ∨ c2 > image.width) ∨
       (r1 < 0 ∨ r1 > image.height) ∨ (r2 < 0 ∨ r2 > image.height) ∨ c1 = c2 ∨ r1 = r2)) ∧
    ((area_select selection image c1 r1 c2 r2).2 = [message.invalid_set_of_coordinates] →
      (area_select selection image c1 r1 c2 r2).1 = selection) ∧
    (∀ (picture : List (List pixel_t)) (color : Bool) (height width : Nat),
      select_command { picture := some picture, color := color, height := height, width := width }
        selection (str "1") (str "1") (str "1") (str "1") [] =
        (selection, [message.invalid_set_of_coordinates])) := by
  have key : invalid_coordinates image c1 r1 c2 r2 ↔
      ((c1 < 0 ∨ c1 > image.width) ∨ (c2 < 0 ∨ c2 > image.width) ∨
       (r1 < 0 ∨ r1 > image.height) ∨ (r2 < 0 ∨ r2 > image.height) ∨ c1 = c2 ∨ r1 = r2) := by
    unfold invalid_coordinates; tauto
  refine ⟨?_, ?_, ?_⟩
  · rw [← key]
    by_cases h : invalid_coordinates image c1 r1 c2 r2
    · simp [area_select_of_invalid selection image c1 r1 c2 r2 h, h]
    · obtain ⟨area, ha, -⟩ := area_select_of_valid selection image c1 r1 c2 r2 h
      simp [ha, h]
  · by_cases h : invalid_coordinates image c1 r1 c2 r2
    · simp [area_select_of_invalid selection image c1 r1 c2 r2 h]
    · obtain ⟨area, ha, -⟩ := area_select_of_valid selection image c1 r1 c2 r2 h
      simp [ha]
  · intro picture color height width
    have h1 : atoi (str "1") = 1 := by decide
    have h2 : first_char (str "1") = 49 := by decide
    have h3 : (str "1").length = 1 := by decide
    have h4 : str "1" ≠ str "ALL" := by decide
    have h5 : to_short 1 = 1 := by decide
    simp only [select_command, h1, h2, h3, h4, h5]
    simp
    apply area_select_of_invalid
    unfold invalid_coordinates
    simp

/-- Witness of `area_select_fails_iff`: on a 2-by-3 image the degenerate
rectangle `1 1 1 1` is refused and the selection given is returned. -/
theorem area_select_fails_iff_witness :
    (area_select ⟨false, 0, 0, 1, 1⟩
      { picture := some [[default, default, default], [default, default, default]],
        color := false, height := 2, width := 3 } 1 1 1 1).1 = ⟨false, 0, 0, 1, 1⟩ :=
  (area_select_fails_iff ⟨false, 0, 0, 1, 1⟩
      { picture := some [[default, default, default], [default, default, default]],
        color := false, height := 2, width := 3 } 1 1 1 1).2.1 (by decide)

/-- Claim C6.  When `area_select` succeeds, the selection it returns has
`column_start = min(c1,c2)`, `column_end = max(c1,c2)`, `line_start = min(r1,r2)`,
`line_end = max(r1,r2)`, and `all` is true if and only if `line_start = 0`,
`line_end = height`, `column_start = 0` and `column_end = width`.  (The dimensions of the
image are `unsigned short`.) -/
theorem area_select_normalizes (selection : area_t) (image : image_t) (c1 r1 c2 r2 : Int)
    (hh : image.height < 65536) (hw : image.width < 65536)
    (hs : (area_select selection image c1 r1 c2 r2).2 ≠ [message.invalid_set_of_coordinates]) :
    (((area_select selection image c1 r1 c2 r2).1.column_start : Int) = min c1 c2) ∧
    (((area_select selection image c1 r1 c2 r2).1.column_end : Int) = max c1 c2) ∧
    (((area_select selection image c1 r1 c2 r2).1.line_start : Int) = min r1 r2) ∧
    (((area_select selection image c1 r1 c2 r2).1.line_end : Int) = max r1 r2) ∧
    ((area_select selection image c1 r1 c2 r2).1.all = true ↔
      ((area_select selection image c1 r1 c2 r2).1.line_start = 0 ∧
       (area_select selection image c1 r1 c2 r2).1.line_end = image.height ∧
       (area_select selection image c1 r1 c2 r2).1.column_start = 0 ∧
       (area_select selection image c1 r1 c2 r2).1.column_end = image.width)) := by
  by_cases h : invalid_coordinates image c1 r1 c2 r2
  · rw [area_select_of_invalid selection image c1 r1 c2 r2 h] at hs
    exact absurd rfl hs
  · obtain ⟨area, ha, h1, h2, h3, h4, h5⟩ := area_select_of_valid selection image c1 r1 c2 r2 h
    rw [ha]
    simp only
    unfold invalid_coordinates at h
    have b1 : 0 ≤ min c1 c2 ∧ min c1 c2 < 65536 := by
      constructor
      · apply le_min <;> omega
      · have := min_le_left c1 c2; omega
    have b2 : 0 ≤ max c1 c2 ∧ max c1 c2 < 65536 := by
      constructor
      · have := le_max_left c1 c2; omega
      · apply max_lt <;> omega
    have b3 : 0 ≤ min r1 r2 ∧ min r1 r2 < 65536 := by
      constructor
      · apply le_min <;> omega
      · have := min_le_left r1 r2; omega
    have b4 : 0 ≤ max r1 r2 ∧ max r1 r2 < 65536 := by
      constructor
      · have := le_max_left r1 r2; omega
      · apply max_lt <;> omega
    refine ⟨?_, ?_, ?_, ?_, ?_⟩
    · rw [h1]; exact to_ushort_of_range _ b1.1 b1.2
    · rw [h2]; exact to_ushort_of_range _ b2.1 b2.2
    · rw [h3]; exact to_ushort_of_range _ b3.1 b3.2
    · rw [h4]; exact to_ushort_of_range _ b4.1 b4.2
    · rw [h5]; simp

/-- Witness of `area_select_normalizes`: `SELECT 3 2 0 0` on a 2-by-3 image. -/
theorem area_select_normalizes_witness :
    (((area_select default ⟨some [], false, 2, 3⟩ 3 2 0 0).1.column_start : Int) = min 3 0) ∧
    (((area_select default ⟨some [], false, 2, 3⟩ 3 2 0 0).1.column_end : Int) = max 3 0) ∧
    (((area_select default ⟨some [], false, 2, 3⟩ 3 2 0 0).1.line_start : Int) = min 2 0) ∧
    (((area_select default ⟨some [], false, 2, 3⟩ 3 2 0 0).1.line_end : Int) = max 2 0) ∧
    ((area_select default ⟨some [], false, 2, 3⟩ 3 2 0 0).1.all = true ↔
      ((area_select default ⟨some [], false, 2, 3⟩ 3 2 0 0).1.line_start = 0 ∧
       (area_select default ⟨some [], false, 2, 3⟩ 3 2 0 0).1.line_end = 2 ∧
       (area_select default ⟨some [], false, 2, 3⟩ 3 2 0 0).1.column_start = 0 ∧
       (area_select default ⟨some [], false, 2, 3⟩ 3 2 0 0).1.column_end = 3)) :=
  area_select_normalizes default ⟨some [], false, 2, 3⟩ 3 2 0 0 (by decide) (by decide) (by decide)

/-! ## Rounding to an integer -/

theorem round_half_even_error (q : ℚ) : |(round_half_even q : ℚ) - q| ≤ 1 / 2 := by
  have h1 := Int.floor_le q
  have h2 := Int.lt_floor_add_one q
  unfold round_half_even
  split_ifs with a b c
  · rw [abs_le]; constructor <;> linarith
  · push_cast; rw [abs_le]; constructor <;> linarith
  · rw [abs_le]; constructor <;> linarith
  · push_cast; rw [abs_le]; constructor <;> linarith

theorem round_half_even_intCast (n : Int) : round_half_even (n : ℚ) = n := by
  unfold round_half_even
  rw [Int.floor_intCast, if_pos (by norm_num)]

theorem round_half_even_mono (a b : ℚ) (h : a ≤ b) : round_half_even a ≤ round_half_even b := by
  have hfl : ⌊a⌋ ≤ ⌊b⌋ := Int.floor_le_floor h
  have a1 := Int.floor_le a
  have a2 := Int.lt_floor_add_one a
  have b1 := Int.floor_le b
  have b2 := Int.lt_floor_add_one b
  unfold round_half_even
  generalize ⌊a⌋ = fa at *
  generalize ⌊b⌋ = fb at *
  rcases lt_or_eq_of_le hfl with hlt | heq
  · split_ifs <;> omega
  · subst heq
    split_ifs <;> first | omega | (exfalso; linarith)

/-! ## Rounding to a `double` -/

theorem two_zpow_pos (e : Int) : (0 : ℚ) < 2 ^ e := zpow_pos (by norm_num) e

theorem to_double_of_nonneg (x : ℚ) (hx : 0 ≤ x) :
    to_double x =
      (round_half_even (x / 2 ^ (Int.log 2 x - 52)) : ℚ) * 2 ^ (Int.log 2 x - 52) := by
  unfold to_double ulp_exponent
  rw [if_neg (not_lt.mpr hx), abs_of_nonneg hx]

theorem log_eq_of_bounds (x : ℚ) (e : Int) (hx : 0 < x) (h1 : (2 : ℚ) ^ 52 * 2 ^ e ≤ x)
    (h2 : x < 2 ^ 53 * 2 ^ e) : Int.log 2 x = e + 52 := by
  have e1 : (2 : ℚ) ^ 52 * 2 ^ e = ((2 : ℕ) : ℚ) ^ (e + 52) := by
    rw [zpow_add₀ (by norm_num), mul_comm]
    norm_num
  have e2 : (2 : ℚ) ^ 53 * 2 ^ e = ((2 : ℕ) : ℚ) ^ (e + 53) := by
    rw [zpow_add₀ (by norm_num), mul_comm]
    norm_num
  rw [e1] at h1
  rw [e2] at h2
  have l1 := (Int.zpow_le_iff_le_log (by norm_num : 1 < 2) hx).mp h1
  have l2 := (Int.lt_zpow_iff_log_lt (by norm_num : 1 < 2) hx).mp h2
  omega

/-- The `double` nearest to `x`, from the exponent `e` of its last bit. -/
theorem to_double_eq (x : ℚ) (e : Int) (hx : 0 < x) (h1 : (2 : ℚ) ^ 52 * 2 ^ e ≤ x)
    (h2 : x < 2 ^ 53 * 2 ^ e) :
    to_double x = (round_half_even (x / 2 ^ e) : ℚ) * 2 ^ e := by
  rw [to_double_of_nonneg x hx.le, log_eq_of_bounds x e hx h1 h2]
  have : e + 52 - 52 = e := by omega
  rw [this]

theorem scaled_bounds (x : ℚ) (hx : 0 < x) :
    (2 : ℚ) ^ 52 * 2 ^ (Int.log 2 x - 52) ≤ x ∧ x < 2 ^ 53 * 2 ^ (Int.log 2 x - 52) := by
  have l1 := Int.zpow_log_le_self (by norm_num : 1 < 2) hx
  have l2 := Int.lt_zpow_succ_log_self (by norm_num : 1 < 2) x
  have e1 : (2 : ℚ) ^ 52 * 2 ^ (Int.log 2 x - 52) = ((2 : ℕ) : ℚ) ^ (Int.log 2 x) := by
    rw [zpow_sub₀ (by norm_num)]
    norm_num
    field_simp
  have e2 : (2 : ℚ) ^ 53 * 2 ^ (Int.log 2 x - 52) = ((2 : ℕ) : ℚ) ^ (Int.log 2 x + 1) := by
    rw [zpow_sub₀ (by norm_num), zpow_add₀ (by norm_num)]
    norm_num
    ring
  rw [e1, e2]
  exact ⟨l1, l2⟩

theorem to_double_zero : to_double 0 = 0 := by
  rw [to_double_of_nonneg 0 le_rfl]
  simp [round_half_even]

/-- A number `m * 2 ^ k` with `m < 2 ^ 53` is a `double`. -/
theorem to_double_exact (m : Nat) (k : Int) (hm : m < 2 ^ 53) :
    to_double ((m : ℚ) * 2 ^ k) = (m : ℚ) * 2 ^ k := by
  rcases Nat.eq_zero_or_pos m with h0 | hpos
  · subst h0
    simp [to_double_zero]
  have hx : (0 : ℚ) < (m : ℚ) * 2 ^ k := mul_pos (by exact_mod_cast hpos) (two_zpow_pos k)
  obtain ⟨b1, b2⟩ := scaled_bounds _ hx
  rw [to_double_of_nonneg _ hx.le]
  generalize Int.log 2 ((m : ℚ) * 2 ^ k) - 52 = e at b1 b2 ⊢
  have hke : e ≤ k := by
    by_contra hlt
    push_neg at hlt
    have hk : (2 : ℚ) ^ k ≤ 2 ^ (e - 1) := zpow_le_zpow_right₀ (by norm_num) (by omega)
    have hm' : (m : ℚ) < 2 ^ 53 := by exact_mod_cast hm
    have e1 : (2 : ℚ) ^ (e - 1) = 2 ^ e / 2 := by
      rw [zpow_sub₀ (by norm_num)]
      norm_num
    have p1 := two_zpow_pos k
    have p2 := two_zpow_pos e
    have : (m : ℚ) * 2 ^ k < 2 ^ 53 * (2 ^ e / 2) := by
      calc (m : ℚ) * 2 ^ k < 2 ^ 53 * 2 ^ k := by
            apply mul_lt_mul_of_pos_right hm' p1
        _ ≤ 2 ^ 53 * (2 ^ e / 2) := by
            rw [← e1]
            apply mul_le_mul_of_nonneg_left hk (by norm_num)
    nlinarith
  obtain ⟨n, hn⟩ : ∃ n : Nat, k = e + n := ⟨(k - e).toNat, by omega⟩
  have hq : (m : ℚ) * 2 ^ k / 2 ^ e = ((m * 2 ^ n : Nat) : Int) := by
    rw [hn, zpow_add₀ (by norm_num), zpow_natCast]
    push_cast
    field_simp
    ring
  rw [hq, round_half_even_intCast, ← hq]
  field_simp

theorem to_double_natCast (n : Nat) (hn : n < 2 ^ 53) : to_double (n : ℚ) = n := by
  have h := to_double_exact n 0 hn
  simpa using h

/-- The relative error of the rounding is at most `2 ^ (-53)`. -/
theorem to_double_error (x : ℚ) (hx : 0 ≤ x) : |to_double x - x| ≤ x / 2 ^ 53 := by
  rcases eq_or_lt_of_le hx with h0 | hpos
  · rw [← h0, to_double_zero]
    simp
  obtain ⟨b1, b2⟩ := scaled_bounds x hpos
  rw [to_double_of_nonneg x hx]
  generalize Int.log 2 x - 52 = e at b1 b2 ⊢
  have pe := two_zpow_pos e
  have hr := round_half_even_error (x / 2 ^ e)
  have e1 : (round_half_even (x / 2 ^ e) : ℚ) * 2 ^ e - x =
      ((round_half_even (x / 2 ^ e) : ℚ) - x / 2 ^ e) * 2 ^ e := by
    field_simp
  rw [e1, abs_mul, abs_of_pos pe]
  have h3 : |(round_half_even (x / 2 ^ e) : ℚ) - x / 2 ^ e| * 2 ^ e ≤ 1 / 2 * 2 ^ e :=
    mul_le_mul_of_nonneg_right hr pe.le
  have h4 : (1 : ℚ) / 2 * 2 ^ e ≤ x / 2 ^ 53 := by
    rw [le_div_iff₀ (by norm_num)]
    linarith
  linarith

theorem to_double_nonneg (x : ℚ) (hx : 0 ≤ x) : 0 ≤ to_double x := by
  rw [to_double_of_nonneg x hx]
  have h := round_half_even_mono 0 (x / 2 ^ (Int.log 2 x - 52))
    (div_nonneg hx (two_zpow_pos _).le)
  have h0 : round_half_even 0 = 0 := by simpa using round_half_even_intCast 0
  rw [h0] at h
  exact mul_nonneg (by exact_mod_cast h) (two_zpow_pos _).le

/-- Rounding to a `double` is monotone (on the numbers that are not negative). -/
theorem to_double_mono (x y : ℚ) (hx : 0 ≤ x) (h : x ≤ y) : to_double x ≤ to_double y := by
  rcases eq_or_lt_of_le hx with h0 | hpos
  · rw [← h0, to_double_zero]
    exact to_double_nonneg y (hx.trans h)
  have hy : 0 < y := hpos.trans_le h
  have hlog := Int.log_mono_right (b := 2) hpos h
  obtain ⟨x1, x2⟩ := scaled_bounds x hpos
  obtain ⟨y1, y2⟩ := scaled_bounds y hy
  rw [to_double_of_nonneg x hx, to_double_of_nonneg y hy.le]
  rcases lt_or_eq_of_le hlog with hlt | heq
  · generalize Int.log 2 x = L at *
    generalize Int.log 2 y = M at *
    have px := two_zpow_pos (L - 52)
    have py := two_zpow_pos (M - 52)
    have u1 : round_half_even (x / 2 ^ (L - 52)) ≤ 2 ^ 53 := by
      have hle : x / 2 ^ (L - 52) ≤ ((2 ^ 53 : Int) : ℚ) := by
        rw [div_le_iff₀ px]
        push_cast
        exact x2.le
      have := round_half_even_mono _ _ hle
      rwa [round_half_even_intCast] at this
    have u2 : (2 : Int) ^ 52 ≤ round_half_even (y / 2 ^ (M - 52)) := by
      have hle : ((2 ^ 52 : Int) : ℚ) ≤ y / 2 ^ (M - 52) := by
        rw [le_div_iff₀ py]
        push_cast
        exact y1
      have := round_half_even_mono _ _ hle
      rwa [round_half_even_intCast] at this
    have u1' : (round_half_even (x / 2 ^ (L - 52)) : ℚ) ≤ 2 ^ 53 := by exact_mod_cast u1
    have u2' : (2 : ℚ) ^ 52 ≤ (round_half_even (y / 2 ^ (M - 52)) : ℚ) := by exact_mod_cast u2
    have hpow : (2 : ℚ) ^ 53 * 2 ^ (L - 52) ≤ 2 ^ 52 * 2 ^ (M - 52) := by
      have e1 : (2 : ℚ) ^ 53 * 2 ^ (L - 52) = 2 ^ (L + 1) := by
        rw [zpow_sub₀ (by norm_num), zpow_add₀ (by norm_num)]
        norm_num
        field_simp
        ring
      have e2 : (2 : ℚ) ^ 52 * 2 ^ (M - 52) = 2 ^ M := by
        rw [zpow_sub₀ (by norm_num)]
        norm_num
        field_simp
      rw [e1, e2]
      exact zpow_le_zpow_right₀ (by norm_num) (by omega)
    calc (round_half_even (x / 2 ^ (L - 52)) : ℚ) * 2 ^ (L - 52)
        ≤ 2 ^ 53 * 2 ^ (L - 52) := mul_le_mul_of_nonneg_right u1' px.le
      _ ≤ 2 ^ 52 * 2 ^ (M - 52) := hpow
      _ ≤ (round_half_even (y / 2 ^ (M - 52)) : ℚ) * 2 ^ (M - 52) :=
          mul_le_mul_of_nonneg_right u2' py.le
  · rw [heq]
    have py := two_zpow_pos (Int.log 2 y - 52)
    have hle : x / 2 ^ (Int.log 2 y - 52) ≤ y / 2 ^ (Int.log 2 y - 52) :=
      div_le_div_of_nonneg_right h py.le
    have := round_half_even_mono _ _ hle
    exact mul_le_mul_of_nonneg_right (by exact_mod_cast this) py.le

/-- A `double` that bounds a number bounds its rounding. -/
theorem to_double_le_of_le (x : ℚ) (m : Nat) (k : Int) (hm : m < 2 ^ 53) (hx : 0 ≤ x)
    (h : x ≤ (m : ℚ) * 2 ^ k) : to_double x ≤ (m : ℚ) * 2 ^ k := by
  rw [← to_double_exact m k hm]
  exact to_double_mono x _ hx h

theorem le_to_double_of_le (x : ℚ) (m : Nat) (k : Int) (hm : m < 2 ^ 53)
    (h : (m : ℚ) * 2 ^ k ≤ x) : (m : ℚ) * 2 ^ k ≤ to_double x := by
  rw [← to_double_exact m k hm]
  exact to_double_mono _ x (mul_nonneg (Nat.cast_nonneg m) (two_zpow_pos k).le) h

/-- The rounding of a `double` is a `double` again. -/
theorem to_double_representable (x : ℚ) (hx : 0 ≤ x) :
    ∃ (m : Nat) (k : Int), m ≤ 2 ^ 53 ∧ to_double x = (m : ℚ) * 2 ^ k := by
  rcases eq_or_lt_of_le hx with h0 | hpos
  · exact ⟨0, 0, by norm_num, by rw [← h0, to_double_zero]; simp⟩
  obtain ⟨b1, b2⟩ := scaled_bounds x hpos
  rw [to_double_of_nonneg x hx]
  generalize Int.log 2 x - 52 = e at b1 b2 ⊢
  have pe := two_zpow_pos e
  have u1 : round_half_even (x / 2 ^ e) ≤ 2 ^ 53 := by
    have hle : x / 2 ^ e ≤ ((2 ^ 53 : Int) : ℚ) := by
      rw [div_le_iff₀ pe]
      push_cast
      exact b2.le
    have := round_half_even_mono _ _ hle
    rwa [round_half_even_intCast] at this
  have u0 : 0 ≤ round_half_even (x / 2 ^ e) := by
    have := round_half_even_mono 0 _ (div_nonneg hx pe.le)
    have h0 : round_half_even 0 = 0 := by simpa using round_half_even_intCast 0
    rwa [h0] at this
  refine ⟨(round_half_even (x / 2 ^ e)).toNat, e, by omega, ?_⟩
  congr 1
  have : ((round_half_even (x / 2 ^ e)).toNat : Int) = round_half_even (x / 2 ^ e) :=
    Int.toNat_of_nonneg u0
  exact_mod_cast this.symm

theorem double_of_int_natCast (n : Nat) (hn : n < 2 ^ 53) : double_of_int (n : Int) = n := by
  unfold double_of_int
  rw [Int.cast_natCast]
  exact to_double_natCast n hn

theorem double_mul_one_natCast (n : Nat) (hn : n < 2 ^ 53) : double_mul 1 (n : ℚ) = n := by
  unfold double_mul
  rw [one_mul]
  exact to_double_natCast n hn

theorem double_mul_natCast_one (n : Nat) (hn : n < 2 ^ 53) : double_mul (n : ℚ) 1 = n := by
  unfold double_mul
  rw [mul_one]
  exact to_double_natCast n hn

/-- The function `round_double` on the `double` quotient of two integers: the
rounding of the quotient and of the sum with `0.5` do not change the integer
that results, `floor(a / b + 1/2)`. -/
theorem round_double_quotient_eq (a b : Nat) (hb1 : 1 ≤ b) (hb : b < 2 ^ 20)
    (hfit : ⌊(a : ℚ) / b + 1 / 2⌋ ≤ 32767) :
    round_double (to_double ((a : ℚ) / b)) = ⌊(a : ℚ) / b + 1 / 2⌋ := by
  have hbq : (0 : ℚ) < b := by exact_mod_cast hb1
  have hbq20 : (b : ℚ) < 2 ^ 20 := by exact_mod_cast hb
  have hq0 : (0 : ℚ) ≤ (a : ℚ) / b := by positivity
  have hn0 : 0 ≤ ⌊(a : ℚ) / b + 1 / 2⌋ := Int.floor_nonneg.mpr (by linarith)
  have hw1 := Int.floor_le ((a : ℚ) / b + 1 / 2)
  have hw2 := Int.lt_floor_add_one ((a : ℚ) / b + 1 / 2)
  have hn32 : (⌊(a : ℚ) / b + 1 / 2⌋ : ℚ) ≤ 32767 := by exact_mod_cast hfit
  have hy0 := to_double_nonneg _ hq0
  have hyerr := to_double_error _ hq0
  have hz0 := to_double_nonneg (to_double ((a : ℚ) / b) + 1 / 2) (by linarith)
  have hzerr := to_double_error (to_double ((a : ℚ) / b) + 1 / 2) (by linarith)
  have key : ⌊to_double (to_double ((a : ℚ) / b) + 1 / 2)⌋ = ⌊(a : ℚ) / b + 1 / 2⌋ := by
    by_cases hr : (2 * a + b) % (2 * b) = 0
    · -- the sum with 1/2 is an integer: no rounding at all
      obtain ⟨n, hn⟩ : ∃ n : Nat, 2 * a + b = 2 * b * n := ⟨_, (Nat.eq_mul_of_div_eq_right
        (Nat.dvd_of_mod_eq_zero hr) rfl)⟩
      have hn1 : 1 ≤ n := by
        rcases Nat.eq_zero_or_pos n with h0 | h
        · subst h0; omega
        · exact h
      have hw : (a : ℚ) / b + 1 / 2 = n := by
        have : (2 * (a : ℚ) + b) = 2 * b * n := by exact_mod_cast hn
        field_simp
        linarith
      have hq : (a : ℚ) / b = ((2 * n - 1 : Nat) : ℚ) * 2 ^ (-1 : Int) := by
        have e : ((2 * n - 1 : Nat) : ℚ) = 2 * (n : ℚ) - 1 := by
          rw [Nat.cast_sub (by omega)]
          push_cast
          ring
        rw [e]
        have : (a : ℚ) / b = n - 1 / 2 := by linarith
        rw [this]
        norm_num
        ring
      have hnle : (n : ℚ) ≤ 32767 := by
        rw [hw, Int.floor_natCast] at hn32
        exact_mod_cast hn32
      have hn' : n ≤ 32767 := by exact_mod_cast hnle
      have y_eq : to_double ((a : ℚ) / b) = (a : ℚ) / b := by
        rw [hq]
        exact to_double_exact _ _ (by omega)
      rw [y_eq, hw, to_double_natCast n (by omega)]
    · -- the sum with 1/2 is at least 1/(2b) away from the integers
      have hrpos : 1 ≤ (2 * a + b) % (2 * b) := by omega
      have hrlt : (2 * a + b) % (2 * b) < 2 * b := Nat.mod_lt _ (by omega)
      have hdiv := Nat.div_add_mod (2 * a + b) (2 * b)
      generalize (2 * a + b) % (2 * b) = r at hrpos hrlt hdiv hr
      generalize (2 * a + b) / (2 * b) = n at hdiv
      have hw : (a : ℚ) / b + 1 / 2 = n + (r : ℚ) / (2 * b) := by
        have : (2 * (b : ℚ) * n + r) = 2 * a + b := by exact_mod_cast hdiv
        field_simp
        linear_combination (-2 * (b : ℚ)) * this
      have hr1 : (1 : ℚ) / (2 * b) ≤ (r : ℚ) / (2 * b) := by
        apply div_le_div_of_nonneg_right _ (by positivity)
        exact_mod_cast hrpos
      have hr2 : (r : ℚ) / (2 * b) ≤ 1 - 1 / (2 * b) := by
        rw [div_le_iff₀ (by positivity)]
        have : (r : ℚ) + 1 ≤ 2 * b := by exact_mod_cast hrlt
        field_simp
        linarith
      have hsmall : (2 : ℚ) ^ 17 / 2 ^ 53 < 1 / (2 * b) := by
        rw [div_lt_div_iff₀ (by norm_num) (by positivity)]
        norm_num
        linarith
      have hfl : ⌊(a : ℚ) / b + 1 / 2⌋ = n := by
        rw [hw, Int.floor_eq_iff]
        have : (0 : ℚ) ≤ (r : ℚ) / (2 * b) := by positivity
        have : (0 : ℚ) < 1 / (2 * b) := by positivity
        constructor
        · push_cast; linarith
        · push_cast; linarith
      rw [hfl] at hn32 hw1 hw2 ⊢
      have hq32 : (a : ℚ) / b ≤ 32768 := by push_cast at hn32 hw2; linarith
      rw [abs_le] at hyerr hzerr
      have p53 : (0 : ℚ) < 2 ^ 53 := by norm_num
      have e1 : (a : ℚ) / b / 2 ^ 53 ≤ 32768 / 2 ^ 53 :=
        div_le_div_of_nonneg_right hq32 p53.le
      have e2 : (to_double ((a : ℚ) / b) + 1 / 2) / 2 ^ 53 ≤ 32770 / 2 ^ 53 := by
        apply div_le_div_of_nonneg_right _ p53.le
        have : (32768 : ℚ) / 2 ^ 53 ≤ 1 := by norm_num
        linarith
      have e3 : (32768 : ℚ) / 2 ^ 53 + 32770 / 2 ^ 53 ≤ 2 ^ 17 / 2 ^ 53 := by norm_num
      rw [Int.floor_eq_iff]
      push_cast at hw ⊢
      constructor
      · linarith
      · linarith
  unfold round_double double_add truncate
  rw [if_pos hz0, key]
  unfold to_short
  omega

/-! ## Decoding: the sample conversion -/

theorem round_half_up_range (max_value v : Nat) (hm : 1 ≤ max_value) (hv : v ≤ max_value) :
    0 ≤ round_half_up v max_value ∧ round_half_up v max_value ≤ 255 := by
  unfold round_half_up
  have hm0 : (0 : ℚ) < max_value := by exact_mod_cast hm
  have hq0 : (0 : ℚ) ≤ ((v : ℚ) * 255) / max_value := by positivity
  have hq1 : ((v : ℚ) * 255) / max_value ≤ 255 := by
    rw [div_le_iff₀ hm0]
    have : (v : ℚ) ≤ max_value := by exact_mod_cast hv
    linarith
  refine ⟨Int.floor_nonneg.mpr (by linarith), ?_⟩
  have : ⌊((v : ℚ) * 255) / max_value + 1 / 2⌋ < 256 := by
    rw [Int.floor_lt]
    push_cast
    linarith
  omega

theorem rescale_eq (max_value v : Nat) (hm : 1 ≤ max_value) (hv : v ≤ max_value)
    (hmax : max_value < 65536) :
    rescale v max_value = some (round_half_up v max_value).toNat := by
  obtain ⟨hn0, hn1⟩ := round_half_up_range max_value v hm hv
  unfold rescale
  rw [if_neg (by omega)]
  congr 1
  have e1 : ((v : Int) * (MAX_VALUE : Int)) = ((v * 255 : Nat) : Int) := by
    simp [MAX_VALUE]
  have e2 : (((v * 255 : Nat) : ℚ)) / (max_value : ℚ) + 1 / 2 =
      ((v : ℚ) * 255) / max_value + 1 / 2 := by
    push_cast
    ring
  have hfit : ⌊(((v * 255 : Nat) : ℚ)) / (max_value : ℚ) + 1 / 2⌋ ≤ 32767 := by
    rw [e2]
    unfold round_half_up at hn1
    omega
  rw [e1, double_of_int_natCast _ (by omega), double_mul_natCast_one _ (by omega),
    double_of_int_natCast _ (by omega)]
  unfold double_div
  rw [round_double_quotient_eq (v * 255) max_value hm (by omega) hfit, e2]
  unfold round_half_up at hn0 hn1 ⊢
  generalize ⌊((v : ℚ) * 255) / max_value + 1 / 2⌋ = n at hn0 hn1
  unfold clamp MAX_VALUE
  split_ifs with h1 h2
  · omega
  · have : n = 255 := by omega
    subst this; rfl
  · rfl

/-- Claim C1.  For every `max_value ≥ 1` and every raw sample `v ≤ max_value`, the
channel value the readers store is round-half-up of `v * 255 / max_value`, that is
`floor(v * 255 / max_value + 1/2)`, and lies in `[0, 255]`: this is the value of
the conversion expression (`rescale`), the value `read_P2` and `read_P5` store in
the three channels of a pixel, and the value `read_P3` and `read_P6` store in
each channel from its own sample; and the P2 stream with maximum 100 and samples
0, 50, 100, 25 is decoded to 0, 128, 255, 64.  (The maximum value is an
`unsigned short`; the two roundings of the `double` arithmetic do not change
the integer that results.) -/
theorem decode_round_half_up (max_value v : Nat) (hm : 1 ≤ max_value) (hv : v ≤ max_value)
    (hmax : max_value < 65536) :
    rescale v max_value = some (round_half_up v max_value).toNat ∧
    0 ≤ round_half_up v max_value ∧ round_half_up v max_value ≤ 255 ∧
    (∀ (file file1 : FILE) (value : Option Nat), next_value file value = (some v, file1) →
      read_P2_line max_value 1 file value =
        some ([⟨(round_half_up v max_value).toNat, (round_half_up v max_value).toNat,
          (round_half_up v max_value).toNat⟩], file1, some v)) ∧
    (∀ (file : FILE) (byte : Option Nat), v < 256 →
      read_P5_line max_value 1 (v :: file) byte =
        some ([⟨(round_half_up v max_value).toNat, (round_half_up v max_value).toNat,
          (round_half_up v max_value).toNat⟩], file, some v)) ∧
    (∀ (file file1 file2 file3 : FILE) (value : Option Nat) (v2 v3 : Nat),
      v2 ≤ max_value → v3 ≤ max_value →
      next_value file value = (some v, file1) → next_value file1 (some v) = (some v2, file2) →
      next_value file2 (some v2) = (some v3, file3) →
      read_P3_line max_value 1 file value =
        some ([⟨(round_half_up v max_value).toNat, (round_half_up v2 max_value).toNat,
          (round_half_up v3 max_value).toNat⟩], file3, some v3)) ∧
    (∀ (file : FILE) (byte : Option Nat) (v2 v3 : Nat),
      v2 ≤ max_value → v3 ≤ max_value → v < 256 → v2 < 256 → v3 < 256 →
      read_P6_line max_value 1 (v :: v2 :: v3 :: file) byte =
        some ([⟨(round_half_up v max_value).toNat, (round_half_up v2 max_value).toNat,
          (round_half_up v3 max_value).toNat⟩], file, some v3)) ∧
    read_image (str "P2\n2 2\n100\n0 50\n100 25\n") =
      some (some ⟨some [[⟨0, 0, 0⟩, ⟨128, 128, 128⟩], [⟨255, 255, 255⟩, ⟨64, 64, 64⟩]],
        false, 2, 2⟩) := by
  obtain ⟨hn0, hn1⟩ := round_half_up_range max_value v hm hv
  have hr := rescale_eq max_value v hm hv hmax
  refine ⟨hr, hn0, hn1, ?_, ?_, ?_, ?_, ?_⟩
  · intro file file1 value hnext
    simp [read_P2_line, hnext, hr]
  · intro file byte hb
    simp [read_P5_line, next_byte, Nat.mod_eq_of_lt hb, hr]
  · intro file file1 file2 file3 value v2 v3 h2 h3 n1 n2 n3
    simp [read_P3_line, n1, n2, n3, hr, rescale_eq max_value v2 hm h2 hmax,
      rescale_eq max_value v3 hm h3 hmax]
  · intro file byte v2 v3 h2 h3 hb hb2 hb3
    simp [read_P6_line, next_byte, Nat.mod_eq_of_lt hb, Nat.mod_eq_of_lt hb2,
      Nat.mod_eq_of_lt hb3, hr, rescale_eq max_value v2 hm h2 hmax, rescale_eq max_value v3 hm h3 hmax]
  · have r0 : rescale 0 100 = some 0 := by
      rw [rescale_eq 100 0 (by norm_num) (by norm_num) (by norm_num)]; norm_num [round_half_up]
    have r50 : rescale 50 100 = some 128 := by
      rw [rescale_eq 100 50 (by norm_num) (by norm_num) (by norm_num)]; norm_num [round_half_up]; rfl
    have r100 : rescale 100 100 = some 255 := by
      rw [rescale_eq 100 100 (by norm_num) (by norm_num) (by norm_num)]; norm_num [round_half_up]; rfl
    have r25 : rescale 25 100 = some 64 := by
      rw [rescale_eq 100 25 (by norm_num) (by norm_num) (by norm_num)]; norm_num [round_half_up]; rfl
    have h1 : skip_comments (str "P2\n2 2\n100\n0 50\n100 25\n") =
        some (str "P2\n2 2\n100\n0 50\n100 25\n") := by decide
    have h2 : fscanf_magic (str "P2\n2 2\n100\n0 50\n100 25\n") =
        (some 2, str "\n2 2\n100\n0 50\n100 25\n") := by decide
    have h3 : skip_comments (fscanf_c (str "\n2 2\n100\n0 50\n100 25\n")) =
        some (str "2 2\n100\n0 50\n100 25\n") := by decide
    have h4 : fscanf_hd (str "2 2\n100\n0 50\n100 25\n") =
        (some 2, str " 2\n100\n0 50\n100 25\n") := by decide
    have h5 : fscanf_hd (str " 2\n100\n0 50\n100 25\n") =
        (some 2, str "\n100\n0 50\n100 25\n") := by decide
    have h6 : skip_comments (str "\n100\n0 50\n100 25\n") =
        some (str "\n100\n0 50\n100 25\n") := by decide
    have h7 : fscanf_hd (str "\n100\n0 50\n100 25\n") = (some 100, str "\n0 50\n100 25\n") := by
      decide
    have h8 : fscanf_c (str "\n0 50\n100 25\n") = str "0 50\n100 25\n" := by decide
    have n1 : ∀ w, next_value (str "0 50\n100 25\n") w = (some 0, str " 50\n100 25\n") :=
      fun _ => rfl
    have n2 : ∀ w, next_value (str " 50\n100 25\n") w = (some 50, str "\n100 25\n") :=
      fun _ => rfl
    have n3 : ∀ w, next_value (str "\n100 25\n") w = (some 100, str " 25\n") := fun _ => rfl
    have n4 : ∀ w, next_value (str " 25\n") w = (some 25, str "\n") := fun _ => rfl
    unfold read_image
    simp only [h1, h2, h3, h4, h5, h6, h7, h8]
    simp [read_pixels, read_P2, read_P2_lines, read_P2_line, n1, n2, n3, n4, r0, r50, r100, r25]

/-- Witness of `decode_round_half_up`: the sample 50 with maximum 100 is stored
as 128. -/
theorem decode_round_half_up_witness : rescale 50 100 = some 128 :=
  (decode_round_half_up 100 50 (by decide) (by decide) (by decide)).1.trans
    (by norm_num [round_half_up]; rfl)

/-! ## Pictures -/

theorem fill_picture_length (height width : Nat) (f : Nat → Nat → pixel_t) :
    (fill_picture height width f).length = height := by
  simp [fill_picture]

theorem fill_picture_shape (height width : Nat) (f : Nat → Nat → pixel_t) :
    picture_shape (fill_picture height width f) height width := by
  refine ⟨fill_picture_length height width f, ?_⟩
  intro row hrow
  simp only [fill_picture, List.mem_map, List.mem_range] at hrow
  obtain ⟨line, -, rfl⟩ := hrow
  simp

theorem pixel_at_fill_picture (height width : Nat) (f : Nat → Nat → pixel_t) (line column : Nat)
    (hl : line < height) (hc : column < width) :
    pixel_at (fill_picture height width f) line column = f line column := by
  simp [pixel_at, fill_picture, List.getD_eq_getElem?_getD, List.getElem?_map,
    List.getElem?_range, hl, hc]

theorem fill_picture_congr (height width : Nat) (f g : Nat → Nat → pixel_t)
    (h : ∀ line column, line < height → column < width → f line column = g line column) :
    fill_picture height width f = fill_picture height width g := by
  unfold fill_picture
  apply List.map_congr_left
  intro line hl
  apply List.map_congr_left
  intro column hc
  exact h line column (List.mem_range.mp hl) (List.mem_range.mp hc)

/-- A picture of the right shape is the picture filled with its own pixels. -/
theorem fill_picture_pixel_at (picture : List (List pixel_t)) (height width : Nat)
    (h : picture_shape picture height width) :
    fill_picture height width (fun line column => pixel_at picture line column) = picture := by
  obtain ⟨hlen, hrows⟩ := h
  apply List.ext_getElem
  · rw [fill_picture_length, hlen]
  · intro i h1 h2
    have hi : i < height := by rw [fill_picture_length] at h1; exact h1
    have hrow : (picture[i]).length = width := hrows _ (List.getElem_mem _)
    simp only [fill_picture, List.getElem_map, List.getElem_range]
    apply List.ext_getElem
    · simp [hrow]
    · intro j h3 h4
      have hj : j < width := by simpa using h3
      simp [pixel_at, List.getD_eq_getElem?_getD, List.getElem?_eq_getElem h2,
        List.getElem?_eq_getElem h4]

/-! ## Rotation of the whole image -/

theorem rotate_all_step_eq (image : image_t) (picture : List (List pixel_t))
    (hp : image.picture = some picture) :
    rotate_all_step image picture = quarter_turn image := by
  unfold rotate_all_step quarter_turn
  simp only [hp, Option.map_some']
  congr 2
  apply fill_picture_congr
  intro line column hl hc
  rw [pixel_at_fill_picture _ _ _ _ _ hl hc]
  congr 1
  omega

theorem quarter_turn_isSome (image : image_t) (h : image.picture.isSome = true) :
    (quarter_turn image).picture.isSome = true := by
  unfold quarter_turn
  simpa using h

theorem rotate_all_loop_eq (index : Nat) (image : image_t) (h : image.picture.isSome = true) :
    rotate_all_loop index image = some ((quarter_turn^[index]) image) := by
  induction index generalizing image with
  | zero => rfl
  | succ n ih =>
    obtain ⟨picture, hp⟩ := Option.isSome_iff_exists.mp h
    simp only [rotate_all_loop, hp, Function.iterate_succ, Function.comp_apply]
    rw [rotate_all_step_eq image picture hp]
    exact ih _ (quarter_turn_isSome image h)

theorem rotate_flip_eq_quarter_turns (angle : Int) (ha : supported_angle angle) :
    rotate_flip angle = quarter_turns angle ∧ quarter_turns angle < 4 := by
  unfold supported_angle at ha
  rcases ha with h | h | h | h | h | h | h | h | h <;> subst h <;> decide

/-- Claim C10.  For every supported angle and every image that holds a picture,
`rotate_all` returns the result of `k = (((angle mod 360) + 360) mod 360) / 90`
successive clockwise quarter turns (`k < 4`); with `k = 0` the image is returned
unchanged; and one quarter turn maps an `h`-by-`w` picture to the `w`-by-`h`
picture with `new[i][j] = old[h-1-j][i]`. -/
theorem rotate_all_eq_quarter_turns (image : image_t) (old : List (List pixel_t)) (angle : Int)
    (hp : image.picture = some old) (ha : supported_angle angle) :
    rotate_all image angle =
      some ((quarter_turn^[quarter_turns angle]) image, [message.rotated angle]) ∧
    quarter_turns angle < 4 ∧
    (quarter_turns angle = 0 → rotate_all image angle = some (image, [message.rotated angle])) ∧
    (quarter_turn image).height = image.width ∧ (quarter_turn image).width = image.height ∧
    (quarter_turn image).color = image.color ∧
    ∃ new, (quarter_turn image).picture = some new ∧
      picture_shape new image.width image.height ∧
      ∀ i j, i < image.width → j < image.height →
        pixel_at new i j = pixel_at old (image.height - 1 - j) i := by
  obtain ⟨hflip, hlt⟩ := rotate_flip_eq_quarter_turns angle ha
  have hsome : image.picture.isSome = true := by simp [hp]
  have main : rotate_all image angle =
      some ((quarter_turn^[quarter_turns angle]) image, [message.rotated angle]) := by
    unfold rotate_all
    rw [hflip]
    by_cases hk : quarter_turns angle = 0
    · simp [hk]
    · have h1 : ((quarter_turns angle : Nat) : Int) ≠ 0 := by exact_mod_cast hk
      rw [if_neg h1, to_ushort_natCast _ (by omega), rotate_all_loop_eq _ _ hsome]
  refine ⟨main, hlt, ?_, rfl, rfl, rfl, ?_⟩
  · intro hk
    rw [main, hk]
    rfl
  · refine ⟨fill_picture image.width image.height
        (fun i j => pixel_at old (image.height - 1 - j) i), by simp [quarter_turn, hp],
      fill_picture_shape _ _ _, ?_⟩
    intro i j hi hj
    exact pixel_at_fill_picture _ _ _ _ _ hi hj

/-- Witness of `rotate_all_eq_quarter_turns`: a 2-by-3 image turned by 90 degrees. -/
theorem rotate_all_eq_quarter_turns_witness :
    rotate_all ⟨some [[⟨1, 1, 1⟩, ⟨2, 2, 2⟩, ⟨3, 3, 3⟩], [⟨4, 4, 4⟩, ⟨5, 5, 5⟩, ⟨6, 6, 6⟩]],
        false, 2, 3⟩ 90 =
      some (⟨some [[⟨4, 4, 4⟩, ⟨1, 1, 1⟩], [⟨5, 5, 5⟩, ⟨2, 2, 2⟩], [⟨6, 6, 6⟩, ⟨3, 3, 3⟩]],
        false, 3, 2⟩, [message.rotated 90]) :=
  (rotate_all_eq_quarter_turns
    ⟨some [[⟨1, 1, 1⟩, ⟨2, 2, 2⟩, ⟨3, 3, 3⟩], [⟨4, 4, 4⟩, ⟨5, 5, 5⟩, ⟨6, 6, 6⟩]], false, 2, 3⟩
    [[⟨1, 1, 1⟩, ⟨2, 2, 2⟩, ⟨3, 3, 3⟩], [⟨4, 4, 4⟩, ⟨5, 5, 5⟩, ⟨6, 6, 6⟩]] 90 rfl
    (by decide)).1.trans (by decide)

/-! ## The ROTATE command -/

theorem atoi_nil : atoi [] = 0 := by decide

/-- Claim C9.  With an image loaded, `rotate_command` rejects the angle as
unsupported if and only if the angle (the `signed short` it computes from its
parameter) is not one of -360, -270, -180, -90, 0, 90, 180, 270, 360; a rejected
rotate returns the image it was given, and the ROTATE command then leaves the image
and the selection of the session as they were. -/
theorem rotate_command_rejects_iff (image : image_t) (selection : area_t)
    (parameter_1 : List Nat) (h : image.picture.isSome = true) :
    ((∃ r, rotate_command image selection parameter_1 = some r ∧
        r.2 = [message.unsupported_rotation_angle]) ↔
      ¬ supported_angle (to_short (atoi parameter_1))) ∧
    (¬ supported_angle (to_short (atoi parameter_1)) →
      rotate_command image selection parameter_1 =
        some (image, [message.unsupported_rotation_angle])) ∧
    (∀ (disk : disk_t) (p2 p3 p4 p5 : List Nat),
      ¬ supported_angle (to_short (atoi parameter_1)) →
      ∃ s, main_step ⟨image, selection, disk⟩ (str "ROTATE") parameter_1 p2 p3 p4 p5 =
          some (s, [message.unsupported_rotation_angle], false) ∧
        s.image = image ∧ s.selection = selection) := by
  have hnone : image.picture.isNone = false := by
    cases hp : image.picture with
    | none => simp [hp] at h
    | some p => rfl
  have reject : ¬ supported_angle (to_short (atoi parameter_1)) →
      rotate_command image selection parameter_1 =
        some (image, [message.unsupported_rotation_angle]) := by
    intro hs
    have hlen : parameter_1.length ≠ 0 := by
      intro h0
      have : parameter_1 = [] := List.length_eq_zero.mp h0
      subst this
      exact hs (by decide)
    unfold supported_angle at hs
    unfold rotate_command
    rw [if_neg hlen]
    simp only [hnone]
    rw [if_neg (by simp), if_pos (by omega)]
  refine ⟨⟨?_, fun hs => ⟨_, reject hs, rfl⟩⟩, reject, ?_⟩
  · rintro ⟨r, hr, hout⟩ hs
    unfold rotate_command at hr
    by_cases hlen : parameter_1.length = 0
    · rw [if_pos hlen] at hr
      cases hr
      simp at hout
    · rw [if_neg hlen] at hr
      simp only [hnone] at hr
      rw [if_neg (by simp)] at hr
      have hs2 := hs
      unfold supported_angle at hs2
      rw [if_neg (by omega)] at hr
      split_ifs at hr with h1 h2
      · unfold rotate_all at hr
        split_ifs at hr
        · cases hr; simp at hout
        · split at hr
          · simp at hr
          · cases hr; simp at hout
      · cases hr; simp at hout
      · unfold rotate_area at hr
        split at hr
        · simp at hr
        · split_ifs at hr
          · cases hr; simp at hout
          · split at hr
            · simp at hr
            · cases hr; simp at hout
  · intro disk p2 p3 p4 p5 hs
    refine ⟨⟨image, selection, disk⟩, ?_, rfl, rfl⟩
    have e1 : str "ROTATE" ≠ str "EXIT" := by decide
    have e2 : str "ROTATE" ≠ str "LOAD" := by decide
    have e3 : str "ROTATE" ≠ str "SELECT" := by decide
    have e4 : str "ROTATE" ≠ str "HISTOGRAM" := by decide
    have e5 : str "ROTATE" ≠ str "EQUALIZE" := by decide
    unfold main_step
    rw [if_neg e1, if_neg (by simp [e2]), if_neg e3, if_neg e4, if_neg (by simp [e5]),
      if_pos rfl]
    simp only [reject hs]

/-- Witness of `rotate_command_rejects_iff`: `ROTATE 45` on a loaded image is
rejected and the image is returned as it was. -/
theorem rotate_command_rejects_iff_witness :
    rotate_command ⟨some [[⟨1, 1, 1⟩]], false, 1, 1⟩ ⟨true, 0, 0, 1, 1⟩ (str "45") =
      some (⟨some [[⟨1, 1, 1⟩]], false, 1, 1⟩, [message.unsupported_rotation_angle]) :=
  (rotate_command_rejects_iff ⟨some [[⟨1, 1, 1⟩]], false, 1, 1⟩ ⟨true, 0, 0, 1, 1⟩ (str "45")
    rfl).2.1 (by decide)

/-! ## Loops with a `short` counter -/

theorem for_each_some {α β : Type} (g : α → β) (l : List α) :
    for_each (fun x => (some (g x) : Option β)) l = some (l.map g) := by
  induction l with
  | nil => rfl
  | cons a l ih => simp [for_each, ih]

theorem short_loop_of_le (bound : Int) (h : bound ≤ 32767) :
    short_loop bound = some (List.range bound.toNat) := by
  unfold short_loop
  rw [if_pos h]

theorem short_loop_of_gt (bound : Int) (h : 32767 < bound) : short_loop bound = none := by
  unfold short_loop
  rw [if_neg (by omega)]

theorem short_fill_of_le (lines columns : Int) (f : Nat → Nat → pixel_t)
    (hl : lines ≤ 32767) (hc : columns ≤ 32767) :
    short_fill lines columns f = some (fill_picture lines.toNat columns.toNat f) := by
  unfold short_fill fill_picture
  rw [short_loop_of_le lines hl, short_loop_of_le columns hc]
  exact for_each_some _ _

theorem short_fill_of_lines_gt (lines columns : Int) (f : Nat → Nat → pixel_t)
    (hl : 32767 < lines) : short_fill lines columns f = none := by
  unfold short_fill
  rw [short_loop_of_gt lines hl]

theorem short_fill_no_lines (lines columns : Int) (f : Nat → Nat → pixel_t)
    (hl : lines ≤ 0) : short_fill lines columns f = some [] := by
  unfold short_fill
  rw [short_loop_of_le lines (by omega)]
  have : lines.toNat = 0 := by omega
  simp [this, for_each]

theorem short_fill_of_columns_gt (lines columns : Int) (f : Nat → Nat → pixel_t)
    (hl0 : 0 < lines) (hc : 32767 < columns) : short_fill lines columns f = none := by
  unfold short_fill
  rw [short_loop_of_gt columns hc]
  by_cases hl : lines ≤ 32767
  · rw [short_loop_of_le lines hl]
    obtain ⟨n, hn⟩ : ∃ n, lines.toNat = n + 1 := ⟨lines.toNat - 1, by omega⟩
    rw [hn, List.range_succ_eq_map]
    simp [for_each]
  · rw [short_loop_of_gt lines (by omega)]

/-! ## Crop -/

theorem to_ushort_lt (n : Int) : to_ushort n < 65536 := by
  unfold to_ushort
  have h1 := Int.emod_nonneg n (by norm_num : (65536 : Int) ≠ 0)
  have h2 := Int.emod_lt_of_pos n (by norm_num : (0 : Int) < 65536)
  omega

/-- The result of `crop` for a selection whose size fits the `short` counters
(the number of columns may be anything when there is no line): the copy of the
selected area, and the selection reset to the full extent of the copy. -/
theorem crop_eq_some (image : image_t) (selection : area_t) (picture : List (List pixel_t))
    (hp : image.picture = some picture)
    (hl : selection.line_start ≤ selection.line_end)
    (hc : selection.column_start ≤ selection.column_end)
    (hl2 : selection.line_end - selection.line_start ≤ 32767)
    (hc2 : selection.line_end - selection.line_start = 0 ∨
      selection.column_end - selection.column_start ≤ 32767) :
    crop image selection =
      some ({ picture := some (fill_picture (selection.line_end - selection.line_start)
                (selection.column_end - selection.column_start) (fun line column =>
                  pixel_at picture (line + selection.line_start) (column + selection.column_start))),
              color := image.color,
              height := selection.line_end - selection.line_start,
              width := to_ushort ((selection.column_end - selection.column_start : Nat) : Int) },
            { all := true, line_start := 0,
              line_end := selection.line_end - selection.line_start,
              column_start := 0,
              column_end := to_ushort ((selection.column_end - selection.column_start : Nat) : Int) },
            [message.image_cropped]) := by
  have e1 : ((selection.line_end : Int) - selection.line_start) =
      ((selection.line_end - selection.line_start : Nat) : Int) := by omega
  have e2 : ((selection.column_end : Int) - selection.column_start) =
      ((selection.column_end - selection.column_start : Nat) : Int) := by omega
  unfold crop
  simp only [hp]
  rw [if_neg (by omega), e1, e2, to_ushort_natCast _ (by omega)]
  rcases hc2 with h0 | hc2
  · rw [short_fill_no_lines _ _ _ (by omega), h0]
    rfl
  · rw [short_fill_of_le _ _ _ (by omega) (by omega)]
    simp only [Int.toNat_ofNat]

/-- When `crop` returns, the size of the selection fits the `short` counters. -/
theorem crop_some_bounds (image : image_t) (selection : area_t)
    (r : image_t × area_t × List message) (h : crop image selection = some r) :
    (∃ picture, image.picture = some picture) ∧
    selection.line_start ≤ selection.line_end ∧ selection.column_start ≤ selection.column_end ∧
    selection.line_end - selection.line_start ≤ 32767 ∧
    (selection.line_end - selection.line_start = 0 ∨
      selection.column_end - selection.column_start ≤ 32767) := by
  unfold crop at h
  cases hp : image.picture with
  | none => simp [hp] at h
  | some picture =>
    simp only [hp] at h
    by_cases hg : selection.line_end < selection.line_start ∨
        selection.column_end < selection.column_start
    · rw [if_pos hg] at h
      simp at h
    · rw [if_neg hg] at h
      refine ⟨⟨picture, rfl⟩, by omega, by omega, ?_, ?_⟩
      · by_contra hcon
        rw [short_fill_of_lines_gt _ _ _ (by omega)] at h
        simp at h
      · by_contra hcon
        rw [short_fill_of_columns_gt _ _ _ (by omega) (by omega)] at h
        simp at h

/-- Claim C7 (amended).  For every image that holds a picture and every valid
selection of at most 32767 lines and 32767 columns, `crop` returns an image of
height `line_end - line_start` and width `column_end - column_start` whose pixel
`(i, j)` is the source pixel `(line_start + i, column_start + j)`, and sets the
selection to the full extent of the new image with `all = true`. -/
theorem crop_copies_selection (image : image_t) (selection : area_t)
    (picture : List (List pixel_t)) (hp : image.picture = some picture)
    (hs : selection_ok image selection)
    (hl : selection.line_end - selection.line_start ≤ 32767)
    (hc : selection.column_end - selection.column_start ≤ 32767) :
    ∃ new : List (List pixel_t),
      crop image selection =
        some ({ picture := some new, color := image.color,
                height := selection.line_end - selection.line_start,
                width := selection.column_end - selection.column_start },
              { all := true, column_start := 0, line_start := 0,
                column_end := selection.column_end - selection.column_start,
                line_end := selection.line_end - selection.line_start },
              [message.image_cropped]) ∧
      picture_shape new (selection.line_end - selection.line_start)
        (selection.column_end - selection.column_start) ∧
      (∀ i j, i < selection.line_end - selection.line_start →
        j < selection.column_end - selection.column_start →
        pixel_at new i j =
          pixel_at picture (selection.line_start + i) (selection.column_start + j)) ∧
      selection_ok
        { picture := some new, color := image.color,
          height := selection.line_end - selection.line_start,
          width := selection.column_end - selection.column_start }
        { all := true, column_start := 0, line_start := 0,
          column_end := selection.column_end - selection.column_start,
          line_end := selection.line_end - selection.line_start } := by
  obtain ⟨h1, h2, h3, h4, -⟩ := hs
  refine ⟨fill_picture (selection.line_end - selection.line_start)
    (selection.column_end - selection.column_start) (fun line column =>
      pixel_at picture (line + selection.line_start) (column + selection.column_start)),
    ?_, fill_picture_shape _ _ _, ?_, ?_⟩
  · rw [crop_eq_some image selection picture hp (by omega) (by omega) hl (Or.inr hc),
      to_ushort_natCast _ (by omega)]
  · intro i j hi hj
    rw [pixel_at_fill_picture _ _ _ _ _ hi hj, Nat.add_comm i, Nat.add_comm j]
  · unfold selection_ok
    refine ⟨by show 0 < selection.line_end - selection.line_start; omega, le_refl _,
      by show 0 < selection.column_end - selection.column_start; omega, le_refl _, ?_⟩
    simp

/-- Witness of `crop_copies_selection`: the last two columns of the first line
of a 2-by-3 image. -/
theorem crop_copies_selection_witness :
    ∃ new : List (List pixel_t),
      crop ⟨some [[⟨1, 1, 1⟩, ⟨2, 2, 2⟩, ⟨3, 3, 3⟩], [⟨4, 4, 4⟩, ⟨5, 5, 5⟩, ⟨6, 6, 6⟩]],
          false, 2, 3⟩ ⟨false, 1, 0, 3, 1⟩ =
        some ({ picture := some new, color := false, height := 1 - 0, width := 3 - 1 },
              { all := true, column_start := 0, line_start := 0, column_end := 3 - 1,
                line_end := 1 - 0 },
              [message.image_cropped]) ∧
      picture_shape new (1 - 0) (3 - 1) ∧
      (∀ i j, i < 1 - 0 → j < 3 - 1 →
        pixel_at new i j =
          pixel_at [[⟨1, 1, 1⟩, ⟨2, 2, 2⟩, ⟨3, 3, 3⟩], [⟨4, 4, 4⟩, ⟨5, 5, 5⟩, ⟨6, 6, 6⟩]]
            (0 + i) (1 + j)) ∧
      selection_ok { picture := some new, color := false, height := 1 - 0, width := 3 - 1 }
        { all := true, column_start := 0, line_start := 0, column_end := 3 - 1,
          line_end := 1 - 0 } :=
  crop_copies_selection
    ⟨some [[⟨1, 1, 1⟩, ⟨2, 2, 2⟩, ⟨3, 3, 3⟩], [⟨4, 4, 4⟩, ⟨5, 5, 5⟩, ⟨6, 6, 6⟩]], false, 2, 3⟩
    ⟨false, 1, 0, 3, 1⟩ [[⟨1, 1, 1⟩, ⟨2, 2, 2⟩, ⟨3, 3, 3⟩], [⟨4, 4, 4⟩, ⟨5, 5, 5⟩, ⟨6, 6, 6⟩]]
    rfl (by decide) (by decide) (by decide)

/-- Claim C7, counterexample.  The image of 32768 lines and 2 columns holds a
picture of that shape, the selection of its first column (lines 0 to 32768,
`all = false`) satisfies the invariant of a selection, and `crop` does not
return: its `short` counter `line` cannot reach 32768. -/
theorem crop_fails_on_tall_selection :
    image_ok tall_image ∧ selection_ok tall_image ⟨false, 0, 0, 1, 32768⟩ ∧
      crop tall_image ⟨false, 0, 0, 1, 32768⟩ = none := by
  refine ⟨⟨by decide, by decide, _, rfl, ?_, ?_⟩, by decide, ?_⟩
  · exact List.length_replicate _ _
  · intro row hrow
    rw [List.eq_of_mem_replicate hrow]
    rfl
  · unfold crop tall_image
    simp only
    rw [if_neg (by decide), short_fill_of_lines_gt _ _ _ (by decide)]

/-- Claim C8.  Crop is idempotent on its result: cropping the result of
`crop` again with the full-extent selection that `crop` produced gives the
same image, selection and output (and where the first crop does not return,
there is nothing to crop again); the CROP command on that result, whose
selection has `all = true`, leaves the session as it is; and for a valid
selection of at most 32767 lines and columns the first crop does return. -/
theorem crop_idempotent (image : image_t) (selection : area_t) :
    (crop image selection).bind (fun r => crop r.1 r.2.1) = crop image selection ∧
    (∀ r, crop image selection = some r →
      ∀ (disk : disk_t) (p2 p3 p4 p5 : List Nat),
        main_step ⟨r.1, r.2.1, disk⟩ (str "CROP") [] p2 p3 p4 p5 =
          some (⟨r.1, r.2.1, disk⟩, [message.image_cropped], false)) ∧
    (image.picture.isSome = true → selection_ok image selection →
      selection.line_end - selection.line_start ≤ 32767 →
      selection.column_end - selection.column_start ≤ 32767 →
      (crop image selection).isSome = true) := by
  have again : ∀ r, crop image selection = some r → crop r.1 r.2.1 = some r ∧
      r.1.picture.isNone = false ∧ r.2.1.all = true := by
    intro r hr
    obtain ⟨⟨picture, hp⟩, h1, h2, h3, h4⟩ := crop_some_bounds image selection r hr
    rw [crop_eq_some image selection picture hp h1 h2 h3 h4] at hr
    cases hr
    refine ⟨?_, rfl, rfl⟩
    rw [crop_eq_some _ _ _ rfl (Nat.zero_le _) (Nat.zero_le _)]
    · simp only [Nat.sub_zero, Nat.add_zero]
      rw [to_ushort_natCast _ (to_ushort_lt _)]
      rcases h4 with h0 | h4
      · simp [h0, fill_picture]
      · rw [to_ushort_natCast _ (by omega), fill_picture_pixel_at _ _ _ (fill_picture_shape _ _ _)]
    · simpa using h3
    · rcases h4 with h0 | h4
      · exact Or.inl (by simpa using h0)
      · right
        rw [to_ushort_natCast _ (by omega)]
        simpa using h4
  refine ⟨?_, ?_, ?_⟩
  · cases hr : crop image selection with
    | none => rfl
    | some r => exact (again r hr).1
  · intro r hr disk p2 p3 p4 p5
    obtain ⟨-, hn, hall⟩ := again r hr
    have e1 : str "CROP" ≠ str "EXIT" := by decide
    have e2 : str "CROP" ≠ str "LOAD" := by decide
    have e3 : str "CROP" ≠ str "SELECT" := by decide
    have e4 : str "CROP" ≠ str "HISTOGRAM" := by decide
    have e5 : str "CROP" ≠ str "EQUALIZE" := by decide
    have e6 : str "CROP" ≠ str "ROTATE" := by decide
    unfold main_step
    rw [if_neg e1, if_neg (by simp [e2]), if_neg e3, if_neg e4, if_neg (by simp [e5]),
      if_neg e6, if_pos ⟨rfl, rfl⟩]
    simp only [hn, hall]
    rfl
  · intro hsome hs hl hc
    obtain ⟨picture, hp⟩ := Option.isSome_iff_exists.mp hsome
    obtain ⟨h1, h2, h3, h4, -⟩ := hs
    rw [crop_eq_some image selection picture hp (by omega) (by omega) hl (Or.inr hc)]
    rfl

/-- Witness of `crop_idempotent`: the crop of a 2-by-3 image to the last two
columns of its first line returns, and cropping the result again returns the
same result. -/
theorem crop_idempotent_witness :
    crop ⟨some [[⟨1, 1, 1⟩, ⟨2, 2, 2⟩, ⟨3, 3, 3⟩], [⟨4, 4, 4⟩, ⟨5, 5, 5⟩, ⟨6, 6, 6⟩]],
        false, 2, 3⟩ ⟨false, 1, 0, 3, 1⟩ =
      some (⟨some [[⟨2, 2, 2⟩, ⟨3, 3, 3⟩]], false, 1, 2⟩, ⟨true, 0, 0, 2, 1⟩,
        [message.image_cropped]) ∧
    crop ⟨some [[⟨2, 2, 2⟩, ⟨3, 3, 3⟩]], false, 1, 2⟩ ⟨true, 0, 0, 2, 1⟩ =
      some (⟨some [[⟨2, 2, 2⟩, ⟨3, 3, 3⟩]], false, 1, 2⟩, ⟨true, 0, 0, 2, 1⟩,
        [message.image_cropped]) :=
  have h : crop ⟨some [[⟨1, 1, 1⟩, ⟨2, 2, 2⟩, ⟨3, 3, 3⟩], [⟨4, 4, 4⟩, ⟨5, 5, 5⟩, ⟨6, 6, 6⟩]],
        false, 2, 3⟩ ⟨false, 1, 0, 3, 1⟩ =
      some (⟨some [[⟨2, 2, 2⟩, ⟨3, 3, 3⟩]], false, 1, 2⟩, ⟨true, 0, 0, 2, 1⟩,
        [message.image_cropped]) := by decide
  ⟨h, by
    have key := (crop_idempotent
      ⟨some [[⟨1, 1, 1⟩, ⟨2, 2, 2⟩, ⟨3, 3, 3⟩], [⟨4, 4, 4⟩, ⟨5, 5, 5⟩, ⟨6, 6, 6⟩]], false, 2, 3⟩
      ⟨false, 1, 0, 3, 1⟩).1
    rw [h] at key
    exact key⟩

/-! ## The command loop: commands that fail -/

theorem select_command_error (image : image_t) (selection : area_t)
    (p1 p2 p3 p4 p5 : List Nat)
    (h : ∃ m ∈ (select_command image selection p1 p2 p3 p4 p5).2, m.is_error = true) :
    (select_command image selection p1 p2 p3 p4 p5).1 = selection := by
  unfold select_command at h ⊢
  split_ifs at h ⊢ with h1 h2 h3 h4
  · rfl
  · simp [message.is_error] at h
  · rfl
  · by_cases hi : invalid_coordinates image (to_short (atoi p1)) (to_short (atoi p2))
        (to_short (atoi p3)) (to_short (atoi p4))
    · rw [area_select_of_invalid _ _ _ _ _ _ hi]
    · obtain ⟨area, ha, -⟩ := area_select_of_valid selection image _ _ _ _ hi
      rw [ha] at h
      simp [message.is_error] at h
  · rfl

theorem rotate_all_output (image : image_t) (angle : Int) (r : image_t × List message)
    (h : rotate_all image angle = some r) : r.2 = [message.rotated angle] := by
  unfold rotate_all at h
  split_ifs at h
  · cases h; rfl
  · split at h
    · simp at h
    · cases h; rfl

theorem rotate_area_output (image : image_t) (selection : area_t) (angle : Int)
    (r : image_t × List message) (h : rotate_area image selection angle = some r) :
    r.2 = [message.rotated angle] := by
  unfold rotate_area at h
  split at h
  · simp at h
  · split_ifs at h
    · cases h; rfl
    · split at h
      · simp at h
      · cases h; rfl

theorem rotate_command_error (image : image_t) (selection : area_t) (p1 : List Nat)
    (r : image_t × List message) (h : rotate_command image selection p1 = some r)
    (he : ∃ m ∈ r.2, m.is_error = true) : r.1 = image := by
  simp only [rotate_command] at h
  split_ifs at h
  · cases h; rfl
  · cases h; rfl
  · cases h; rfl
  · rw [rotate_all_output image _ r h] at he
    simp [message.is_error] at he
  · cases h; rfl
  · rw [rotate_area_output image selection _ r h] at he
    simp [message.is_error] at he

theorem apply_command_error (image : image_t) (selection : area_t) (p1 p2 : List Nat)
    (r : image_t × List message) (h : apply_command image selection p1 p2 = some r)
    (he : ∃ m ∈ r.2, m.is_error = true) : r.1 = image := by
  unfold apply_command at h
  by_cases h1 : image.picture.isNone = true
  · rw [if_pos h1] at h; cases h; rfl
  rw [if_neg h1] at h
  by_cases h2 : p1.length = 0 ∨ p2.length ≠ 0
  · rw [if_pos h2] at h; cases h; rfl
  rw [if_neg h2] at h
  by_cases h3 : image.color = false
  · rw [if_pos h3] at h; cases h; rfl
  rw [if_neg h3] at h
  simp only at h
  split at h
  · cases h; rfl
  · simp at h
  · cases h
    simp [message.is_error] at he

theorem save_file_output (disk : disk_t) (file_name header : List Nat) (body : Option (List Nat))
    (r : disk_t × List message) (h : save_file disk file_name header body = some r) :
    ∀ m ∈ r.2, m.is_error = false := by
  unfold save_file at h
  split_ifs at h
  · cases h; simp
  · split at h
    · simp at h
    · cases h; simp [message.is_error]

theorem equalize_output (image : image_t) (r : image_t × List message)
    (h : equalize image = some r) : r.2 = [message.equalize_done] := by
  unfold equalize at h
  split at h
  · simp at h
  · split_ifs at h
    cases h; rfl

theorem crop_output (image : image_t) (selection : area_t)
    (r : image_t × area_t × List message) (h : crop image selection = some r) :
    r.2.2 = [message.image_cropped] := by
  obtain ⟨⟨picture, hp⟩, h1, h2, h3, h4⟩ := crop_some_bounds image selection r h
  rw [crop_eq_some image selection picture hp h1 h2 h3 h4] at h
  cases h; rfl

theorem read_image_picture (file : FILE) (image : image_t)
    (h : read_image file = some (some image)) : image.picture.isSome = true := by
  unfold read_image at h
  split at h
  · simp at h
  split at h
  · simp at h
  split_ifs at h
  · split at h
    · simp at h
    split at h
    · simp at h
    split at h
    · simp at h
    split at h
    · simp at h
    split at h
    · simp at h
    split at h
    · simp at h
    · simp only [Option.some.injEq] at h
      subst h
      rfl
  · simp at h

theorem load_command_result (disk : disk_t) (image : image_t) (selection : area_t)
    (file_name : List Nat) (r : image_t × area_t × List message)
    (h : load_command disk image selection file_name = some r) :
    (r = (empty_image, selection, [message.failed_to_load file_name]) ∧
      (disk.read file_name = none ∨
        ∃ file, disk.read file_name = some file ∧ read_image file = some none)) ∨
    (r.2.2 = [message.loaded file_name] ∧ r.1.picture.isSome = true ∧
      ∃ file, disk.read file_name = some file ∧ read_image file = some (some r.1)) := by
  unfold load_command load_image at h
  cases hd : disk.read file_name with
  | none =>
    simp only [hd] at h
    rw [if_neg (by simp [empty_image])] at h
    cases h
    exact Or.inl ⟨rfl, Or.inl rfl⟩
  | some file =>
    simp only [hd] at h
    cases hr : read_image file with
    | none => simp [hr] at h
    | some res =>
      cases res with
      | none =>
        simp only [hr] at h
        rw [if_neg (by simp [empty_image])] at h
        cases h
        exact Or.inl ⟨rfl, Or.inr ⟨file, rfl, hr⟩⟩
      | some loaded =>
        simp only [hr] at h
        split_ifs at h with hl
        · cases h
          exact Or.inr ⟨rfl, hl, file, rfl, hr⟩
        · exact absurd (read_image_picture file loaded hr) hl

theorem load_image_of_read (disk : disk_t) (file_name : List Nat) (file : FILE)
    (loaded : image_t) (h1 : disk.read file_name = some file)
    (h2 : read_image file = some (some loaded)) :
    load_image disk file_name = some (loaded, [message.loaded file_name]) := by
  unfold load_image
  simp only [h1, h2]

theorem load_command_of_read (disk : disk_t) (image : image_t) (selection : area_t)
    (file_name : List Nat) (file : FILE) (loaded : image_t)
    (h1 : disk.read file_name = some file) (h2 : read_image file = some (some loaded)) :
    load_command disk image selection file_name =
      some (loaded, ⟨true, 0, 0, loaded.width, loaded.height⟩,
        [message.loaded file_name]) := by
  unfold load_command
  rw [load_image_of_read disk file_name file loaded h1 h2]
  simp only [read_image_picture file loaded h2, if_true]

theorem main_step_load (s : session_t) (file_name p3 p4 p5 : List Nat) (file : FILE)
    (loaded : image_t) (hlen : file_name.length ≠ 0)
    (h1 : s.disk.read file_name = some file) (h2 : read_image file = some (some loaded)) :
    main_step s (str "LOAD") file_name [] p3 p4 p5 =
      some ({ s with image := loaded,
                     selection := ⟨true, 0, 0, loaded.width, loaded.height⟩ },
        [message.loaded file_name], false) := by
  have e1 : str "LOAD" ≠ str "EXIT" := by decide
  unfold main_step
  rw [if_neg e1, if_pos ⟨rfl, hlen, rfl⟩]
  simp only [load_command_of_read s.disk s.image s.selection file_name file loaded h1 h2]

/-- Claim C3 (amended).  Every command that fails (prints an error message)
leaves the selection as it was, and leaves the image as it was unless it is a
LOAD whose file cannot be opened or for which `read_image` returns `false`;
such a LOAD frees the image that was loaded, so that no image is loaded
afterwards, and leaves the selection as it was. -/
theorem failed_command_state (s : session_t) (command p1 p2 p3 p4 p5 : List Nat) :
    (∀ r, main_step s command p1 p2 p3 p4 p5 = some r →
      (∃ m ∈ r.2.1, m.is_error = true) →
      r.1.selection = s.selection ∧
      (r.1.image = s.image ∨
        (command = str "LOAD" ∧ r.1.image = empty_image ∧ r.1.image.picture = none ∧
          r.2.1 = [message.failed_to_load p1] ∧
          (s.disk.read p1 = none ∨
            ∃ file, s.disk.read p1 = some file ∧ read_image file = some none)))) ∧
    (p1.length ≠ 0 →
      (s.disk.read p1 = none ∨
        ∃ file, s.disk.read p1 = some file ∧ read_image file = some none) →
      main_step s (str "LOAD") p1 [] p3 p4 p5 =
        some ({ s with image := empty_image }, [message.failed_to_load p1], false)) := by
  constructor
  · intro r h hfail
    unfold main_step at h
    by_cases c1 : command = str "EXIT"
    · rw [if_pos c1] at h
      by_cases c2 : s.image.picture.isNone = true
      · rw [if_pos c2] at h
        obtain rfl := Option.some.inj h
        exact ⟨rfl, Or.inl rfl⟩
      · rw [if_neg c2] at h
        obtain rfl := Option.some.inj h
        simp at hfail
    rw [if_neg c1] at h
    by_cases c2 : command = str "LOAD" ∧ p1.length ≠ 0 ∧ p2.length = 0
    · rw [if_pos c2] at h
      split at h
      · simp at h
      · rename_i image selection out hload
        obtain rfl := Option.some.inj h
        rcases load_command_result _ _ _ _ _ hload with ⟨hr, hwhy⟩ | ⟨hout, -, -⟩
        · cases hr
          exact ⟨rfl, Or.inr ⟨c2.1, rfl, rfl, rfl, hwhy⟩⟩
        · simp only at hout hfail
          rw [hout] at hfail
          simp [message.is_error] at hfail
    rw [if_neg c2] at h
    by_cases c3 : command = str "SELECT"
    · rw [if_pos c3] at h
      obtain rfl := Option.some.inj h
      exact ⟨select_command_error _ _ _ _ _ _ _ hfail, Or.inl rfl⟩
    rw [if_neg c3] at h
    by_cases c4 : command = str "HISTOGRAM"
    · rw [if_pos c4] at h
      split at h
      · simp at h
      · obtain rfl := Option.some.inj h
        exact ⟨rfl, Or.inl rfl⟩
    rw [if_neg c4] at h
    by_cases c5 : command = str "EQUALIZE" ∧ p1.length = 0
    · rw [if_pos c5] at h
      by_cases d1 : s.image.picture.isNone = true
      · rw [if_pos d1] at h
        obtain rfl := Option.some.inj h
        exact ⟨rfl, Or.inl rfl⟩
      rw [if_neg d1] at h
      by_cases d2 : s.image.color = true
      · rw [if_pos d2] at h
        obtain rfl := Option.some.inj h
        exact ⟨rfl, Or.inl rfl⟩
      rw [if_neg d2] at h
      split at h
      · simp at h
      · rename_i image out heq
        obtain rfl := Option.some.inj h
        have := equalize_output _ _ heq
        simp only at this hfail
        rw [this] at hfail
        simp [message.is_error] at hfail
    rw [if_neg c5] at h
    by_cases c6 : command = str "ROTATE"
    · rw [if_pos c6] at h
      split at h
      · simp at h
      · rename_i image out hrot
        obtain rfl := Option.some.inj h
        exact ⟨rfl, Or.inl (rotate_command_error _ _ _ _ hrot hfail)⟩
    rw [if_neg c6] at h
    by_cases c7 : command = str "CROP" ∧ p1.length = 0
    · rw [if_pos c7] at h
      by_cases d1 : s.image.picture.isNone = true
      · rw [if_pos d1] at h
        obtain rfl := Option.some.inj h
        exact ⟨rfl, Or.inl rfl⟩
      rw [if_neg d1] at h
      by_cases d2 : s.selection.all = true
      · rw [if_pos d2] at h
        obtain rfl := Option.some.inj h
        simp [message.is_error] at hfail
      rw [if_neg d2] at h
      split at h
      · simp at h
      · rename_i image selection out hcrop
        obtain rfl := Option.some.inj h
        have := crop_output _ _ _ hcrop
        simp only at this hfail
        rw [this] at hfail
        simp [message.is_error] at hfail
    rw [if_neg c7] at h
    by_cases c8 : command = str "APPLY"
    · rw [if_pos c8] at h
      split at h
      · simp at h
      · rename_i image out happ
        obtain rfl := Option.some.inj h
        exact ⟨rfl, Or.inl (apply_command_error _ _ _ _ _ happ hfail)⟩
    rw [if_neg c8] at h
    by_cases c9 : command = str "SAVE" ∧ p1.length ≠ 0
    · rw [if_pos c9] at h
      split at h
      · simp at h
      · obtain rfl := Option.some.inj h
        exact ⟨rfl, Or.inl rfl⟩
    rw [if_neg c9] at h
    obtain rfl := Option.some.inj h
    exact ⟨rfl, Or.inl rfl⟩
  · intro hlen hwhy
    have e1 : str "LOAD" ≠ str "EXIT" := by decide
    have hload : load_command s.disk s.image s.selection p1 =
        some (empty_image, s.selection, [message.failed_to_load p1]) := by
      unfold load_command load_image
      rcases hwhy with hnone | ⟨file, hfile, hread⟩
      · simp [hnone, empty_image]
      · simp [hfile, hread, empty_image]
    unfold main_step
    rw [if_neg e1, if_pos ⟨rfl, hlen, rfl⟩]
    simp only [hload]

/-- Witness of `failed_command_state`: with `small_image` loaded, `LOAD x` on a
disk without files leaves no image loaded and keeps the selection. -/
theorem failed_command_state_witness :
    main_step ⟨small_image, small_selection, empty_disk⟩ (str "LOAD") (str "x") [] [] [] [] =
      some (⟨empty_image, small_selection, empty_disk⟩, [message.failed_to_load (str "x")],
        false) :=
  (failed_command_state ⟨small_image, small_selection, empty_disk⟩ (str "LOAD") (str "x")
    [] [] [] []).2 (by decide) (Or.inl rfl)

/-- Claim C3, counterexample.  With the 2-by-3 image `small_image` loaded, a
LOAD of a file that cannot be opened, and a LOAD of a file for which
`read_image` returns `false` (magic number `P7`), both print "Failed to load"
and leave the session without a picture: the image is not what it was before
the command. -/
theorem failed_load_discards_image :
    small_image.picture ≠ none ∧
    (main_step ⟨small_image, small_selection, empty_disk⟩ (str "LOAD") (str "x") [] [] [] []).map
        (fun r => (r.1.image.picture, r.1.selection, r.2.1)) =
      some (none, small_selection, [message.failed_to_load (str "x")]) ∧
    read_image (str "P7\n1 1\n255\n0\n") = some none ∧
    (main_step ⟨small_image, small_selection, bad_disk⟩ (str "LOAD") (str "bad.pgm")
        [] [] [] []).map (fun r => (r.1.image.picture, r.1.selection, r.2.1)) =
      some (none, small_selection, [message.failed_to_load (str "bad.pgm")]) := by
  refine ⟨by decide, by decide, by decide, by decide⟩

/-! ## The invariant of the selection -/

/-- Claim C4, the failing input.  `small_image` (2 lines, 3 columns) with the
whole image selected satisfies the invariant of the selection; `ROTATE 90`
succeeds and gives an image of 3 lines and 2 columns, but the selection still
ends at line 2 and column 3: the invariant does not hold for the new image
(`column_end = 3` exceeds the width 2, and `all` is true although the
rectangle is not the full extent). -/
theorem rotate_breaks_selection_invariant :
    selection_ok small_image small_selection ∧
    (main_step ⟨small_image, small_selection, empty_disk⟩ (str "ROTATE") (str "90")
        [] [] [] []).map (fun r => (r.1.image, r.1.selection, r.2.1)) =
      some (⟨some [[⟨4, 4, 4⟩, ⟨1, 1, 1⟩], [⟨5, 5, 5⟩, ⟨2, 2, 2⟩], [⟨6, 6, 6⟩, ⟨3, 3, 3⟩]],
          false, 3, 2⟩, small_selection, [message.rotated 90]) ∧
    ¬ selection_ok
      ⟨some [[⟨4, 4, 4⟩, ⟨1, 1, 1⟩], [⟨5, 5, 5⟩, ⟨2, 2, 2⟩], [⟨6, 6, 6⟩, ⟨3, 3, 3⟩]], false, 3, 2⟩
      small_selection := by
  refine ⟨by decide, by decide, by decide⟩


/-! ## Printing and scanning numbers -/

theorem isdigit_iff (c : Nat) : isdigit c = true ↔ 48 ≤ c ∧ c ≤ 57 := by
  simp [isdigit]

theorem isspace_iff (c : Nat) : isspace c = true ↔ c = 32 ∨ (9 ≤ c ∧ c ≤ 13) := by
  simp [isspace]

/-- The digits `print_digits` writes: they are decimal digits, at least one, and
reading them from the left gives the number back. -/
theorem print_digits_spec (fuel : Nat) : ∀ (n : Nat) (acc : List Nat), n < 10 ^ (fuel + 1) →
    ∃ ds : List Nat, print_digits (fuel + 1) n acc = ds ++ acc ∧ ds ≠ [] ∧
      (∀ d ∈ ds, isdigit d = true) ∧
      ∀ a : Nat, ds.foldl (fun x d => x * 10 + (d - 48)) a = a * 10 ^ ds.length + n := by
  induction fuel with
  | zero =>
    intro n acc hn
    have hn' : n < 10 := by simpa using hn
    refine ⟨[48 + n], by simp [print_digits, hn'], by simp, ?_, ?_⟩
    · intro d hd
      simp only [List.mem_singleton] at hd
      subst hd
      rw [isdigit_iff]; omega
    · intro a
      simp
  | succ f ih =>
    intro n acc hn
    by_cases h10 : n < 10
    · refine ⟨[48 + n], by simp [print_digits, h10], by simp, ?_, ?_⟩
      · intro d hd
        simp only [List.mem_singleton] at hd
        subst hd
        rw [isdigit_iff]; omega
      · intro a
        simp
    · have hdiv : n / 10 < 10 ^ (f + 1) := by
        rw [Nat.div_lt_iff_lt_mul (by norm_num)]
        rw [pow_succ] at hn
        exact hn
      obtain ⟨ds, hds, hne, hdig, hval⟩ := ih (n / 10) ((48 + n % 10) :: acc) hdiv
      refine ⟨ds ++ [48 + n % 10], ?_, by simp, ?_, ?_⟩
      · rw [print_digits, if_neg h10, hds]
        simp
      · intro d hd
        rw [List.mem_append] at hd
        rcases hd with hd | hd
        · exact hdig d hd
        · simp only [List.mem_singleton] at hd
          subst hd
          rw [isdigit_iff]; omega
      · intro a
        rw [List.foldl_append, hval]
        simp only [List.foldl_cons, List.foldl_nil, List.length_append, List.length_singleton]
        have : 48 + n % 10 - 48 = n % 10 := by omega
        rw [this, pow_succ]
        have := Nat.div_add_mod n 10
        nlinarith [this]

theorem scan_digits_append (ds : List Nat) (hds : ∀ d ∈ ds, isdigit d = true) (c : Nat)
    (hc : isdigit c = false) (rest : FILE) (a : Nat) :
    scan_digits a (ds ++ c :: rest) = (ds.foldl (fun x d => x * 10 + (d - 48)) a, c :: rest) := by
  induction ds generalizing a with
  | nil => simp [scan_digits, hc]
  | cons d ds ih =>
    have hd : isdigit d = true := hds d (List.mem_cons_self _ _)
    simp only [List.cons_append, scan_digits, hd, if_true, List.foldl_cons]
    exact ih (fun x hx => hds x (List.mem_cons_of_mem _ hx)) _

theorem skip_space_append (ws : List Nat) (hws : ∀ c ∈ ws, isspace c = true) (c : Nat)
    (hc : isspace c = false) (rest : FILE) :
    skip_space (ws ++ c :: rest) = c :: rest := by
  induction ws with
  | nil => simp [skip_space, hc]
  | cons w ws ih =>
    have hw : isspace w = true := hws w (List.mem_cons_self _ _)
    simp only [List.cons_append, skip_space, hw, if_true]
    exact ih (fun x hx => hws x (List.mem_cons_of_mem _ hx))

/-- Reading with `%hd` the decimal digits of a number below `65536`, after any
white space and before a character that is not a digit, gives the number back. -/
theorem fscanf_hd_digits (n : Nat) (hn : n < 65536) (ws : List Nat)
    (hws : ∀ c ∈ ws, isspace c = true) (c : Nat) (hc : isdigit c = false) (rest : FILE) :
    fscanf_hd (ws ++ print_digits 5 n [] ++ c :: rest) = (some n, c :: rest) := by
  obtain ⟨ds, h1, h2, h3, h4⟩ := print_digits_spec 4 n [] (by norm_num; omega)
  rw [List.append_nil] at h1
  rw [h1]
  obtain ⟨d, ds', rfl⟩ := List.exists_cons_of_ne_nil h2
  have hd : isdigit d = true := h3 d (List.mem_cons_self _ _)
  have hd' := (isdigit_iff d).mp hd
  have hsp : isspace d = false := by
    cases h : isspace d with
    | false => rfl
    | true => rw [isspace_iff] at h; omega
  have hscan := scan_digits_append (d :: ds') h3 c hc rest 0
  rw [h4 0] at hscan
  simp only [zero_mul, zero_add] at hscan
  have hskip : skip_space (ws ++ (d :: ds') ++ c :: rest) = d :: (ds' ++ c :: rest) := by
    rw [List.append_assoc]
    exact skip_space_append ws hws d hsp _
  have h45 : d ≠ 45 := by omega
  have h43 : d ≠ 43 := by omega
  have hsi : scan_int (ws ++ (d :: ds') ++ c :: rest) = (some (n : Int), c :: rest) := by
    unfold scan_int
    rw [hskip]
    simp only [h45, h43, hd, if_false, if_true]
    rw [show d :: (ds' ++ c :: rest) = (d :: ds') ++ c :: rest from rfl, hscan]
  unfold fscanf_hd
  rw [hsi]
  simp only [Option.map_some']
  have : to_ushort (to_long (n : Int)) = n := by
    unfold to_long
    rw [if_neg (by omega), if_neg (by omega)]
    exact to_ushort_natCast n hn
  rw [this]

/-- The conversion `%hd` of a number between 0 and 32767 writes its decimal digits. -/
theorem print_hd_eq (n : Nat) (hn : n ≤ 32767) : print_hd (n : Int) = print_digits 5 n [] := by
  have hs : to_short (n : Int) = n := by unfold to_short; omega
  unfold print_hd
  rw [hs, if_neg (by omega)]
  rfl

/-- The first character written for a number below `65536` is a digit. -/
theorem print_digits_head (n : Nat) (hn : n < 65536) :
    ∃ d ds, print_digits 5 n [] = d :: ds ∧ isdigit d = true := by
  obtain ⟨ds, h1, h2, h3, -⟩ := print_digits_spec 4 n [] (by norm_num; omega)
  rw [List.append_nil] at h1
  obtain ⟨d, ds', rfl⟩ := List.exists_cons_of_ne_nil h2
  exact ⟨d, ds', h1, h3 d (List.mem_cons_self _ _)⟩

/-- Reading with `%hd` what `%hd` has printed, after any white space and before
a character that is not a digit, gives the number back. -/
theorem fscanf_hd_print_hd (n : Nat) (hn : n ≤ 32767) (ws : List Nat)
    (hws : ∀ c ∈ ws, isspace c = true) (c : Nat) (hc : isdigit c = false) (rest : FILE) :
    fscanf_hd (ws ++ print_hd (n : Int) ++ c :: rest) = (some n, c :: rest) := by
  rw [print_hd_eq n hn]
  exact fscanf_hd_digits n (by omega) ws hws c hc rest


/-! ## Saving: the bytes written -/

theorem range_map_pixel_at (picture : List (List pixel_t)) (height width : Nat)
    (h : picture_shape picture height width) {β : Type} (F : List pixel_t → β) :
    (List.range height).map (fun line =>
      F ((List.range width).map (fun column => pixel_at picture line column))) =
    picture.map F := by
  have := fill_picture_pixel_at picture height width h
  conv_rhs => rw [← this]
  simp [fill_picture, List.map_map, Function.comp_def]

theorem save_lines_eq (image : image_t) (picture : List (List pixel_t))
    (hshape : picture_shape picture image.height image.width)
    (hh : image.height ≤ 32767) (hw : image.width ≤ 32767)
    (cell : pixel_t → List Nat) (eol : List Nat) :
    save_lines image (fun line column => cell (pixel_at picture line column)) eol =
      some (encode_picture cell eol picture) := by
  unfold save_lines encode_picture
  rw [short_loop_of_le _ (by omega), short_loop_of_le _ (by omega)]
  simp only [Int.toNat_ofNat]
  rw [for_each_some]
  simp only [Option.map_some']
  congr 2
  have := range_map_pixel_at picture image.height image.width hshape
    (fun row => (row.map cell).flatten ++ eol)
  simp only [List.map_map, Function.comp_def] at this
  exact this


/-! ## Reading back what was saved -/

theorem rescale_max_value (v : Nat) (hv : v ≤ 255) : rescale v 255 = some v := by
  rw [rescale_eq 255 v (by norm_num) hv (by norm_num)]
  congr 1
  unfold round_half_up
  have e : ((v : ℚ) * 255) / ((255 : Nat) : ℚ) + 1 / 2 = ((v : Int) : ℚ) + 1 / 2 := by
    push_cast
    field_simp
  rw [e, Int.floor_int_add]
  norm_num

theorem read_P5_line_encoded (row : List pixel_t) (rest : FILE) (byte : Option Nat)
    (hrow : ∀ p ∈ row, p.red ≤ 255 ∧ p.green = p.red ∧ p.blue = p.red) :
    ∃ byte', read_P5_line 255 row.length ((row.map (fun p => fputc p.red)).flatten ++ rest) byte =
      some (row, rest, byte') := by
  induction row generalizing byte with
  | nil => exact ⟨byte, rfl⟩
  | cons p ps ih =>
    obtain ⟨h1, h2, h3⟩ := hrow p (List.mem_cons_self _ _)
    obtain ⟨byte', hb⟩ := ih (some p.red) (fun q hq => hrow q (List.mem_cons_of_mem _ hq))
    refine ⟨byte', ?_⟩
    have hp : (⟨p.red, p.red, p.red⟩ : pixel_t) = p := by
      cases p; simp_all
    have hstream : (List.map (fun p => fputc p.red) (p :: ps)).flatten ++ rest =
        (p.red % 256) :: ((List.map (fun p => fputc p.red) ps).flatten ++ rest) := rfl
    rw [hstream, Nat.mod_eq_of_lt (show p.red < 256 by omega)]
    simp only [List.length_cons, read_P5_line, next_byte,
      Nat.mod_eq_of_lt (show p.red < 256 by omega), rescale_max_value p.red h1, hb, hp]

theorem read_P5_lines_encoded (picture : List (List pixel_t)) (width : Nat)
    (hshape : ∀ row ∈ picture, row.length = width)
    (hrange : channels_in_range picture) (hgray : grayscale picture)
    (rest : FILE) (byte : Option Nat) :
    read_P5_lines 255 width picture.length
      (encode_picture (fun p => fputc p.red) [] picture ++ rest) byte = some picture := by
  induction picture generalizing byte with
  | nil => rfl
  | cons row rows ih =>
    have hrow : ∀ p ∈ row, p.red ≤ 255 ∧ p.green = p.red ∧ p.blue = p.red := by
      intro p hp
      exact ⟨(hrange row (List.mem_cons_self _ _) p hp).1, hgray row (List.mem_cons_self _ _) p hp⟩
    have hlen : row.length = width := hshape row (List.mem_cons_self _ _)
    obtain ⟨byte', hb⟩ := read_P5_line_encoded row
      (encode_picture (fun p => fputc p.red) [] rows ++ rest) byte hrow
    have hrest := ih (fun r hr => hshape r (List.mem_cons_of_mem _ hr))
      (fun r hr => hrange r (List.mem_cons_of_mem _ hr))
      (fun r hr => hgray r (List.mem_cons_of_mem _ hr)) byte'
    have henc : encode_picture (fun p => fputc p.red) [] (row :: rows) ++ rest =
        (row.map (fun p => fputc p.red)).flatten ++
          (encode_picture (fun p => fputc p.red) [] rows ++ rest) := by
      simp [encode_picture]
    rw [henc, List.length_cons, read_P5_lines, ← hlen, hb]
    simp only
    rw [hlen, hrest]

theorem read_P6_line_encoded (row : List pixel_t) (rest : FILE) (byte : Option Nat)
    (hrow : ∀ p ∈ row, p.red ≤ 255 ∧ p.green ≤ 255 ∧ p.blue ≤ 255) :
    ∃ byte', read_P6_line 255 row.length
        ((row.map (fun p => fputc p.red ++ fputc p.green ++ fputc p.blue)).flatten ++ rest) byte =
      some (row, rest, byte') := by
  induction row generalizing byte with
  | nil => exact ⟨byte, rfl⟩
  | cons p ps ih =>
    obtain ⟨h1, h2, h3⟩ := hrow p (List.mem_cons_self _ _)
    obtain ⟨byte', hb⟩ := ih (some p.blue) (fun q hq => hrow q (List.mem_cons_of_mem _ hq))
    refine ⟨byte', ?_⟩
    have hstream : (List.map (fun p => fputc p.red ++ fputc p.green ++ fputc p.blue)
          (p :: ps)).flatten ++ rest =
        (p.red % 256) :: (p.green % 256) :: (p.blue % 256) ::
          ((List.map (fun p => fputc p.red ++ fputc p.green ++ fputc p.blue) ps).flatten ++
            rest) := rfl
    rw [hstream]
    simp only [List.length_cons, read_P6_line, next_byte,
      Nat.mod_eq_of_lt (show p.red < 256 by omega),
      Nat.mod_eq_of_lt (show p.green < 256 by omega),
      Nat.mod_eq_of_lt (show p.blue < 256 by omega),
      rescale_max_value p.red h1, rescale_max_value p.green h2, rescale_max_value p.blue h3, hb]

theorem read_P6_lines_encoded (picture : List (List pixel_t)) (width : Nat)
    (hshape : ∀ row ∈ picture, row.length = width)
    (hrange : channels_in_range picture) (rest : FILE) (byte : Option Nat) :
    read_P6_lines 255 width picture.length
      (encode_picture (fun p => fputc p.red ++ fputc p.green ++ fputc p.blue) [] picture ++ rest)
      byte = some picture := by
  induction picture generalizing byte with
  | nil => rfl
  | cons row rows ih =>
    have hlen : row.length = width := hshape row (List.mem_cons_self _ _)
    obtain ⟨byte', hb⟩ := read_P6_line_encoded row
      (encode_picture (fun p => fputc p.red ++ fputc p.green ++ fputc p.blue) [] rows ++ rest)
      byte (hrange row (List.mem_cons_self _ _))
    have hrest := ih (fun r hr => hshape r (List.mem_cons_of_mem _ hr))
      (fun r hr => hrange r (List.mem_cons_of_mem _ hr)) byte'
    have henc : encode_picture (fun p => fputc p.red ++ fputc p.green ++ fputc p.blue) []
          (row :: rows) ++ rest =
        (row.map (fun p => fputc p.red ++ fputc p.green ++ fputc p.blue)).flatten ++
          (encode_picture (fun p => fputc p.red ++ fputc p.green ++ fputc p.blue) [] rows ++
            rest) := by
      simp [encode_picture]
    rw [henc, List.length_cons, read_P6_lines, ← hlen, hb]
    simp only
    rw [hlen, hrest]


theorem isspace_32 : isspace 32 = true := by decide
theorem isdigit_32 : isdigit 32 = false := by decide
theorem isspace_10 : isspace 10 = true := by decide
theorem isdigit_10 : isdigit 10 = false := by decide

/-- One sample written with `"%3hd "` is read back by `fscanf("%hd")`, which
stops in front of the space that follows it. -/
theorem next_value_print_3hd (v : Nat) (hv : v ≤ 32767) (ws : List Nat)
    (hws : ∀ c ∈ ws, isspace c = true) (rest : FILE) (value : Option Nat) :
    next_value (ws ++ (print_3hd (v : Int) ++ [32]) ++ rest) value = (some v, 32 :: rest) := by
  have hws' : ∀ c ∈ ws ++ List.replicate (3 - (print_hd (v : Int)).length) 32,
      isspace c = true := by
    intro c hc
    rw [List.mem_append] at hc
    rcases hc with hc | hc
    · exact hws c hc
    · rw [List.eq_of_mem_replicate hc]; exact isspace_32
  have h := fscanf_hd_print_hd v hv _ hws' 32 isdigit_32 rest
  have hstream : ws ++ (print_3hd (v : Int) ++ [32]) ++ rest =
      (ws ++ List.replicate (3 - (print_hd (v : Int)).length) 32) ++ print_hd (v : Int) ++
        32 :: rest := by
    simp [print_3hd, List.append_assoc]
  unfold next_value
  rw [hstream, h]
  rfl

theorem read_P2_line_encoded (row : List pixel_t) (rest : FILE)
    (hrow : ∀ p ∈ row, p.red ≤ 255 ∧ p.green = p.red ∧ p.blue = p.red) :
    ∀ (ws : List Nat) (value : Option Nat), (∀ c ∈ ws, isspace c = true) →
    ∃ ws' value', (∀ c ∈ ws', isspace c = true) ∧
      read_P2_line 255 row.length
        (ws ++ (row.map (fun p => print_3hd (p.red : Int) ++ [32])).flatten ++ rest) value =
      some (row, ws' ++ rest, value') := by
  induction row with
  | nil =>
    intro ws value hws
    exact ⟨ws, value, hws, by simp [read_P2_line]⟩
  | cons p ps ih =>
    intro ws value hws
    obtain ⟨h1, h2, h3⟩ := hrow p (List.mem_cons_self _ _)
    obtain ⟨ws', value', hws', hb⟩ := ih (fun q hq => hrow q (List.mem_cons_of_mem _ hq))
      [32] (some p.red) (by simp [isspace_32])
    refine ⟨ws', value', hws', ?_⟩
    have hp : (⟨p.red, p.red, p.red⟩ : pixel_t) = p := by
      cases p; simp_all
    have hstream : ws ++ (List.map (fun p => print_3hd (p.red : Int) ++ [32]) (p :: ps)).flatten ++
        rest = ws ++ (print_3hd (p.red : Int) ++ [32]) ++
          ((List.map (fun p => print_3hd (p.red : Int) ++ [32]) ps).flatten ++ rest) := by
      simp [List.append_assoc]
    have hnext := next_value_print_3hd p.red (by omega) ws hws
      ((List.map (fun p => print_3hd (p.red : Int) ++ [32]) ps).flatten ++ rest) value
    have hb' : read_P2_line 255 ps.length
        (32 :: ((List.map (fun p => print_3hd (p.red : Int) ++ [32]) ps).flatten ++ rest))
        (some p.red) = some (ps, ws' ++ rest, value') := by
      have : 32 :: ((List.map (fun p => print_3hd (p.red : Int) ++ [32]) ps).flatten ++ rest) =
          [32] ++ (List.map (fun p => print_3hd (p.red : Int) ++ [32]) ps).flatten ++ rest := by
        simp
      rw [this]; exact hb
    rw [hstream]
    simp only [List.length_cons, read_P2_line, hnext, rescale_max_value p.red h1, hb', hp]

theorem read_P2_lines_encoded (picture : List (List pixel_t)) (width : Nat)
    (hshape : ∀ row ∈ picture, row.length = width)
    (hrange : channels_in_range picture) (hgray : grayscale picture) (rest : FILE) :
    ∀ (ws : List Nat) (value : Option Nat), (∀ c ∈ ws, isspace c = true) →
    read_P2_lines 255 width picture.length
      (ws ++ encode_picture (fun p => print_3hd (p.red : Int) ++ [32]) [10] picture ++ rest)
      value = some picture := by
  induction picture with
  | nil => intro ws value hws; rfl
  | cons row rows ih =>
    intro ws value hws
    have hrow : ∀ p ∈ row, p.red ≤ 255 ∧ p.green = p.red ∧ p.blue = p.red := by
      intro p hp
      exact ⟨(hrange row (List.mem_cons_self _ _) p hp).1, hgray row (List.mem_cons_self _ _) p hp⟩
    have hlen : row.length = width := hshape row (List.mem_cons_self _ _)
    obtain ⟨ws', value', hws', hb⟩ := read_P2_line_encoded row
      ([10] ++ encode_picture (fun p => print_3hd (p.red : Int) ++ [32]) [10] rows ++ rest)
      hrow ws value hws
    have hrest := ih (fun r hr => hshape r (List.mem_cons_of_mem _ hr))
      (fun r hr => hrange r (List.mem_cons_of_mem _ hr))
      (fun r hr => hgray r (List.mem_cons_of_mem _ hr)) (ws' ++ [10]) value'
      (by
        intro c hc
        rw [List.mem_append] at hc
        rcases hc with hc | hc
        · exact hws' c hc
        · simp only [List.mem_singleton] at hc; subst hc; exact isspace_10)
    have henc : ws ++ encode_picture (fun p => print_3hd (p.red : Int) ++ [32]) [10]
          (row :: rows) ++ rest =
        ws ++ (row.map (fun p => print_3hd (p.red : Int) ++ [32])).flatten ++
          ([10] ++ encode_picture (fun p => print_3hd (p.red : Int) ++ [32]) [10] rows ++
            rest) := by
      simp [encode_picture, List.append_assoc]
    have hnext : ws' ++ ([10] ++ encode_picture (fun p => print_3hd (p.red : Int) ++ [32]) [10]
          rows ++ rest) =
        (ws' ++ [10]) ++ encode_picture (fun p => print_3hd (p.red : Int) ++ [32]) [10] rows ++
          rest := by
      simp [List.append_assoc]
    rw [henc, List.length_cons, read_P2_lines, ← hlen, hb]
    simp only
    rw [hlen, hnext, hrest]


theorem read_P3_line_encoded (row : List pixel_t) (rest : FILE)
    (hrow : ∀ p ∈ row, p.red ≤ 255 ∧ p.green ≤ 255 ∧ p.blue ≤ 255) :
    ∀ (ws : List Nat) (value : Option Nat), (∀ c ∈ ws, isspace c = true) →
    ∃ ws' value', (∀ c ∈ ws', isspace c = true) ∧
      read_P3_line 255 row.length
        (ws ++ (row.map (fun p => print_3hd (p.red : Int) ++ [32] ++
          print_3hd (p.green : Int) ++ [32] ++ print_3hd (p.blue : Int) ++ [32])).flatten ++ rest)
        value =
      some (row, ws' ++ rest, value') := by
  induction row with
  | nil =>
    intro ws value hws
    exact ⟨ws, value, hws, by simp [read_P3_line]⟩
  | cons p ps ih =>
    intro ws value hws
    obtain ⟨h1, h2, h3⟩ := hrow p (List.mem_cons_self _ _)
    obtain ⟨ws', value', hws', hb⟩ := ih (fun q hq => hrow q (List.mem_cons_of_mem _ hq))
      [32] (some p.blue) (by simp [isspace_32])
    refine ⟨ws', value', hws', ?_⟩
    generalize hT : (List.map (fun p => print_3hd (p.red : Int) ++ [32] ++
          print_3hd (p.green : Int) ++ [32] ++ print_3hd (p.blue : Int) ++ [32]) ps).flatten ++
          rest = tail at hb
    have hstream : ws ++ (List.map (fun p => print_3hd (p.red : Int) ++ [32] ++
          print_3hd (p.green : Int) ++ [32] ++ print_3hd (p.blue : Int) ++ [32])
          (p :: ps)).flatten ++ rest =
        ws ++ (print_3hd (p.red : Int) ++ [32]) ++
          ((print_3hd (p.green : Int) ++ [32]) ++ ((print_3hd (p.blue : Int) ++ [32]) ++ tail)) := by
      rw [← hT]
      simp [List.append_assoc]
    have hn1 := next_value_print_3hd p.red (by omega) ws hws
      ((print_3hd (p.green : Int) ++ [32]) ++ ((print_3hd (p.blue : Int) ++ [32]) ++ tail)) value
    have hn2 := next_value_print_3hd p.green (by omega) [32] (by simp [isspace_32])
      ((print_3hd (p.blue : Int) ++ [32]) ++ tail) (some p.red)
    have hn3 := next_value_print_3hd p.blue (by omega) [32] (by simp [isspace_32])
      tail (some p.green)
    have e2 : 32 :: ((print_3hd (p.green : Int) ++ [32]) ++
        ((print_3hd (p.blue : Int) ++ [32]) ++ tail)) =
        [32] ++ (print_3hd (p.green : Int) ++ [32]) ++
          ((print_3hd (p.blue : Int) ++ [32]) ++ tail) := by simp
    have e3 : 32 :: ((print_3hd (p.blue : Int) ++ [32]) ++ tail) =
        [32] ++ (print_3hd (p.blue : Int) ++ [32]) ++ tail := by simp
    have hb' : read_P3_line 255 ps.length (32 :: tail) (some p.blue) =
        some (ps, ws' ++ rest, value') := by
      have : 32 :: tail = [32] ++ tail := rfl
      rw [this, ← hT, ← List.append_assoc]
      exact hb
    rw [hstream]
    simp only [List.length_cons, read_P3_line, hn1]
    rw [e2]
    simp only [hn2]
    rw [e3]
    simp only [hn3, rescale_max_value p.red h1, rescale_max_value p.green h2,
      rescale_max_value p.blue h3, hb']

theorem read_P3_lines_encoded (picture : List (List pixel_t)) (width : Nat)
    (hshape : ∀ row ∈ picture, row.length = width)
    (hrange : channels_in_range picture) (rest : FILE) :
    ∀ (ws : List Nat) (value : Option Nat), (∀ c ∈ ws, isspace c = true) →
    read_P3_lines 255 width picture.length
      (ws ++ encode_picture (fun p => print_3hd (p.red : Int) ++ [32] ++
          print_3hd (p.green : Int) ++ [32] ++ print_3hd (p.blue : Int) ++ [32]) [10] picture ++
        rest)
      value = some picture := by
  induction picture with
  | nil => intro ws value hws; rfl
  | cons row rows ih =>
    intro ws value hws
    have hlen : row.length = width := hshape row (List.mem_cons_self _ _)
    generalize hcell : (fun p : pixel_t => print_3hd (p.red : Int) ++ [32] ++
          print_3hd (p.green : Int) ++ [32] ++ print_3hd (p.blue : Int) ++ [32]) = cell at ih ⊢
    obtain ⟨ws', value', hws', hb⟩ := read_P3_line_encoded row
      ([10] ++ encode_picture cell [10] rows ++ rest)
      (hrange row (List.mem_cons_self _ _)) ws value hws
    rw [hcell] at hb
    have hrest := ih (fun r hr => hshape r (List.mem_cons_of_mem _ hr))
      (fun r hr => hrange r (List.mem_cons_of_mem _ hr)) (ws' ++ [10]) value'
      (by
        intro c hc
        rw [List.mem_append] at hc
        rcases hc with hc | hc
        · exact hws' c hc
        · simp only [List.mem_singleton] at hc; subst hc; exact isspace_10)
    have henc : ws ++ encode_picture cell [10] (row :: rows) ++ rest =
        ws ++ (row.map cell).flatten ++ ([10] ++ encode_picture cell [10] rows ++ rest) := by
      simp [encode_picture, List.append_assoc]
    have hnext : ws' ++ ([10] ++ encode_picture cell [10] rows ++ rest) =
        (ws' ++ [10]) ++ encode_picture cell [10] rows ++ rest := by
      simp [List.append_assoc]
    rw [henc, List.length_cons, read_P3_lines, ← hlen, hb]
    simp only
    rw [hlen, hnext, hrest]


theorem fgets_line (line : List Nat) (hline : 10 ∉ line) (rest : FILE) :
    ∀ limit : Nat, line.length < limit → fgets limit (line ++ 10 :: rest) = rest := by
  induction line with
  | nil =>
    intro limit hl
    obtain ⟨k, rfl⟩ : ∃ k, limit = k + 1 := ⟨limit - 1, by simp at hl; omega⟩
    simp [fgets]
  | cons c cs ih =>
    intro limit hl
    obtain ⟨k, rfl⟩ : ∃ k, limit = k + 1 := ⟨limit - 1, by simp at hl; omega⟩
    have hc : c ≠ 10 := fun h => hline (by simp [h])
    have hcs : 10 ∉ cs := fun h => hline (List.mem_cons_of_mem _ h)
    simp only [List.cons_append, fgets, hc, if_false]
    exact ih hcs k (by simp at hl; omega)

theorem skip_comments_no_comment (c : Nat) (hc : c ≠ 35) (rest : FILE) :
    skip_comments (c :: rest) = some (c :: rest) := by
  simp [skip_comments, skip_comments_loop, hc]

/-- The function `skip_comments` in front of the comment line the save functions write, which is
followed by a character that is not `#`. -/
theorem skip_comments_saved (file_name : List Nat) (hname : file_name_ok file_name)
    (c : Nat) (hc : c ≠ 35) (rest : FILE) :
    skip_comments (str "# " ++ file_name ++ [10] ++ c :: rest) = some (c :: rest) := by
  obtain ⟨h10, hlen⟩ := hname
  have hstr : str "# " = [35, 32] := by decide
  have hline : 10 ∉ 32 :: file_name := by
    intro h
    rcases List.mem_cons.mp h with h | h
    · omega
    · exact h10 h
  have hf := fgets_line (32 :: file_name) hline (c :: rest) (MAX_INPUT_LINE_LENGTH - 1)
    (by simp only [List.length_cons, MAX_INPUT_LINE_LENGTH] at hlen ⊢; omega)
  have hstream : str "# " ++ file_name ++ [10] ++ c :: rest =
      35 :: ((32 :: file_name) ++ 10 :: c :: rest) := by
    rw [hstr]; simp
  rw [hstream]
  simp only [skip_comments, List.length_cons, skip_comments_loop, if_true, hf, hc, if_false]

/-- Reading a header with a comment line: `read_image` reaches the pixels with
the magic number, the dimensions and the maximum value 255. -/
theorem read_image_pnm_header (m : Nat) (hm : m = 2 ∨ m = 3 ∨ m = 5 ∨ m = 6)
    (width height : Nat) (hw : width < 65536) (hh : height < 65536)
    (file_name : List Nat) (hname : file_name_ok file_name) (body : FILE) :
    read_image (pnm_header (48 + m) width height file_name ++ body) =
      (read_pixels m body
          { picture := none, color := decide (m = 3 ∨ m = 6),
            height := height, width := width } 255).map
        (fun picture => some (image_t.mk (some picture) (decide (m = 3 ∨ m = 6))
          height width)) := by
  obtain ⟨d, ds, hdw, hdig⟩ := print_digits_head width hw
  have hd35 : d ≠ 35 := by
    have := (isdigit_iff d).mp hdig
    omega
  have hpm : print_digits 5 m [] = [48 + m] := by
    rcases hm with h | h | h | h <;> subst h <;> decide
  have hm9 : m < 65536 := by omega
  -- the successive streams
  generalize hs4 : print_digits 5 255 [] ++ [10] ++ body = s4
  generalize hs3 : print_digits 5 height [] ++ [10] ++ s4 = s3
  generalize hs2 : print_digits 5 width [] ++ [32] ++ s3 = s2
  have hs2' : s2 = d :: (ds ++ [32] ++ s3) := by
    rw [← hs2, hdw]; rfl
  have hstream : pnm_header (48 + m) width height file_name ++ body =
      80 :: ([] ++ print_digits 5 m [] ++ 10 :: (str "# " ++ file_name ++ [10] ++ s2)) := by
    rw [← hs2, ← hs3, ← hs4, hpm]
    simp [pnm_header, List.append_assoc]
  have h1 : skip_comments (pnm_header (48 + m) width height file_name ++ body) =
      some (80 :: ([] ++ print_digits 5 m [] ++
        10 :: (str "# " ++ file_name ++ [10] ++ s2))) := by
    rw [hstream]
    exact skip_comments_no_comment 80 (by norm_num) _
  have h2 : fscanf_magic (80 :: ([] ++ print_digits 5 m [] ++
      10 :: (str "# " ++ file_name ++ [10] ++ s2))) =
      (some m, 10 :: (str "# " ++ file_name ++ [10] ++ s2)) := by
    unfold fscanf_magic
    exact fscanf_hd_digits m hm9 [] (by simp) 10 isdigit_10 _
  have h3 : skip_comments (fscanf_c (10 :: (str "# " ++ file_name ++ [10] ++ s2))) =
      some s2 := by
    rw [hs2']
    exact skip_comments_saved file_name hname d hd35 _
  have h4 : fscanf_hd s2 = (some width, 32 :: s3) := by
    rw [← hs2]
    have := fscanf_hd_digits width hw [] (by simp) 32 isdigit_32 s3
    simpa [List.append_assoc] using this
  have h5 : fscanf_hd (32 :: s3) = (some height, 10 :: s4) := by
    rw [← hs3]
    have := fscanf_hd_digits height hh [32] (by simp [isspace_32]) 10 isdigit_10 s4
    simpa [List.append_assoc] using this
  have h6 : skip_comments (10 :: s4) = some (10 :: s4) :=
    skip_comments_no_comment 10 (by norm_num) _
  have h7 : fscanf_hd (10 :: s4) = (some 255, 10 :: body) := by
    rw [← hs4]
    have := fscanf_hd_digits 255 (by norm_num) [10] (by simp [isspace_10]) 10 isdigit_10 body
    simpa [List.append_assoc] using this
  have h8 : fscanf_c (10 :: body) = body := rfl
  have hmagic : m = 2 ∨ m = 5 ∨ m = 3 ∨ m = 6 := by omega
  unfold read_image
  simp only [h1, h2, if_pos hmagic, h3, h4, h5, h6, h7, h8]
  cases read_pixels m body
    { picture := none, color := decide (m = 3 ∨ m = 6),
      height := height, width := width } 255 <;> rfl

/-- The header the save functions write for an image of at most 32767 lines and
columns. -/
theorem save_header_eq (magic : Nat) (image : image_t) (hh : image.height ≤ 32767)
    (hw : image.width ≤ 32767) (file_name : List Nat) :
    save_header magic image file_name =
      pnm_header magic image.width image.height file_name := by
  unfold save_header pnm_header
  rw [print_hd_eq image.width hw, print_hd_eq image.height hh]
  have : print_hd (MAX_VALUE : Int) = print_digits 5 255 [] := print_hd_eq 255 (by norm_num)
  rw [this]

/-- Reading the header that the save functions write: `read_image` reaches the
pixels with the magic number, the dimensions and the maximum value 255. -/
theorem read_image_saved_header (m : Nat) (hm : m = 2 ∨ m = 3 ∨ m = 5 ∨ m = 6)
    (image : image_t) (hh : image.height ≤ 32767) (hw : image.width ≤ 32767)
    (file_name : List Nat) (hname : file_name_ok file_name) (body : FILE) :
    read_image (save_header (48 + m) image file_name ++ body) =
      (read_pixels m body
          { picture := none, color := decide (m = 3 ∨ m = 6),
            height := image.height, width := image.width } 255).map
        (fun picture => some (image_t.mk (some picture) (decide (m = 3 ∨ m = 6))
          image.height image.width)) := by
  rw [save_header_eq (48 + m) image hh hw file_name]
  exact read_image_pnm_header m hm image.width image.height (by omega) (by omega)
    file_name hname body


/-! ## Round trip -/

theorem image_eq_of_fields (image : image_t) (picture : List (List pixel_t)) (color : Bool)
    (hp : image.picture = some picture) (hc : image.color = color) :
    image_t.mk (some picture) color image.height image.width = image := by
  cases image
  simp_all

theorem save_file_writable (disk : disk_t) (file_name header bytes : List Nat)
    (hwr : disk.writable file_name = true) :
    save_file disk file_name header (some bytes) =
      some (disk.write file_name (header ++ bytes), [message.saved file_name]) := by
  unfold save_file
  rw [if_neg (by simp [hwr])]

theorem disk_read_write (disk : disk_t) (file_name bytes : List Nat) :
    (disk.write file_name bytes).read file_name = some bytes := by
  simp [disk_t.write]

/-- Round trip of the grayscale ASCII format. -/
theorem save_P2_then_read (disk : disk_t) (image : image_t) (file_name : List Nat)
    (picture : List (List pixel_t)) (hp : image.picture = some picture)
    (hshape : picture_shape picture image.height image.width)
    (hh : image.height ≤ 32767) (hw : image.width ≤ 32767)
    (hrange : channels_in_range picture) (hcolor : image.color = false)
    (hgray : grayscale picture)
    (hname : file_name_ok file_name) (hwr : disk.writable file_name = true) :
    ∃ bytes, save_P2 disk image file_name =
        some (disk.write file_name bytes, [message.saved file_name]) ∧
      read_image bytes = some (some image) := by
  refine ⟨save_header 50 image file_name ++
    encode_picture (fun p => print_3hd (p.red : Int) ++ [32]) [10] picture, ?_, ?_⟩
  · unfold save_P2
    simp only [hp]
    rw [save_lines_eq image picture hshape hh hw
      (fun p => print_3hd (p.red : Int) ++ [32]) [10], save_file_writable _ _ _ _ hwr]
  · rw [show (50 : Nat) = 48 + 2 from rfl,
      read_image_saved_header 2 (by simp) image hh hw file_name hname]
    have hlines := read_P2_lines_encoded picture image.width hshape.2 hrange hgray [] []
      none (by simp)
    simp only [List.nil_append, List.append_nil, hshape.1] at hlines
    simp only [read_pixels, if_true, read_P2, hlines, Option.map_some']
    rw [← image_eq_of_fields image picture false hp hcolor]
    rfl

/-- Round trip of the colour ASCII format. -/
theorem save_P3_then_read (disk : disk_t) (image : image_t) (file_name : List Nat)
    (picture : List (List pixel_t)) (hp : image.picture = some picture)
    (hshape : picture_shape picture image.height image.width)
    (hh : image.height ≤ 32767) (hw : image.width ≤ 32767)
    (hrange : channels_in_range picture) (hcolor : image.color = true)
    (hname : file_name_ok file_name) (hwr : disk.writable file_name = true) :
    ∃ bytes, save_P3 disk image file_name =
        some (disk.write file_name bytes, [message.saved file_name]) ∧
      read_image bytes = some (some image) := by
  refine ⟨save_header 51 image file_name ++
    encode_picture (fun p => print_3hd (p.red : Int) ++ [32] ++ print_3hd (p.green : Int) ++ [32] ++
      print_3hd (p.blue : Int) ++ [32]) [10] picture, ?_, ?_⟩
  · unfold save_P3
    simp only [hp]
    rw [save_lines_eq image picture hshape hh hw
      (fun p => print_3hd (p.red : Int) ++ [32] ++ print_3hd (p.green : Int) ++ [32] ++
        print_3hd (p.blue : Int) ++ [32]) [10], save_file_writable _ _ _ _ hwr]
  · rw [show (51 : Nat) = 48 + 3 from rfl,
      read_image_saved_header 3 (by simp) image hh hw file_name hname]
    have hlines := read_P3_lines_encoded picture image.width hshape.2 hrange [] []
      none (by simp)
    simp only [List.nil_append, List.append_nil, hshape.1] at hlines
    simp only [read_pixels, read_P3, hlines, Option.map_some']
    rw [← image_eq_of_fields image picture true hp hcolor]
    rfl

/-- Round trip of the grayscale binary format. -/
theorem save_P5_then_read (disk : disk_t) (image : image_t) (file_name : List Nat)
    (picture : List (List pixel_t)) (hp : image.picture = some picture)
    (hshape : picture_shape picture image.height image.width)
    (hh : image.height ≤ 32767) (hw : image.width ≤ 32767)
    (hrange : channels_in_range picture) (hcolor : image.color = false)
    (hgray : grayscale picture)
    (hname : file_name_ok file_name) (hwr : disk.writable file_name = true) :
    ∃ bytes, save_P5 disk image file_name =
        some (disk.write file_name bytes, [message.saved file_name]) ∧
      read_image bytes = some (some image) := by
  refine ⟨save_header 53 image file_name ++
    encode_picture (fun p => fputc p.red) [] picture, ?_, ?_⟩
  · unfold save_P5
    simp only [hp]
    rw [save_lines_eq image picture hshape hh hw (fun p => fputc p.red) [],
      save_file_writable _ _ _ _ hwr]
  · rw [show (53 : Nat) = 48 + 5 from rfl,
      read_image_saved_header 5 (by simp) image hh hw file_name hname]
    have hlines := read_P5_lines_encoded picture image.width hshape.2 hrange hgray [] none
    simp only [List.append_nil, hshape.1] at hlines
    simp only [read_pixels, read_P5, hlines, Option.map_some']
    rw [← image_eq_of_fields image picture false hp hcolor]
    rfl

/-- Round trip of the colour binary format. -/
theorem save_P6_then_read (disk : disk_t) (image : image_t) (file_name : List Nat)
    (picture : List (List pixel_t)) (hp : image.picture = some picture)
    (hshape : picture_shape picture image.height image.width)
    (hh : image.height ≤ 32767) (hw : image.width ≤ 32767)
    (hrange : channels_in_range picture) (hcolor : image.color = true)
    (hname : file_name_ok file_name) (hwr : disk.writable file_name = true) :
    ∃ bytes, save_P6 disk image file_name =
        some (disk.write file_name bytes, [message.saved file_name]) ∧
      read_image bytes = some (some image) := by
  refine ⟨save_header 54 image file_name ++
    encode_picture (fun p => fputc p.red ++ fputc p.green ++ fputc p.blue) [] picture, ?_, ?_⟩
  · unfold save_P6
    simp only [hp]
    rw [save_lines_eq image picture hshape hh hw
      (fun p => fputc p.red ++ fputc p.green ++ fputc p.blue) [],
      save_file_writable _ _ _ _ hwr]
  · rw [show (54 : Nat) = 48 + 6 from rfl,
      read_image_saved_header 6 (by simp) image hh hw file_name hname]
    have hlines := read_P6_lines_encoded picture image.width hshape.2 hrange [] none
    simp only [List.append_nil, hshape.1] at hlines
    simp only [read_pixels, read_P6, hlines, Option.map_some']
    rw [← image_eq_of_fields image picture true hp hcolor]
    rfl

/-- Round trip through SAVE, for an image of at most 32767 lines and columns:
the command writes a file and prints `Saved`, whatever the format parameter
(ASCII when it starts with `ascii`, binary otherwise), and `read_image` decodes
the bytes written to the image that was saved, so that a LOAD of the file gives
that image back. -/
theorem save_command_then_read (disk : disk_t) (image : image_t)
    (file_name parameter_2 : List Nat) (picture : List (List pixel_t))
    (hp : image.picture = some picture)
    (hshape : picture_shape picture image.height image.width)
    (hh : image.height ≤ 32767) (hw : image.width ≤ 32767)
    (hrange : channels_in_range picture)
    (hgray : image.color = false → grayscale picture)
    (hname : file_name_ok file_name) (hwr : disk.writable file_name = true) :
    ∃ bytes, save_command disk image file_name parameter_2 =
        some (disk.write file_name bytes, [message.saved file_name]) ∧
      read_image bytes = some (some image) ∧
      load_image (disk.write file_name bytes) file_name =
        some (image, [message.loaded file_name]) := by
  have hnone : image.picture.isNone = false := by simp [hp]
  have key : ∃ bytes, save_command disk image file_name parameter_2 =
        some (disk.write file_name bytes, [message.saved file_name]) ∧
      read_image bytes = some (some image) := by
    unfold save_command
    rw [if_neg (by simp [hnone])]
    cases hc : image.color with
    | false =>
      simp only [if_true]
      split_ifs
      · exact save_P2_then_read disk image file_name picture hp hshape hh hw hrange hc
          (hgray hc) hname hwr
      · exact save_P5_then_read disk image file_name picture hp hshape hh hw hrange hc
          (hgray hc) hname hwr
    | true =>
      simp only [Bool.true_eq_false, if_false]
      split_ifs
      · exact save_P3_then_read disk image file_name picture hp hshape hh hw hrange hc
          hname hwr
      · exact save_P6_then_read disk image file_name picture hp hshape hh hw hrange hc
          hname hwr
  obtain ⟨bytes, hsave, hread⟩ := key
  refine ⟨bytes, hsave, hread, ?_⟩
  unfold load_image
  simp only [disk_read_write, hread]

/-- Witness of `save_command_then_read`: `small_image` saved in binary format
and read back. -/
theorem save_command_then_read_witness :
    ∃ bytes, save_command empty_disk small_image (str "a.pgm") [] =
        some (empty_disk.write (str "a.pgm") bytes, [message.saved (str "a.pgm")]) ∧
      read_image bytes = some (some small_image) ∧
      load_image (empty_disk.write (str "a.pgm") bytes) (str "a.pgm") =
        some (small_image, [message.loaded (str "a.pgm")]) :=
  save_command_then_read empty_disk small_image (str "a.pgm") [] _ rfl
    (by decide) (by decide) (by decide) (by decide) (by intro _; decide) (by decide) rfl

theorem tall_image_channels :
    channels_in_range (List.replicate 32768 [default, default]) ∧
      grayscale (List.replicate 32768 [default, default]) := by
  constructor
  · intro row hrow p hp
    rw [List.eq_of_mem_replicate hrow] at hp
    simp only [List.mem_cons, List.mem_singleton, or_self, List.not_mem_nil, or_false] at hp
    subst hp
    decide
  · intro row hrow p hp
    rw [List.eq_of_mem_replicate hrow] at hp
    simp only [List.mem_cons, List.mem_singleton, or_self, List.not_mem_nil, or_false] at hp
    subst hp
    decide

theorem encode_replicate (n : Nat) :
    encode_picture (fun p => fputc p.red) [] (List.replicate n [(default : pixel_t), default]) =
      List.replicate (2 * n) 0 := by
  induction n with
  | zero => rfl
  | succ k ih =>
    have h2 : 2 * (k + 1) = (2 * k) + 1 + 1 := by ring
    rw [h2, List.replicate_succ, List.replicate_succ, List.replicate_succ, ← ih]
    rfl

/-- The tall image can be loaded: it is what `read_image` returns for the P5
file with the header `2 32768` followed by 65536 zero bytes. -/
theorem read_image_tall :
    read_image (str "P5\n# t\n2 32768\n255\n" ++ List.replicate 65536 0) =
      some (some tall_image) := by
  have hlines := read_P5_lines_encoded (List.replicate 32768 [default, default]) 2
    (fun row hrow => by rw [List.eq_of_mem_replicate hrow]; rfl)
    tall_image_channels.1 tall_image_channels.2 [] none
  rw [encode_replicate, List.append_nil, List.length_replicate] at hlines
  have e : 2 * 32768 = 65536 := by norm_num
  rw [e] at hlines
  have hpix : read_pixels 5 (List.replicate 65536 0)
      { picture := none, color := decide ((5 : Nat) = 3 ∨ (5 : Nat) = 6), height := 32768,
        width := 2 } 255 = some (List.replicate 32768 [default, default]) := by
    unfold read_pixels read_P5
    rw [if_neg (by norm_num), if_neg (by norm_num), if_pos rfl]
    exact hlines
  have hhead : str "P5\n# t\n2 32768\n255\n" = pnm_header (48 + 5) 2 32768 (str "t") := by
    decide
  rw [hhead, read_image_pnm_header 5 (by simp) 2 32768 (by norm_num) (by norm_num) (str "t")
    (by decide), hpix]
  rfl

theorem tall_disk_read : tall_disk.read (str "t.pgm") =
    some (str "P5\n# t\n2 32768\n255\n" ++ List.replicate 65536 0) := rfl

/-- Claim C2, the failing input.  LOAD of the P5 file `t.pgm` (header `2 32768`,
65536 zero bytes) succeeds and gives the grayscale image of 32768 lines and 2
columns with every channel 0; SAVE of this image does not return, in the ASCII
and in the binary format: the `short` counter `line` of `save_P2` and `save_P5`
cannot reach 32768.  No file that `read_image` could read back is written,
although every file of the disk can be written. -/
theorem save_fails_on_tall_image :
    (main_step ⟨empty_image, default, tall_disk⟩ (str "LOAD") (str "t.pgm") [] [] [] []).map
        (fun r => (r.1.image, r.1.selection, r.2.1)) =
      some (tall_image, ⟨true, 0, 0, 2, 32768⟩, [message.loaded (str "t.pgm")]) ∧
    image_ok tall_image ∧
    channels_in_range (List.replicate 32768 [default, default]) ∧
    grayscale (List.replicate 32768 [default, default]) ∧
    file_name_ok (str "out.pgm") ∧
    save_command tall_disk tall_image (str "out.pgm") (str "ascii") = none ∧
    save_command tall_disk tall_image (str "out.pgm") [] = none ∧
    main_step ⟨tall_image, ⟨true, 0, 0, 2, 32768⟩, tall_disk⟩ (str "SAVE") (str "out.pgm")
      [] [] [] [] = none := by
  refine ⟨?_, ⟨by decide, by decide, _, rfl, List.length_replicate _ _, ?_⟩,
    tall_image_channels.1, tall_image_channels.2, by decide, rfl, rfl, ?_⟩
  · rw [main_step_load ⟨empty_image, default, tall_disk⟩ (str "t.pgm") [] [] [] _ tall_image
      (by decide) tall_disk_read read_image_tall]
    rfl
  · intro row hrow
    rw [List.eq_of_mem_replicate hrow]
    rfl
  · have hsave : save_command tall_disk tall_image (str "out.pgm") [] = none := rfl
    unfold main_step
    rw [if_neg (by decide), if_neg (by decide), if_neg (by decide), if_neg (by decide),
      if_neg (by decide), if_neg (by decide), if_neg (by decide), if_neg (by decide),
      if_pos (by decide)]
    simp only [hsave]

/-! ## Four quarter turns -/

theorem quarter_turn_fill (height width : Nat) (color : Bool) (f : Nat → Nat → pixel_t) :
    quarter_turn ⟨some (fill_picture height width f), color, height, width⟩ =
      ⟨some (fill_picture width height (fun i j => f (height - 1 - j) i)), color, width, height⟩ := by
  unfold quarter_turn
  simp only [Option.map_some']
  congr 2
  apply fill_picture_congr
  intro i j hi hj
  exact pixel_at_fill_picture _ _ _ _ _ (by omega) hi

theorem image_ok_eq_fill (image : image_t) (picture : List (List pixel_t))
    (hp : image.picture = some picture)
    (hs : picture_shape picture image.height image.width) :
    image = ⟨some (fill_picture image.height image.width (fun line column =>
      pixel_at picture line column)), image.color, image.height, image.width⟩ := by
  rw [fill_picture_pixel_at picture _ _ hs, ← hp]

theorem quarter_turn_four (image : image_t) (h : image_ok image) :
    (quarter_turn^[4]) image = image := by
  obtain ⟨-, -, picture, hp, hs⟩ := h
  have e := image_ok_eq_fill image picture hp hs
  generalize image.height = height at e
  generalize image.width = width at e
  generalize image.color = color at e
  subst e
  simp only [Function.iterate_succ, Function.iterate_zero, Function.comp_apply, id_eq,
    quarter_turn_fill]
  congr 2
  apply fill_picture_congr
  intro line column hl hc
  congr 1 <;> omega

theorem rotate_all_eq (image : image_t) (angle : Int) (h : image.picture.isSome = true)
    (ha : supported_angle angle) :
    rotate_all image angle =
      some ((quarter_turn^[quarter_turns angle]) image, [message.rotated angle]) := by
  obtain ⟨hflip, hlt⟩ := rotate_flip_eq_quarter_turns angle ha
  unfold rotate_all
  rw [hflip]
  by_cases hk : quarter_turns angle = 0
  · simp [hk]
  · have h1 : ((quarter_turns angle : Nat) : Int) ≠ 0 := by exact_mod_cast hk
    rw [if_neg h1, to_ushort_natCast _ (by omega), rotate_all_loop_eq _ _ h]

theorem quarter_turn_image_ok (image : image_t) (h : image_ok image) :
    image_ok (quarter_turn image) := by
  obtain ⟨h1, h2, picture, hp, hs⟩ := h
  exact ⟨h2, h1, fill_picture image.width image.height
    (fun i j => pixel_at picture (image.height - 1 - j) i), by simp [quarter_turn, hp],
    fill_picture_shape _ _ _⟩

/-! ## Rotation of a selected square -/

theorem area_quarter_turn_outside (selection : area_t) (old : Nat → Nat → pixel_t)
    (line column : Nat) (h : ¬ inside_selection selection line column) :
    area_quarter_turn selection old line column = old line column := by
  unfold area_quarter_turn
  rw [if_neg h]

theorem area_quarter_turns_outside (selection : area_t) (k : Nat) (old : Nat → Nat → pixel_t)
    (line column : Nat) (h : ¬ inside_selection selection line column) :
    ((area_quarter_turn selection)^[k]) old line column = old line column := by
  induction k generalizing old with
  | zero => rfl
  | succ n ih =>
    rw [Function.iterate_succ, Function.comp_apply, ih, area_quarter_turn_outside _ _ _ _ h]

theorem area_quarter_turn_four (selection : area_t) (old : Nat → Nat → pixel_t)
    (hsq : square_selection selection) :
    ((area_quarter_turn selection)^[4]) old = old := by
  unfold square_selection at hsq
  funext line column
  simp only [Function.iterate_succ, Function.iterate_zero, Function.comp_apply, id_eq]
  by_cases hin : inside_selection selection line column
  · have hin2 := hin
    unfold inside_selection at hin2
    obtain ⟨h1, h2, h3, h4⟩ := hin2
    unfold area_quarter_turn
    rw [if_pos hin, if_pos (by unfold inside_selection; omega),
      if_pos (by unfold inside_selection; omega), if_pos (by unfold inside_selection; omega)]
    congr 1 <;> omega
  · rw [area_quarter_turn_outside _ _ _ _ hin, area_quarter_turn_outside _ _ _ _ hin,
      area_quarter_turn_outside _ _ _ _ hin, area_quarter_turn_outside _ _ _ _ hin]

/-- One turn of the loop of `rotate_area`, for a selection whose sides fit the
`short` counters: the picture of the pixels turned by `area_quarter_turn`. -/
theorem rotate_area_step_eq (height width : Nat) (selection : area_t)
    (picture : List (List pixel_t))
    (hl : selection.line_start ≤ selection.line_end)
    (hc : selection.column_start ≤ selection.column_end)
    (hl2 : selection.line_end - selection.line_start ≤ 32767)
    (hc2 : selection.column_end - selection.column_start ≤ 32767) :
    rotate_area_step height width selection picture =
      some (fill_picture height width
        (area_quarter_turn selection (fun line column => pixel_at picture line column))) := by
  unfold rotate_area_step
  rw [short_fill_of_le _ _ _ (by omega) (by omega)]
  simp only
  congr 1
  apply fill_picture_congr
  intro line column hline hcolumn
  unfold area_quarter_turn inside_selection
  by_cases hin : selection.line_start ≤ line ∧ line < selection.line_end ∧
      selection.column_start ≤ column ∧ column < selection.column_end
  · rw [if_pos hin, if_pos hin, pixel_at_fill_picture _ _ _ _ _ (by omega) (by omega)]
  · rw [if_neg hin, if_neg hin]

theorem rotate_area_loop_fill (height width : Nat) (selection : area_t)
    (hb1 : selection.line_start ≤ selection.line_end) (hb2 : selection.line_end ≤ height)
    (hb3 : selection.column_start ≤ selection.column_end) (hb4 : selection.column_end ≤ width)
    (hsq : square_selection selection)
    (hside : selection.line_end - selection.line_start ≤ 32767)
    (k : Nat) (f : Nat → Nat → pixel_t) :
    rotate_area_loop height width selection k (fill_picture height width f) =
      some (fill_picture height width (((area_quarter_turn selection)^[k]) f)) := by
  unfold square_selection at hsq
  induction k generalizing f with
  | zero => rfl
  | succ n ih =>
    have hstep : fill_picture height width (area_quarter_turn selection
          (fun line column => pixel_at (fill_picture height width f) line column)) =
        fill_picture height width (area_quarter_turn selection f) := by
      apply fill_picture_congr
      intro line column hline hcolumn
      unfold area_quarter_turn
      by_cases hin : inside_selection selection line column
      · have hin2 := hin
        unfold inside_selection at hin2
        rw [if_pos hin, if_pos hin]
        exact pixel_at_fill_picture _ _ _ _ _ (by omega) (by omega)
      · rw [if_neg hin, if_neg hin]
        exact pixel_at_fill_picture _ _ _ _ _ hline hcolumn
    simp only [rotate_area_loop]
    rw [rotate_area_step_eq height width selection _ hb1 hb3 hside (by omega), hstep]
    simp only
    rw [ih, Function.iterate_succ, Function.comp_apply]

/-- The result of `rotate_area` for a supported angle and a square selection
inside the picture whose side fits the `short` counters. -/
theorem rotate_area_fill (height width : Nat) (color : Bool) (f : Nat → Nat → pixel_t)
    (selection : area_t) (angle : Int)
    (hb1 : selection.line_start ≤ selection.line_end) (hb2 : selection.line_end ≤ height)
    (hb3 : selection.column_start ≤ selection.column_end) (hb4 : selection.column_end ≤ width)
    (hsq : square_selection selection)
    (hside : selection.line_end - selection.line_start ≤ 32767)
    (ha : supported_angle angle) :
    rotate_area ⟨some (fill_picture height width f), color, height, width⟩ selection angle =
      some (⟨some (fill_picture height width
          (((area_quarter_turn selection)^[quarter_turns angle]) f)), color, height, width⟩,
        [message.rotated angle]) := by
  obtain ⟨hflip, hlt⟩ := rotate_flip_eq_quarter_turns angle ha
  unfold rotate_area
  simp only
  rw [hflip]
  by_cases hk : quarter_turns angle = 0
  · simp [hk]
  · have h1 : ((quarter_turns angle : Nat) : Int) ≠ 0 := by exact_mod_cast hk
    rw [if_neg h1, to_ushort_natCast _ (by omega),
      rotate_area_loop_fill height width selection hb1 hb2 hb3 hb4 hsq hside]

/-! ## The ROTATE command on a supported angle -/

theorem rotate_command_supported (image : image_t) (selection : area_t) (parameter_1 : List Nat)
    (hsome : image.picture.isSome = true) (hlen : parameter_1.length ≠ 0)
    (ha : supported_angle (to_short (atoi parameter_1))) :
    rotate_command image selection parameter_1 =
      if selection.all then rotate_all image (to_short (atoi parameter_1))
      else if (selection.line_end : Int) - selection.line_start ≠
          (selection.column_end : Int) - selection.column_start then
        some (image, [message.the_selection_must_be_square])
      else rotate_area image selection (to_short (atoi parameter_1)) := by
  have hnone : image.picture.isNone = false := by
    cases hp : image.picture with
    | none => simp [hp] at hsome
    | some p => rfl
  unfold supported_angle at ha
  unfold rotate_command
  rw [if_neg hlen]
  simp only [hnone]
  rw [if_neg (by simp), if_neg (by omega)]

theorem main_step_rotate (s : session_t) (p1 p2 p3 p4 p5 : List Nat)
    (r : image_t × List message) (h : rotate_command s.image s.selection p1 = some r) :
    main_step s (str "ROTATE") p1 p2 p3 p4 p5 =
      some (⟨r.1, s.selection, s.disk⟩, r.2, false) := by
  have e1 : str "ROTATE" ≠ str "EXIT" := by decide
  have e2 : str "ROTATE" ≠ str "LOAD" := by decide
  have e3 : str "ROTATE" ≠ str "SELECT" := by decide
  have e4 : str "ROTATE" ≠ str "HISTOGRAM" := by decide
  have e5 : str "ROTATE" ≠ str "EQUALIZE" := by decide
  unfold main_step
  rw [if_neg e1, if_neg (by simp [e2]), if_neg e3, if_neg e4, if_neg (by simp [e5]),
    if_pos rfl]
  simp only [h]

theorem atoi_90 : to_short (atoi (str "90")) = 90 := by decide

theorem atoi_minus_90 : to_short (atoi (str "-90")) = -90 := by decide

theorem image_ok_isSome (image : image_t) (h : image_ok image) :
    image.picture.isSome = true := by
  obtain ⟨-, -, picture, hp, -⟩ := h
  simp [hp]

theorem rotate_all_90 (image : image_t) (h : image.picture.isSome = true) :
    rotate_all image 90 = some (quarter_turn image, [message.rotated 90]) := by
  rw [rotate_all_eq image 90 h (by decide)]
  rfl

theorem rotate_area_90 (height width : Nat) (color : Bool) (f : Nat → Nat → pixel_t)
    (selection : area_t)
    (hb1 : selection.line_start ≤ selection.line_end) (hb2 : selection.line_end ≤ height)
    (hb3 : selection.column_start ≤ selection.column_end) (hb4 : selection.column_end ≤ width)
    (hsq : square_selection selection)
    (hside : selection.line_end - selection.line_start ≤ 32767) :
    rotate_area ⟨some (fill_picture height width f), color, height, width⟩ selection 90 =
      some (⟨some (fill_picture height width (area_quarter_turn selection f)), color, height,
        width⟩, [message.rotated 90]) := by
  rw [rotate_area_fill height width color f selection 90 hb1 hb2 hb3 hb4 hsq hside (by decide)]
  rfl

/-- Claim C11 (amended).  Four successive rotations by 90 degrees restore the
input: for every image rotated as a whole (`rotate_all`), and for every image
with a square in-bounds selection of side at most 32767 rotated in place
(`rotate_area`), the fourth rotation returns the image the first one was given,
equal in dimensions and in every pixel; so do four ROTATE 90 commands
(`rotate_command`) with the whole image or such a square selected. -/
theorem four_rotations_restore (image : image_t) (selection : area_t) (h : image_ok image) :
    rotate_four_times (fun B => rotate_all B 90) image = some image ∧
    (selection_in_bounds image selection → square_selection selection →
      selection.line_end - selection.line_start ≤ 32767 →
      rotate_four_times (fun B => rotate_area B selection 90) image = some image) ∧
    ((selection.all = true ∨ (selection_in_bounds image selection ∧ square_selection selection ∧
        selection.line_end - selection.line_start ≤ 32767)) →
      rotate_four_times (fun B => rotate_command B selection (str "90")) image = some image) := by
  have h1 := image_ok_isSome image h
  have h2 := quarter_turn_isSome image h1
  have h3 := quarter_turn_isSome _ h2
  have h4 := quarter_turn_isSome _ h3
  have hfour : quarter_turn (quarter_turn (quarter_turn (quarter_turn image))) = image :=
    quarter_turn_four image h
  have whole : rotate_four_times (fun B => rotate_all B 90) image = some image := by
    simp only [rotate_four_times, rotate_all_90 _ h1, rotate_all_90 _ h2, rotate_all_90 _ h3,
      rotate_all_90 _ h4, Option.some_bind, Option.map_some', hfour]
  have command_whole : selection.all = true →
      rotate_four_times (fun B => rotate_command B selection (str "90")) image = some image := by
    intro hall
    have stepc : ∀ B : image_t, B.picture.isSome = true →
        rotate_command B selection (str "90") = some (quarter_turn B, [message.rotated 90]) := by
      intro B hB
      rw [rotate_command_supported B selection _ hB (by decide) (by decide), if_pos hall,
        atoi_90, rotate_all_90 B hB]
    simp only [rotate_four_times, stepc _ h1, stepc _ h2, stepc _ h3, stepc _ h4,
      Option.some_bind, Option.map_some', hfour]
  have area : selection_in_bounds image selection → square_selection selection →
      selection.line_end - selection.line_start ≤ 32767 →
      rotate_four_times (fun B => rotate_area B selection 90) image = some image ∧
      (selection.all = false →
        rotate_four_times (fun B => rotate_command B selection (str "90")) image =
          some image) := by
    intro hb hsq hside
    obtain ⟨hb1, hb2, hb3, hb4⟩ := hb
    obtain ⟨-, -, picture, hp, hs⟩ := h
    have e := image_ok_eq_fill image picture hp hs
    generalize image.height = height at e hb2
    generalize image.width = width at e hb4
    generalize image.color = color at e
    subst e
    have step : ∀ f, rotate_area ⟨some (fill_picture height width f), color, height, width⟩
        selection 90 = some (⟨some (fill_picture height width (area_quarter_turn selection f)),
          color, height, width⟩, [message.rotated 90]) :=
      fun f => rotate_area_90 height width color f selection (by omega) hb2 (by omega) hb4 hsq
        hside
    have four := area_quarter_turn_four selection (fun line column => pixel_at picture line column)
      hsq
    simp only [Function.iterate_succ, Function.iterate_zero, Function.comp_apply, id_eq] at four
    refine ⟨?_, ?_⟩
    · simp only [rotate_four_times, step, Option.some_bind, Option.map_some', four]
    · intro hall
      have hsq2 : ¬ ((selection.line_end : Int) - selection.line_start ≠
          (selection.column_end : Int) - selection.column_start) := by
        unfold square_selection at hsq
        omega
      have stepc : ∀ f, rotate_command ⟨some (fill_picture height width f), color, height, width⟩
          selection (str "90") =
            some (⟨some (fill_picture height width (area_quarter_turn selection f)),
              color, height, width⟩, [message.rotated 90]) := by
        intro f
        rw [rotate_command_supported _ selection _ (by rfl) (by decide) (by decide),
          if_neg (by simp [hall]), if_neg hsq2, atoi_90, step]
      simp only [rotate_four_times, stepc, Option.some_bind, Option.map_some', four]
  refine ⟨whole, fun hb hsq hside => (area hb hsq hside).1, ?_⟩
  rintro (hall | ⟨hb, hsq, hside⟩)
  · exact command_whole hall
  · cases hall : selection.all with
    | true => exact command_whole hall
    | false => exact (area hb hsq hside).2 hall

/-- Witness of `four_rotations_restore`: a 2-by-3 image turned four times as a
whole, and its upper left square of side 2 turned four times in place. -/
theorem four_rotations_restore_witness :
    rotate_four_times (fun B => rotate_all B 90) small_image = some small_image ∧
    rotate_four_times (fun B => rotate_area B ⟨false, 0, 0, 2, 2⟩ 90) small_image =
      some small_image :=
  ⟨(four_rotations_restore small_image ⟨false, 0, 0, 2, 2⟩
      ⟨by decide, by decide, _, rfl, by decide⟩).1,
    (four_rotations_restore small_image ⟨false, 0, 0, 2, 2⟩
      ⟨by decide, by decide, _, rfl, by decide⟩).2.1 (by decide) (by decide) (by decide)⟩

theorem huge_image_ok : image_ok huge_image := by
  refine ⟨by decide, by decide, _, rfl, List.length_replicate _ _, ?_⟩
  intro row hrow
  rw [List.eq_of_mem_replicate hrow]
  exact List.length_replicate _ _

theorem rotate_area_loop_of_gt (height width : Nat) (selection : area_t) (index : Nat)
    (picture : List (List pixel_t))
    (h : 32767 < (selection.line_end : Int) - selection.line_start) :
    rotate_area_loop height width selection (index + 1) picture = none := by
  simp only [rotate_area_loop, rotate_area_step]
  rw [short_fill_of_lines_gt _ _ _ h]

/-- Claim C11, counterexample.  The image of 32769 lines and 32768 columns holds
a picture of that shape, the selection of its first 32768 lines (`all = false`)
is square and in-bounds, and `rotate_area` by 90 degrees does not return: its
`short` counter `line` cannot reach 32768.  So four rotations do not give back
the image. -/
theorem four_rotations_fail_on_huge_selection :
    image_ok huge_image ∧ selection_ok huge_image ⟨false, 0, 0, 32768, 32768⟩ ∧
    square_selection ⟨false, 0, 0, 32768, 32768⟩ ∧
    rotate_area huge_image ⟨false, 0, 0, 32768, 32768⟩ 90 = none ∧
    rotate_four_times (fun B => rotate_area B ⟨false, 0, 0, 32768, 32768⟩ 90) huge_image ≠
      some huge_image := by
  have hnone : rotate_area huge_image ⟨false, 0, 0, 32768, 32768⟩ 90 = none := by
    have hflip : to_ushort (rotate_flip 90) = 0 + 1 := by decide
    unfold rotate_area huge_image
    simp only
    rw [if_neg (by decide), hflip, rotate_area_loop_of_gt _ _ _ _ _ (by decide)]
  refine ⟨huge_image_ok, by decide, by decide, hnone, ?_⟩
  simp only [rotate_four_times, hnone, Option.none_bind]
  exact fun h => Option.noConfusion h

/-! ## Angles that differ by a full turn -/

theorem rotate_flip_full_turn (k : Int) (hk0 : 0 ≤ k) (hk4 : k ≤ 4) :
    supported_angle (k * 90) ∧ supported_angle (k * 90 - 360) ∧
      rotate_flip (k * 90) = rotate_flip (k * 90 - 360) := by
  have hk : k = 0 ∨ k = 1 ∨ k = 2 ∨ k = 3 ∨ k = 4 := by omega
  rcases hk with h | h | h | h | h <;> subst h <;> decide

theorem rotate_all_same_flip (image : image_t) (a b : Int) (h : rotate_flip a = rotate_flip b) :
    (rotate_all image a).map Prod.fst = (rotate_all image b).map Prod.fst := by
  unfold rotate_all
  rw [h]
  by_cases h0 : rotate_flip b = 0
  · rw [if_pos h0, if_pos h0]
    rfl
  · rw [if_neg h0, if_neg h0]
    cases rotate_all_loop (to_ushort (rotate_flip b)) image <;> rfl

theorem rotate_area_same_flip (image : image_t) (selection : area_t) (a b : Int)
    (h : rotate_flip a = rotate_flip b) :
    (rotate_area image selection a).map Prod.fst =
      (rotate_area image selection b).map Prod.fst := by
  unfold rotate_area
  cases image.picture with
  | none => rfl
  | some picture =>
    simp only
    rw [h]
    by_cases h0 : rotate_flip b = 0
    · rw [if_pos h0, if_pos h0]
      rfl
    · rw [if_neg h0, if_neg h0]
      cases rotate_area_loop image.height image.width selection (to_ushort (rotate_flip b))
        picture <;> rfl

theorem rotate_command_no_image (image : image_t) (selection : area_t) (parameter_1 : List Nat)
    (hnone : image.picture.isNone = true) (hlen : parameter_1.length ≠ 0) :
    rotate_command image selection parameter_1 = some (image, [message.no_image_loaded]) := by
  unfold rotate_command
  rw [if_neg hlen]
  simp only [hnone]
  rfl

/-- Claim C12 (amended).  For every integer `k` with `0 ≤ k ≤ 4` and every
image and selection, the rotate operation applied with angle `k * 90` gives
the same image as the rotate operation applied with angle `k * 90 - 360`:
both angles are supported,
`rotate_all` and `rotate_area` compute the same number of quarter turns from
them and return the same image, and so does `rotate_command`; with an image
loaded and the whole image or an in-bounds square of side at most 32767
selected, both commands succeed and print the angle they were given. -/
theorem rotate_full_turn_same (image : image_t) (selection : area_t) (p1 p2 : List Nat)
    (k : Int) (hk0 : 0 ≤ k) (hk4 : k ≤ 4) (h1 : p1.length ≠ 0) (h2 : p2.length ≠ 0)
    (ha : to_short (atoi p1) = k * 90) (hb : to_short (atoi p2) = k * 90 - 360) :
    supported_angle (k * 90) ∧ supported_angle (k * 90 - 360) ∧
    rotate_flip (k * 90) = rotate_flip (k * 90 - 360) ∧
    (rotate_all image (k * 90)).map Prod.fst = (rotate_all image (k * 90 - 360)).map Prod.fst ∧
    (rotate_area image selection (k * 90)).map Prod.fst =
      (rotate_area image selection (k * 90 - 360)).map Prod.fst ∧
    (rotate_command image selection p1).map Prod.fst =
      (rotate_command image selection p2).map Prod.fst ∧
    (image_ok image →
      (selection.all = true ∨ (selection_in_bounds image selection ∧ square_selection selection ∧
        selection.line_end - selection.line_start ≤ 32767)) →
      ∃ turned, rotate_command image selection p1 = some (turned, [message.rotated (k * 90)]) ∧
        rotate_command image selection p2 = some (turned, [message.rotated (k * 90 - 360)])) := by
  obtain ⟨s1, s2, hflip⟩ := rotate_flip_full_turn k hk0 hk4
  have hall := rotate_all_same_flip image _ _ hflip
  have harea := rotate_area_same_flip image selection _ _ hflip
  have hcommand : (rotate_command image selection p1).map Prod.fst =
      (rotate_command image selection p2).map Prod.fst := by
    cases hp : image.picture.isSome with
    | false =>
      have hnone : image.picture.isNone = true := by
        cases hq : image.picture with
        | none => rfl
        | some q => simp [hq] at hp
      rw [rotate_command_no_image _ _ _ hnone h1, rotate_command_no_image _ _ _ hnone h2]
    | true =>
      rw [rotate_command_supported _ _ _ hp h1 (by rw [ha]; exact s1),
        rotate_command_supported _ _ _ hp h2 (by rw [hb]; exact s2), ha, hb]
      by_cases c1 : selection.all = true
      · rw [if_pos c1, if_pos c1]
        exact hall
      · rw [if_neg c1, if_neg c1]
        by_cases c2 : (selection.line_end : Int) - selection.line_start ≠
            (selection.column_end : Int) - selection.column_start
        · rw [if_pos c2, if_pos c2]
        · rw [if_neg c2, if_neg c2]
          exact harea
  refine ⟨s1, s2, hflip, hall, harea, hcommand, ?_⟩
  intro hok hsel
  have hsome := image_ok_isSome image hok
  have returns : ∃ r, rotate_command image selection p1 = some (r, [message.rotated (k * 90)]) ∧
      ∃ r2, rotate_command image selection p2 = some (r2, [message.rotated (k * 90 - 360)]) := by
    rw [rotate_command_supported _ _ _ hsome h1 (by rw [ha]; exact s1),
      rotate_command_supported _ _ _ hsome h2 (by rw [hb]; exact s2), ha, hb]
    by_cases c1 : selection.all = true
    · rw [if_pos c1, if_pos c1, rotate_all_eq _ _ hsome s1, rotate_all_eq _ _ hsome s2]
      exact ⟨_, rfl, _, rfl⟩
    · rcases hsel with hs | ⟨⟨hb1, hb2, hb3, hb4⟩, hsq, hside⟩
      · exact absurd hs c1
      · have hsq2 : ¬ ((selection.line_end : Int) - selection.line_start ≠
            (selection.column_end : Int) - selection.column_start) := by
          unfold square_selection at hsq
          omega
        rw [if_neg c1, if_neg c1, if_neg hsq2, if_neg hsq2]
        obtain ⟨-, -, picture, hp, hs⟩ := hok
        have e := image_ok_eq_fill image picture hp hs
        generalize image.height = height at e hb2
        generalize image.width = width at e hb4
        generalize image.color = color at e
        subst e
        rw [rotate_area_fill height width color _ selection _ (by omega) hb2 (by omega) hb4 hsq
            hside s1,
          rotate_area_fill height width color _ selection _ (by omega) hb2 (by omega) hb4 hsq
            hside s2]
        exact ⟨_, rfl, _, rfl⟩
  obtain ⟨r, hr, r2, hr2⟩ := returns
  refine ⟨r, hr, ?_⟩
  rw [hr, hr2] at hcommand
  simp only [Option.map_some', Option.some.injEq] at hcommand
  rw [hr2, hcommand]

/-- Witness of `rotate_full_turn_same`: ROTATE 90 and ROTATE -270 (`k = 1`) on
a 2-by-3 image give the same 3-by-2 image. -/
theorem rotate_full_turn_same_witness :
    (rotate_command small_image small_selection (str "90")).map Prod.fst =
      (rotate_command small_image small_selection (str "-270")).map Prod.fst :=
  (rotate_full_turn_same small_image small_selection (str "90") (str "-270") 1 (by decide)
    (by decide) (by decide) (by decide) (by decide) (by decide)).2.2.2.2.2.1

/-- Claim C12, counterexample.  With `k = 5` the angles are 450 and 90: on a
2-by-3 image with the whole image selected, ROTATE 450 is rejected as
unsupported and returns the image as it was, ROTATE 90 returns the image turned,
3-by-2. -/
theorem rotate_450_differs_from_rotate_90 :
    to_short (atoi (str "450")) = 5 * 90 ∧ to_short (atoi (str "90")) = 5 * 90 - 360 ∧
    rotate_command small_image small_selection (str "450") =
      some (small_image, [message.unsupported_rotation_angle]) ∧
    rotate_command small_image small_selection (str "90") =
      some (⟨some [[⟨4, 4, 4⟩, ⟨1, 1, 1⟩], [⟨5, 5, 5⟩, ⟨2, 2, 2⟩], [⟨6, 6, 6⟩, ⟨3, 3, 3⟩]],
        false, 3, 2⟩, [message.rotated 90]) ∧
    (rotate_command small_image small_selection (str "450")).map Prod.fst ≠
      (rotate_command small_image small_selection (str "90")).map Prod.fst := by
  decide

/-! ## A quarter turn and back -/

theorem rotate_all_minus_90 (image : image_t) (h : image.picture.isSome = true) :
    rotate_all image (-90) =
      some (quarter_turn (quarter_turn (quarter_turn image)), [message.rotated (-90)]) := by
  rw [rotate_all_eq image (-90) h (by decide)]
  rfl

/-- Claim C13.  For every `h`-by-`w` image with the whole image selected,
ROTATE 90 yields a `w`-by-`h` image (height `w`, width `h`, holding a picture of
that shape), and a following ROTATE -90 yields the original image again: `h`-by-`w`
with every pixel equal to the original.  The selection of the session stays as it
was. -/
theorem rotate_90_then_back (image : image_t) (selection : area_t) (disk : disk_t)
    (p2 p3 p4 p5 : List Nat) (h : image_ok image) (hall : selection.all = true) :
    ∃ turned : image_t,
      main_step ⟨image, selection, disk⟩ (str "ROTATE") (str "90") p2 p3 p4 p5 =
        some (⟨turned, selection, disk⟩, [message.rotated 90], false) ∧
      turned.height = image.width ∧ turned.width = image.height ∧ image_ok turned ∧
      main_step ⟨turned, selection, disk⟩ (str "ROTATE") (str "-90") p2 p3 p4 p5 =
        some (⟨image, selection, disk⟩, [message.rotated (-90)], false) := by
  have h1 := image_ok_isSome image h
  have h2 := quarter_turn_isSome image h1
  have hfour : quarter_turn (quarter_turn (quarter_turn (quarter_turn image))) = image :=
    quarter_turn_four image h
  have first : rotate_command image selection (str "90") =
      some (quarter_turn image, [message.rotated 90]) := by
    rw [rotate_command_supported image selection _ h1 (by decide) (by decide), if_pos hall,
      atoi_90, rotate_all_90 image h1]
  have second : rotate_command (quarter_turn image) selection (str "-90") =
      some (image, [message.rotated (-90)]) := by
    rw [rotate_command_supported _ selection _ h2 (by decide) (by decide), if_pos hall,
      atoi_minus_90, rotate_all_minus_90 _ h2, hfour]
  exact ⟨quarter_turn image, main_step_rotate ⟨image, selection, disk⟩ _ p2 p3 p4 p5 _ first,
    rfl, rfl, quarter_turn_image_ok image h,
    main_step_rotate ⟨quarter_turn image, selection, disk⟩ _ p2 p3 p4 p5 _ second⟩

/-- Witness of `rotate_90_then_back`: `h = 2`, `w = 3`. -/
theorem rotate_90_then_back_witness :
    ∃ turned : image_t,
      main_step ⟨small_image, small_selection, empty_disk⟩ (str "ROTATE") (str "90") [] [] [] [] =
        some (⟨turned, small_selection, empty_disk⟩, [message.rotated 90], false) ∧
      turned.height = small_image.width ∧ turned.width = small_image.height ∧ image_ok turned ∧
      main_step ⟨turned, small_selection, empty_disk⟩ (str "ROTATE") (str "-90") [] [] [] [] =
        some (⟨small_image, small_selection, empty_disk⟩, [message.rotated (-90)], false) :=
  rotate_90_then_back small_image small_selection empty_disk [] [] [] []
    ⟨by decide, by decide, _, rfl, by decide⟩ rfl

/-! ## Rotation of a selected square: the pixels outside -/

/-- Claim C14 (amended).  For every image, every square in-bounds selection of
side at most 32767 that is not the whole image and every supported angle,
`rotate_area` returns an image of the same height and width (and colour flag),
holding a picture of that shape in which every pixel outside the selection
rectangle equals the input pixel. -/
theorem rotate_area_keeps_outside (image : image_t) (selection : area_t) (angle : Int)
    (picture : List (List pixel_t)) (hp : image.picture = some picture)
    (hshape : picture_shape picture image.height image.width)
    (hs : selection_ok image selection) (hall : selection.all = false)
    (hsq : square_selection selection)
    (hside : selection.line_end - selection.line_start ≤ 32767)
    (ha : supported_angle angle) :
    ∃ turned : List (List pixel_t),
      rotate_area image selection angle =
        some (⟨some turned, image.color, image.height, image.width⟩, [message.rotated angle]) ∧
      picture_shape turned image.height image.width ∧
      ∀ line column, line < image.height → column < image.width →
        ¬ inside_selection selection line column →
        pixel_at turned line column = pixel_at picture line column := by
  obtain ⟨hb1, hb2, hb3, hb4, -⟩ := hs
  have e := image_ok_eq_fill image picture hp hshape
  generalize image.height = height at e hb2 hshape
  generalize image.width = width at e hb4 hshape
  generalize image.color = color at e
  subst e
  refine ⟨_, rotate_area_fill height width color _ selection angle (by omega) hb2 (by omega) hb4
    hsq hside ha, fill_picture_shape _ _ _, ?_⟩
  intro line column hline hcolumn hout
  rw [pixel_at_fill_picture _ _ _ _ _ hline hcolumn,
    area_quarter_turns_outside selection _ _ line column hout]

/-- Witness of `rotate_area_keeps_outside`: the upper left square of side 2 of
a 2-by-3 image, turned by 90 degrees. -/
theorem rotate_area_keeps_outside_witness :
    ∃ turned : List (List pixel_t),
      rotate_area small_image ⟨false, 0, 0, 2, 2⟩ 90 =
        some (⟨some turned, small_image.color, small_image.height, small_image.width⟩,
          [message.rotated 90]) ∧
      picture_shape turned small_image.height small_image.width ∧
      ∀ line column, line < small_image.height → column < small_image.width →
        ¬ inside_selection ⟨false, 0, 0, 2, 2⟩ line column →
        pixel_at turned line column =
          pixel_at [[⟨1, 1, 1⟩, ⟨2, 2, 2⟩, ⟨3, 3, 3⟩], [⟨4, 4, 4⟩, ⟨5, 5, 5⟩, ⟨6, 6, 6⟩]]
            line column :=
  rotate_area_keeps_outside small_image ⟨false, 0, 0, 2, 2⟩ 90
    [[⟨1, 1, 1⟩, ⟨2, 2, 2⟩, ⟨3, 3, 3⟩], [⟨4, 4, 4⟩, ⟨5, 5, 5⟩, ⟨6, 6, 6⟩]] rfl (by decide)
    (by decide) rfl (by decide) (by decide) (by decide)

/-- Claim C14, counterexample.  In the image of 32769 lines and 32768 columns,
the selection of the lines 1 to 32769 (`all = false`) is square and in-bounds,
180 is a supported angle, and `rotate_area` does not return: its `short`
counter `line` cannot reach 32768.  No image with the pixels outside the
selection kept is returned. -/
theorem rotate_area_fails_on_huge_selection :
    image_ok huge_image ∧ selection_ok huge_image ⟨false, 0, 1, 32768, 32769⟩ ∧
    square_selection ⟨false, 0, 1, 32768, 32769⟩ ∧ supported_angle 180 ∧
    rotate_area huge_image ⟨false, 0, 1, 32768, 32769⟩ 180 = none := by
  refine ⟨huge_image_ok, by decide, by decide, by decide, ?_⟩
  have hflip : to_ushort (rotate_flip 180) = 1 + 1 := by decide
  unfold rotate_area huge_image
  simp only
  rw [if_neg (by decide), hflip, rotate_area_loop_of_gt _ _ _ _ _ (by decide)]

/-! ## A selection that is not square -/

/-- Claim C15.  With an image loaded, when the selection is not the whole image
(`all = false`) and its height `line_end - line_start` differs from its width
`column_end - column_start`, rotate with any supported angle fails with the
message that the selection must be square and returns the image as it was; the
ROTATE command then leaves the image and the selection of the session unchanged. -/
theorem rotate_rejects_non_square (image : image_t) (selection : area_t)
    (parameter_1 : List Nat) (hsome : image.picture.isSome = true)
    (hlen : parameter_1.length ≠ 0) (ha : supported_angle (to_short (atoi parameter_1)))
    (hall : selection.all = false)
    (hsq : (selection.line_end : Int) - selection.line_start ≠
      (selection.column_end : Int) - selection.column_start) :
    rotate_command image selection parameter_1 =
      some (image, [message.the_selection_must_be_square]) ∧
    ∀ (disk : disk_t) (p2 p3 p4 p5 : List Nat),
      main_step ⟨image, selection, disk⟩ (str "ROTATE") parameter_1 p2 p3 p4 p5 =
        some (⟨image, selection, disk⟩, [message.the_selection_must_be_square], false) := by
  have reject : rotate_command image selection parameter_1 =
      some (image, [message.the_selection_must_be_square]) := by
    rw [rotate_command_supported image selection _ hsome hlen ha, if_neg (by simp [hall]),
      if_pos hsq]
  exact ⟨reject, fun disk p2 p3 p4 p5 =>
    main_step_rotate ⟨image, selection, disk⟩ _ p2 p3 p4 p5 _ reject⟩

/-- Witness of `rotate_rejects_non_square`: ROTATE 90 with the first two columns
of the first line of a 2-by-3 image selected. -/
theorem rotate_rejects_non_square_witness :
    rotate_command small_image ⟨false, 0, 0, 2, 1⟩ (str "90") =
      some (small_image, [message.the_selection_must_be_square]) :=
  (rotate_rejects_non_square small_image ⟨false, 0, 0, 2, 1⟩ (str "90") rfl (by decide)
    (by decide) rfl (by decide)).1

/-! ## Filters: the pixels that are copied -/

theorem filter_copies_iff (image : image_t) (selection : area_t) (line column : Nat) :
    filter_copies image selection line column = true ↔
      (line = 0 ∨ line + 1 = image.height ∨ column = 0 ∨ column + 1 = image.width ∨
        ¬ inside_selection selection line column) := by
  unfold filter_copies inside_selection
  rw [decide_eq_true_iff]
  omega

theorem apply_filter_eq (kernel : List (List pixel_t) → (pixel_t → Nat) → Nat → Nat → Nat)
    (image : image_t) (selection : area_t) (picture : List (List pixel_t))
    (hp : image.picture = some picture) :
    apply_filter kernel image selection =
      some (fill_picture image.height image.width (fun line column =>
        if filter_copies image selection line column then pixel_at picture line column
        else
          { red := kernel picture pixel_t.red line column,
            green := kernel picture pixel_t.green line column,
            blue := kernel picture pixel_t.blue line column })) := by
  unfold apply_filter
  simp only [hp]

/-- What the loop shared by the four filters returns: a picture of the
dimensions of the image whose pixels on the border of the image or outside the
selection are those of the input. -/
theorem apply_filter_copies (kernel : List (List pixel_t) → (pixel_t → Nat) → Nat → Nat → Nat)
    (image : image_t) (selection : area_t) (picture : List (List pixel_t))
    (hp : image.picture = some picture) :
    ∃ out, apply_filter kernel image selection = some out ∧
      picture_shape out image.height image.width ∧
      ∀ line column, line < image.height → column < image.width →
        (line = 0 ∨ line + 1 = image.height ∨ column = 0 ∨ column + 1 = image.width ∨
          ¬ inside_selection selection line column) →
        pixel_at out line column = pixel_at picture line column := by
  refine ⟨_, apply_filter_eq kernel image selection picture hp, fill_picture_shape _ _ _, ?_⟩
  intro line column hline hcolumn hcopy
  rw [pixel_at_fill_picture _ _ _ _ _ hline hcolumn,
    if_pos ((filter_copies_iff image selection line column).mpr hcopy)]

/-- What the loop shared by the four filters stores in a pixel inside the
selection and not on the border of the image: in each channel, the value of the
kernel on the input picture. -/
theorem apply_filter_inner (kernel : List (List pixel_t) → (pixel_t → Nat) → Nat → Nat → Nat)
    (image : image_t) (selection : area_t) (picture : List (List pixel_t))
    (hp : image.picture = some picture) (line column : Nat)
    (hin : inside_selection selection line column) (hinner : inner_pixel image line column) :
    ∃ out, apply_filter kernel image selection = some out ∧
      ∀ channel ∈ channels,
        channel_at out channel line column = (kernel picture channel line column : Int) := by
  refine ⟨_, apply_filter_eq kernel image selection picture hp, ?_⟩
  have hcopy : ¬ filter_copies image selection line column = true := by
    rw [filter_copies_iff]
    unfold inner_pixel at hinner
    rintro (h | h | h | h | h)
    · omega
    · omega
    · omega
    · omega
    · exact h hin
  intro channel hchannel
  unfold channel_at
  rw [pixel_at_fill_picture _ _ _ _ _ (by unfold inner_pixel at hinner; omega)
    (by unfold inner_pixel at hinner; omega), if_neg hcopy]
  simp only [channels, List.mem_cons, List.mem_singleton, List.not_mem_nil, or_false] at hchannel
  rcases hchannel with h | h | h <;> subst h <;> rfl

/-- Claim C16.  For each of the four filters (`apply_edge`, `apply_sharpen`,
`apply_blur`, `apply_gaussian_blur`), every image that holds a picture and every
selection, the filter returns a picture of the dimensions of the image, and
every pixel that lies in row 0, row `height - 1`, column 0 or column
`width - 1`, or outside the selection rectangle, equals the input pixel (in all
three channels). -/
theorem filters_keep_border_and_outside (image : image_t) (selection : area_t)
    (picture : List (List pixel_t)) (hp : image.picture = some picture) :
    ∀ filter ∈ [apply_edge, apply_sharpen, apply_blur, apply_gaussian_blur],
      ∃ out, filter image selection = some out ∧
        picture_shape out image.height image.width ∧
        ∀ line column, line < image.height → column < image.width →
          (line = 0 ∨ line + 1 = image.height ∨ column = 0 ∨ column + 1 = image.width ∨
            ¬ inside_selection selection line column) →
          pixel_at out line column = pixel_at picture line column := by
  intro filter hfilter
  simp only [List.mem_cons, List.mem_singleton, List.not_mem_nil, or_false] at hfilter
  rcases hfilter with h | h | h | h <;> subst h
  · exact apply_filter_copies edge_kernel image selection picture hp
  · exact apply_filter_copies sharpen_kernel image selection picture hp
  · exact apply_filter_copies blur_kernel image selection picture hp
  · exact apply_filter_copies gaussian_blur_kernel image selection picture hp

/-- Witness of `filters_keep_border_and_outside`: `apply_blur` on a 3-by-3
image keeps the eight pixels of the border. -/
theorem filters_keep_border_and_outside_witness :
    ∃ out, apply_blur colour_image colour_selection = some out ∧
      picture_shape out colour_image.height colour_image.width ∧
      ∀ line column, line < colour_image.height → column < colour_image.width →
        (line = 0 ∨ line + 1 = colour_image.height ∨ column = 0 ∨
          column + 1 = colour_image.width ∨ ¬ inside_selection colour_selection line column) →
        pixel_at out line column =
          pixel_at [[⟨10, 0, 255⟩, ⟨20, 0, 255⟩, ⟨30, 0, 255⟩],
                     [⟨40, 0, 255⟩, ⟨50, 200, 255⟩, ⟨60, 0, 255⟩],
                     [⟨70, 0, 255⟩, ⟨80, 0, 255⟩, ⟨95, 0, 255⟩]] line column :=
  filters_keep_border_and_outside colour_image colour_selection _ rfl apply_blur
    (by simp)

/-! ## Filters: the values computed -/

theorem pixel_at_mem_or_default (picture : List (List pixel_t)) (line column : Nat) :
    pixel_at picture line column = default ∨
      ∃ row ∈ picture, pixel_at picture line column ∈ row := by
  unfold pixel_at
  by_cases hl : line < picture.length
  · by_cases hc : column < (picture[line]).length
    · right
      refine ⟨picture[line], List.getElem_mem _, ?_⟩
      simp only [List.getD_eq_getElem?_getD, List.getElem?_eq_getElem hl, Option.getD_some,
        List.getElem?_eq_getElem hc]
      exact List.getElem_mem _
    · left
      simp only [List.getD_eq_getElem?_getD, List.getElem?_eq_getElem hl, Option.getD_some]
      rw [List.getElem?_eq_none (show (picture[line]).length ≤ column by omega)]
      rfl
  · left
    simp only [List.getD_eq_getElem?_getD]
    rw [List.getElem?_eq_none (show picture.length ≤ line by omega)]
    rfl

theorem channel_at_range (picture : List (List pixel_t)) (hr : channels_in_range picture)
    (channel : pixel_t → Nat) (hchannel : channel ∈ channels) (line column : Nat) :
    0 ≤ channel_at picture channel line column ∧ channel_at picture channel line column ≤ 255 := by
  unfold channel_at
  refine ⟨Int.ofNat_nonneg _, ?_⟩
  have hle : channel (pixel_at picture line column) ≤ 255 := by
    simp only [channels, List.mem_cons, List.mem_singleton, List.not_mem_nil, or_false]
      at hchannel
    rcases pixel_at_mem_or_default picture line column with h | ⟨row, hrow, h⟩
    · rw [h]
      rcases hchannel with c | c | c <;> subst c <;> decide
    · obtain ⟨h1, h2, h3⟩ := hr row hrow _ h
      rcases hchannel with c | c | c <;> subst c <;> assumption
  exact_mod_cast hle

theorem clamp_eq (x : Int) : (clamp x : Int) = clamp_0_255 x := by
  unfold clamp clamp_0_255 MAX_VALUE
  split_ifs with h1 h2
  · simp only [Nat.cast_zero]
    omega
  · simp only [Nat.cast_ofNat]
    push_cast at h2
    omega
  · push_cast at h2
    rw [Int.toNat_of_nonneg (by omega)]
    omega

theorem to_short_of_range (x : Int) (h1 : -32768 ≤ x) (h2 : x ≤ 32767) : to_short x = x := by
  unfold to_short
  omega

theorem edge_kernel_eq (picture : List (List pixel_t)) (channel : pixel_t → Nat)
    (line column : Nat) :
    edge_kernel picture channel line column =
      clamp (to_short (8 * channel_at picture channel line column -
        neighbours_sum picture channel line column)) := by
  unfold edge_kernel neighbours_sum channel_at
  congr 2
  ring

theorem sharpen_kernel_eq (picture : List (List pixel_t)) (channel : pixel_t → Nat)
    (line column : Nat) :
    sharpen_kernel picture channel line column =
      clamp (to_short (5 * channel_at picture channel line column -
        channel_at picture channel (line - 1) column -
        channel_at picture channel (line + 1) column -
        channel_at picture channel line (column + 1) -
        channel_at picture channel line (column - 1))) := by
  unfold sharpen_kernel channel_at
  congr 2
  ring

/-- Claim C17.  For every pixel inside the selection and not on the image
border, `apply_edge` sets each channel to
`clamp(8 * center - sum of the 8 neighbours, 0, 255)`, where center and
neighbours are that channel's values in the input picture, for any channel
values in `[0, 255]`. -/
theorem apply_edge_value (image : image_t) (selection : area_t)
    (picture : List (List pixel_t)) (line column : Nat)
    (hp : image.picture = some picture) (hr : channels_in_range picture)
    (hin : inside_selection selection line column) (hinner : inner_pixel image line column) :
    ∃ out, apply_edge image selection = some out ∧
      ∀ channel ∈ channels,
        channel_at out channel line column =
          clamp_0_255 (8 * channel_at picture channel line column -
            neighbours_sum picture channel line column) := by
  obtain ⟨out, hout, hvalue⟩ := apply_filter_inner edge_kernel image selection picture hp
    line column hin hinner
  refine ⟨out, hout, ?_⟩
  intro channel hchannel
  rw [hvalue channel hchannel, edge_kernel_eq, clamp_eq, to_short_of_range]
  all_goals
    have r := channel_at_range picture hr channel hchannel
    have r1 := r (line - 1) (column - 1)
    have r2 := r (line - 1) column
    have r3 := r (line - 1) (column + 1)
    have r4 := r line (column - 1)
    have r5 := r line column
    have r6 := r line (column + 1)
    have r7 := r (line + 1) (column - 1)
    have r8 := r (line + 1) column
    have r9 := r (line + 1) (column + 1)
    unfold neighbours_sum
    omega

/-- Witness of `apply_edge_value`: the centre of a 3-by-3 image. -/
theorem apply_edge_value_witness :
    ∃ out, apply_edge colour_image colour_selection = some out ∧
      channel_at out pixel_t.red 1 1 = 0 ∧ channel_at out pixel_t.green 1 1 = 255 ∧
      channel_at out pixel_t.blue 1 1 = 0 := by
  obtain ⟨out, hout, hvalue⟩ := apply_edge_value colour_image colour_selection _ 1 1 rfl
    (by decide) (by decide) (by decide)
  exact ⟨out, hout, (hvalue pixel_t.red (by simp [channels])).trans (by decide),
    (hvalue pixel_t.green (by simp [channels])).trans (by decide),
    (hvalue pixel_t.blue (by simp [channels])).trans (by decide)⟩

/-- Claim C18.  For every pixel inside the selection and not on the image
border, `apply_sharpen` sets each channel to
`clamp(5 * center - north - south - east - west, 0, 255)`, computed from that
channel's values in the input picture: for channel values in `[0, 255]`, and
more generally whenever the value clamped fits a `signed short`. -/
theorem apply_sharpen_value (image : image_t) (selection : area_t)
    (picture : List (List pixel_t)) (line column : Nat)
    (hp : image.picture = some picture)
    (hin : inside_selection selection line column) (hinner : inner_pixel image line column) :
    ∃ out, apply_sharpen image selection = some out ∧
      ∀ channel ∈ channels,
        (channels_in_range picture ∨
          (-32768 ≤ 5 * channel_at picture channel line column -
              channel_at picture channel (line - 1) column -
              channel_at picture channel (line + 1) column -
              channel_at picture channel line (column + 1) -
              channel_at picture channel line (column - 1) ∧
            5 * channel_at picture channel line column -
              channel_at picture channel (line - 1) column -
              channel_at picture channel (line + 1) column -
              channel_at picture channel line (column + 1) -
              channel_at picture channel line (column - 1) ≤ 32767)) →
        channel_at out channel line column =
          clamp_0_255 (5 * channel_at picture channel line column -
            channel_at picture channel (line - 1) column -
            channel_at picture channel (line + 1) column -
            channel_at picture channel line (column + 1) -
            channel_at picture channel line (column - 1)) := by
  obtain ⟨out, hout, hvalue⟩ := apply_filter_inner sharpen_kernel image selection picture hp
    line column hin hinner
  refine ⟨out, hout, ?_⟩
  intro channel hchannel hrange
  have hfit : -32768 ≤ 5 * channel_at picture channel line column -
        channel_at picture channel (line - 1) column -
        channel_at picture channel (line + 1) column -
        channel_at picture channel line (column + 1) -
        channel_at picture channel line (column - 1) ∧
      5 * channel_at picture channel line column -
        channel_at picture channel (line - 1) column -
        channel_at picture channel (line + 1) column -
        channel_at picture channel line (column + 1) -
        channel_at picture channel line (column - 1) ≤ 32767 := by
    rcases hrange with hr | hfit
    · have r := channel_at_range picture hr channel hchannel
      have r2 := r (line - 1) column
      have r4 := r line (column - 1)
      have r5 := r line column
      have r6 := r line (column + 1)
      have r8 := r (line + 1) column
      omega
    · exact hfit
  rw [hvalue channel hchannel, sharpen_kernel_eq, clamp_eq, to_short_of_range _ hfit.1 hfit.2]

/-- Witness of `apply_sharpen_value`: the centre of a 3-by-3 image. -/
theorem apply_sharpen_value_witness :
    ∃ out, apply_sharpen colour_image colour_selection = some out ∧
      channel_at out pixel_t.red 1 1 = 50 ∧ channel_at out pixel_t.green 1 1 = 255 ∧
      channel_at out pixel_t.blue 1 1 = 255 := by
  obtain ⟨out, hout, hvalue⟩ := apply_sharpen_value colour_image colour_selection _ 1 1 rfl
    (by decide) (by decide)
  exact ⟨out, hout, (hvalue pixel_t.red (by simp [channels]) (Or.inl (by decide))).trans
      (by decide),
    (hvalue pixel_t.green (by simp [channels]) (Or.inl (by decide))).trans (by decide),
    (hvalue pixel_t.blue (by simp [channels]) (Or.inl (by decide))).trans (by decide)⟩

/-! ## Filters: the two blurs -/

/-- The channel value stored from `round_double (1. * s / d)`, for a sum `s`
and a divisor `d`: the floor of `s / d + 1/2`, when it fits a `signed short`. -/
theorem round_double_quotient (s d : Nat) (hd1 : 1 ≤ d) (hd : d < 2 ^ 20)
    (hfit : ⌊(s : ℚ) / d + 1 / 2⌋ ≤ 32767) :
    (to_ushort (round_double (double_div (double_mul 1 (double_of_int (s : Int))) (d : ℚ))) :
      Int) = ⌊(s : ℚ) / d + 1 / 2⌋ := by
  have hdq : (0 : ℚ) < d := by exact_mod_cast hd1
  have hdq20 : (d : ℚ) < 2 ^ 20 := by exact_mod_cast hd
  have h0 : (0 : ℚ) ≤ (s : ℚ) / d := by positivity
  have hn : 0 ≤ ⌊(s : ℚ) / d + 1 / 2⌋ := Int.floor_nonneg.mpr (by linarith)
  have hs : s < 2 ^ 53 := by
    have h1 : (s : ℚ) / d + 1 / 2 < 32768 := by
      have := Int.lt_floor_add_one ((s : ℚ) / d + 1 / 2)
      have h2 : (⌊(s : ℚ) / d + 1 / 2⌋ : ℚ) ≤ 32767 := by exact_mod_cast hfit
      linarith
    have h3 : (s : ℚ) < 32768 * d := by
      have : (s : ℚ) / d < 32768 := by linarith
      rwa [div_lt_iff₀ hdq] at this
    have h4 : (s : ℚ) < 2 ^ 53 := by
      have : (32768 : ℚ) * d < 32768 * 2 ^ 20 := by linarith
      have e : (32768 : ℚ) * 2 ^ 20 ≤ 2 ^ 53 := by norm_num
      linarith
    exact_mod_cast h4
  rw [double_of_int_natCast s hs, double_mul_one_natCast s hs]
  unfold double_div
  rw [round_double_quotient_eq s d hd1 hd hfit]
  generalize ⌊(s : ℚ) / d + 1 / 2⌋ = n at hfit hn
  unfold to_ushort
  omega

theorem blur_kernel_eq (picture : List (List pixel_t)) (channel : pixel_t → Nat)
    (line column : Nat)
    (hfit : ⌊((neighbourhood_sum picture channel line column : Int) : ℚ) / 9 + 1 / 2⌋ ≤ 32767) :
    (blur_kernel picture channel line column : Int) =
      ⌊((neighbourhood_sum picture channel line column : Int) : ℚ) / 9 + 1 / 2⌋ := by
  have e : ((neighbourhood_sum picture channel line column : Int) : ℚ) =
      (((channel (pixel_at picture (line - 1) (column - 1)) +
        channel (pixel_at picture (line - 1) column) +
        channel (pixel_at picture (line - 1) (column + 1)) +
        channel (pixel_at picture line (column - 1)) +
        channel (pixel_at picture line column) +
        channel (pixel_at picture line (column + 1)) +
        channel (pixel_at picture (line + 1) (column - 1)) +
        channel (pixel_at picture (line + 1) column) +
        channel (pixel_at picture (line + 1) (column + 1)) : Nat) : ℚ)) := by
    unfold neighbourhood_sum neighbours_sum channel_at
    push_cast
    ring
  rw [e] at hfit ⊢
  unfold blur_kernel
  have h := round_double_quotient _ 9 (by norm_num) (by norm_num) (by exact_mod_cast hfit)
  rw [Nat.cast_ofNat] at h
  exact h

theorem gaussian_blur_kernel_eq (picture : List (List pixel_t)) (channel : pixel_t → Nat)
    (line column : Nat)
    (hfit : ⌊((gaussian_sum picture channel line column : Int) : ℚ) / 16 + 1 / 2⌋ ≤ 32767) :
    (gaussian_blur_kernel picture channel line column : Int) =
      ⌊((gaussian_sum picture channel line column : Int) : ℚ) / 16 + 1 / 2⌋ := by
  have e : ((gaussian_sum picture channel line column : Int) : ℚ) =
      (((channel (pixel_at picture (line - 1) (column - 1)) +
        2 * channel (pixel_at picture (line - 1) column) +
        channel (pixel_at picture (line - 1) (column + 1)) +
        2 * channel (pixel_at picture line (column - 1)) +
        4 * channel (pixel_at picture line column) +
        2 * channel (pixel_at picture line (column + 1)) +
        channel (pixel_at picture (line + 1) (column - 1)) +
        2 * channel (pixel_at picture (line + 1) column) +
        channel (pixel_at picture (line + 1) (column + 1)) : Nat) : ℚ)) := by
    unfold gaussian_sum channel_at
    push_cast
    ring
  rw [e] at hfit ⊢
  unfold gaussian_blur_kernel
  have h := round_double_quotient _ 16 (by norm_num) (by norm_num) (by exact_mod_cast hfit)
  rw [Nat.cast_ofNat] at h
  exact h

theorem neighbourhood_sum_range (picture : List (List pixel_t)) (hr : channels_in_range picture)
    (channel : pixel_t → Nat) (hchannel : channel ∈ channels) (line column : Nat) :
    0 ≤ neighbourhood_sum picture channel line column ∧
      neighbourhood_sum picture channel line column ≤ 9 * 255 := by
  have r := channel_at_range picture hr channel hchannel
  have r1 := r (line - 1) (column - 1)
  have r2 := r (line - 1) column
  have r3 := r (line - 1) (column + 1)
  have r4 := r line (column - 1)
  have r5 := r line column
  have r6 := r line (column + 1)
  have r7 := r (line + 1) (column - 1)
  have r8 := r (line + 1) column
  have r9 := r (line + 1) (column + 1)
  unfold neighbourhood_sum neighbours_sum
  omega

theorem gaussian_sum_range (picture : List (List pixel_t)) (hr : channels_in_range picture)
    (channel : pixel_t → Nat) (hchannel : channel ∈ channels) (line column : Nat) :
    0 ≤ gaussian_sum picture channel line column ∧
      gaussian_sum picture channel line column ≤ 16 * 255 := by
  have r := channel_at_range picture hr channel hchannel
  have r1 := r (line - 1) (column - 1)
  have r2 := r (line - 1) column
  have r3 := r (line - 1) (column + 1)
  have r4 := r line (column - 1)
  have r5 := r line column
  have r6 := r line (column + 1)
  have r7 := r (line + 1) (column - 1)
  have r8 := r (line + 1) column
  have r9 := r (line + 1) (column + 1)
  unfold gaussian_sum
  omega

/-- The floor of `s / d + 1/2` lies in `[0, 255]` when `0 ≤ s ≤ d * 255`. -/
theorem round_quotient_range (s : Int) (d : ℚ) (hd : 0 < d) (h0 : 0 ≤ s)
    (h1 : (s : ℚ) ≤ d * 255) :
    0 ≤ ⌊(s : ℚ) / d + 1 / 2⌋ ∧ ⌊(s : ℚ) / d + 1 / 2⌋ ≤ 255 := by
  have hs : (0 : ℚ) ≤ s := by exact_mod_cast h0
  have hq0 : (0 : ℚ) ≤ (s : ℚ) / d := by positivity
  have hq1 : (s : ℚ) / d ≤ 255 := by
    rw [div_le_iff₀ hd]
    linarith
  refine ⟨Int.floor_nonneg.mpr (by linarith), ?_⟩
  have : ⌊(s : ℚ) / d + 1 / 2⌋ < 256 := by
    rw [Int.floor_lt]
    push_cast
    linarith
  omega

/-- Claim C19.  For every pixel inside the selection and not on the image
border, `apply_blur` sets each channel to the round-half-up of the mean of the 9
input values of its 3-by-3 neighbourhood, `floor(S/9 + 1/2)` with `S` their sum
(whenever that value fits the `signed short` that `round_double` returns), and
this value lies in `[0, 255]` whenever the input channel values do.  (The
roundings of the `double` quotient and of the sum with `0.5` do not change the
integer that results.) -/
theorem apply_blur_value (image : image_t) (selection : area_t)
    (picture : List (List pixel_t)) (line column : Nat)
    (hp : image.picture = some picture)
    (hin : inside_selection selection line column) (hinner : inner_pixel image line column) :
    ∃ out, apply_blur image selection = some out ∧
      ∀ channel ∈ channels,
        (⌊((neighbourhood_sum picture channel line column : Int) : ℚ) / 9 + 1 / 2⌋ ≤ 32767 →
          channel_at out channel line column =
            ⌊((neighbourhood_sum picture channel line column : Int) : ℚ) / 9 + 1 / 2⌋) ∧
        (channels_in_range picture →
          channel_at out channel line column =
            ⌊((neighbourhood_sum picture channel line column : Int) : ℚ) / 9 + 1 / 2⌋ ∧
          0 ≤ channel_at out channel line column ∧ channel_at out channel line column ≤ 255) := by
  obtain ⟨out, hout, hvalue⟩ := apply_filter_inner blur_kernel image selection picture hp
    line column hin hinner
  refine ⟨out, hout, ?_⟩
  intro channel hchannel
  have general : ⌊((neighbourhood_sum picture channel line column : Int) : ℚ) / 9 + 1 / 2⌋ ≤
        32767 →
      channel_at out channel line column =
        ⌊((neighbourhood_sum picture channel line column : Int) : ℚ) / 9 + 1 / 2⌋ := by
    intro hfit
    rw [hvalue channel hchannel, blur_kernel_eq picture channel line column hfit]
  refine ⟨general, ?_⟩
  intro hr
  obtain ⟨s0, s1⟩ := neighbourhood_sum_range picture hr channel hchannel line column
  obtain ⟨n0, n1⟩ := round_quotient_range (neighbourhood_sum picture channel line column) 9
    (by norm_num) s0 (by exact_mod_cast s1)
  have hv := general (by omega)
  rw [hv]
  exact ⟨rfl, n0, n1⟩

/-- Witness of `apply_blur_value`: the centre of a 3-by-3 image, whose red
values sum to 455, is given the red value 51. -/
theorem apply_blur_value_witness :
    ∃ out, apply_blur colour_image colour_selection = some out ∧
      channel_at out pixel_t.red 1 1 = 51 := by
  obtain ⟨out, hout, hvalue⟩ := apply_blur_value colour_image colour_selection _ 1 1 rfl
    (by decide) (by decide)
  refine ⟨out, hout, ((hvalue pixel_t.red (by simp [channels])).2 (by decide)).1.trans ?_⟩
  have e : neighbourhood_sum [[⟨10, 0, 255⟩, ⟨20, 0, 255⟩, ⟨30, 0, 255⟩],
      [⟨40, 0, 255⟩, ⟨50, 200, 255⟩, ⟨60, 0, 255⟩],
      [⟨70, 0, 255⟩, ⟨80, 0, 255⟩, ⟨95, 0, 255⟩]] pixel_t.red 1 1 = 455 := by decide
  rw [e]
  norm_num

/-- Claim C20.  For every pixel inside the selection and not on the image
border, `apply_gaussian_blur` sets each channel to `floor(S/16 + 1/2)`, where
`S` is the input 3-by-3 neighbourhood weighted by `[1,2,1; 2,4,2; 1,2,1]`
(whenever that value fits the `signed short` that `round_double` returns), and
this value lies in `[0, 255]` whenever the input channel values do.  (The
roundings of the `double` arithmetic do not change the integer that results.) -/
theorem apply_gaussian_blur_value (image : image_t) (selection : area_t)
    (picture : List (List pixel_t)) (line column : Nat)
    (hp : image.picture = some picture)
    (hin : inside_selection selection line column) (hinner : inner_pixel image line column) :
    ∃ out, apply_gaussian_blur image selection = some out ∧
      ∀ channel ∈ channels,
        (⌊((gaussian_sum picture channel line column : Int) : ℚ) / 16 + 1 / 2⌋ ≤ 32767 →
          channel_at out channel line column =
            ⌊((gaussian_sum picture channel line column : Int) : ℚ) / 16 + 1 / 2⌋) ∧
        (channels_in_range picture →
          channel_at out channel line column =
            ⌊((gaussian_sum picture channel line column : Int) : ℚ) / 16 + 1 / 2⌋ ∧
          0 ≤ channel_at out channel line column ∧ channel_at out channel line column ≤ 255) := by
  obtain ⟨out, hout, hvalue⟩ := apply_filter_inner gaussian_blur_kernel image selection picture
    hp line column hin hinner
  refine ⟨out, hout, ?_⟩
  intro channel hchannel
  have general : ⌊((gaussian_sum picture channel line column : Int) : ℚ) / 16 + 1 / 2⌋ ≤ 32767 →
      channel_at out channel line column =
        ⌊((gaussian_sum picture channel line column : Int) : ℚ) / 16 + 1 / 2⌋ := by
    intro hfit
    rw [hvalue channel hchannel, gaussian_blur_kernel_eq picture channel line column hfit]
  refine ⟨general, ?_⟩
  intro hr
  obtain ⟨s0, s1⟩ := gaussian_sum_range picture hr channel hchannel line column
  obtain ⟨n0, n1⟩ := round_quotient_range (gaussian_sum picture channel line column) 16
    (by norm_num) s0 (by exact_mod_cast s1)
  have hv := general (by omega)
  rw [hv]
  exact ⟨rfl, n0, n1⟩

/-- Witness of `apply_gaussian_blur_value`: the centre of a 3-by-3 image, whose
weighted red values sum to 805, is given the red value 50. -/
theorem apply_gaussian_blur_value_witness :
    ∃ out, apply_gaussian_blur colour_image colour_selection = some out ∧
      channel_at out pixel_t.red 1 1 = 50 := by
  obtain ⟨out, hout, hvalue⟩ := apply_gaussian_blur_value colour_image colour_selection _ 1 1
    rfl (by decide) (by decide)
  refine ⟨out, hout, ((hvalue pixel_t.red (by simp [channels])).2 (by decide)).1.trans ?_⟩
  have e : gaussian_sum [[⟨10, 0, 255⟩, ⟨20, 0, 255⟩, ⟨30, 0, 255⟩],
      [⟨40, 0, 255⟩, ⟨50, 200, 255⟩, ⟨60, 0, 255⟩],
      [⟨70, 0, 255⟩, ⟨80, 0, 255⟩, ⟨95, 0, 255⟩]] pixel_t.red 1 1 = 805 := by decide
  rw [e]
  norm_num

/-! ## Colour-mode preconditions -/

theorem isNone_of_isSome (image : image_t) (h : image.picture.isSome = true) :
    image.picture.isNone = false := by
  cases hp : image.picture with
  | none => simp [hp] at h
  | some p => rfl

theorem apply_command_grayscale (image : image_t) (selection : area_t) (p1 p2 : List Nat)
    (hsome : image.picture.isSome = true) (hcolor : image.color = false) :
    apply_command image selection p1 p2 =
      some (image, [if p1.length = 0 ∨ p2.length ≠ 0 then message.invalid_command
        else message.easy_charlie_chaplin]) := by
  unfold apply_command
  rw [isNone_of_isSome image hsome, if_neg (by simp)]
  by_cases hpar : p1.length = 0 ∨ p2.length ≠ 0
  · rw [if_pos hpar, if_pos hpar]
  · rw [if_neg hpar, if_neg hpar, if_pos hcolor]

theorem histogram_command_colour (image : image_t) (p1 p2 p3 : List Nat)
    (hsome : image.picture.isSome = true) (hcolor : image.color = true) :
    histogram_command image p1 p2 p3 =
      some [if p1.length ≠ 0 ∧ p2.length ≠ 0 ∧ p3.length = 0 then
        message.black_and_white_image_needed else message.invalid_command] := by
  unfold histogram_command
  rw [isNone_of_isSome image hsome, if_neg (by simp)]
  by_cases hpar : p1.length ≠ 0 ∧ p2.length ≠ 0 ∧ p3.length = 0
  · rw [if_pos hpar, if_pos hpar, if_pos hcolor]
  · rw [if_neg hpar, if_neg hpar]

theorem main_step_apply (s : session_t) (p1 p2 p3 p4 p5 : List Nat)
    (r : image_t × List message) (h : apply_command s.image s.selection p1 p2 = some r) :
    main_step s (str "APPLY") p1 p2 p3 p4 p5 = some (⟨r.1, s.selection, s.disk⟩, r.2, false) := by
  have e1 : str "APPLY" ≠ str "EXIT" := by decide
  have e2 : str "APPLY" ≠ str "LOAD" := by decide
  have e3 : str "APPLY" ≠ str "SELECT" := by decide
  have e4 : str "APPLY" ≠ str "HISTOGRAM" := by decide
  have e5 : str "APPLY" ≠ str "EQUALIZE" := by decide
  have e6 : str "APPLY" ≠ str "ROTATE" := by decide
  have e7 : str "APPLY" ≠ str "CROP" := by decide
  unfold main_step
  rw [if_neg e1, if_neg (by simp [e2]), if_neg e3, if_neg e4, if_neg (by simp [e5]),
    if_neg e6, if_neg (by simp [e7]), if_pos rfl]
  simp only [h]

theorem main_step_histogram (s : session_t) (p1 p2 p3 p4 p5 : List Nat)
    (out : List message) (h : histogram_command s.image p1 p2 p3 = some out) :
    main_step s (str "HISTOGRAM") p1 p2 p3 p4 p5 = some (s, out, false) := by
  have e1 : str "HISTOGRAM" ≠ str "EXIT" := by decide
  have e2 : str "HISTOGRAM" ≠ str "LOAD" := by decide
  have e3 : str "HISTOGRAM" ≠ str "SELECT" := by decide
  unfold main_step
  rw [if_neg e1, if_neg (by simp [e2]), if_neg e3, if_pos rfl]
  simp only [h]

theorem main_step_equalize_colour (s : session_t) (p1 p2 p3 p4 p5 : List Nat)
    (hsome : s.image.picture.isSome = true) (hcolor : s.image.color = true) :
    main_step s (str "EQUALIZE") p1 p2 p3 p4 p5 =
      some (s, [if p1.length = 0 then message.black_and_white_image_needed
        else message.invalid_command], false) := by
  have e1 : str "EQUALIZE" ≠ str "EXIT" := by decide
  have e2 : str "EQUALIZE" ≠ str "LOAD" := by decide
  have e3 : str "EQUALIZE" ≠ str "SELECT" := by decide
  have e4 : str "EQUALIZE" ≠ str "HISTOGRAM" := by decide
  have e6 : str "EQUALIZE" ≠ str "ROTATE" := by decide
  have e7 : str "EQUALIZE" ≠ str "CROP" := by decide
  have e8 : str "EQUALIZE" ≠ str "APPLY" := by decide
  have e9 : str "EQUALIZE" ≠ str "SAVE" := by decide
  unfold main_step
  rw [if_neg e1, if_neg (by simp [e2]), if_neg e3, if_neg e4]
  by_cases hpar : p1.length = 0
  · rw [if_pos ⟨rfl, hpar⟩, isNone_of_isSome _ hsome, if_neg (by simp), if_pos hcolor, if_pos hpar]
  · rw [if_neg (by simp [hpar]), if_neg e6, if_neg (by simp [e7]), if_neg e8,
      if_neg (by simp [e9]), if_neg hpar]

/-- Claim C21.  Colour-mode preconditions are enforced without changing the
state.  With an image loaded whose colour flag is false, APPLY with any filter
name is rejected (`Easy, Charlie Chaplin`) and returns the image as it was; with
an image loaded whose colour flag is true, HISTOGRAM (with its two parameters)
and EQUALIZE are rejected (`Black and white image needed`); and whatever the
parameters are, these commands print one error message and leave the image and
the selection of the session unchanged. -/
theorem colour_mode_rejections (image : image_t) (selection : area_t) (disk : disk_t)
    (p1 p2 p3 p4 p5 : List Nat) (hsome : image.picture.isSome = true) :
    (image.color = false →
      (p1.length ≠ 0 → p2.length = 0 →
        apply_command image selection p1 p2 = some (image, [message.easy_charlie_chaplin])) ∧
      ∃ m, m.is_error = true ∧
        main_step ⟨image, selection, disk⟩ (str "APPLY") p1 p2 p3 p4 p5 =
          some (⟨image, selection, disk⟩, [m], false)) ∧
    (image.color = true →
      (p1.length ≠ 0 → p2.length ≠ 0 → p3.length = 0 →
        histogram_command image p1 p2 p3 = some [message.black_and_white_image_needed]) ∧
      (∃ m, m.is_error = true ∧
        main_step ⟨image, selection, disk⟩ (str "HISTOGRAM") p1 p2 p3 p4 p5 =
          some (⟨image, selection, disk⟩, [m], false)) ∧
      (p1.length = 0 →
        main_step ⟨image, selection, disk⟩ (str "EQUALIZE") p1 p2 p3 p4 p5 =
          some (⟨image, selection, disk⟩, [message.black_and_white_image_needed], false)) ∧
      ∃ m, m.is_error = true ∧
        main_step ⟨image, selection, disk⟩ (str "EQUALIZE") p1 p2 p3 p4 p5 =
          some (⟨image, selection, disk⟩, [m], false)) := by
  refine ⟨fun hcolor => ⟨?_, ?_⟩, fun hcolor => ⟨?_, ?_, ?_, ?_⟩⟩
  · intro h1 h2
    rw [apply_command_grayscale image selection p1 p2 hsome hcolor, if_neg (by simp [h1, h2])]
  · refine ⟨_, ?_, main_step_apply ⟨image, selection, disk⟩ p1 p2 p3 p4 p5 _
      (apply_command_grayscale image selection p1 p2 hsome hcolor)⟩
    split_ifs <;> rfl
  · intro h1 h2 h3
    rw [histogram_command_colour image p1 p2 p3 hsome hcolor, if_pos ⟨h1, h2, h3⟩]
  · refine ⟨_, ?_, main_step_histogram ⟨image, selection, disk⟩ p1 p2 p3 p4 p5 _
      (histogram_command_colour image p1 p2 p3 hsome hcolor)⟩
    split_ifs <;> rfl
  · intro h1
    rw [main_step_equalize_colour ⟨image, selection, disk⟩ p1 p2 p3 p4 p5 hsome hcolor,
      if_pos h1]
  · refine ⟨_, ?_, main_step_equalize_colour ⟨image, selection, disk⟩ p1 p2 p3 p4 p5 hsome
      hcolor⟩
    split_ifs <;> rfl

/-- Witness of `colour_mode_rejections`: APPLY BLUR on a grayscale image of 2
lines and 3 columns. -/
theorem colour_mode_rejections_witness :
    apply_command small_image small_selection (str "BLUR") [] =
      some (small_image, [message.easy_charlie_chaplin]) :=
  ((colour_mode_rejections small_image small_selection empty_disk (str "BLUR") [] [] [] [] rfl).1
    rfl).1 (by decide) rfl

/-! ## Reading a header step by step -/

/-- The run of `read_image` on a stream whose header conversions all store a
value: the pixels are read by the reader of the magic number. -/
theorem read_image_trace (file file1 file2 file3 file4 file5 file6 file7 : FILE)
    (magic width height max_value : Nat)
    (h1 : skip_comments file = some file1)
    (h2 : fscanf_magic file1 = (some magic, file2))
    (hm : magic = 2 ∨ magic = 5 ∨ magic = 3 ∨ magic = 6)
    (h3 : skip_comments (fscanf_c file2) = some file3)
    (h4 : fscanf_hd file3 = (some width, file4))
    (h5 : fscanf_hd file4 = (some height, file5))
    (h6 : skip_comments file5 = some file6)
    (h7 : fscanf_hd file6 = (some max_value, file7)) :
    read_image file =
      (read_pixels magic (fscanf_c file7)
          { picture := none, color := decide (magic = 3 ∨ magic = 6),
            height := height, width := width } max_value).map
        (fun picture => some (image_t.mk (some picture) (decide (magic = 3 ∨ magic = 6))
          height width)) := by
  unfold read_image
  simp only [h1, h2]
  rw [if_pos hm]
  simp only [h3, h4, h5, h6, h7]
  cases read_pixels magic (fscanf_c file7)
    { picture := none, color := decide (magic = 3 ∨ magic = 6),
      height := height, width := width } max_value <;> rfl

/-- The function `read_image` returns `false` exactly when a magic number was read
and it is none of 2, 3, 5, 6. -/
theorem read_image_false_iff (file : FILE) :
    read_image file = some none ↔
      ∃ file1 magic file2, skip_comments file = some file1 ∧
        fscanf_magic file1 = (some magic, file2) ∧
        ¬ (magic = 2 ∨ magic = 5 ∨ magic = 3 ∨ magic = 6) := by
  constructor
  · intro h
    unfold read_image at h
    cases h1 : skip_comments file with
    | none => simp [h1] at h
    | some file1 =>
      simp only [h1] at h
      rcases h2 : fscanf_magic file1 with ⟨_ | magic, file2⟩
      · simp [h2] at h
      · simp only [h2] at h
        by_cases hm : magic = 2 ∨ magic = 5 ∨ magic = 3 ∨ magic = 6
        · rw [if_pos hm] at h
          split at h
          · simp at h
          split at h
          · simp at h
          split at h
          · simp at h
          split at h
          · simp at h
          split at h
          · simp at h
          split at h
          · simp at h
          · simp at h
        · exact ⟨file1, magic, file2, rfl, h2, hm⟩
  · rintro ⟨file1, magic, file2, h1, h2, hm⟩
    unfold read_image
    simp only [h1, h2]
    rw [if_neg hm]

/-- When `read_image` returns `true`, the magic number it read is one of 2, 3, 5,
6 and the colour flag of the image is set from it. -/
theorem read_image_true_color (file : FILE) (image : image_t)
    (h : read_image file = some (some image)) :
    ∃ file1 magic file2, skip_comments file = some file1 ∧
      fscanf_magic file1 = (some magic, file2) ∧
      (magic = 2 ∨ magic = 5 ∨ magic = 3 ∨ magic = 6) ∧
      image.color = decide (magic = 3 ∨ magic = 6) := by
  unfold read_image at h
  cases h1 : skip_comments file with
  | none => simp [h1] at h
  | some file1 =>
    simp only [h1] at h
    rcases h2 : fscanf_magic file1 with ⟨_ | magic, file2⟩
    · simp [h2] at h
    · simp only [h2] at h
      by_cases hm : magic = 2 ∨ magic = 5 ∨ magic = 3 ∨ magic = 6
      · refine ⟨file1, magic, file2, rfl, h2, hm, ?_⟩
        rw [if_pos hm] at h
        split at h
        · simp at h
        split at h
        · simp at h
        split at h
        · simp at h
        split at h
        · simp at h
        split at h
        · simp at h
        split at h
        · simp at h
        · simp only [Option.some.injEq] at h
          subst h
          rfl
      · rw [if_neg hm] at h
        simp at h

/-! ## The magic number -/

theorem read_image_P2_pixel :
    read_image (str "P2\n1 1\n255\n7\n") = some (some ⟨some [[⟨7, 7, 7⟩]], false, 1, 1⟩) := by
  rw [read_image_trace (str "P2\n1 1\n255\n7\n") (str "P2\n1 1\n255\n7\n")
    (str "\n1 1\n255\n7\n") (str "1 1\n255\n7\n") (str " 1\n255\n7\n") (str "\n255\n7\n")
    (str "\n255\n7\n") (str "\n7\n") 2 1 1 255 (by decide) (by decide) (by decide) (by decide)
    (by decide) (by decide) (by decide) (by decide)]
  have n1 : ∀ w, next_value (str "7\n") w = (some 7, str "\n") := fun _ => rfl
  have e : fscanf_c (str "\n7\n") = str "7\n" := by decide
  rw [e]
  simp [read_pixels, read_P2, read_P2_lines, read_P2_line, n1, rescale_max_value]

theorem read_image_P3_pixel :
    read_image (str "P3\n1 1\n255\n7 8 9\n") = some (some ⟨some [[⟨7, 8, 9⟩]], true, 1, 1⟩) := by
  rw [read_image_trace (str "P3\n1 1\n255\n7 8 9\n") (str "P3\n1 1\n255\n7 8 9\n")
    (str "\n1 1\n255\n7 8 9\n") (str "1 1\n255\n7 8 9\n") (str " 1\n255\n7 8 9\n")
    (str "\n255\n7 8 9\n") (str "\n255\n7 8 9\n") (str "\n7 8 9\n") 3 1 1 255 (by decide)
    (by decide) (by decide) (by decide) (by decide) (by decide) (by decide) (by decide)]
  have n1 : ∀ w, next_value (str "7 8 9\n") w = (some 7, str " 8 9\n") := fun _ => rfl
  have n2 : ∀ w, next_value (str " 8 9\n") w = (some 8, str " 9\n") := fun _ => rfl
  have n3 : ∀ w, next_value (str " 9\n") w = (some 9, str "\n") := fun _ => rfl
  have e : fscanf_c (str "\n7 8 9\n") = str "7 8 9\n" := by decide
  rw [e]
  simp [read_pixels, read_P3, read_P3_lines, read_P3_line, n1, n2, n3, rescale_max_value]

theorem read_image_P5_pixel :
    read_image (str "P5\n1 1\n255\n" ++ [7]) = some (some ⟨some [[⟨7, 7, 7⟩]], false, 1, 1⟩) := by
  rw [read_image_trace (str "P5\n1 1\n255\n" ++ [7]) (str "P5\n1 1\n255\n" ++ [7])
    (str "\n1 1\n255\n" ++ [7]) (str "1 1\n255\n" ++ [7]) (str " 1\n255\n" ++ [7])
    (str "\n255\n" ++ [7]) (str "\n255\n" ++ [7]) (str "\n" ++ [7]) 5 1 1 255 (by decide)
    (by decide) (by decide) (by decide) (by decide) (by decide) (by decide) (by decide)]
  have e : fscanf_c (str "\n" ++ [7]) = [7] := by decide
  rw [e]
  simp [read_pixels, read_P5, read_P5_lines, read_P5_line, next_byte, rescale_max_value]

theorem read_image_P6_pixel :
    read_image (str "P6\n1 1\n255\n" ++ [7, 8, 9]) =
      some (some ⟨some [[⟨7, 8, 9⟩]], true, 1, 1⟩) := by
  rw [read_image_trace (str "P6\n1 1\n255\n" ++ [7, 8, 9]) (str "P6\n1 1\n255\n" ++ [7, 8, 9])
    (str "\n1 1\n255\n" ++ [7, 8, 9]) (str "1 1\n255\n" ++ [7, 8, 9])
    (str " 1\n255\n" ++ [7, 8, 9]) (str "\n255\n" ++ [7, 8, 9]) (str "\n255\n" ++ [7, 8, 9])
    (str "\n" ++ [7, 8, 9]) 6 1 1 255 (by decide) (by decide) (by decide) (by decide)
    (by decide) (by decide) (by decide) (by decide)]
  have e : fscanf_c (str "\n" ++ [7, 8, 9]) = [7, 8, 9] := by decide
  rw [e]
  simp [read_pixels, read_P6, read_P6_lines, read_P6_line, next_byte, rescale_max_value]

/-- An input that does not start with `P` and a number: the conversion `P%hd`
stores nothing, `magic_number` is never assigned, and what `read_image` does
with it is not determined. -/
theorem read_image_magic_unassigned (file file1 file2 : FILE)
    (h1 : skip_comments file = some file1) (h2 : fscanf_magic file1 = (none, file2)) :
    read_image file = none := by
  unfold read_image
  simp only [h1, h2]

/-- Claim C28, counterexample.  The magic number of this file is `P65538`, none
of P2, P3, P5, P6; the conversion `%hd` stores it in 16 bits as 2, and
`read_image` returns `true` with the file read as a P2 image. -/
theorem read_image_accepts_wrapped_magic :
    fscanf_magic (str "P65538\n1 1\n255\n7\n") = (some 2, str "\n1 1\n255\n7\n") ∧
    read_image (str "P65538\n1 1\n255\n7\n") =
      some (some ⟨some [[⟨7, 7, 7⟩]], false, 1, 1⟩) := by
  have hm : fscanf_magic (str "P65538\n1 1\n255\n7\n") = (some 2, str "\n1 1\n255\n7\n") := by
    decide
  refine ⟨hm, ?_⟩
  rw [read_image_trace (str "P65538\n1 1\n255\n7\n") (str "P65538\n1 1\n255\n7\n")
    (str "\n1 1\n255\n7\n") (str "1 1\n255\n7\n") (str " 1\n255\n7\n") (str "\n255\n7\n")
    (str "\n255\n7\n") (str "\n7\n") 2 1 1 255 (by decide) hm (by decide) (by decide)
    (by decide) (by decide) (by decide) (by decide)]
  have e : fscanf_c (str "\n7\n") = str "7\n" := by decide
  have n1 : ∀ w, next_value (str "7\n") w = (some 7, str "\n") := fun _ => rfl
  rw [e]
  simp [read_pixels, read_P2, read_P2_lines, read_P2_line, n1, rescale_max_value]

/-- Claim C28 (amended).  For every input on which the conversion `P%hd` of
`read_image` stores a number, with `n` the value that the 16-bit variable
`magic_number` then holds, `read_image` fails (returns `false`) when `n` is
none of 2, 3, 5, 6; and every image it returns has `color = false` for `n = 2`
and `n = 5` and `color = true` for `n = 3` and `n = 6`, as on the four
one-pixel files given. -/
theorem read_image_magic_number (file file1 file2 : FILE) (magic : Nat)
    (h1 : skip_comments file = some file1) (h2 : fscanf_magic file1 = (some magic, file2)) :
    (¬ (magic = 2 ∨ magic = 3 ∨ magic = 5 ∨ magic = 6) → read_image file = some none) ∧
    (∀ image, read_image file = some (some image) →
      (magic = 2 ∨ magic = 3 ∨ magic = 5 ∨ magic = 6) ∧
      (magic = 2 ∨ magic = 5 → image.color = false) ∧
      (magic = 3 ∨ magic = 6 → image.color = true)) ∧
    read_image (str "P2\n1 1\n255\n7\n") = some (some ⟨some [[⟨7, 7, 7⟩]], false, 1, 1⟩) ∧
    read_image (str "P3\n1 1\n255\n7 8 9\n") = some (some ⟨some [[⟨7, 8, 9⟩]], true, 1, 1⟩) ∧
    read_image (str "P5\n1 1\n255\n" ++ [7]) = some (some ⟨some [[⟨7, 7, 7⟩]], false, 1, 1⟩) ∧
    read_image (str "P6\n1 1\n255\n" ++ [7, 8, 9]) =
      some (some ⟨some [[⟨7, 8, 9⟩]], true, 1, 1⟩) := by
  refine ⟨?_, ?_, read_image_P2_pixel, read_image_P3_pixel, read_image_P5_pixel,
    read_image_P6_pixel⟩
  · intro hm
    exact (read_image_false_iff file).mpr ⟨file1, magic, file2, h1, h2, by omega⟩
  · intro image himage
    obtain ⟨g1, m, g2, k1, k2, km, kc⟩ := read_image_true_color file image himage
    rw [h1] at k1
    cases k1
    rw [h2] at k2
    cases k2
    refine ⟨by omega, ?_, ?_⟩
    · intro hm
      rw [kc]
      simp only [decide_eq_false_iff_not]
      omega
    · intro hm
      rw [kc]
      simp only [decide_eq_true_eq]
      exact hm

/-- Witness of `read_image_magic_number`: a file that starts with `P7` is rejected. -/
theorem read_image_magic_number_witness :
    read_image (str "P7\n1 1\n255\n0\n") = some none :=
  (read_image_magic_number (str "P7\n1 1\n255\n0\n") (str "P7\n1 1\n255\n0\n")
    (str "\n1 1\n255\n0\n") 7 (by decide) (by decide)).1 (by decide)

/-! ## Comment lines in the header -/

theorem fgets_length_le (limit : Nat) (file : FILE) : (fgets limit file).length ≤ file.length := by
  induction limit generalizing file with
  | zero => simp [fgets]
  | succ n ih =>
    cases file with
    | nil => simp [fgets]
    | cons c cs =>
      simp only [fgets]
      split_ifs
      · simp
      · have := ih cs
        simp only [List.length_cons]
        omega

/-- The loop of `skip_comments` gives the same result with any number of turns
allowed that exceeds the length of the stream. -/
theorem skip_comments_loop_fuel (n : Nat) :
    ∀ (file : FILE) (fuel1 fuel2 : Nat), file.length ≤ n → file.length < fuel1 →
      file.length < fuel2 → skip_comments_loop fuel1 file = skip_comments_loop fuel2 file := by
  induction n with
  | zero =>
    intro file fuel1 fuel2 hn h1 h2
    have : file = [] := List.length_eq_zero.mp (by omega)
    subst this
    obtain ⟨k1, rfl⟩ : ∃ k, fuel1 = k + 1 := ⟨fuel1 - 1, by omega⟩
    obtain ⟨k2, rfl⟩ : ∃ k, fuel2 = k + 1 := ⟨fuel2 - 1, by omega⟩
    rfl
  | succ n ih =>
    intro file fuel1 fuel2 hn h1 h2
    obtain ⟨k1, rfl⟩ : ∃ k, fuel1 = k + 1 := ⟨fuel1 - 1, by omega⟩
    obtain ⟨k2, rfl⟩ : ∃ k, fuel2 = k + 1 := ⟨fuel2 - 1, by omega⟩
    cases file with
    | nil => rfl
    | cons c cs =>
      simp only [skip_comments_loop]
      by_cases hc : c = 35
      · rw [if_pos hc, if_pos hc]
        have hlen := fgets_length_le (MAX_INPUT_LINE_LENGTH - 1) cs
        simp only [List.length_cons] at hn h1 h2
        exact ih _ _ _ (by omega) (by omega) (by omega)
      · rw [if_neg hc, if_neg hc]

/-- A comment line at the head of the stream is skipped by `skip_comments`. -/
theorem skip_comments_comment_line (comment : List Nat) (h10 : 10 ∉ comment)
    (hlen : comment.length + 2 ≤ MAX_INPUT_LINE_LENGTH) (rest : FILE) :
    skip_comments (35 :: (comment ++ 10 :: rest)) = skip_comments rest := by
  have hf := fgets_line comment h10 rest (MAX_INPUT_LINE_LENGTH - 1) (by omega)
  unfold skip_comments
  simp only [List.length_cons, skip_comments_loop, if_true]
  rw [hf]
  exact skip_comments_loop_fuel rest.length rest _ _ (le_refl _)
    (by simp only [List.length_append, List.length_cons]; omega) (by omega)

theorem fscanf_magic_digit (magic c : Nat) (hm : magic = 2 ∨ magic = 5 ∨ magic = 3 ∨ magic = 6)
    (hc : isdigit c = false) (rest : FILE) :
    fscanf_magic (80 :: (48 + magic) :: c :: rest) = (some magic, c :: rest) := by
  have hd : print_digits 5 magic [] = [48 + magic] := by
    rcases hm with h | h | h | h <;> subst h <;> decide
  have h := fscanf_hd_digits magic (by omega) [] (by simp) c hc rest
  rw [hd] at h
  exact h

/-- The function `read_image` fails to assign the height. -/
theorem read_image_height_unassigned (file file1 file2 file3 file4 : FILE)
    (magic width : Nat)
    (h1 : skip_comments file = some file1)
    (h2 : fscanf_magic file1 = (some magic, file2))
    (hm : magic = 2 ∨ magic = 5 ∨ magic = 3 ∨ magic = 6)
    (h3 : skip_comments (fscanf_c file2) = some file3)
    (h4 : fscanf_hd file3 = (some width, file4))
    (h5 : (fscanf_hd file4).1 = none) :
    read_image file = none := by
  unfold read_image
  simp only [h1, h2]
  rw [if_pos hm]
  simp only [h3, h4]
  rcases h : fscanf_hd file4 with ⟨_ | height, file5⟩
  · rfl
  · rw [h] at h5
    simp at h5

/-- The function `read_image` fails to assign the maximum value. -/
theorem read_image_max_value_unassigned (file file1 file2 file3 file4 file5 file6 : FILE)
    (magic width height : Nat)
    (h1 : skip_comments file = some file1)
    (h2 : fscanf_magic file1 = (some magic, file2))
    (hm : magic = 2 ∨ magic = 5 ∨ magic = 3 ∨ magic = 6)
    (h3 : skip_comments (fscanf_c file2) = some file3)
    (h4 : fscanf_hd file3 = (some width, file4))
    (h5 : fscanf_hd file4 = (some height, file5))
    (h6 : skip_comments file5 = some file6)
    (h7 : (fscanf_hd file6).1 = none) :
    read_image file = none := by
  unfold read_image
  simp only [h1, h2]
  rw [if_pos hm]
  simp only [h3, h4, h5, h6]
  rcases h : fscanf_hd file6 with ⟨_ | max_value, file7⟩
  · rfl
  · rw [h] at h7
    simp at h7

theorem read_image_comment_before_magic (comment : List Nat) (h10 : 10 ∉ comment)
    (hlen : comment.length + 2 ≤ MAX_INPUT_LINE_LENGTH) (file : FILE) :
    read_image (35 :: (comment ++ 10 :: file)) = read_image file := by
  unfold read_image
  rw [skip_comments_comment_line comment h10 hlen file]

theorem read_image_comment_before_width (comment : List Nat) (h10 : 10 ∉ comment)
    (hlen : comment.length + 2 ≤ MAX_INPUT_LINE_LENGTH) (magic c : Nat) (rest : FILE)
    (hm : magic = 2 ∨ magic = 5 ∨ magic = 3 ∨ magic = 6) (hc : isdigit c = false) :
    read_image (80 :: (48 + magic) :: c :: 35 :: (comment ++ 10 :: rest)) =
      read_image (80 :: (48 + magic) :: c :: rest) := by
  unfold read_image
  rw [skip_comments_no_comment 80 (by norm_num), skip_comments_no_comment 80 (by norm_num)]
  simp only [fscanf_magic_digit magic c hm hc]
  rw [if_pos hm, if_pos hm]
  have e1 : fscanf_c (c :: 35 :: (comment ++ 10 :: rest)) = 35 :: (comment ++ 10 :: rest) := rfl
  have e2 : fscanf_c (c :: rest) = rest := rfl
  rw [e1, e2, skip_comments_comment_line comment h10 hlen rest]

theorem rescale_100 : rescale 0 100 = some 0 ∧ rescale 50 100 = some 128 ∧
    rescale 100 100 = some 255 ∧ rescale 25 100 = some 64 := by
  refine ⟨?_, ?_, ?_, ?_⟩
  · rw [rescale_eq 100 0 (by norm_num) (by norm_num) (by norm_num)]; norm_num [round_half_up]
  · rw [rescale_eq 100 50 (by norm_num) (by norm_num) (by norm_num)]; norm_num [round_half_up]; rfl
  · rw [rescale_eq 100 100 (by norm_num) (by norm_num) (by norm_num)]; norm_num [round_half_up]; rfl
  · rw [rescale_eq 100 25 (by norm_num) (by norm_num) (by norm_num)]; norm_num [round_half_up]; rfl

theorem read_image_P2_example :
    read_image (str "P2\n2 2\n100\n0 50\n100 25\n") =
      some (some ⟨some [[⟨0, 0, 0⟩, ⟨128, 128, 128⟩], [⟨255, 255, 255⟩, ⟨64, 64, 64⟩]],
        false, 2, 2⟩) := by
  obtain ⟨r0, r50, r100, r25⟩ := rescale_100
  rw [read_image_trace (str "P2\n2 2\n100\n0 50\n100 25\n") (str "P2\n2 2\n100\n0 50\n100 25\n")
    (str "\n2 2\n100\n0 50\n100 25\n") (str "2 2\n100\n0 50\n100 25\n")
    (str " 2\n100\n0 50\n100 25\n") (str "\n100\n0 50\n100 25\n") (str "\n100\n0 50\n100 25\n")
    (str "\n0 50\n100 25\n") 2 2 2 100 (by decide) (by decide) (by decide) (by decide)
    (by decide) (by decide) (by decide) (by decide)]
  have n1 : ∀ w, next_value (str "0 50\n100 25\n") w = (some 0, str " 50\n100 25\n") :=
    fun _ => rfl
  have n2 : ∀ w, next_value (str " 50\n100 25\n") w = (some 50, str "\n100 25\n") :=
    fun _ => rfl
  have n3 : ∀ w, next_value (str "\n100 25\n") w = (some 100, str " 25\n") := fun _ => rfl
  have n4 : ∀ w, next_value (str " 25\n") w = (some 25, str "\n") := fun _ => rfl
  have e : fscanf_c (str "\n0 50\n100 25\n") = str "0 50\n100 25\n" := by decide
  rw [e]
  simp [read_pixels, read_P2, read_P2_lines, read_P2_line, n1, n2, n3, n4, r0, r50, r100, r25]

/-- The P2 file of 2 by 2 pixels with a comment line before its maximum value:
`skip_comments` meets the newline that follows the height, the conversion of the
maximum value meets `#` and assigns nothing, and `read_image` goes on with a
variable that was never assigned. -/
theorem read_image_comment_before_max_value :
    read_image (str "P2\n2 2\n# c\n100\n0 50\n100 25\n") = none :=
  read_image_max_value_unassigned (str "P2\n2 2\n# c\n100\n0 50\n100 25\n")
    (str "P2\n2 2\n# c\n100\n0 50\n100 25\n") (str "\n2 2\n# c\n100\n0 50\n100 25\n")
    (str "2 2\n# c\n100\n0 50\n100 25\n") (str " 2\n# c\n100\n0 50\n100 25\n")
    (str "\n# c\n100\n0 50\n100 25\n") (str "\n# c\n100\n0 50\n100 25\n") 2 2 2
    (by decide) (by decide) (by decide) (by decide) (by decide) (by decide) (by decide)
    (by decide)

/-- Claim C29, counterexample.  The P2 file of 2 by 2 pixels is read as an image;
with the comment line `# c` inserted immediately before its height, the
conversion `%hd %hd` of the two dimensions meets `#` after the width and assigns
no height, and `read_image` goes on with a variable that was never assigned. -/
theorem comment_before_height_not_skipped :
    read_image (str "P2\n2 2\n100\n0 50\n100 25\n") =
      some (some ⟨some [[⟨0, 0, 0⟩, ⟨128, 128, 128⟩], [⟨255, 255, 255⟩, ⟨64, 64, 64⟩]],
        false, 2, 2⟩) ∧
    read_image (str "P2\n2 # c\n2\n100\n0 50\n100 25\n") = none :=
  ⟨read_image_P2_example,
    read_image_height_unassigned (str "P2\n2 # c\n2\n100\n0 50\n100 25\n")
      (str "P2\n2 # c\n2\n100\n0 50\n100 25\n") (str "\n2 # c\n2\n100\n0 50\n100 25\n")
      (str "2 # c\n2\n100\n0 50\n100 25\n") (str " # c\n2\n100\n0 50\n100 25\n") 2 2
      (by decide) (by decide) (by decide) (by decide) (by decide) (by decide)⟩

/-- Claim C29 (amended).  A comment line (`#`, any text without newline that fits
the line buffer, newline) immediately before the magic number, or immediately
before the width when the width follows the single character after the magic
number, does not change what `read_image` returns, as on the P2 file of 2 by 2
pixels given. -/
theorem comment_lines_in_header (comment : List Nat) (h10 : 10 ∉ comment)
    (hlen : comment.length + 2 ≤ MAX_INPUT_LINE_LENGTH) :
    (∀ file : FILE, read_image (35 :: (comment ++ 10 :: file)) = read_image file) ∧
    (∀ (magic c : Nat) (rest : FILE), magic = 2 ∨ magic = 5 ∨ magic = 3 ∨ magic = 6 →
      isdigit c = false →
      read_image (80 :: (48 + magic) :: c :: 35 :: (comment ++ 10 :: rest)) =
        read_image (80 :: (48 + magic) :: c :: rest)) ∧
    read_image (str "# c\nP2\n2 2\n100\n0 50\n100 25\n") =
      some (some ⟨some [[⟨0, 0, 0⟩, ⟨128, 128, 128⟩], [⟨255, 255, 255⟩, ⟨64, 64, 64⟩]],
        false, 2, 2⟩) ∧
    read_image (str "P2\n# c\n2 2\n100\n0 50\n100 25\n") =
      some (some ⟨some [[⟨0, 0, 0⟩, ⟨128, 128, 128⟩], [⟨255, 255, 255⟩, ⟨64, 64, 64⟩]],
        false, 2, 2⟩) := by
  refine ⟨read_image_comment_before_magic comment h10 hlen,
    fun magic c rest hm hc => read_image_comment_before_width comment h10 hlen magic c rest hm hc,
    ?_, ?_⟩
  · exact (read_image_comment_before_magic (str " c") (by decide) (by decide)
      (str "P2\n2 2\n100\n0 50\n100 25\n")).trans read_image_P2_example
  · exact (read_image_comment_before_width (str " c") (by decide) (by decide) 2 10
      (str "2 2\n100\n0 50\n100 25\n") (by decide) (by decide)).trans read_image_P2_example

/-- Witness of `comment_lines_in_header`: the comment line `# c` before the
magic number of a P2 file. -/
theorem comment_lines_in_header_witness :
    read_image (35 :: (str " c" ++ 10 :: str "P2\n2 2\n100\n0 50\n100 25\n")) =
      read_image (str "P2\n2 2\n100\n0 50\n100 25\n") :=
  (comment_lines_in_header (str " c") (by decide) (by decide)).1 _

/-! ## Streams that end early -/

theorem next_value_nil (v : Nat) : next_value [] (some v) = (some v, []) := rfl

theorem next_byte_nil (b : Nat) : next_byte [] (some b) = (some b, []) := rfl

theorem read_P2_line_nil (max_value v r : Nat) (hr : rescale v max_value = some r) (n : Nat) :
    read_P2_line max_value n [] (some v) = some (List.replicate n ⟨r, r, r⟩, [], some v) := by
  induction n with
  | zero => rfl
  | succ n ih => simp [read_P2_line, next_value_nil, hr, ih, List.replicate_succ]

theorem read_P2_lines_nil (max_value v r : Nat) (hr : rescale v max_value = some r)
    (width n : Nat) :
    read_P2_lines max_value width n [] (some v) =
      some (List.replicate n (List.replicate width ⟨r, r, r⟩)) := by
  induction n with
  | zero => rfl
  | succ n ih =>
    simp [read_P2_lines, read_P2_line_nil max_value v r hr, ih, List.replicate_succ]

theorem read_P3_line_nil (max_value v r : Nat) (hr : rescale v max_value = some r) (n : Nat) :
    read_P3_line max_value n [] (some v) = some (List.replicate n ⟨r, r, r⟩, [], some v) := by
  induction n with
  | zero => rfl
  | succ n ih => simp [read_P3_line, next_value_nil, hr, ih, List.replicate_succ]

theorem read_P3_lines_nil (max_value v r : Nat) (hr : rescale v max_value = some r)
    (width n : Nat) :
    read_P3_lines max_value width n [] (some v) =
      some (List.replicate n (List.replicate width ⟨r, r, r⟩)) := by
  induction n with
  | zero => rfl
  | succ n ih =>
    simp [read_P3_lines, read_P3_line_nil max_value v r hr, ih, List.replicate_succ]

theorem read_P5_line_nil (max_value v r : Nat) (hr : rescale v max_value = some r) (n : Nat) :
    read_P5_line max_value n [] (some v) = some (List.replicate n ⟨r, r, r⟩, [], some v) := by
  induction n with
  | zero => rfl
  | succ n ih => simp [read_P5_line, next_byte_nil, hr, ih, List.replicate_succ]

theorem read_P5_lines_nil (max_value v r : Nat) (hr : rescale v max_value = some r)
    (width n : Nat) :
    read_P5_lines max_value width n [] (some v) =
      some (List.replicate n (List.replicate width ⟨r, r, r⟩)) := by
  induction n with
  | zero => rfl
  | succ n ih =>
    simp [read_P5_lines, read_P5_line_nil max_value v r hr, ih, List.replicate_succ]

theorem read_P6_line_nil (max_value v r : Nat) (hr : rescale v max_value = some r) (n : Nat) :
    read_P6_line max_value n [] (some v) = some (List.replicate n ⟨r, r, r⟩, [], some v) := by
  induction n with
  | zero => rfl
  | succ n ih => simp [read_P6_line, next_byte_nil, hr, ih, List.replicate_succ]

theorem read_P6_lines_nil (max_value v r : Nat) (hr : rescale v max_value = some r)
    (width n : Nat) :
    read_P6_lines max_value width n [] (some v) =
      some (List.replicate n (List.replicate width ⟨r, r, r⟩)) := by
  induction n with
  | zero => rfl
  | succ n ih =>
    simp [read_P6_lines, read_P6_line_nil max_value v r hr, ih, List.replicate_succ]

/-- Claim C30 (amended).  The function `read_image` does not fail when the byte
stream ends before all declared samples have been read: it returns `false` only
when the magic number it read is none of 2, 3, 5, 6; and once the stream has
ended, each of the four readers stores in every remaining pixel the conversion
of the last sample (or byte) that was read, in the three channels. -/
theorem read_image_ignores_truncation (max_value v r : Nat)
    (hr : rescale v max_value = some r) :
    (∀ file : FILE, read_image file = some none →
      ∃ file1 magic file2, skip_comments file = some file1 ∧
        fscanf_magic file1 = (some magic, file2) ∧
        ¬ (magic = 2 ∨ magic = 5 ∨ magic = 3 ∨ magic = 6)) ∧
    (∀ width n : Nat,
      read_P2_lines max_value width n [] (some v) =
        some (List.replicate n (List.replicate width ⟨r, r, r⟩)) ∧
      read_P3_lines max_value width n [] (some v) =
        some (List.replicate n (List.replicate width ⟨r, r, r⟩)) ∧
      read_P5_lines max_value width n [] (some v) =
        some (List.replicate n (List.replicate width ⟨r, r, r⟩)) ∧
      read_P6_lines max_value width n [] (some v) =
        some (List.replicate n (List.replicate width ⟨r, r, r⟩))) :=
  ⟨fun file h => (read_image_false_iff file).mp h,
    fun width n => ⟨read_P2_lines_nil max_value v r hr width n,
      read_P3_lines_nil max_value v r hr width n, read_P5_lines_nil max_value v r hr width n,
      read_P6_lines_nil max_value v r hr width n⟩⟩

/-- Witness of `read_image_ignores_truncation`: after the byte 7 of a file with
maximum value 255, two lines of two pixels are filled with 7. -/
theorem read_image_ignores_truncation_witness :
    read_P5_lines 255 2 2 [] (some 7) = some [[⟨7, 7, 7⟩, ⟨7, 7, 7⟩], [⟨7, 7, 7⟩, ⟨7, 7, 7⟩]] :=
  ((read_image_ignores_truncation 255 7 7 (rescale_max_value 7 (by decide))).2 2 2).2.2.1

/-- Claim C30, counterexample.  A P5 file that declares 2 by 2 pixels and holds
a single byte: `read_image` returns `true`, with the four pixels set from that
byte. -/
theorem read_image_accepts_truncated_file :
    read_image (str "P5\n2 2\n255\n" ++ [7]) =
      some (some ⟨some [[⟨7, 7, 7⟩, ⟨7, 7, 7⟩], [⟨7, 7, 7⟩, ⟨7, 7, 7⟩]], false, 2, 2⟩) := by
  rw [read_image_trace (str "P5\n2 2\n255\n" ++ [7]) (str "P5\n2 2\n255\n" ++ [7])
    (str "\n2 2\n255\n" ++ [7]) (str "2 2\n255\n" ++ [7]) (str " 2\n255\n" ++ [7])
    (str "\n255\n" ++ [7]) (str "\n255\n" ++ [7]) (str "\n" ++ [7]) 5 2 2 255 (by decide)
    (by decide) (by decide) (by decide) (by decide) (by decide) (by decide) (by decide)]
  have e : fscanf_c (str "\n" ++ [7]) = [7] := by decide
  rw [e]
  simp [read_pixels, read_P5, read_P5_lines, read_P5_line, next_byte, rescale_max_value]

/-! ## Counting pixels -/

theorem count_red_fill_picture (height width : Nat) (f : Nat → Nat → pixel_t) (p : Nat → Bool) :
    count_red (fill_picture height width f) p =
      ((List.range height).map (fun line =>
        ((List.range width).filter (fun column => p (f line column).red)).length)).sum := by
  unfold count_red fill_picture
  rw [List.map_map]
  congr 1
  apply List.map_congr_left
  intro line hline
  simp only [Function.comp_apply, List.filter_map, List.length_map]
  rfl

theorem count_red_eq (picture : List (List pixel_t)) (height width : Nat)
    (hs : picture_shape picture height width) (p : Nat → Bool) :
    count_red picture p =
      ((List.range height).map (fun line =>
        ((List.range width).filter (fun column => p (pixel_at picture line column).red)).length)).sum := by
  conv_lhs => rw [← fill_picture_pixel_at picture height width hs]
  exact count_red_fill_picture height width _ p

theorem count_red_congr (picture : List (List pixel_t)) (p q : Nat → Bool)
    (h : ∀ red, p red = q red) : count_red picture p = count_red picture q := by
  have : p = q := funext h
  rw [this]

theorem filter_length_add {α : Type} (l : List α) (p q : α → Bool)
    (h : ∀ x, ¬ (p x = true ∧ q x = true)) :
    (l.filter p).length + (l.filter q).length = (l.filter (fun x => p x || q x)).length := by
  induction l with
  | nil => rfl
  | cons a l ih =>
    have ha := h a
    cases hp : p a <;> cases hq : q a <;> simp [List.filter_cons, hp, hq] at ha ⊢ <;> omega

theorem count_red_add (picture : List (List pixel_t)) (p q : Nat → Bool)
    (h : ∀ red, ¬ (p red = true ∧ q red = true)) :
    count_red picture p + count_red picture q = count_red picture (fun red => p red || q red) := by
  unfold count_red
  induction picture with
  | nil => rfl
  | cons row rows ih =>
    simp only [List.map_cons, List.sum_cons]
    have hrow := filter_length_add row (fun px => p px.red) (fun px => q px.red)
      (fun px => h px.red)
    dsimp only at ih hrow ⊢
    omega

/-- The bins `0` to `n - 1` of width `s` count together the pixels of red value
below `n * s`. -/
theorem count_red_bins (picture : List (List pixel_t)) (s : Nat) (n : Nat) :
    ((List.range n).map (fun i => count_red picture (fun red =>
      decide (i * s ≤ red ∧ red < (i + 1) * s)))).sum =
    count_red picture (fun red => decide (red < n * s)) := by
  induction n with
  | zero =>
    simp only [List.range_zero, List.map_nil, List.sum_nil, Nat.zero_mul]
    unfold count_red
    simp
  | succ n ih =>
    rw [List.range_succ, List.map_append, List.sum_append, ih]
    simp only [List.map_cons, List.map_nil, List.sum_cons, List.sum_nil, Nat.add_zero]
    rw [count_red_add]
    · apply count_red_congr
      intro red
      have hmul : n * s ≤ (n + 1) * s := Nat.mul_le_mul_right s (by omega)
      by_cases h1 : red < n * s
      · simp [h1]; omega
      · by_cases h2 : red < (n + 1) * s
        · simp [h1, h2]; omega
        · simp [h1, h2]
    · intro red
      simp only [decide_eq_true_eq]
      omega

theorem count_red_all (picture : List (List pixel_t)) (height width : Nat)
    (hs : picture_shape picture height width) (p : Nat → Bool)
    (h : ∀ row ∈ picture, ∀ px ∈ row, p px.red = true) :
    count_red picture p = height * width := by
  obtain ⟨hlen, hrows⟩ := hs
  unfold count_red
  have : picture.map (fun row => (row.filter (fun px => p px.red)).length) =
      picture.map (fun _ => width) := by
    apply List.map_congr_left
    intro row hrow
    rw [List.filter_eq_self.mpr (fun px hpx => h row hrow px hpx)]
    exact hrows row hrow
  rw [this, List.map_const', List.sum_replicate, hlen]
  simp

/-! ## The histogram: the counts -/

theorem histogram_step (number_of_bins : Int) (hb1 : 1 ≤ number_of_bins)
    (hb2 : number_of_bins ≤ 256) :
    to_ushort (Int.tdiv ((MAX_VALUE : Int) + 1) number_of_bins) = 256 / number_of_bins.toNat := by
  obtain ⟨n, rfl⟩ : ∃ n : Nat, number_of_bins = n := ⟨number_of_bins.toNat, by omega⟩
  have e : Int.tdiv ((MAX_VALUE : Int) + 1) (n : Int) = ((256 / n : Nat) : Int) := by
    have : ((MAX_VALUE : Int) + 1) = ((256 : Nat) : Int) := by simp [MAX_VALUE]
    rw [this, ← Int.ofNat_tdiv]
  rw [e, to_ushort_natCast _ (by
    have := Nat.div_le_self 256 n
    omega)]
  simp

theorem histogram_frequency_eq (picture : List (List pixel_t)) (height width : Nat)
    (hs : picture_shape picture height width) (step index : Nat)
    (h : (index + 1) * step ≤ 256) :
    histogram_frequency picture step index =
      pixels_between picture height width (index * step) ((index + 1) * step) := by
  have h1 : index * step ≤ (index + 1) * step := Nat.mul_le_mul_right step (by omega)
  have e1 : to_ushort ((index : Int) * (step : Int)) = index * step := by
    rw [← Nat.cast_mul, to_ushort_natCast _ (by omega)]
  have e2 : to_ushort (((index : Int) + 1) * (step : Int)) = (index + 1) * step := by
    have : ((index : Int) + 1) * (step : Int) = (((index + 1) * step : Nat) : Int) := by
      push_cast; ring
    rw [this, to_ushort_natCast _ (by omega)]
  unfold histogram_frequency pixels_between
  rw [count_red_eq picture height width hs]
  simp only [e1, e2]

theorem histogram_frequencies_length (picture : List (List pixel_t)) (number_of_bins : Int) :
    (histogram_frequencies picture number_of_bins).length = number_of_bins.toNat := by
  simp [histogram_frequencies]

theorem histogram_frequencies_getD (picture : List (List pixel_t)) (number_of_bins : Int)
    (i : Nat) (hi : i < number_of_bins.toNat) :
    (histogram_frequencies picture number_of_bins).getD i 0 =
      histogram_frequency picture
        (to_ushort (Int.tdiv ((MAX_VALUE : Int) + 1) number_of_bins)) i := by
  simp [histogram_frequencies, List.getD_eq_getElem?_getD, List.getElem?_map,
    List.getElem?_range, hi]

theorem make_histogram_eq (image : image_t) (picture : List (List pixel_t))
    (hp : image.picture = some picture) (number_of_stars number_of_bins : Int)
    (hb1 : 1 ≤ number_of_bins) (hb2 : number_of_bins ≤ 256) :
    make_histogram image number_of_stars number_of_bins =
      if histogram_max (histogram_frequencies picture number_of_bins) = 0 then none
      else some ((histogram_frequencies picture number_of_bins).map (fun f =>
        print_stars (histogram_stars f
          (histogram_max (histogram_frequencies picture number_of_bins)) number_of_stars))) := by
  unfold make_histogram
  simp only [hp]
  rw [if_neg (by omega), if_neg (by omega), if_neg (by simp only [MAX_VALUE]; push_cast; omega)]

/-- Claim C22.  For every image that holds a picture of its dimensions and
every number of bins from 1 to 256, the array `frequency` of `make_histogram` has
one entry for each bin, and the entry of bin `i` is the number of pixels whose red
value `v` satisfies `i * step ≤ v < (i + 1) * step`, where `step` is `256 / bins`
by integer division; `make_histogram` prints its lines from these counts. -/
theorem histogram_bin_counts (image : image_t) (picture : List (List pixel_t))
    (hp : image.picture = some picture)
    (hshape : picture_shape picture image.height image.width)
    (number_of_stars number_of_bins : Int)
    (hb1 : 1 ≤ number_of_bins) (hb2 : number_of_bins ≤ 256) :
    (histogram_frequencies picture number_of_bins).length = number_of_bins.toNat ∧
    (∀ i : Nat, (i : Int) < number_of_bins →
      (histogram_frequencies picture number_of_bins).getD i 0 =
        pixels_between picture image.height image.width
          (i * (256 / number_of_bins.toNat)) ((i + 1) * (256 / number_of_bins.toNat))) ∧
    make_histogram image number_of_stars number_of_bins =
      if histogram_max (histogram_frequencies picture number_of_bins) = 0 then none
      else some ((histogram_frequencies picture number_of_bins).map (fun f =>
        print_stars (histogram_stars f
          (histogram_max (histogram_frequencies picture number_of_bins)) number_of_stars))) := by
  refine ⟨histogram_frequencies_length picture number_of_bins, ?_,
    make_histogram_eq image picture hp number_of_stars number_of_bins hb1 hb2⟩
  intro i hi
  rw [histogram_frequencies_getD picture number_of_bins i (by omega),
    histogram_step number_of_bins hb1 hb2]
  apply histogram_frequency_eq picture image.height image.width hshape
  calc (i + 1) * (256 / number_of_bins.toNat)
      ≤ number_of_bins.toNat * (256 / number_of_bins.toNat) :=
        Nat.mul_le_mul_right _ (by omega)
    _ ≤ 256 := Nat.mul_div_le 256 _

/-- Witness of `histogram_bin_counts`: with two bins, the image of a black and a
white pixel has one pixel in each bin. -/
theorem histogram_bin_counts_witness :
    histogram_frequencies [[⟨0, 0, 0⟩, ⟨255, 255, 255⟩]] 2 = [1, 1] ∧
    pixels_between [[⟨0, 0, 0⟩, ⟨255, 255, 255⟩]] 1 2 (0 * (256 / 2)) ((0 + 1) * (256 / 2)) = 1 :=
  ⟨by decide, ((histogram_bin_counts two_tone_image [[⟨0, 0, 0⟩, ⟨255, 255, 255⟩]] rfl
    (by decide) 4 2 (by decide) (by decide)).2.1 0 (by decide)).symm.trans (by decide)⟩

/-- Claim C23.  For every grayscale image that holds a picture of its
dimensions with channel values in `[0, 255]` and every number of bins that evenly
divides 256, the bin counts of `make_histogram` sum to exactly
`height * width`. -/
theorem histogram_counts_sum (image : image_t) (picture : List (List pixel_t))
    (hp : image.picture = some picture)
    (hshape : picture_shape picture image.height image.width)
    (hr : channels_in_range picture) (number_of_bins : Int)
    (hb1 : 1 ≤ number_of_bins) (hdiv : number_of_bins ∣ 256) :
    (histogram_frequencies picture number_of_bins).sum = image.height * image.width := by
  have hb2 : number_of_bins ≤ 256 := Int.le_of_dvd (by norm_num) hdiv
  obtain ⟨n, rfl⟩ : ∃ n : Nat, number_of_bins = n := ⟨number_of_bins.toNat, by omega⟩
  have hn : n ∣ 256 := by exact_mod_cast hdiv
  have hmul : n * (256 / n) = 256 := Nat.mul_div_cancel' hn
  have hfreq : histogram_frequencies picture (n : Int) =
      (List.range n).map (fun i => count_red picture (fun red =>
        decide (i * (256 / n) ≤ red ∧ red < (i + 1) * (256 / n)))) := by
    unfold histogram_frequencies
    rw [histogram_step (n : Int) hb1 hb2]
    simp only [Int.toNat_ofNat]
    apply List.map_congr_left
    intro i hi
    have hi' : i < n := List.mem_range.mp hi
    have hle : (i + 1) * (256 / n) ≤ 256 := by
      calc (i + 1) * (256 / n) ≤ n * (256 / n) := Nat.mul_le_mul_right _ (by omega)
        _ = 256 := hmul
    have h1 : i * (256 / n) ≤ (i + 1) * (256 / n) := Nat.mul_le_mul_right _ (by omega)
    have e1 : to_ushort ((i : Int) * ((256 / n : Nat) : Int)) = i * (256 / n) := by
      rw [← Nat.cast_mul, to_ushort_natCast _ (by omega)]
    have e2 : to_ushort (((i : Int) + 1) * ((256 / n : Nat) : Int)) = (i + 1) * (256 / n) := by
      have : ((i : Int) + 1) * ((256 / n : Nat) : Int) = (((i + 1) * (256 / n) : Nat) : Int) := by
        push_cast; ring
      rw [this, to_ushort_natCast _ (by omega)]
    unfold histogram_frequency
    simp only [e1, e2]
  rw [hfreq, count_red_bins picture (256 / n) n, hmul]
  apply count_red_all picture image.height image.width hshape
  intro row hrow px hpx
  have := (hr row hrow px hpx).1
  simp only [decide_eq_true_eq]
  omega

/-- Witness of `histogram_counts_sum`: the two counts of the image of a black
and a white pixel sum to 2. -/
theorem histogram_counts_sum_witness :
    (histogram_frequencies [[⟨0, 0, 0⟩, ⟨255, 255, 255⟩]] 2).sum =
      two_tone_image.height * two_tone_image.width :=
  histogram_counts_sum two_tone_image [[⟨0, 0, 0⟩, ⟨255, 255, 255⟩]] rfl (by decide)
    (by decide) 2 (by decide) (by decide)
/-! ## More on the rounding to `double` -/

theorem to_double_one : to_double 1 = 1 := by
  have h := to_double_natCast 1 (by norm_num)
  simpa using h

theorem to_double_idem (x : ℚ) (hx : 0 ≤ x) : to_double (to_double x) = to_double x := by
  obtain ⟨m, k, hm, h⟩ := to_double_representable x hx
  rw [h]
  rcases Nat.lt_or_ge m (2 ^ 53) with hlt | hge
  · exact to_double_exact m k hlt
  · have hm2 : m = 2 ^ 53 := le_antisymm hm hge
    have e : (m : ℚ) * 2 ^ k = ((1 : Nat) : ℚ) * 2 ^ (k + 53) := by
      rw [hm2, zpow_add₀ (by norm_num)]
      push_cast
      ring
    rw [e]
    exact to_double_exact 1 (k + 53) (by norm_num)

theorem round_half_even_eq (q : ℚ) (m : Int) (h : |q - m| < 1 / 2) : round_half_even q = m := by
  have h1 := abs_lt.mp h
  have e := round_half_even_error q
  have e1 := abs_le.mp e
  have : |((round_half_even q - m : Int) : ℚ)| < 1 := by
    push_cast
    rw [abs_lt]
    constructor <;> linarith [h1.1, h1.2, e1.1, e1.2]
  have h2 : |round_half_even q - m| < 1 := by exact_mod_cast this
  have := abs_lt.mp h2
  omega

theorem round_half_even_tie (q : ℚ) (n : Int) (hq : q = (n : ℚ) + 1 / 2) :
    round_half_even q = if n % 2 = 0 then n else n + 1 := by
  have hfl : ⌊q⌋ = n := by
    rw [Int.floor_eq_iff, hq]
    constructor <;> linarith
  unfold round_half_even
  rw [hfl, hq, if_neg (by norm_num), if_neg (by norm_num)]

theorem truncate_eq (x : ℚ) (k : Int) (h1 : (k : ℚ) ≤ x) (h2 : x < k + 1) (hk : 0 ≤ k) :
    truncate x = k := by
  unfold truncate
  have : (0 : ℚ) ≤ x := le_trans (by exact_mod_cast hk) h1
  rw [if_pos this]
  exact Int.floor_eq_iff.mpr ⟨h1, h2⟩

/-! ## The histogram: the stars -/

theorem histogram_stars_eq (f m s : Nat) (hf : f < 2 ^ 53) (hm : m < 2 ^ 53) (hs : s < 2 ^ 53) :
    histogram_stars f m (s : Int) =
      to_ushort (truncate (to_double (to_double ((f : ℚ) / m) * s))) := by
  unfold histogram_stars
  rw [double_of_int_natCast f hf, double_of_int_natCast m hm, double_of_int_natCast s hs,
    double_mul_one_natCast f hf, double_mul_one_natCast m hm, double_mul_one_natCast s hs]
  rfl

theorem histogram_stars_value (f m s : Nat) (hm0 : 0 < m) (hf : f ≤ m) (hs : s < 2 ^ 53) :
    0 ≤ to_double (to_double ((f : ℚ) / m) * s) ∧
    to_double (to_double ((f : ℚ) / m) * s) ≤ s ∧
    |to_double (to_double ((f : ℚ) / m) * s) - (f : ℚ) * s / m| ≤
      ((f : ℚ) * s / m) * (3 / 2 ^ 53) := by
  have hmq : (0 : ℚ) < m := by exact_mod_cast hm0
  have ha0 : (0 : ℚ) ≤ (f : ℚ) / m := by positivity
  have ha1 : (f : ℚ) / m ≤ 1 := by
    rw [div_le_one hmq]
    exact_mod_cast hf
  have hs0 : (0 : ℚ) ≤ s := Nat.cast_nonneg s
  have hq0 := to_double_nonneg _ ha0
  have hq1 : to_double ((f : ℚ) / m) ≤ 1 := by
    have := to_double_mono _ _ ha0 ha1
    rwa [to_double_one] at this
  have hqe := abs_le.mp (to_double_error _ ha0)
  generalize to_double ((f : ℚ) / m) = q at hq0 hq1 hqe
  have hqs0 : 0 ≤ q * s := mul_nonneg hq0 hs0
  have hp0 := to_double_nonneg _ hqs0
  have hp1 : to_double (q * s) ≤ s := by
    have h := to_double_le_of_le (q * s) s 0 hs hqs0 (by
      simp only [zpow_zero, mul_one]
      calc q * s ≤ 1 * s := mul_le_mul_of_nonneg_right hq1 hs0
        _ = s := one_mul _)
    simpa using h
  have hpe := abs_le.mp (to_double_error _ hqs0)
  generalize to_double (q * s) = p at hp0 hp1 hpe
  refine ⟨hp0, hp1, ?_⟩
  have e : (f : ℚ) * s / m = (f : ℚ) / m * s := by ring
  rw [e]
  generalize (f : ℚ) / m = a at ha0 ha1 hqe
  have h1 : (q - a) * s ≤ a / 2 ^ 53 * s := mul_le_mul_of_nonneg_right (by linarith) hs0
  have h2 : -(a / 2 ^ 53) * s ≤ (q - a) * s := mul_le_mul_of_nonneg_right (by linarith) hs0
  have h3 : q * s ≤ (a + a / 2 ^ 53) * s := mul_le_mul_of_nonneg_right (by linarith) hs0
  have has : 0 ≤ a * s := mul_nonneg ha0 hs0
  rw [abs_le]
  constructor
  · have : -(a * s * (3 / 2 ^ 53)) ≤ -(q * s / 2 ^ 53) + -(a / 2 ^ 53) * s := by
      have : q * s / 2 ^ 53 ≤ (a + a / 2 ^ 53) * s / 2 ^ 53 :=
        div_le_div_of_nonneg_right h3 (by norm_num)
      have e2 : (a + a / 2 ^ 53) * s / 2 ^ 53 + a / 2 ^ 53 * s =
          a * s * (2 / 2 ^ 53 + 1 / 2 ^ 106) := by ring
      have : a * s * (2 / 2 ^ 53 + 1 / 2 ^ 106) ≤ a * s * (3 / 2 ^ 53) :=
        mul_le_mul_of_nonneg_left (by norm_num) has
      linarith
    linarith [hpe.1]
  · have : q * s / 2 ^ 53 + a / 2 ^ 53 * s ≤ a * s * (3 / 2 ^ 53) := by
      have : q * s / 2 ^ 53 ≤ (a + a / 2 ^ 53) * s / 2 ^ 53 :=
        div_le_div_of_nonneg_right h3 (by norm_num)
      have e2 : (a + a / 2 ^ 53) * s / 2 ^ 53 + a / 2 ^ 53 * s =
          a * s * (2 / 2 ^ 53 + 1 / 2 ^ 106) := by ring
      have : a * s * (2 / 2 ^ 53 + 1 / 2 ^ 106) ≤ a * s * (3 / 2 ^ 53) :=
        mul_le_mul_of_nonneg_left (by norm_num) has
      linarith
    linarith [hpe.2]

/-- The quotient of two natural numbers lies between the integer quotient and
the next integer, at a distance of at least `1 / b` from both when the division
leaves a remainder. -/
theorem nat_div_bounds (a b : Nat) (hb : 0 < b) :
    ((a / b : Nat) : ℚ) ≤ (a : ℚ) / b ∧ (a : ℚ) / b < ((a / b : Nat) : ℚ) + 1 ∧
    (¬ b ∣ a → ((a / b : Nat) : ℚ) + 1 / b ≤ (a : ℚ) / b ∧
      (a : ℚ) / b ≤ ((a / b : Nat) : ℚ) + 1 - 1 / b) ∧
    (b ∣ a → (a : ℚ) / b = ((a / b : Nat) : ℚ)) := by
  have hbq : (0 : ℚ) < b := by exact_mod_cast hb
  have hdm : b * (a / b) + a % b = a := Nat.div_add_mod a b
  have hlt : a % b < b := Nat.mod_lt a hb
  have hq : (a : ℚ) = (b : ℚ) * ((a / b : Nat) : ℚ) + ((a % b : Nat) : ℚ) := by exact_mod_cast hdm.symm
  have hr0 : (0 : ℚ) ≤ ((a % b : Nat) : ℚ) := Nat.cast_nonneg _
  have hr1 : ((a % b : Nat) : ℚ) + 1 ≤ b := by exact_mod_cast hlt
  have e : (a : ℚ) / b = ((a / b : Nat) : ℚ) + ((a % b : Nat) : ℚ) / b := by
    rw [add_div' _ _ _ hbq.ne.symm, div_left_inj' hbq.ne.symm]
    linarith
  have f0 : (0 : ℚ) ≤ ((a % b : Nat) : ℚ) / b := by positivity
  have f1 : ((a % b : Nat) : ℚ) / b ≤ 1 - 1 / b := by
    rw [div_le_iff₀ hbq]
    field_simp
    linarith
  have f2 : (0 : ℚ) < 1 / b := by positivity
  refine ⟨by linarith, by linarith, ?_, ?_⟩
  · intro hnd
    have hpos : 1 ≤ a % b := by
      rcases Nat.eq_zero_or_pos (a % b) with h0 | h0
      · exact absurd (Nat.dvd_of_mod_eq_zero h0) hnd
      · exact h0
    have f3 : 1 / (b : ℚ) ≤ ((a % b : Nat) : ℚ) / b := by
      apply div_le_div_of_nonneg_right _ hbq.le
      exact_mod_cast hpos
    constructor <;> linarith
  · intro hd
    have h0 : a % b = 0 := Nat.mod_eq_zero_of_dvd hd
    rw [e, h0]
    simp

theorem histogram_stars_spec (f m s : Nat) (hm0 : 0 < m) (hf : f ≤ m) (hm : m < 2 ^ 32)
    (hs : s ≤ 32767) :
    histogram_stars f m (s : Int) ≤ s ∧
    histogram_stars f m (s : Int) ≤ stars_floor f m s ∧
    stars_floor f m s ≤ histogram_stars f m (s : Int) + 1 ∧
    (¬ m ∣ f * s → histogram_stars f m (s : Int) = stars_floor f m s) := by
  rw [histogram_stars_eq f m s (by omega) (by omega) (by omega)]
  obtain ⟨hp0, hp1, hpe⟩ := histogram_stars_value f m s hm0 hf (by omega)
  obtain ⟨d1, d2, d3, d4⟩ := nat_div_bounds (f * s) m hm0
  unfold stars_floor
  push_cast at d1 d2 d3 d4
  have hmq : (0 : ℚ) < m := by exact_mod_cast hm0
  have hs0 : (0 : ℚ) ≤ s := Nat.cast_nonneg s
  have hsq : (s : ℚ) ≤ 32767 := by exact_mod_cast hs
  have hx0 : (0 : ℚ) ≤ (f : ℚ) * s / m := by positivity
  have hx1 : (f : ℚ) * s / m ≤ s := by
    rw [div_le_iff₀ hmq]
    have : (f : ℚ) ≤ m := by exact_mod_cast hf
    nlinarith
  have herr : (f : ℚ) * s / m * (3 / 2 ^ 53) ≤ 32767 * (3 / 2 ^ 53) :=
    mul_le_mul_of_nonneg_right (by linarith) (by norm_num)
  have hinv : (1 : ℚ) / 2 ^ 32 < 1 / m := by
    apply one_div_lt_one_div_of_lt hmq
    exact_mod_cast hm
  have hpe2 := abs_le.mp hpe
  generalize to_double (to_double ((f : ℚ) / m) * s) = p at hp0 hp1 hpe2
  generalize (f : ℚ) * s / m = x at hx0 hx1 herr hpe2 d1 d2 d3 d4
  generalize f * s / m = k at d1 d2 d3 d4
  have hk : (k : ℚ) - 1 < p := by
    have : (32767 : ℚ) * (3 / 2 ^ 53) < 1 := by norm_num
    linarith [hpe2.1]
  have hk2 : p < (k : ℚ) + 1 := by
    by_cases hd : m ∣ f * s
    · have := d4 hd
      have : (32767 : ℚ) * (3 / 2 ^ 53) < 1 := by norm_num
      linarith [hpe2.2]
    · have := (d3 hd).2
      have : (32767 : ℚ) * (3 / 2 ^ 53) < 1 / 2 ^ 32 := by norm_num
      linarith [hpe2.2]
  have hfl0 : 0 ≤ ⌊p⌋ := Int.floor_nonneg.mpr hp0
  have hfl1 : ⌊p⌋ ≤ (s : Int) := by
    have : ⌊p⌋ ≤ ⌊(s : ℚ)⌋ := Int.floor_le_floor hp1
    rwa [Int.floor_natCast] at this
  have hfl2 : ⌊p⌋ ≤ (k : Int) := by
    have : ⌊p⌋ < (k : Int) + 1 := by
      rw [Int.floor_lt]
      push_cast
      exact hk2
    omega
  have hfl3 : (k : Int) - 1 ≤ ⌊p⌋ := by
    rw [Int.le_floor]
    push_cast
    exact hk.le
  have hfl4 : ¬ m ∣ f * s → ⌊p⌋ = (k : Int) := by
    intro hd
    have h1 := (d3 hd).1
    have : (k : Int) ≤ ⌊p⌋ := by
      rw [Int.le_floor]
      push_cast
      have : (32767 : ℚ) * (3 / 2 ^ 53) < 1 / 2 ^ 32 := by norm_num
      linarith [hpe2.1]
    omega
  have htr : truncate p = ⌊p⌋ := by
    unfold truncate
    rw [if_pos hp0]
  rw [htr]
  have hu : (to_ushort ⌊p⌋ : Int) = ⌊p⌋ := by
    unfold to_ushort
    omega
  refine ⟨?_, ?_, ?_, ?_⟩
  · omega
  · omega
  · omega
  · intro hd
    have := hfl4 hd
    omega

theorem histogram_stars_full (m s : Nat) (hm0 : 0 < m) (hm : m < 2 ^ 53) (hs : s < 65536) :
    histogram_stars m m (s : Int) = s := by
  rw [histogram_stars_eq m m s hm hm (by omega)]
  have hmq : (m : ℚ) ≠ 0 := by
    have : (0 : ℚ) < m := by exact_mod_cast hm0
    exact this.ne.symm
  rw [div_self hmq, to_double_one, one_mul, to_double_natCast s (by omega)]
  unfold truncate
  rw [if_pos (Nat.cast_nonneg s), Int.floor_natCast]
  exact to_ushort_natCast s hs

theorem histogram_stars_zero (m s : Nat) (hm : m < 2 ^ 53) (hs : s < 2 ^ 53) :
    histogram_stars 0 m (s : Int) = 0 := by
  rw [histogram_stars_eq 0 m s (by norm_num) hm hs]
  simp [to_double_zero, truncate, to_ushort]

theorem to_double_seven_tenths : to_double ((7 : ℚ) / 10) = 6305039478318694 * 2 ^ (-53 : Int) := by
  rw [to_double_eq ((7 : ℚ) / 10) (-53) (by norm_num) (by norm_num) (by norm_num),
    round_half_even_eq _ 6305039478318694 (by norm_num [abs_lt])]
  norm_num

theorem histogram_stars_7_10_90 : histogram_stars 7 10 90 = 62 := by
  have h := histogram_stars_eq 7 10 90 (by norm_num) (by norm_num) (by norm_num)
  simp only [Nat.cast_ofNat] at h
  rw [h, to_double_seven_tenths,
    to_double_eq _ (-47) (by norm_num) (by norm_num) (by norm_num),
    round_half_even_eq _ 8866461766385663 (by norm_num [abs_lt]),
    truncate_eq _ 62 (by norm_num) (by norm_num) (by norm_num)]
  rfl

theorem histogram_max_foldl (l : List Nat) (init : Nat) :
    init ≤ l.foldl (fun m f => if m < f then f else m) init ∧
    (∀ f ∈ l, f ≤ l.foldl (fun m f => if m < f then f else m) init) ∧
    (l.foldl (fun m f => if m < f then f else m) init = init ∨
      l.foldl (fun m f => if m < f then f else m) init ∈ l) := by
  induction l generalizing init with
  | nil => simp
  | cons a t ih =>
    simp only [List.foldl_cons]
    obtain ⟨h1, h2, h3⟩ := ih (if init < a then a else init)
    rcases Nat.lt_or_ge init a with hlt | hge
    · rw [if_pos hlt] at h1 h2 h3 ⊢
      refine ⟨by omega, ?_, ?_⟩
      · intro f hf
        rcases List.mem_cons.mp hf with rfl | hf
        · exact h1
        · exact h2 f hf
      · rcases h3 with h3 | h3
        · right; rw [h3]; exact List.mem_cons_self _ _
        · right; exact List.mem_cons_of_mem _ h3
    · rw [if_neg (by omega)] at h1 h2 h3 ⊢
      refine ⟨h1, ?_, ?_⟩
      · intro f hf
        rcases List.mem_cons.mp hf with rfl | hf
        · omega
        · exact h2 f hf
      · rcases h3 with h3 | h3
        · left; exact h3
        · right; exact List.mem_cons_of_mem _ h3

theorem le_histogram_max (l : List Nat) (f : Nat) (hf : f ∈ l) : f ≤ histogram_max l :=
  (histogram_max_foldl l _).2.1 f hf

theorem histogram_max_mem (l : List Nat) (hl : l ≠ []) : histogram_max l ∈ l := by
  cases l with
  | nil => exact absurd rfl hl
  | cons a t =>
    rcases (histogram_max_foldl (a :: t) a).2.2 with h | h
    · unfold histogram_max
      simp only [List.headD_cons]
      rw [h]
      exact List.mem_cons_self _ _
    · exact h

theorem count_red_le (picture : List (List pixel_t)) (height width : Nat)
    (hs : picture_shape picture height width) (p : Nat → Bool) :
    count_red picture p ≤ height * width := by
  have h := count_red_add picture p (fun red => !p red)
    (by intro red; cases hp : p red <;> simp [hp])
  have h2 := count_red_all picture height width hs (fun red => p red || !p red)
    (by intro row _ px _; show (p px.red || !p px.red) = true; cases p px.red <;> rfl)
  dsimp only at h
  omega

theorem histogram_frequencies_le (picture : List (List pixel_t)) (height width : Nat)
    (hs : picture_shape picture height width) (number_of_bins : Int) :
    ∀ f ∈ histogram_frequencies picture number_of_bins, f ≤ height * width := by
  intro f hf
  simp only [histogram_frequencies, List.mem_map] at hf
  obtain ⟨i, -, rfl⟩ := hf
  exact count_red_le picture height width hs _

theorem histogram_max_lt (picture : List (List pixel_t)) (height width : Nat)
    (hs : picture_shape picture height width) (hh : height < 65536) (hw : width < 65536)
    (number_of_bins : Int) (hb1 : 1 ≤ number_of_bins) :
    histogram_max (histogram_frequencies picture number_of_bins) < 2 ^ 32 := by
  have hne : histogram_frequencies picture number_of_bins ≠ [] := by
    intro h
    have := histogram_frequencies_length picture number_of_bins
    rw [h] at this
    simp only [List.length_nil] at this
    omega
  have h := histogram_frequencies_le picture height width hs number_of_bins _
    (histogram_max_mem _ hne)
  have : height * width ≤ 65535 * 65535 := Nat.mul_le_mul (by omega) (by omega)
  omega

/-- The number of stars of every bin of a histogram, compared with the value
rounded down of `count * stars / max`. -/
theorem make_histogram_stars (picture : List (List pixel_t)) (height width : Nat)
    (hs : picture_shape picture height width) (hh : height < 65536) (hw : width < 65536)
    (number_of_stars number_of_bins : Int) (hs0 : 0 ≤ number_of_stars)
    (hs1 : number_of_stars ≤ 32767) (hb1 : 1 ≤ number_of_bins)
    (hmax : histogram_max (histogram_frequencies picture number_of_bins) ≠ 0) :
    ∀ f ∈ histogram_frequencies picture number_of_bins,
      histogram_stars f (histogram_max (histogram_frequencies picture number_of_bins))
          number_of_stars ≤ number_of_stars.toNat ∧
      histogram_stars f (histogram_max (histogram_frequencies picture number_of_bins))
          number_of_stars ≤
        stars_floor f (histogram_max (histogram_frequencies picture number_of_bins))
          number_of_stars.toNat ∧
      stars_floor f (histogram_max (histogram_frequencies picture number_of_bins))
          number_of_stars.toNat ≤
        histogram_stars f (histogram_max (histogram_frequencies picture number_of_bins))
          number_of_stars + 1 ∧
      (¬ histogram_max (histogram_frequencies picture number_of_bins) ∣
          f * number_of_stars.toNat →
        histogram_stars f (histogram_max (histogram_frequencies picture number_of_bins))
            number_of_stars =
          stars_floor f (histogram_max (histogram_frequencies picture number_of_bins))
            number_of_stars.toNat) ∧
      (f = histogram_max (histogram_frequencies picture number_of_bins) →
        histogram_stars f (histogram_max (histogram_frequencies picture number_of_bins))
            number_of_stars = number_of_stars.toNat) ∧
      (f = 0 →
        histogram_stars f (histogram_max (histogram_frequencies picture number_of_bins))
            number_of_stars = 0) := by
  intro f hf
  obtain ⟨s, rfl⟩ : ∃ s : Nat, number_of_stars = s := ⟨number_of_stars.toNat, by omega⟩
  have hlt := histogram_max_lt picture height width hs hh hw number_of_bins hb1
  have hle := le_histogram_max _ f hf
  simp only [Int.toNat_ofNat]
  generalize histogram_max (histogram_frequencies picture number_of_bins) = m at hmax hlt hle ⊢
  obtain ⟨a, b, c, d⟩ := histogram_stars_spec f m s (by omega) hle hlt (by omega)
  refine ⟨a, b, c, d, ?_, ?_⟩
  · intro e
    rw [e]
    exact histogram_stars_full m s (by omega) (by omega) (by omega)
  · intro e
    rw [e]
    exact histogram_stars_zero m s (by omega) (by omega)

/-- Claim C24, counterexample.  The image `histogram_image` has 7 pixels
in the first of two bins and 10 in the second; `make_histogram` with 90 stars
prints 62 stars for the first bin, while `floor(7 * 90 / 10)` is 63: the quotient
`7 / 10` is rounded to a `double` below `0.7`, and its product with `90` to a
`double` below 63. -/
theorem histogram_stars_below_floor :
    histogram_image.picture.map (fun picture => histogram_frequencies picture 2) =
      some [7, 10] ∧
    make_histogram histogram_image 90 2 = some [message.stars 62, message.stars 90] ∧
    stars_floor 7 10 90 = 63 := by
  refine ⟨by decide, ?_, by decide⟩
  obtain ⟨picture, hp⟩ : ∃ picture, histogram_image.picture = some picture := ⟨_, rfl⟩
  have hfreq : histogram_frequencies picture 2 = [7, 10] := by
    have h : histogram_image.picture.map (fun picture => histogram_frequencies picture 2) =
        some [7, 10] := by decide
    rw [hp] at h
    simpa using h
  rw [make_histogram_eq histogram_image picture hp 90 2 (by norm_num) (by norm_num), hfreq]
  have hm : histogram_max [7, 10] = 10 := by decide
  rw [hm, if_neg (by norm_num)]
  simp only [List.map_cons, List.map_nil, print_stars, histogram_stars_7_10_90]
  have h := histogram_stars_full 10 90 (by norm_num) (by norm_num) (by norm_num)
  simp only [Nat.cast_ofNat] at h
  rw [h]

/-- Claim C24 (amended).  For every image of `unsigned short` dimensions that
holds a picture of these dimensions, every number of stars from 0 to 32767 and
every number of bins from 1 to 256 for which some bin is not empty,
`make_histogram` prints for every bin the integer part of the `double`
`(count / max) * stars`: this number lies in `[0, stars]`, is
`floor(count * stars / max)` or one less, is `floor(count * stars / max)`
whenever `max` does not divide `count * stars`, is `stars` for a bin that holds
the largest count, and 0 for an empty bin. -/
theorem histogram_stars_rounded_down (image : image_t) (picture : List (List pixel_t))
    (hp : image.picture = some picture)
    (hshape : picture_shape picture image.height image.width)
    (hh : image.height < 65536) (hw : image.width < 65536)
    (number_of_stars number_of_bins : Int) (hs0 : 0 ≤ number_of_stars)
    (hs1 : number_of_stars ≤ 32767) (hb1 : 1 ≤ number_of_bins) (hb2 : number_of_bins ≤ 256)
    (hmax : histogram_max (histogram_frequencies picture number_of_bins) ≠ 0) :
    make_histogram image number_of_stars number_of_bins =
      some ((histogram_frequencies picture number_of_bins).map (fun f =>
        print_stars (histogram_stars f
          (histogram_max (histogram_frequencies picture number_of_bins)) number_of_stars))) ∧
    ∀ f ∈ histogram_frequencies picture number_of_bins,
      histogram_stars f (histogram_max (histogram_frequencies picture number_of_bins))
          number_of_stars ≤ number_of_stars.toNat ∧
      histogram_stars f (histogram_max (histogram_frequencies picture number_of_bins))
          number_of_stars ≤
        stars_floor f (histogram_max (histogram_frequencies picture number_of_bins))
          number_of_stars.toNat ∧
      stars_floor f (histogram_max (histogram_frequencies picture number_of_bins))
          number_of_stars.toNat ≤
        histogram_stars f (histogram_max (histogram_frequencies picture number_of_bins))
          number_of_stars + 1 ∧
      (¬ histogram_max (histogram_frequencies picture number_of_bins) ∣
          f * number_of_stars.toNat →
        histogram_stars f (histogram_max (histogram_frequencies picture number_of_bins))
            number_of_stars =
          stars_floor f (histogram_max (histogram_frequencies picture number_of_bins))
            number_of_stars.toNat) ∧
      (f = histogram_max (histogram_frequencies picture number_of_bins) →
        histogram_stars f (histogram_max (histogram_frequencies picture number_of_bins))
            number_of_stars = number_of_stars.toNat) ∧
      (f = 0 →
        histogram_stars f (histogram_max (histogram_frequencies picture number_of_bins))
            number_of_stars = 0) := by
  refine ⟨?_, make_histogram_stars picture image.height image.width hshape hh hw
    number_of_stars number_of_bins hs0 hs1 hb1 hmax⟩
  rw [make_histogram_eq image picture hp number_of_stars number_of_bins hb1 hb2, if_neg hmax]

/-- Witness of `histogram_stars_rounded_down`: with one black and one white
pixel and two bins, each bin holds the largest count and gets all 91 stars. -/
theorem histogram_stars_rounded_down_witness :
    make_histogram two_tone_image 91 2 = some [message.stars 91, message.stars 91] :=
  (histogram_stars_rounded_down two_tone_image [[⟨0, 0, 0⟩, ⟨255, 255, 255⟩]] rfl
    (by decide) (by decide) (by decide) 91 2 (by decide) (by decide) (by decide) (by decide)
    (by decide)).1.trans (by
      have h : histogram_frequencies [[⟨0, 0, 0⟩, ⟨255, 255, 255⟩]] 2 = [1, 1] := by decide
      have hm : histogram_max [1, 1] = 1 := by decide
      have hs := histogram_stars_full 1 91 (by norm_num) (by norm_num) (by norm_num)
      simp only [Nat.cast_ofNat, Nat.cast_one] at hs
      rw [h, hm]
      simp only [List.map_cons, List.map_nil, print_stars, hs])

/-! ## The HISTOGRAM command -/

theorem to_short_range (n : Int) : -32768 ≤ to_short n ∧ to_short n ≤ 32767 := by
  unfold to_short
  omega

theorem histogram_command_eq (image : image_t) (parameter_1 parameter_2 : List Nat)
    (hi : image.picture.isSome = true) (hc : image.color = false)
    (h1 : parameter_1.length ≠ 0) (h2 : parameter_2.length ≠ 0) :
    histogram_command image parameter_1 parameter_2 [] =
      make_histogram image (to_short (atoi parameter_1)) (to_short (atoi parameter_2)) := by
  unfold histogram_command
  rw [if_neg (by simp [isNone_of_isSome _ hi]), if_pos ⟨h1, h2, rfl⟩, if_neg (by simp [hc])]

/-- Claim C25, counterexample.  `HISTOGRAM 4 2` on the image of a black
and a white pixel prints two lines, one for each of 2 bins, of 4 stars each: the
first parameter is the number of stars and the second the number of bins.  With
the parameters read as (bins, stars) it would print what `make_histogram` prints
for 2 stars and 4 bins: four lines of at most 2 stars. -/
theorem histogram_first_parameter_is_stars :
    histogram_command two_tone_image (str "4") (str "2") [] =
      some [message.stars 4, message.stars 4] ∧
    make_histogram two_tone_image 2 4 =
      some [message.stars 2, message.stars 0, message.stars 0, message.stars 2] := by
  have a4 : to_short (atoi (str "4")) = 4 := by decide
  have a2 : to_short (atoi (str "2")) = 2 := by decide
  have f2 : histogram_frequencies [[⟨0, 0, 0⟩, ⟨255, 255, 255⟩]] 2 = [1, 1] := by decide
  have f4 : histogram_frequencies [[⟨0, 0, 0⟩, ⟨255, 255, 255⟩]] 4 = [1, 0, 0, 1] := by decide
  have m2 : histogram_max [1, 1] = 1 := by decide
  have m4 : histogram_max [1, 0, 0, 1] = 1 := by decide
  have s4 := histogram_stars_full 1 4 (by norm_num) (by norm_num) (by norm_num)
  have s2 := histogram_stars_full 1 2 (by norm_num) (by norm_num) (by norm_num)
  have z2 := histogram_stars_zero 1 2 (by norm_num) (by norm_num)
  simp only [Nat.cast_ofNat, Nat.cast_one] at s4 s2 z2
  constructor
  · rw [histogram_command_eq two_tone_image (str "4") (str "2") rfl rfl (by decide) (by decide),
      a4, a2, make_histogram_eq two_tone_image _ rfl 4 2 (by norm_num) (by norm_num), f2, m2,
      if_neg (by norm_num)]
    simp only [List.map_cons, List.map_nil, print_stars, s4]
  · rw [make_histogram_eq two_tone_image _ rfl 2 4 (by norm_num) (by norm_num), f4, m4,
      if_neg (by norm_num)]
    simp only [List.map_cons, List.map_nil, print_stars, s2, z2]

/-- Claim C25 (amended).  The HISTOGRAM command takes its parameters in the order
(stars, bins): for a grayscale image and two non-empty parameters,
`histogram_command` calls `make_histogram` with the number its first parameter
holds as `number_of_stars` and the number its second parameter holds as
`number_of_bins`; when the second number is from 1 to 256 and lines are printed,
there are as many lines as the second number says, and, when the first number is
not negative, no line has more stars than the first number says. -/
theorem histogram_parameter_order (image : image_t) (picture : List (List pixel_t))
    (hp : image.picture = some picture)
    (hshape : picture_shape picture image.height image.width)
    (hh : image.height < 65536) (hw : image.width < 65536) (hc : image.color = false)
    (parameter_1 parameter_2 : List Nat)
    (h1 : parameter_1.length ≠ 0) (h2 : parameter_2.length ≠ 0) :
    histogram_command image parameter_1 parameter_2 [] =
      make_histogram image (to_short (atoi parameter_1)) (to_short (atoi parameter_2)) ∧
    (1 ≤ to_short (atoi parameter_2) → to_short (atoi parameter_2) ≤ 256 →
      ∀ out, histogram_command image parameter_1 parameter_2 [] = some out →
        out.length = (to_short (atoi parameter_2)).toNat ∧
        (0 ≤ to_short (atoi parameter_1) →
          ∀ n, message.stars n ∈ out → n ≤ (to_short (atoi parameter_1)).toNat)) := by
  have hcmd := histogram_command_eq image parameter_1 parameter_2 (by simp [hp]) hc h1 h2
  refine ⟨hcmd, ?_⟩
  intro hb1 hb2 out hout
  rw [hcmd, make_histogram_eq image picture hp _ _ hb1 hb2] at hout
  by_cases hmax : histogram_max (histogram_frequencies picture (to_short (atoi parameter_2))) = 0
  · rw [if_pos hmax] at hout
    cases hout
  · rw [if_neg hmax] at hout
    cases hout
    refine ⟨by rw [List.length_map, histogram_frequencies_length], ?_⟩
    intro hs0 n hn
    obtain ⟨f, hf, hfn⟩ := List.mem_map.mp hn
    have hb := (make_histogram_stars picture image.height image.width hshape hh hw
      (to_short (atoi parameter_1)) (to_short (atoi parameter_2)) hs0
      (to_short_range _).2 hb1 hmax f hf).1
    unfold print_stars at hfn
    cases hfn
    exact hb

/-- Witness of `histogram_parameter_order`: `HISTOGRAM 4 2` is `make_histogram`
with 4 stars and 2 bins. -/
theorem histogram_parameter_order_witness :
    histogram_command two_tone_image (str "4") (str "2") [] = make_histogram two_tone_image 4 2 :=
  (histogram_parameter_order two_tone_image [[⟨0, 0, 0⟩, ⟨255, 255, 255⟩]] rfl (by decide)
    (by decide) (by decide) rfl (str "4") (str "2") (by decide) (by decide)).1

/-! ## Equalization -/

theorem floor_near_quotient (a b : Nat) (hb : 0 < b) (hb2 : b ≤ 2 ^ 32) (t : ℚ)
    (herr : |t - (a : ℚ) / b| < 1 / 2 ^ 32) :
    ((a / b : Nat) : Int) - 1 ≤ ⌊t⌋ ∧ ⌊t⌋ ≤ ((a / b : Nat) : Int) ∧
    (¬ b ∣ a → ⌊t⌋ = ((a / b : Nat) : Int)) := by
  obtain ⟨d1, d2, d3, d4⟩ := nat_div_bounds a b hb
  have hbq : (0 : ℚ) < b := by exact_mod_cast hb
  have hinv : (1 : ℚ) / 2 ^ 32 ≤ 1 / b := by
    apply one_div_le_one_div_of_le hbq
    exact_mod_cast hb2
  have he := abs_lt.mp herr
  generalize (a : ℚ) / b = x at d1 d2 d3 d4 he
  generalize a / b = k at d1 d2 d3 d4
  have h1 : (k : Int) - 1 ≤ ⌊t⌋ := by
    rw [Int.le_floor]
    push_cast
    have : (1 : ℚ) / 2 ^ 32 < 1 := by norm_num
    linarith [he.1]
  have h2 : ⌊t⌋ ≤ (k : Int) := by
    have : ⌊t⌋ < (k : Int) + 1 := by
      rw [Int.floor_lt]
      push_cast
      by_cases hd : b ∣ a
      · have := d4 hd
        have : (1 : ℚ) / 2 ^ 32 < 1 := by norm_num
        linarith [he.2]
      · have := (d3 hd).2
        linarith [he.2]
    omega
  refine ⟨h1, h2, ?_⟩
  intro hd
  have := (d3 hd).1
  have : (k : Int) ≤ ⌊t⌋ := by
    rw [Int.le_floor]
    push_cast
    linarith [he.1]
  omega

theorem cumulative_distribution_zero (picture : List (List pixel_t)) (height width : Nat)
    (hN : height * width < 2 ^ 53) (hc : count_red picture (fun red => decide (red = 0)) < 2 ^ 53) :
    cumulative_distribution picture height width 0 =
      to_double ((count_red picture (fun red => decide (red = 0)) : ℚ) /
        ((height * width : Nat) : ℚ)) := by
  have e : ((height : Int) * (width : Int)) = ((height * width : Nat) : Int) := by push_cast; rfl
  unfold cumulative_distribution
  rw [e, double_of_int_natCast _ hN, double_of_int_natCast _ hc]
  rfl

theorem cumulative_distribution_succ (picture : List (List pixel_t)) (height width : Nat)
    (hN : height * width < 2 ^ 53) (index : Nat)
    (hc : count_red picture (fun red => decide (red = index + 1)) < 2 ^ 53) :
    cumulative_distribution picture height width (index + 1) =
      to_double (cumulative_distribution picture height width index +
        to_double ((count_red picture (fun red => decide (red = index + 1)) : ℚ) /
          ((height * width : Nat) : ℚ))) := by
  have e : ((height : Int) * (width : Int)) = ((height * width : Nat) : Int) := by push_cast; rfl
  rw [cumulative_distribution, e, double_of_int_natCast _ hN, double_of_int_natCast _ hc]
  rfl

theorem count_red_le_zero (picture : List (List pixel_t)) :
    count_red picture (fun red => decide (red ≤ 0)) =
      count_red picture (fun red => decide (red = 0)) := by
  apply count_red_congr
  intro red
  simp

theorem count_red_le_succ (picture : List (List pixel_t)) (v : Nat) :
    count_red picture (fun red => decide (red ≤ v + 1)) =
      count_red picture (fun red => decide (red ≤ v)) +
        count_red picture (fun red => decide (red = v + 1)) := by
  rw [count_red_add picture _ _ (by
    intro red
    simp only [decide_eq_true_eq]
    omega)]
  apply count_red_congr
  intro red
  by_cases h1 : red ≤ v <;> by_cases h2 : red = v + 1 <;> simp [h1, h2] <;> omega

theorem count_red_le_eq_pixels_between (picture : List (List pixel_t)) (height width : Nat)
    (hs : picture_shape picture height width) (v : Nat) :
    count_red picture (fun red => decide (red ≤ v)) =
      pixels_between picture height width 0 (v + 1) := by
  unfold pixels_between
  rw [count_red_eq picture height width hs]
  congr 1
  apply List.map_congr_left
  intro line _
  congr 1
  apply List.filter_congr
  intro column _
  simp only [decide_eq_decide]
  omega

theorem cumulative_distribution_nonneg (picture : List (List pixel_t)) (height width : Nat)
    (v : Nat) : 0 ≤ cumulative_distribution picture height width v := by
  have hd : ∀ (i : Nat), 0 ≤ double_div
      (double_of_int (count_red picture (fun red => decide (red = i))))
      (double_of_int ((height : Int) * (width : Int))) := by
    intro i
    unfold double_div double_of_int
    apply to_double_nonneg
    apply div_nonneg
    · exact to_double_nonneg _ (by positivity)
    · exact to_double_nonneg _ (by positivity)
  induction v with
  | zero =>
    unfold cumulative_distribution
    exact hd 0
  | succ i ih =>
    rw [cumulative_distribution]
    unfold double_add
    exact to_double_nonneg _ (add_nonneg ih (hd (i + 1)))

theorem cumulative_distribution_le_succ (picture : List (List pixel_t)) (height width : Nat)
    (v : Nat) :
    cumulative_distribution picture height width v ≤
      cumulative_distribution picture height width (v + 1) := by
  have hd : ∀ (i : Nat), 0 ≤ double_div
      (double_of_int (count_red picture (fun red => decide (red = i))))
      (double_of_int ((height : Int) * (width : Int))) := by
    intro i
    unfold double_div double_of_int
    apply to_double_nonneg
    apply div_nonneg
    · exact to_double_nonneg _ (by positivity)
    · exact to_double_nonneg _ (by positivity)
  have hidem : to_double (cumulative_distribution picture height width v) =
      cumulative_distribution picture height width v := by
    cases v with
    | zero =>
      unfold cumulative_distribution double_div
      apply to_double_idem
      unfold double_of_int
      apply div_nonneg
      · exact to_double_nonneg _ (by positivity)
      · exact to_double_nonneg _ (by positivity)
    | succ i =>
      rw [cumulative_distribution]
      unfold double_add
      apply to_double_idem
      exact add_nonneg (cumulative_distribution_nonneg picture height width i) (hd (i + 1))
  have h0 := cumulative_distribution_nonneg picture height width v
  conv_lhs => rw [← hidem]
  conv_rhs => rw [cumulative_distribution]
  unfold double_add
  apply to_double_mono _ _ h0
  linarith [hd (v + 1)]

theorem cumulative_distribution_mono (picture : List (List pixel_t)) (height width : Nat)
    (v1 v2 : Nat) (h : v1 ≤ v2) :
    cumulative_distribution picture height width v1 ≤
      cumulative_distribution picture height width v2 :=
  monotone_nat_of_le_succ (cumulative_distribution_le_succ picture height width) h

theorem cumulative_distribution_error (picture : List (List pixel_t)) (height width : Nat)
    (hs : picture_shape picture height width) (hN0 : 0 < height * width)
    (hN : height * width < 2 ^ 53) (v : Nat) (hv : v ≤ 255) :
    |cumulative_distribution picture height width v -
        (count_red picture (fun red => decide (red ≤ v)) : ℚ) / ((height * width : Nat) : ℚ)| ≤
      (3 * (v : ℚ) + 1) / 2 ^ 53 := by
  have hNq : (0 : ℚ) < ((height * width : Nat) : ℚ) := by exact_mod_cast hN0
  have hcount : ∀ p, count_red picture p < 2 ^ 53 := fun p =>
    lt_of_le_of_lt (count_red_le picture height width hs p) hN
  have hfrac : ∀ p, (0 : ℚ) ≤ (count_red picture p : ℚ) / ((height * width : Nat) : ℚ) ∧
      (count_red picture p : ℚ) / ((height * width : Nat) : ℚ) ≤ 1 := by
    intro p
    refine ⟨by positivity, ?_⟩
    rw [div_le_one hNq]
    exact_mod_cast count_red_le picture height width hs p
  induction v with
  | zero =>
    rw [cumulative_distribution_zero picture height width hN (hcount _), count_red_le_zero]
    obtain ⟨f0, f1⟩ := hfrac (fun red => decide (red = 0))
    have he := to_double_error _ f0
    have : (count_red picture (fun red => decide (red = 0)) : ℚ) /
        ((height * width : Nat) : ℚ) / 2 ^ 53 ≤ 1 / 2 ^ 53 :=
      div_le_div_of_nonneg_right f1 (by norm_num)
    simp only [Nat.cast_zero, mul_zero, zero_add]
    linarith
  | succ i ih =>
    have ih2 := abs_le.mp (ih (by omega))
    have hF0 := cumulative_distribution_nonneg picture height width i
    rw [cumulative_distribution_succ picture height width hN i (hcount _), count_red_le_succ]
    obtain ⟨f0, f1⟩ := hfrac (fun red => decide (red = i + 1))
    obtain ⟨g0, g1⟩ := hfrac (fun red => decide (red ≤ i + 1))
    rw [count_red_le_succ] at g1
    obtain ⟨s0, s1⟩ := hfrac (fun red => decide (red ≤ i))
    have hd := abs_le.mp (to_double_error _ f0)
    have hd0 := to_double_nonneg _ f0
    have hiq : (i : ℚ) ≤ 254 := by
      have : i ≤ 254 := by omega
      exact_mod_cast this
    simp only [Nat.cast_add, Nat.cast_one, add_div] at g1 ⊢
    generalize cumulative_distribution picture height width i = F at ih2 hF0 ⊢
    generalize (count_red picture (fun red => decide (red = i + 1)) : ℚ) /
      ((height * width : Nat) : ℚ) = c at f0 f1 g1 hd hd0 ⊢
    generalize (count_red picture (fun red => decide (red ≤ i)) : ℚ) /
      ((height * width : Nat) : ℚ) = S at s0 s1 g1 ih2 ⊢
    generalize to_double c = d at hd hd0 ⊢
    have hy := abs_le.mp (to_double_error (F + d) (by linarith))
    generalize to_double (F + d) = y at hy ⊢
    have hc53 : c / 2 ^ 53 ≤ 1 / 2 ^ 53 := div_le_div_of_nonneg_right f1 (by norm_num)
    have hFd : F + d ≤ 2 := by linarith
    have hFd53 : (F + d) / 2 ^ 53 ≤ 2 / 2 ^ 53 := div_le_div_of_nonneg_right hFd (by norm_num)
    rw [abs_le]
    constructor <;> linarith [hy.1, hy.2, hd.1, hd.2, ih2.1, ih2.2]

theorem equalize_red_eq (picture : List (List pixel_t)) (height width v : Nat) :
    equalize_red picture height width v =
      clamp (to_short (truncate (to_double (to_double
        (cumulative_distribution picture height width v * 255) + 1 / 2)))) := by
  unfold equalize_red round_double double_mul double_add
  rw [double_of_int_natCast MAX_VALUE (by decide)]
  simp only [MAX_VALUE, Nat.cast_ofNat]

theorem equalize_value_close (picture : List (List pixel_t)) (height width : Nat)
    (hs : picture_shape picture height width) (hN0 : 0 < height * width)
    (hN : height * width < 2 ^ 53) (v : Nat) (hv : v ≤ 255) :
    0 ≤ to_double (to_double (cumulative_distribution picture height width v * 255) + 1 / 2) ∧
    to_double (to_double (cumulative_distribution picture height width v * 255) + 1 / 2) ≤
      512 ∧
    |to_double (to_double (cumulative_distribution picture height width v * 255) + 1 / 2) -
      ((510 * count_red picture (fun red => decide (red ≤ v)) + height * width : Nat) : ℚ) /
        ((2 * (height * width) : Nat) : ℚ)| < 1 / 2 ^ 32 := by
  have hNq : (0 : ℚ) < ((height * width : Nat) : ℚ) := by exact_mod_cast hN0
  have hS1 : (count_red picture (fun red => decide (red ≤ v)) : ℚ) /
      ((height * width : Nat) : ℚ) ≤ 1 := by
    rw [div_le_one hNq]
    exact_mod_cast count_red_le picture height width hs _
  have hS0 : (0 : ℚ) ≤ (count_red picture (fun red => decide (red ≤ v)) : ℚ) /
      ((height * width : Nat) : ℚ) := by positivity
  have ex : ∀ (S N : Nat), (0 : ℚ) < (N : ℚ) →
      ((510 * S + N : Nat) : ℚ) / ((2 * N : Nat) : ℚ) = 255 * ((S : ℚ) / (N : ℚ)) + 1 / 2 := by
    intro S N h
    have hne : (N : ℚ) ≠ 0 := h.ne.symm
    push_cast
    field_simp
    ring
  rw [ex _ _ hNq]
  have hF := abs_le.mp (cumulative_distribution_error picture height width hs hN0 hN v hv)
  have hF0 := cumulative_distribution_nonneg picture height width v
  have hvq : (v : ℚ) ≤ 255 := by exact_mod_cast hv
  have hv53 : (3 * (v : ℚ) + 1) / 2 ^ 53 ≤ 766 / 2 ^ 53 :=
    div_le_div_of_nonneg_right (by linarith) (by norm_num)
  generalize cumulative_distribution picture height width v = F at hF hF0 ⊢
  generalize (count_red picture (fun red => decide (red ≤ v)) : ℚ) /
    ((height * width : Nat) : ℚ) = S at hS0 hS1 hF ⊢
  have hF2 : F ≤ 2 := by
    have : (766 : ℚ) / 2 ^ 53 ≤ 1 := by norm_num
    linarith [hF.2]
  have hr := abs_le.mp (to_double_error (F * 255) (by linarith))
  have hr0 := to_double_nonneg (F * 255) (by linarith)
  generalize to_double (F * 255) = r at hr hr0 ⊢
  have hF53 : F * 255 / 2 ^ 53 ≤ 510 / 2 ^ 53 :=
    div_le_div_of_nonneg_right (by linarith) (by norm_num)
  have hr511 : r ≤ 511 := by
    have : (510 : ℚ) / 2 ^ 53 ≤ 1 := by norm_num
    linarith [hr.2]
  have ht := abs_le.mp (to_double_error (r + 1 / 2) (by linarith))
  have ht0 := to_double_nonneg (r + 1 / 2) (by linarith)
  generalize to_double (r + 1 / 2) = t at ht ht0 ⊢
  have hr53 : (r + 1 / 2) / 2 ^ 53 ≤ 512 / 2 ^ 53 :=
    div_le_div_of_nonneg_right (by linarith) (by norm_num)
  have c1 : (512 : ℚ) / 2 ^ 53 + 510 / 2 ^ 53 + 255 * (766 / 2 ^ 53) < 1 / 2 ^ 32 := by norm_num
  refine ⟨ht0, ?_, ?_⟩
  · have : (512 : ℚ) / 2 ^ 53 ≤ 1 / 2 := by norm_num
    linarith [ht.2]
  · rw [abs_lt]
    constructor <;> linarith [ht.1, ht.2, hr.1, hr.2, hF.1, hF.2]

/-- The value `equalize` stores for the red value `v`, compared with the value
rounded half up of `255 * cdf[v]`, written as the integer quotient of
`510 * S + N` by `2 * N`, where `S` pixels of the `N` have a red value of at most
`v`. -/
theorem equalize_red_spec (picture : List (List pixel_t)) (height width : Nat)
    (hs : picture_shape picture height width) (hN0 : 0 < height * width)
    (hN : height * width ≤ 2147483647) (v : Nat) (hv : v ≤ 255) :
    (510 * count_red picture (fun red => decide (red ≤ v)) + height * width) /
        (2 * (height * width)) ≤ 255 ∧
    equalize_red picture height width v ≤
      (510 * count_red picture (fun red => decide (red ≤ v)) + height * width) /
        (2 * (height * width)) ∧
    (510 * count_red picture (fun red => decide (red ≤ v)) + height * width) /
        (2 * (height * width)) ≤ equalize_red picture height width v + 1 ∧
    (¬ 2 * (height * width) ∣
        510 * count_red picture (fun red => decide (red ≤ v)) + height * width →
      equalize_red picture height width v =
        (510 * count_red picture (fun red => decide (red ≤ v)) + height * width) /
          (2 * (height * width))) := by
  obtain ⟨t0, t1, te⟩ := equalize_value_close picture height width hs hN0 (by omega) v hv
  obtain ⟨f1, f2, f3⟩ := floor_near_quotient
    (510 * count_red picture (fun red => decide (red ≤ v)) + height * width)
    (2 * (height * width)) (by omega) (by omega) _ te
  have hS := count_red_le picture height width hs (fun red => decide (red ≤ v))
  have hk : (510 * count_red picture (fun red => decide (red ≤ v)) + height * width) /
      (2 * (height * width)) ≤ 255 := by
    have : (510 * count_red picture (fun red => decide (red ≤ v)) + height * width) /
        (2 * (height * width)) < 256 := by
      rw [Nat.div_lt_iff_lt_mul (by omega)]
      omega
    omega
  rw [equalize_red_eq]
  generalize to_double (to_double (cumulative_distribution picture height width v * 255) +
    1 / 2) = t at t0 t1 te f1 f2 f3 ⊢
  generalize (510 * count_red picture (fun red => decide (red ≤ v)) + height * width) /
    (2 * (height * width)) = k at f1 f2 f3 hk ⊢
  have htr : truncate t = ⌊t⌋ := by
    unfold truncate
    rw [if_pos t0]
  have hfl0 : 0 ≤ ⌊t⌋ := Int.floor_nonneg.mpr t0
  rw [htr, to_short_of_range _ (by omega) (by omega)]
  have hcl : (clamp ⌊t⌋ : Int) = ⌊t⌋ := by
    rw [clamp_eq]
    unfold clamp_0_255
    omega
  refine ⟨hk, by omega, by omega, ?_⟩
  intro hd
  have := f3 hd
  omega

theorem equalize_eq (image : image_t) (picture : List (List pixel_t))
    (hp : image.picture = some picture) (hr : channels_in_range picture)
    (hN : image.height * image.width ≤ 2147483647) :
    equalize image =
      some ({ image with
              picture := some (fill_picture image.height image.width (fun line column =>
                { red := equalize_red picture image.height image.width
                    (pixel_at picture line column).red,
                  green := equalize_red picture image.height image.width
                    (pixel_at picture line column).red,
                  blue := equalize_red picture image.height image.width
                    (pixel_at picture line column).red })) },
            [message.equalize_done]) := by
  have hall : (picture.all (fun row => row.all (fun px => decide (px.red ≤ MAX_VALUE)))) =
      true := by
    simp only [List.all_eq_true, decide_eq_true_eq, MAX_VALUE]
    intro row hrow px hpx
    exact (hr row hrow px hpx).1
  unfold equalize
  simp only [hp]
  rw [if_neg (by simp [hall]), if_neg (by omega)]
  rfl

/-! ## Equalization of a ramp of six values -/

theorem ramp_sixth : to_double ((1 : ℚ) / 6) = 6004799503160661 / 2 ^ 55 := by
  rw [to_double_eq _ (-55) (by norm_num) (by norm_num) (by norm_num),
    round_half_even_eq _ 6004799503160661 (by norm_num [abs_lt])]
  norm_num

theorem ramp_sum_1 : to_double ((6004799503160661 / 2 ^ 55 : ℚ) + 6004799503160661 / 2 ^ 55) = 6004799503160661 / 2 ^ 54 := by
  rw [to_double_eq _ (-54) (by norm_num) (by norm_num) (by norm_num),
    round_half_even_eq _ 6004799503160661 (by norm_num [abs_lt])]
  norm_num

theorem ramp_sum_2 : to_double ((6004799503160661 / 2 ^ 54 : ℚ) + 6004799503160661 / 2 ^ 55) = 1 / 2 ^ 1 := by
  rw [to_double_eq _ (-54) (by norm_num) (by norm_num) (by norm_num),
    round_half_even_tie _ 9007199254740991 (by norm_num), if_neg (by decide)]
  norm_num

theorem ramp_sum_3 : to_double ((1 / 2 ^ 1 : ℚ) + 6004799503160661 / 2 ^ 55) = 6004799503160661 / 2 ^ 53 := by
  rw [to_double_eq _ (-53) (by norm_num) (by norm_num) (by norm_num),
    round_half_even_eq _ 6004799503160661 (by norm_num [abs_lt])]
  norm_num

theorem ramp_sum_4 : to_double ((6004799503160661 / 2 ^ 53 : ℚ) + 6004799503160661 / 2 ^ 55) = 3752999689475413 / 2 ^ 52 := by
  rw [to_double_eq _ (-53) (by norm_num) (by norm_num) (by norm_num),
    round_half_even_eq _ 7505999378950826 (by norm_num [abs_lt])]
  norm_num

theorem ramp_sum_5 : to_double ((3752999689475413 / 2 ^ 52 : ℚ) + 6004799503160661 / 2 ^ 55) = 9007199254740991 / 2 ^ 53 := by
  rw [to_double_eq _ (-53) (by norm_num) (by norm_num) (by norm_num),
    round_half_even_eq _ 9007199254740991 (by norm_num [abs_lt])]
  norm_num

theorem ramp_product_0 : to_double ((6004799503160661 / 2 ^ 55 : ℚ) * 255) = 85 / 2 ^ 1 := by
  rw [to_double_eq _ (-47) (by norm_num) (by norm_num) (by norm_num),
    round_half_even_eq _ 5981343255101440 (by norm_num [abs_lt])]
  norm_num

theorem ramp_half_0 : to_double ((85 / 2 ^ 1 : ℚ) + 1 / 2) = 43 := by
  rw [to_double_eq _ (-47) (by norm_num) (by norm_num) (by norm_num),
    round_half_even_eq _ 6051711999279104 (by norm_num [abs_lt])]
  norm_num

theorem ramp_product_1 : to_double ((6004799503160661 / 2 ^ 54 : ℚ) * 255) = 85 := by
  rw [to_double_eq _ (-46) (by norm_num) (by norm_num) (by norm_num),
    round_half_even_eq _ 5981343255101440 (by norm_num [abs_lt])]
  norm_num

theorem ramp_half_1 : to_double ((85 : ℚ) + 1 / 2) = 171 / 2 ^ 1 := by
  rw [to_double_eq _ (-46) (by norm_num) (by norm_num) (by norm_num),
    round_half_even_eq _ 6016527627190272 (by norm_num [abs_lt])]
  norm_num

theorem ramp_product_2 : to_double ((1 / 2 ^ 1 : ℚ) * 255) = 255 / 2 ^ 1 := by
  rw [to_double_eq _ (-46) (by norm_num) (by norm_num) (by norm_num),
    round_half_even_eq _ 8972014882652160 (by norm_num [abs_lt])]
  norm_num

theorem ramp_half_2 : to_double ((255 / 2 ^ 1 : ℚ) + 1 / 2) = 128 := by
  rw [to_double_eq _ (-45) (by norm_num) (by norm_num) (by norm_num),
    round_half_even_eq _ 4503599627370496 (by norm_num [abs_lt])]
  norm_num

theorem ramp_product_3 : to_double ((6004799503160661 / 2 ^ 53 : ℚ) * 255) = 170 := by
  rw [to_double_eq _ (-45) (by norm_num) (by norm_num) (by norm_num),
    round_half_even_eq _ 5981343255101440 (by norm_num [abs_lt])]
  norm_num

theorem ramp_half_3 : to_double ((170 : ℚ) + 1 / 2) = 341 / 2 ^ 1 := by
  rw [to_double_eq _ (-45) (by norm_num) (by norm_num) (by norm_num),
    round_half_even_eq _ 5998935441145856 (by norm_num [abs_lt])]
  norm_num

theorem ramp_product_4 : to_double ((3752999689475413 / 2 ^ 52 : ℚ) * 255) = 7476679068876799 / 2 ^ 45 := by
  rw [to_double_eq _ (-45) (by norm_num) (by norm_num) (by norm_num),
    round_half_even_eq _ 7476679068876799 (by norm_num [abs_lt])]
  norm_num

theorem ramp_half_4 : to_double ((7476679068876799 / 2 ^ 45 : ℚ) + 1 / 2) = 7494271254921215 / 2 ^ 45 := by
  rw [to_double_eq _ (-45) (by norm_num) (by norm_num) (by norm_num),
    round_half_even_eq _ 7494271254921215 (by norm_num [abs_lt])]
  norm_num

theorem ramp_product_5 : to_double ((9007199254740991 / 2 ^ 53 : ℚ) * 255) = 8972014882652159 / 2 ^ 45 := by
  rw [to_double_eq _ (-45) (by norm_num) (by norm_num) (by norm_num),
    round_half_even_eq _ 8972014882652159 (by norm_num [abs_lt])]
  norm_num

theorem ramp_half_5 : to_double ((8972014882652159 / 2 ^ 45 : ℚ) + 1 / 2) = 8989607068696575 / 2 ^ 45 := by
  rw [to_double_eq _ (-45) (by norm_num) (by norm_num) (by norm_num),
    round_half_even_eq _ 8989607068696575 (by norm_num [abs_lt])]
  norm_num

theorem ramp_count (i : Nat) (hi : i ≤ 5) :
    count_red [[⟨0, 0, 0⟩, ⟨1, 1, 1⟩, ⟨2, 2, 2⟩, ⟨3, 3, 3⟩, ⟨4, 4, 4⟩, ⟨5, 5, 5⟩]] (fun red => decide (red = i)) = 1 := by
  interval_cases i <;> decide

theorem ramp_cumulative_distribution_0 :
    cumulative_distribution [[⟨0, 0, 0⟩, ⟨1, 1, 1⟩, ⟨2, 2, 2⟩, ⟨3, 3, 3⟩, ⟨4, 4, 4⟩, ⟨5, 5, 5⟩]] 1 6 0 = 6004799503160661 / 2 ^ 55 := by
  rw [cumulative_distribution_zero _ 1 6 (by norm_num) (by rw [ramp_count 0 (by norm_num)]; norm_num),
    ramp_count 0 (by norm_num)]
  simp only [Nat.cast_one, Nat.cast_mul, Nat.cast_ofNat, one_mul]
  rw [ramp_sixth]

theorem ramp_cumulative_distribution_1 :
    cumulative_distribution [[⟨0, 0, 0⟩, ⟨1, 1, 1⟩, ⟨2, 2, 2⟩, ⟨3, 3, 3⟩, ⟨4, 4, 4⟩, ⟨5, 5, 5⟩]] 1 6 1 = 6004799503160661 / 2 ^ 54 := by
  rw [cumulative_distribution_succ _ 1 6 (by norm_num) 0
      (by rw [ramp_count (0 + 1) (by norm_num)]; norm_num),
    ramp_count (0 + 1) (by norm_num), ramp_cumulative_distribution_0]
  simp only [Nat.cast_one, Nat.cast_mul, Nat.cast_ofNat, one_mul]
  rw [ramp_sixth, ramp_sum_1]

theorem ramp_cumulative_distribution_2 :
    cumulative_distribution [[⟨0, 0, 0⟩, ⟨1, 1, 1⟩, ⟨2, 2, 2⟩, ⟨3, 3, 3⟩, ⟨4, 4, 4⟩, ⟨5, 5, 5⟩]] 1 6 2 = 1 / 2 ^ 1 := by
  rw [cumulative_distribution_succ _ 1 6 (by norm_num) 1
      (by rw [ramp_count (1 + 1) (by norm_num)]; norm_num),
    ramp_count (1 + 1) (by norm_num), ramp_cumulative_distribution_1]
  simp only [Nat.cast_one, Nat.cast_mul, Nat.cast_ofNat, one_mul]
  rw [ramp_sixth, ramp_sum_2]

theorem ramp_cumulative_distribution_3 :
    cumulative_distribution [[⟨0, 0, 0⟩, ⟨1, 1, 1⟩, ⟨2, 2, 2⟩, ⟨3, 3, 3⟩, ⟨4, 4, 4⟩, ⟨5, 5, 5⟩]] 1 6 3 = 6004799503160661 / 2 ^ 53 := by
  rw [cumulative_distribution_succ _ 1 6 (by norm_num) 2
      (by rw [ramp_count (2 + 1) (by norm_num)]; norm_num),
    ramp_count (2 + 1) (by norm_num), ramp_cumulative_distribution_2]
  simp only [Nat.cast_one, Nat.cast_mul, Nat.cast_ofNat, one_mul]
  rw [ramp_sixth, ramp_sum_3]

theorem ramp_cumulative_distribution_4 :
    cumulative_distribution [[⟨0, 0, 0⟩, ⟨1, 1, 1⟩, ⟨2, 2, 2⟩, ⟨3, 3, 3⟩, ⟨4, 4, 4⟩, ⟨5, 5, 5⟩]] 1 6 4 = 3752999689475413 / 2 ^ 52 := by
  rw [cumulative_distribution_succ _ 1 6 (by norm_num) 3
      (by rw [ramp_count (3 + 1) (by norm_num)]; norm_num),
    ramp_count (3 + 1) (by norm_num), ramp_cumulative_distribution_3]
  simp only [Nat.cast_one, Nat.cast_mul, Nat.cast_ofNat, one_mul]
  rw [ramp_sixth, ramp_sum_4]

theorem ramp_cumulative_distribution_5 :
    cumulative_distribution [[⟨0, 0, 0⟩, ⟨1, 1, 1⟩, ⟨2, 2, 2⟩, ⟨3, 3, 3⟩, ⟨4, 4, 4⟩, ⟨5, 5, 5⟩]] 1 6 5 = 9007199254740991 / 2 ^ 53 := by
  rw [cumulative_distribution_succ _ 1 6 (by norm_num) 4
      (by rw [ramp_count (4 + 1) (by norm_num)]; norm_num),
    ramp_count (4 + 1) (by norm_num), ramp_cumulative_distribution_4]
  simp only [Nat.cast_one, Nat.cast_mul, Nat.cast_ofNat, one_mul]
  rw [ramp_sixth, ramp_sum_5]

theorem ramp_equalize_red_0 : equalize_red [[⟨0, 0, 0⟩, ⟨1, 1, 1⟩, ⟨2, 2, 2⟩, ⟨3, 3, 3⟩, ⟨4, 4, 4⟩, ⟨5, 5, 5⟩]] 1 6 0 = 43 := by
  rw [equalize_red_eq, ramp_cumulative_distribution_0, ramp_product_0, ramp_half_0,
    truncate_eq _ 43 (by norm_num) (by norm_num) (by norm_num)]
  decide

theorem ramp_equalize_red_1 : equalize_red [[⟨0, 0, 0⟩, ⟨1, 1, 1⟩, ⟨2, 2, 2⟩, ⟨3, 3, 3⟩, ⟨4, 4, 4⟩, ⟨5, 5, 5⟩]] 1 6 1 = 85 := by
  rw [equalize_red_eq, ramp_cumulative_distribution_1, ramp_product_1, ramp_half_1,
    truncate_eq _ 85 (by norm_num) (by norm_num) (by norm_num)]
  decide

theorem ramp_equalize_red_2 : equalize_red [[⟨0, 0, 0⟩, ⟨1, 1, 1⟩, ⟨2, 2, 2⟩, ⟨3, 3, 3⟩, ⟨4, 4, 4⟩, ⟨5, 5, 5⟩]] 1 6 2 = 128 := by
  rw [equalize_red_eq, ramp_cumulative_distribution_2, ramp_product_2, ramp_half_2,
    truncate_eq _ 128 (by norm_num) (by norm_num) (by norm_num)]
  decide

theorem ramp_equalize_red_3 : equalize_red [[⟨0, 0, 0⟩, ⟨1, 1, 1⟩, ⟨2, 2, 2⟩, ⟨3, 3, 3⟩, ⟨4, 4, 4⟩, ⟨5, 5, 5⟩]] 1 6 3 = 170 := by
  rw [equalize_red_eq, ramp_cumulative_distribution_3, ramp_product_3, ramp_half_3,
    truncate_eq _ 170 (by norm_num) (by norm_num) (by norm_num)]
  decide

theorem ramp_equalize_red_4 : equalize_red [[⟨0, 0, 0⟩, ⟨1, 1, 1⟩, ⟨2, 2, 2⟩, ⟨3, 3, 3⟩, ⟨4, 4, 4⟩, ⟨5, 5, 5⟩]] 1 6 4 = 212 := by
  rw [equalize_red_eq, ramp_cumulative_distribution_4, ramp_product_4, ramp_half_4,
    truncate_eq _ 212 (by norm_num) (by norm_num) (by norm_num)]
  decide

theorem ramp_equalize_red_5 : equalize_red [[⟨0, 0, 0⟩, ⟨1, 1, 1⟩, ⟨2, 2, 2⟩, ⟨3, 3, 3⟩, ⟨4, 4, 4⟩, ⟨5, 5, 5⟩]] 1 6 5 = 255 := by
  rw [equalize_red_eq, ramp_cumulative_distribution_5, ramp_product_5, ramp_half_5,
    truncate_eq _ 255 (by norm_num) (by norm_num) (by norm_num)]
  decide

/-! ## Equalization of a black and a white pixel -/

theorem two_tone_half : to_double ((1 : ℚ) / 2) = 1 / 2 := by
  have h := to_double_exact 1 (-1) (by norm_num)
  norm_num at h
  exact h

theorem two_tone_product : to_double ((1 / 2 : ℚ) * 255) = 255 / 2 := by
  have h := to_double_exact 255 (-1) (by norm_num)
  norm_num at h
  rw [show (1 / 2 : ℚ) * 255 = 255 / 2 by norm_num]
  exact h

theorem two_tone_sum : to_double ((255 / 2 : ℚ) + 1 / 2) = 128 := by
  have h := to_double_natCast 128 (by norm_num)
  rw [show (255 / 2 : ℚ) + 1 / 2 = ((128 : Nat) : ℚ) by norm_num]
  rw [h]
  norm_num

theorem two_tone_equalize_red_0 : equalize_red [[⟨0, 0, 0⟩, ⟨255, 255, 255⟩]] 1 2 0 = 128 := by
  have hc : count_red [[⟨0, 0, 0⟩, ⟨255, 255, 255⟩]] (fun red => decide (red = 0)) = 1 := by decide
  rw [equalize_red_eq, cumulative_distribution_zero _ 1 2 (by norm_num) (by rw [hc]; norm_num), hc]
  simp only [Nat.cast_one, Nat.cast_mul, Nat.cast_ofNat, one_mul]
  rw [two_tone_half, two_tone_product, two_tone_sum,
    truncate_eq _ 128 (by norm_num) (by norm_num) (by norm_num)]
  decide

/-! ## Equalization: the claims -/

theorem equalized_value_eq (picture : List (List pixel_t)) (height width : Nat)
    (hs : picture_shape picture height width) (hN0 : 0 < height * width) (v : Nat) :
    equalized_value picture height width v =
      (((510 * count_red picture (fun red => decide (red ≤ v)) + height * width) /
        (2 * (height * width)) : Nat) : Int) := by
  have hS := count_red_le picture height width hs (fun red => decide (red ≤ v))
  have hk : (510 * count_red picture (fun red => decide (red ≤ v)) + height * width) /
      (2 * (height * width)) ≤ 255 := by
    have : (510 * count_red picture (fun red => decide (red ≤ v)) + height * width) /
        (2 * (height * width)) < 256 := by
      rw [Nat.div_lt_iff_lt_mul (by omega)]
      omega
    omega
  obtain ⟨d1, d2, -, -⟩ := nat_div_bounds
    (510 * count_red picture (fun red => decide (red ≤ v)) + height * width)
    (2 * (height * width)) (by omega)
  have hNq : (0 : ℚ) < ((height * width : Nat) : ℚ) := by exact_mod_cast hN0
  have ex : ∀ (S N : Nat), (0 : ℚ) < (N : ℚ) →
      ((510 * S + N : Nat) : ℚ) / ((2 * N : Nat) : ℚ) = (255 * (S : ℚ)) / (N : ℚ) + 1 / 2 := by
    intro S N h
    have hne : (N : ℚ) ≠ 0 := h.ne.symm
    push_cast
    field_simp
    ring
  rw [ex _ _ hNq] at d1 d2
  unfold equalized_value
  rw [← count_red_le_eq_pixels_between picture height width hs v]
  have hfl : ⌊(255 * (count_red picture (fun red => decide (red ≤ v)) : ℚ)) /
      ((height * width : Nat) : ℚ) + 1 / 2⌋ =
      (((510 * count_red picture (fun red => decide (red ≤ v)) + height * width) /
        (2 * (height * width)) : Nat) : Int) := by
    rw [Int.floor_eq_iff]
    exact ⟨by exact_mod_cast d1, by exact_mod_cast d2⟩
  rw [hfl]
  generalize (510 * count_red picture (fun red => decide (red ≤ v)) + height * width) /
    (2 * (height * width)) = k at hk
  unfold clamp_0_255
  rw [min_eq_right (by omega), max_eq_right (by omega)]

theorem pixel_at_red_le (picture : List (List pixel_t)) (hr : channels_in_range picture)
    (line column : Nat) : (pixel_at picture line column).red ≤ 255 := by
  rcases pixel_at_mem_or_default picture line column with h | ⟨row, hrow, h⟩
  · rw [h]
    decide
  · exact (hr row hrow _ h).1

theorem count_red_all_positions (picture : List (List pixel_t)) (height width : Nat)
    (hs : picture_shape picture height width) (p : Nat → Bool)
    (h : ∀ line column, line < height → column < width →
      p (pixel_at picture line column).red = true) :
    count_red picture p = height * width := by
  rw [count_red_eq picture height width hs]
  have : (List.range height).map (fun line => ((List.range width).filter
      (fun column => p (pixel_at picture line column).red)).length) =
      (List.range height).map (fun _ => width) := by
    apply List.map_congr_left
    intro line hline
    rw [List.filter_eq_self.mpr]
    · simp
    · intro column hcolumn
      exact h line column (List.mem_range.mp hline) (List.mem_range.mp hcolumn)
  rw [this, List.map_const', List.sum_replicate, List.length_range]
  simp

theorem equalize_red_mono (picture : List (List pixel_t)) (height width : Nat)
    (hs : picture_shape picture height width) (hN0 : 0 < height * width)
    (hN : height * width < 2 ^ 53) (v1 v2 : Nat) (h : v1 ≤ v2) (hv : v2 ≤ 255) :
    equalize_red picture height width v1 ≤ equalize_red picture height width v2 := by
  obtain ⟨a0, a1, -⟩ := equalize_value_close picture height width hs hN0 hN v1 (by omega)
  obtain ⟨b0, b1, -⟩ := equalize_value_close picture height width hs hN0 hN v2 hv
  have hF := cumulative_distribution_mono picture height width v1 v2 h
  have hF0 := cumulative_distribution_nonneg picture height width v1
  have hr := to_double_mono (cumulative_distribution picture height width v1 * 255)
    (cumulative_distribution picture height width v2 * 255) (by linarith) (by linarith)
  have hr0 := to_double_nonneg (cumulative_distribution picture height width v1 * 255)
    (by linarith)
  have ht := to_double_mono
    (to_double (cumulative_distribution picture height width v1 * 255) + 1 / 2)
    (to_double (cumulative_distribution picture height width v2 * 255) + 1 / 2)
    (by linarith) (by linarith)
  rw [equalize_red_eq, equalize_red_eq]
  generalize to_double (to_double (cumulative_distribution picture height width v1 * 255) +
    1 / 2) = t1 at a0 a1 ht ⊢
  generalize to_double (to_double (cumulative_distribution picture height width v2 * 255) +
    1 / 2) = t2 at b0 b1 ht ⊢
  have hfl := Int.floor_le_floor ht
  have f1 : 0 ≤ ⌊t1⌋ := Int.floor_nonneg.mpr a0
  have f2 : ⌊t2⌋ ≤ 512 := by
    have := Int.floor_le_floor b1
    rwa [show ⌊(512 : ℚ)⌋ = 512 from Int.floor_ofNat 512] at this
  have e1 : truncate t1 = ⌊t1⌋ := by unfold truncate; rw [if_pos a0]
  have e2 : truncate t2 = ⌊t2⌋ := by unfold truncate; rw [if_pos b0]
  rw [e1, e2, to_short_of_range _ (by omega) (by omega), to_short_of_range _ (by omega) (by omega)]
  have c1 := clamp_eq ⌊t1⌋
  have c2 := clamp_eq ⌊t2⌋
  unfold clamp_0_255 at c1 c2
  omega

theorem equalize_red_brightest (picture : List (List pixel_t)) (height width : Nat)
    (hs : picture_shape picture height width) (hN0 : 0 < height * width)
    (hN : height * width ≤ 2147483647) (v : Nat) (hv : v ≤ 255)
    (hall : ∀ line column, line < height → column < width →
      (pixel_at picture line column).red ≤ v) :
    equalize_red picture height width v = 255 := by
  have hS : count_red picture (fun red => decide (red ≤ v)) = height * width :=
    count_red_all_positions picture height width hs _ (by
      intro line column hl hc
      simpa using hall line column hl hc)
  obtain ⟨-, -, -, h4⟩ := equalize_red_spec picture height width hs hN0 hN v hv
  rw [hS] at h4
  generalize height * width = N at hN0 hN h4
  have e : (510 * N + N) / (2 * N) = 255 := by
    apply Nat.div_eq_of_lt_le <;> omega
  rw [e] at h4
  apply h4
  intro hd
  obtain ⟨c, hc⟩ := hd
  have : 510 * N + N = N * (2 * c) := by rw [hc]; ring
  have h2 : 511 = 2 * c := by
    have : N * 511 = N * (2 * c) := by rw [← this]; ring
    exact Nat.eq_of_mul_eq_mul_left hN0 this
  omega

/-- Claim C26, counterexample.  In the image `ramp_image` of six pixels
with the red values 0 to 5, five pixels have a red value of at most 4, so
`255 * cdf[4]` is `212.5` and its value rounded half up is 213; `equalize`
stores 212, as its sum of five `double` quotients `1 / 6` lies below `5 / 6`. -/
theorem equalize_rounds_below_half_up :
    equalize ramp_image =
      some (⟨some [[⟨43, 43, 43⟩, ⟨85, 85, 85⟩, ⟨128, 128, 128⟩, ⟨170, 170, 170⟩,
        ⟨212, 212, 212⟩, ⟨255, 255, 255⟩]], false, 1, 6⟩, [message.equalize_done]) ∧
    equalized_value [[⟨0, 0, 0⟩, ⟨1, 1, 1⟩, ⟨2, 2, 2⟩, ⟨3, 3, 3⟩, ⟨4, 4, 4⟩, ⟨5, 5, 5⟩]] 1 6 4 = 213 := by
  constructor
  · rw [equalize_eq ramp_image [[⟨0, 0, 0⟩, ⟨1, 1, 1⟩, ⟨2, 2, 2⟩, ⟨3, 3, 3⟩, ⟨4, 4, 4⟩, ⟨5, 5, 5⟩]] rfl (by decide) (by decide)]
    have e : ∀ f : Nat → Nat → pixel_t, fill_picture ramp_image.height ramp_image.width f =
        [[f 0 0, f 0 1, f 0 2, f 0 3, f 0 4, f 0 5]] := fun f => rfl
    have h0 : ramp_image.height = 1 := rfl
    have h1 : ramp_image.width = 6 := rfl
    have p0 : (pixel_at [[⟨0, 0, 0⟩, ⟨1, 1, 1⟩, ⟨2, 2, 2⟩, ⟨3, 3, 3⟩, ⟨4, 4, 4⟩, ⟨5, 5, 5⟩]] 0 0).red = 0 := rfl
    have p1 : (pixel_at [[⟨0, 0, 0⟩, ⟨1, 1, 1⟩, ⟨2, 2, 2⟩, ⟨3, 3, 3⟩, ⟨4, 4, 4⟩, ⟨5, 5, 5⟩]] 0 1).red = 1 := rfl
    have p2 : (pixel_at [[⟨0, 0, 0⟩, ⟨1, 1, 1⟩, ⟨2, 2, 2⟩, ⟨3, 3, 3⟩, ⟨4, 4, 4⟩, ⟨5, 5, 5⟩]] 0 2).red = 2 := rfl
    have p3 : (pixel_at [[⟨0, 0, 0⟩, ⟨1, 1, 1⟩, ⟨2, 2, 2⟩, ⟨3, 3, 3⟩, ⟨4, 4, 4⟩, ⟨5, 5, 5⟩]] 0 3).red = 3 := rfl
    have p4 : (pixel_at [[⟨0, 0, 0⟩, ⟨1, 1, 1⟩, ⟨2, 2, 2⟩, ⟨3, 3, 3⟩, ⟨4, 4, 4⟩, ⟨5, 5, 5⟩]] 0 4).red = 4 := rfl
    have p5 : (pixel_at [[⟨0, 0, 0⟩, ⟨1, 1, 1⟩, ⟨2, 2, 2⟩, ⟨3, 3, 3⟩, ⟨4, 4, 4⟩, ⟨5, 5, 5⟩]] 0 5).red = 5 := rfl
    rw [e]
    simp only [h0, h1, p0, p1, p2, p3, p4, p5, ramp_equalize_red_0, ramp_equalize_red_1,
      ramp_equalize_red_2, ramp_equalize_red_3, ramp_equalize_red_4, ramp_equalize_red_5]
    rfl
  · have hp : pixels_between [[⟨0, 0, 0⟩, ⟨1, 1, 1⟩, ⟨2, 2, 2⟩, ⟨3, 3, 3⟩, ⟨4, 4, 4⟩, ⟨5, 5, 5⟩]] 1 6 0 (4 + 1) = 5 := by decide
    unfold equalized_value
    rw [hp]
    norm_num [clamp_0_255]

/-- Claim C26 (amended).  For every grayscale image that holds a picture of its
dimensions, with at least one pixel, at most 2147483647 pixels and red values in
`[0, 255]`, `equalize` returns and stores in the three channels of every pixel
of red value `v` the same value, computed from the counts of the picture it was
given: the integer part of the `double` `cdf[v] * 255 + 0.5`, where `cdf[v]`
is the sum in `double` arithmetic of the quotients `frequency[i] / (height * width)`
for `i ≤ v`.  This value is `clamp(round-half-up(255 * cdf[v]))` for the exact
`cdf[v]`, or one less; it is `clamp(round-half-up(255 * cdf[v]))` whenever
`255 * cdf[v] + 1/2` is not an integer, that is whenever `2 * height * width`
does not divide `510 * S + height * width`, `S` being the number of pixels of red
value at most `v`. -/
theorem equalize_stores_rounded_cdf (image : image_t) (picture : List (List pixel_t))
    (hp : image.picture = some picture)
    (hshape : picture_shape picture image.height image.width)
    (hr : channels_in_range picture) (hN0 : 0 < image.height * image.width)
    (hN : image.height * image.width ≤ 2147483647) :
    ∃ new, equalize image = some ({ image with picture := some new }, [message.equalize_done]) ∧
      picture_shape new image.height image.width ∧
      ∀ line column, line < image.height → column < image.width →
        (pixel_at new line column).green = (pixel_at new line column).red ∧
        (pixel_at new line column).blue = (pixel_at new line column).red ∧
        (((pixel_at new line column).red : Int) =
            equalized_value picture image.height image.width (pixel_at picture line column).red ∨
          ((pixel_at new line column).red : Int) =
            equalized_value picture image.height image.width
              (pixel_at picture line column).red - 1) ∧
        (¬ 2 * (image.height * image.width) ∣
            510 * pixels_between picture image.height image.width 0
              ((pixel_at picture line column).red + 1) + image.height * image.width →
          ((pixel_at new line column).red : Int) =
            equalized_value picture image.height image.width (pixel_at picture line column).red) := by
  refine ⟨_, equalize_eq image picture hp hr hN, fill_picture_shape _ _ _, ?_⟩
  intro line column hl hc
  rw [pixel_at_fill_picture _ _ _ _ _ hl hc]
  dsimp only
  have hv := pixel_at_red_le picture hr line column
  obtain ⟨s1, s2, s3, s4⟩ := equalize_red_spec picture image.height image.width hshape hN0 hN
    (pixel_at picture line column).red hv
  rw [equalized_value_eq picture image.height image.width hshape hN0,
    ← count_red_le_eq_pixels_between picture image.height image.width hshape]
  refine ⟨rfl, rfl, by omega, ?_⟩
  intro hd
  have := s4 hd
  omega

/-- Witness of `equalize_stores_rounded_cdf`: in the image of a black and a
white pixel, the white pixel keeps the value 255. -/
theorem equalize_stores_rounded_cdf_witness :
    ∃ new, equalize two_tone_image =
        some ({ two_tone_image with picture := some new }, [message.equalize_done]) ∧
      ((pixel_at new 0 1).red : Int) = 255 := by
  obtain ⟨new, h1, -, h3⟩ := equalize_stores_rounded_cdf two_tone_image [[⟨0, 0, 0⟩, ⟨255, 255, 255⟩]] rfl (by decide)
    (by decide) (by decide) (by decide)
  refine ⟨new, h1, ?_⟩
  rw [(h3 0 1 (by decide) (by decide)).2.2.2 (by decide)]
  have hp : pixels_between [[⟨0, 0, 0⟩, ⟨255, 255, 255⟩]] two_tone_image.height two_tone_image.width 0
      ((pixel_at [[⟨0, 0, 0⟩, ⟨255, 255, 255⟩]] 0 1).red + 1) = 2 := by decide
  unfold equalized_value
  rw [hp]
  have h0 : two_tone_image.height = 1 := rfl
  have h1 : two_tone_image.width = 2 := rfl
  rw [h0, h1]
  norm_num [clamp_0_255]

/-- Claim C27, counterexample.  The image of a black and a white pixel
has the red values 0 and 255, a range of 255; `equalize` maps them to 128 and
255, a range of 127. -/
theorem equalize_narrows_range :
    equalize two_tone_image =
      some (⟨some [[⟨128, 128, 128⟩, ⟨255, 255, 255⟩]], false, 1, 2⟩,
        [message.equalize_done]) ∧
    max_red [[⟨128, 128, 128⟩, ⟨255, 255, 255⟩]] - min_red [[⟨128, 128, 128⟩, ⟨255, 255, 255⟩]] =
      127 ∧
    max_red [[⟨0, 0, 0⟩, ⟨255, 255, 255⟩]] - min_red [[⟨0, 0, 0⟩, ⟨255, 255, 255⟩]] = 255 := by
  refine ⟨?_, by decide, by decide⟩
  rw [equalize_eq two_tone_image [[⟨0, 0, 0⟩, ⟨255, 255, 255⟩]] rfl (by decide) (by decide)]
  have e : ∀ f : Nat → Nat → pixel_t,
      fill_picture two_tone_image.height two_tone_image.width f = [[f 0 0, f 0 1]] :=
    fun f => rfl
  have h0 : two_tone_image.height = 1 := rfl
  have h1 : two_tone_image.width = 2 := rfl
  have p0 : (pixel_at [[⟨0, 0, 0⟩, ⟨255, 255, 255⟩]] 0 0).red = 0 := rfl
  have p1 : (pixel_at [[⟨0, 0, 0⟩, ⟨255, 255, 255⟩]] 0 1).red = 255 := rfl
  have r1 : equalize_red [[⟨0, 0, 0⟩, ⟨255, 255, 255⟩]] 1 2 255 = 255 :=
    equalize_red_brightest [[⟨0, 0, 0⟩, ⟨255, 255, 255⟩]] 1 2 (by decide) (by decide) (by decide) 255 (by decide) (by
      intro line column hl hc
      exact pixel_at_red_le [[⟨0, 0, 0⟩, ⟨255, 255, 255⟩]] (by decide) line column)
  rw [e]
  simp only [h0, h1, p0, p1, two_tone_equalize_red_0, r1]
  rfl

/-- Claim C27 (amended).  For every grayscale image that holds a picture of its
dimensions, with at least one pixel, at most 2147483647 pixels and red values in
`[0, 255]`, `equalize` returns a picture of the same dimensions whose red values
are at most 255; the map from old to new red values is monotonically
non-decreasing; and every pixel whose red value is the largest of the input gets
the value 255, so that the largest red value of the output is 255 (the smallest
may be above the smallest of the input, and the range narrower). -/
theorem equalize_monotone_to_white (image : image_t) (picture : List (List pixel_t))
    (hp : image.picture = some picture)
    (hshape : picture_shape picture image.height image.width)
    (hr : channels_in_range picture) (hN0 : 0 < image.height * image.width)
    (hN : image.height * image.width ≤ 2147483647) :
    ∃ new, equalize image = some ({ image with picture := some new }, [message.equalize_done]) ∧
      picture_shape new image.height image.width ∧
      (∀ line column, line < image.height → column < image.width →
        (pixel_at new line column).red ≤ 255) ∧
      (∀ line column line2 column2, line < image.height → column < image.width →
        line2 < image.height → column2 < image.width →
        (pixel_at picture line column).red ≤ (pixel_at picture line2 column2).red →
        (pixel_at new line column).red ≤ (pixel_at new line2 column2).red) ∧
      (∀ line column, line < image.height → column < image.width →
        (∀ line2 column2, line2 < image.height → column2 < image.width →
          (pixel_at picture line2 column2).red ≤ (pixel_at picture line column).red) →
        (pixel_at new line column).red = 255) := by
  refine ⟨_, equalize_eq image picture hp hr hN, fill_picture_shape _ _ _, ?_, ?_, ?_⟩
  · intro line column hl hc
    rw [pixel_at_fill_picture _ _ _ _ _ hl hc]
    dsimp only
    obtain ⟨s1, s2, -, -⟩ := equalize_red_spec picture image.height image.width hshape hN0 hN
      (pixel_at picture line column).red (pixel_at_red_le picture hr line column)
    exact le_trans s2 s1
  · intro line column line2 column2 hl hc hl2 hc2 hle
    rw [pixel_at_fill_picture _ _ _ _ _ hl hc, pixel_at_fill_picture _ _ _ _ _ hl2 hc2]
    dsimp only
    exact equalize_red_mono picture image.height image.width hshape hN0 (by omega) _ _ hle
      (pixel_at_red_le picture hr line2 column2)
  · intro line column hl hc hall
    rw [pixel_at_fill_picture _ _ _ _ _ hl hc]
    dsimp only
    exact equalize_red_brightest picture image.height image.width hshape hN0 hN _
      (pixel_at_red_le picture hr line column) hall

/-- Witness of `equalize_monotone_to_white`: in the image of a black and a white
pixel, the white pixel, the brightest, gets the value 255. -/
theorem equalize_monotone_to_white_witness :
    ∃ new, equalize two_tone_image =
        some ({ two_tone_image with picture := some new }, [message.equalize_done]) ∧
      (pixel_at new 0 1).red = 255 := by
  obtain ⟨new, h1, -, -, -, h5⟩ := equalize_monotone_to_white two_tone_image [[⟨0, 0, 0⟩, ⟨255, 255, 255⟩]] rfl (by decide)
    (by decide) (by decide) (by decide)
  refine ⟨new, h1, h5 0 1 (by decide) (by decide) ?_⟩
  intro line2 column2 hl hc
  exact pixel_at_red_le [[⟨0, 0, 0⟩, ⟨255, 255, 255⟩]] (by decide) line2 column2

/-! ## Equalization: order and white -/

theorem equalize_of_many_pixels (image : image_t)
    (h : 2147483647 < image.height * image.width) : equalize image = none := by
  unfold equalize
  cases hp : image.picture with
  | none => rfl
  | some picture =>
    simp only []
    split_ifs <;> rfl

/-- Claim C35, counterexample.  An image of 65535 lines and 65535 columns has
more pixels than an `int` can count: the product `image->height * image->width`
that `equalize` divides by is not defined, and `equalize` gives no picture in
which the pixels of the largest value are 255. -/
theorem equalize_fails_on_vast_image : equalize vast_image = none :=
  equalize_of_many_pixels vast_image (by decide)

/-- Claim C35 (amended).  For every grayscale image that holds a picture of its
dimensions, with at least one pixel, at most 2147483647 pixels and red values in
`[0, 255]`, `equalize` returns a picture of the same dimensions; for any two
pixels `p`, `q` with input `red(p) ≤ red(q)` the output satisfies
`red(p) ≤ red(q)`; and every pixel that holds the largest red value of the input
is mapped to 255. -/
theorem equalize_order_preserving (image : image_t) (picture : List (List pixel_t))
    (hp : image.picture = some picture)
    (hshape : picture_shape picture image.height image.width)
    (hr : channels_in_range picture) (hN0 : 0 < image.height * image.width)
    (hN : image.height * image.width ≤ 2147483647) :
    ∃ new, equalize image = some ({ image with picture := some new }, [message.equalize_done]) ∧
      picture_shape new image.height image.width ∧
      (∀ line column line2 column2, line < image.height → column < image.width →
        line2 < image.height → column2 < image.width →
        (pixel_at picture line column).red ≤ (pixel_at picture line2 column2).red →
        (pixel_at new line column).red ≤ (pixel_at new line2 column2).red) ∧
      (∀ line column, line < image.height → column < image.width →
        (∀ line2 column2, line2 < image.height → column2 < image.width →
          (pixel_at picture line2 column2).red ≤ (pixel_at picture line column).red) →
        (pixel_at new line column).red = 255 ∧ (pixel_at new line column).green = 255 ∧
          (pixel_at new line column).blue = 255) := by
  refine ⟨_, equalize_eq image picture hp hr hN, fill_picture_shape _ _ _, ?_, ?_⟩
  · intro line column line2 column2 hl hc hl2 hc2 hle
    rw [pixel_at_fill_picture _ _ _ _ _ hl hc, pixel_at_fill_picture _ _ _ _ _ hl2 hc2]
    dsimp only
    exact equalize_red_mono picture image.height image.width hshape hN0 (by omega) _ _ hle
      (pixel_at_red_le picture hr line2 column2)
  · intro line column hl hc hall
    rw [pixel_at_fill_picture _ _ _ _ _ hl hc]
    dsimp only
    have h := equalize_red_brightest picture image.height image.width hshape hN0 hN _
      (pixel_at_red_le picture hr line column) hall
    exact ⟨h, h, h⟩

/-- Witness of `equalize_order_preserving`: in the image of six pixels with the
red values 0 to 5, the pixel of value 5 is mapped to 255. -/
theorem equalize_order_preserving_witness :
    ∃ new, equalize ramp_image =
        some ({ ramp_image with picture := some new }, [message.equalize_done]) ∧
      (pixel_at new 0 5).red = 255 := by
  obtain ⟨new, h1, -, -, h4⟩ := equalize_order_preserving ramp_image
    [[⟨0, 0, 0⟩, ⟨1, 1, 1⟩, ⟨2, 2, 2⟩, ⟨3, 3, 3⟩, ⟨4, 4, 4⟩, ⟨5, 5, 5⟩]] rfl (by decide)
    (by decide) (by decide) (by decide)
  refine ⟨new, h1, (h4 0 5 (by decide) (by decide) ?_).1⟩
  intro line2 column2 hl hc
  have hl0 : line2 = 0 := by
    have : ramp_image.height = 1 := rfl
    omega
  have hc6 : column2 < 6 := hc
  subst hl0
  interval_cases column2 <;> decide

/-! ## The histogram: the largest count -/

theorem histogram_frequencies_sum (picture : List (List pixel_t)) (height width : Nat)
    (hshape : picture_shape picture height width)
    (hr : channels_in_range picture) (number_of_bins : Int)
    (hb1 : 1 ≤ number_of_bins) (hdiv : number_of_bins ∣ 256) :
    (histogram_frequencies picture number_of_bins).sum = height * width := by
  have hb2 : number_of_bins ≤ 256 := Int.le_of_dvd (by norm_num) hdiv
  obtain ⟨n, rfl⟩ : ∃ n : Nat, number_of_bins = n := ⟨number_of_bins.toNat, by omega⟩
  have hn : n ∣ 256 := by exact_mod_cast hdiv
  have hmul : n * (256 / n) = 256 := Nat.mul_div_cancel' hn
  have hfreq : histogram_frequencies picture (n : Int) =
      (List.range n).map (fun i => count_red picture (fun red =>
        decide (i * (256 / n) ≤ red ∧ red < (i + 1) * (256 / n)))) := by
    unfold histogram_frequencies
    rw [histogram_step (n : Int) hb1 hb2]
    simp only [Int.toNat_ofNat]
    apply List.map_congr_left
    intro i hi
    have hi2 : i < n := List.mem_range.mp hi
    have hle : (i + 1) * (256 / n) ≤ 256 := by
      calc (i + 1) * (256 / n) ≤ n * (256 / n) := Nat.mul_le_mul_right _ (by omega)
        _ = 256 := hmul
    have h1 : i * (256 / n) ≤ (i + 1) * (256 / n) := Nat.mul_le_mul_right _ (by omega)
    have e1 : to_ushort ((i : Int) * ((256 / n : Nat) : Int)) = i * (256 / n) := by
      rw [← Nat.cast_mul, to_ushort_natCast _ (by omega)]
    have e2 : to_ushort (((i : Int) + 1) * ((256 / n : Nat) : Int)) = (i + 1) * (256 / n) := by
      have : ((i : Int) + 1) * ((256 / n : Nat) : Int) = (((i + 1) * (256 / n) : Nat) : Int) := by
        push_cast; ring
      rw [this, to_ushort_natCast _ (by omega)]
    unfold histogram_frequency
    simp only [e1, e2]
  rw [hfreq, count_red_bins picture (256 / n) n, hmul]
  apply count_red_all picture height width hshape
  intro row hrow px hpx
  have := (hr row hrow px hpx).1
  simp only [decide_eq_true_eq]
  omega

theorem sum_eq_zero_of_le_zero (l : List Nat) (h : ∀ f ∈ l, f ≤ 0) : l.sum = 0 := by
  induction l with
  | nil => rfl
  | cons a t ih =>
    have ha := h a (List.mem_cons_self _ _)
    have ht := ih (fun f hf => h f (List.mem_cons_of_mem _ hf))
    simp only [List.sum_cons]
    omega

theorem histogram_max_pos (picture : List (List pixel_t)) (height width : Nat)
    (hshape : picture_shape picture height width)
    (hr : channels_in_range picture) (hN0 : 0 < height * width) (number_of_bins : Int)
    (hb1 : 1 ≤ number_of_bins) (hdiv : number_of_bins ∣ 256) :
    0 < histogram_max (histogram_frequencies picture number_of_bins) := by
  by_contra hcon
  have h0 : histogram_max (histogram_frequencies picture number_of_bins) = 0 := by omega
  have hsum := histogram_frequencies_sum picture height width hshape hr number_of_bins hb1 hdiv
  have := sum_eq_zero_of_le_zero (histogram_frequencies picture number_of_bins) (by
    intro f hf
    have := le_histogram_max _ f hf
    omega)
  omega

/-- Claim C36.  For every grayscale image of `unsigned short` dimensions that
holds a picture of these dimensions with at least one pixel and values in
`[0, 255]`, every number of bins from 1 up that divides 256 and every number of
stars from 0 to 32767, the largest bin count, by which `make_histogram` divides,
is positive; `make_histogram` prints one line for each bin; and the line of
every bin whose count equals the largest count has exactly `number_of_stars`
stars. -/
theorem histogram_largest_bin (image : image_t) (picture : List (List pixel_t))
    (hp : image.picture = some picture)
    (hshape : picture_shape picture image.height image.width)
    (hh : image.height < 65536) (hw : image.width < 65536)
    (hr : channels_in_range picture) (hN0 : 0 < image.height * image.width)
    (number_of_stars number_of_bins : Int) (hs0 : 0 ≤ number_of_stars)
    (hs1 : number_of_stars ≤ 32767) (hb1 : 1 ≤ number_of_bins)
    (hdiv : number_of_bins ∣ 256) :
    0 < histogram_max (histogram_frequencies picture number_of_bins) ∧
    ∃ out, make_histogram image number_of_stars number_of_bins = some out ∧
      out.length = number_of_bins.toNat ∧
      ∀ i, i < number_of_bins.toNat →
        (histogram_frequencies picture number_of_bins).getD i 0 =
          histogram_max (histogram_frequencies picture number_of_bins) →
        out.getD i (message.stars 0) = message.stars number_of_stars.toNat := by
  have hb2 : number_of_bins ≤ 256 := Int.le_of_dvd (by norm_num) hdiv
  have hpos := histogram_max_pos picture image.height image.width hshape hr hN0 number_of_bins
    hb1 hdiv
  have hlt := histogram_max_lt picture image.height image.width hshape hh hw number_of_bins hb1
  refine ⟨hpos, (histogram_frequencies picture number_of_bins).map (fun f =>
    print_stars (histogram_stars f
      (histogram_max (histogram_frequencies picture number_of_bins)) number_of_stars)),
    ?_, ?_, ?_⟩
  · rw [make_histogram_eq image picture hp number_of_stars number_of_bins hb1 hb2,
      if_neg (by omega)]
  · rw [List.length_map, histogram_frequencies_length]
  · intro i hi hmax
    have hlen := histogram_frequencies_length picture number_of_bins
    obtain ⟨s, rfl⟩ : ∃ s : Nat, number_of_stars = s := ⟨number_of_stars.toNat, by omega⟩
    have hfull := histogram_stars_full
      (histogram_max (histogram_frequencies picture number_of_bins)) s hpos (by omega) (by omega)
    rw [List.getD_eq_getElem?_getD, List.getElem?_eq_getElem (by omega)] at hmax
    simp only [Option.getD_some] at hmax
    rw [List.getD_eq_getElem?_getD, List.getElem?_eq_getElem (by
      rw [List.length_map]; omega)]
    simp only [Option.getD_some, List.getElem_map, hmax, print_stars, hfull, Int.toNat_ofNat]

/-- Witness of `histogram_largest_bin`: for the image of a black and a white
pixel, 2 bins and 5 stars, the largest count is positive. -/
theorem histogram_largest_bin_witness :
    0 < histogram_max (histogram_frequencies [[⟨0, 0, 0⟩, ⟨255, 255, 255⟩]] 2) :=
  (histogram_largest_bin two_tone_image [[⟨0, 0, 0⟩, ⟨255, 255, 255⟩]] rfl (by decide)
    (by decide) (by decide) (by decide) (by decide) 5 2 (by decide) (by decide) (by decide)
    (by decide)).1

/-! ## Rotation of a selected square: the pixels inside -/

theorem area_quarter_turn_inside (selection : area_t) (old : Nat → Nat → pixel_t) (i j : Nat)
    (hi : i < selection.line_end - selection.line_start)
    (hj : j < selection.column_end - selection.column_start) :
    area_quarter_turn selection old (selection.line_start + i) (selection.column_start + j) =
      old (selection.line_end - 1 - j) (selection.column_start + i) := by
  unfold area_quarter_turn
  rw [if_pos (by unfold inside_selection; omega)]
  congr 1 <;> omega

/-- Claim C33, counterexample.  In the image of 32769 lines and 32768 columns,
the selection of the first 32768 lines (`all = false`) is square and in-bounds,
270 is a supported angle, and `rotate_area` does not return: its `short`
counter `line` cannot reach 32768.  No picture with the region turned is
produced. -/
theorem rotate_area_turn_fails_on_huge_selection :
    image_ok huge_image ∧ selection_ok huge_image ⟨false, 0, 0, 32768, 32768⟩ ∧
    square_selection ⟨false, 0, 0, 32768, 32768⟩ ∧ supported_angle 270 ∧
    rotate_area huge_image ⟨false, 0, 0, 32768, 32768⟩ 270 = none := by
  refine ⟨huge_image_ok, by decide, by decide, by decide, ?_⟩
  have hflip : to_ushort (rotate_flip 270) = 2 + 1 := by decide
  unfold rotate_area huge_image
  simp only
  rw [if_neg (by decide), hflip, rotate_area_loop_of_gt _ _ _ _ _ (by decide)]

/-- Claim C33 (amended).  For every image that holds a picture of its
dimensions and every square in-bounds selection of side `n ≤ 32767` that is not
the whole image, `rotate_area` with angle 90 returns the image with
`new[line_start + i][column_start + j] = old[line_end - 1 - j][column_start + i]`
for all `i, j < n`; with a supported angle of `k` quarter turns it returns the
picture given by the `k`-fold iteration of that map (`area_quarter_turn`, which
leaves the pixels outside the square as they are); and `rotate_command` calls
`rotate_area` for such a selection. -/
theorem rotate_area_turns_square (image : image_t) (selection : area_t)
    (picture : List (List pixel_t)) (hp : image.picture = some picture)
    (hshape : picture_shape picture image.height image.width)
    (hs : selection_ok image selection) (hall : selection.all = false)
    (hsq : square_selection selection)
    (hside : selection.line_end - selection.line_start ≤ 32767) :
    (∃ turned : List (List pixel_t),
      rotate_area image selection 90 =
        some (⟨some turned, image.color, image.height, image.width⟩, [message.rotated 90]) ∧
      picture_shape turned image.height image.width ∧
      ∀ i j, i < selection.line_end - selection.line_start →
        j < selection.line_end - selection.line_start →
        pixel_at turned (selection.line_start + i) (selection.column_start + j) =
          pixel_at picture (selection.line_end - 1 - j) (selection.column_start + i)) ∧
    (∀ angle, supported_angle angle →
      rotate_area image selection angle =
        some (⟨some (fill_picture image.height image.width
          (((area_quarter_turn selection)^[quarter_turns angle])
            (fun line column => pixel_at picture line column))),
          image.color, image.height, image.width⟩, [message.rotated angle])) ∧
    (∀ (old : Nat → Nat → pixel_t) (i j : Nat),
      i < selection.line_end - selection.line_start →
      j < selection.line_end - selection.line_start →
      area_quarter_turn selection old (selection.line_start + i) (selection.column_start + j) =
        old (selection.line_end - 1 - j) (selection.column_start + i)) ∧
    (∀ parameter_1 : List Nat, parameter_1.length ≠ 0 →
      supported_angle (to_short (atoi parameter_1)) →
      rotate_command image selection parameter_1 =
        rotate_area image selection (to_short (atoi parameter_1))) := by
  obtain ⟨hb1, hb2, hb3, hb4, -⟩ := hs
  have hsq2 := hsq
  unfold square_selection at hsq2
  have hcmd : ∀ parameter_1 : List Nat, parameter_1.length ≠ 0 →
      supported_angle (to_short (atoi parameter_1)) →
      rotate_command image selection parameter_1 =
        rotate_area image selection (to_short (atoi parameter_1)) := by
    intro parameter_1 hlen ha
    rw [rotate_command_supported image selection parameter_1 (by simp [hp]) hlen ha,
      if_neg (by simp [hall]), if_neg (by
        intro hne
        apply hne
        omega)]
  have e := image_ok_eq_fill image picture hp hshape
  generalize image.height = height at e hb2 hshape hcmd
  generalize image.width = width at e hb4 hshape hcmd
  generalize image.color = color at e hcmd
  subst e
  have hangle : ∀ angle, supported_angle angle →
      rotate_area ⟨some (fill_picture height width (fun line column =>
          pixel_at picture line column)), color, height, width⟩ selection angle =
        some (⟨some (fill_picture height width
          (((area_quarter_turn selection)^[quarter_turns angle])
            (fun line column => pixel_at picture line column))),
          color, height, width⟩, [message.rotated angle]) := fun angle ha =>
    rotate_area_fill height width color _ selection angle (by omega) hb2 (by omega) hb4
      hsq hside ha
  refine ⟨⟨_, rotate_area_90 height width color _ selection (by omega) hb2 (by omega) hb4
    hsq hside, fill_picture_shape _ _ _, ?_⟩, hangle, ?_, hcmd⟩
  · intro i j hi hj
    rw [pixel_at_fill_picture _ _ _ _ _ (by omega) (by omega),
      area_quarter_turn_inside selection _ i j hi (by omega)]
  · intro old i j hi hj
    exact area_quarter_turn_inside selection old i j hi (by omega)

/-- Witness of `rotate_area_turns_square`: the upper left square of side 2 of
a 2-by-3 image, turned by 90 degrees. -/
theorem rotate_area_turns_square_witness :
    rotate_area small_image ⟨false, 0, 0, 2, 2⟩ 90 =
      some (⟨some [[⟨4, 4, 4⟩, ⟨1, 1, 1⟩, ⟨3, 3, 3⟩], [⟨5, 5, 5⟩, ⟨2, 2, 2⟩, ⟨6, 6, 6⟩]],
        false, 2, 3⟩, [message.rotated 90]) :=
  ((rotate_area_turns_square small_image ⟨false, 0, 0, 2, 2⟩
    [[⟨1, 1, 1⟩, ⟨2, 2, 2⟩, ⟨3, 3, 3⟩], [⟨4, 4, 4⟩, ⟨5, 5, 5⟩, ⟨6, 6, 6⟩]] rfl (by decide)
    (by decide) rfl (by decide) (by decide)).2.1 90 (by decide)).trans (by decide)

/-- With an angle of no quarter turn (0, 360, -360), `rotate_area` returns the
image as it was, whatever the selection is. -/
theorem rotate_area_no_turn (image : image_t) (selection : area_t) (angle : Int)
    (picture : List (List pixel_t)) (hp : image.picture = some picture)
    (h0 : rotate_flip angle = 0) :
    rotate_area image selection angle = some (image, [message.rotated angle]) := by
  unfold rotate_area
  simp only [hp]
  rw [if_pos h0]

/-- With a side above 32767 and a supported angle of one, two or three quarter
turns, `rotate_area` does not return. -/
theorem rotate_area_of_huge_side (image : image_t) (selection : area_t) (angle : Int)
    (picture : List (List pixel_t)) (hp : image.picture = some picture)
    (ha : supported_angle angle) (h0 : rotate_flip angle ≠ 0)
    (hside : 32767 < (selection.line_end : Int) - selection.line_start) :
    rotate_area image selection angle = none := by
  obtain ⟨hflip, hlt⟩ := rotate_flip_eq_quarter_turns angle ha
  unfold rotate_area
  simp only [hp]
  rw [if_neg h0, hflip, to_ushort_natCast _ (by omega)]
  obtain ⟨n, hn⟩ : ∃ n, quarter_turns angle = n + 1 := by
    refine ⟨quarter_turns angle - 1, ?_⟩
    rw [hflip] at h0
    have : quarter_turns angle ≠ 0 := by
      intro hz
      apply h0
      rw [hz]
      rfl
    omega
  rw [hn, rotate_area_loop_of_gt _ _ _ _ _ hside]

/-! ## Properties of every pixel of a picture -/

theorem fill_picture_forall (P : pixel_t → Prop) (height width : Nat) (f : Nat → Nat → pixel_t)
    (hf : ∀ line column, line < height → column < width → P (f line column)) :
    ∀ row ∈ fill_picture height width f, ∀ px ∈ row, P px := by
  intro row hrow px hpx
  simp only [fill_picture, List.mem_map, List.mem_range] at hrow
  obtain ⟨line, hline, rfl⟩ := hrow
  simp only [List.mem_map, List.mem_range] at hpx
  obtain ⟨column, hcolumn, rfl⟩ := hpx
  exact hf line column hline hcolumn

theorem pixel_at_forall (P : pixel_t → Prop) (picture : List (List pixel_t))
    (hall : ∀ row ∈ picture, ∀ px ∈ row, P px) (hd : P default) (line column : Nat) :
    P (pixel_at picture line column) := by
  rcases pixel_at_mem_or_default picture line column with h | ⟨row, hrow, h⟩
  · rw [h]
    exact hd
  · exact hall row hrow _ h

theorem short_fill_eq_some (lines columns : Int) (f : Nat → Nat → pixel_t)
    (copy : List (List pixel_t)) (h : short_fill lines columns f = some copy) :
    copy = fill_picture lines.toNat columns.toNat f := by
  by_cases hl : lines ≤ 32767
  · by_cases hc : columns ≤ 32767
    · rw [short_fill_of_le lines columns f hl hc] at h
      cases h
      rfl
    · by_cases hl0 : 0 < lines
      · rw [short_fill_of_columns_gt lines columns f hl0 (by omega)] at h
        cases h
      · rw [short_fill_no_lines lines columns f (by omega)] at h
        cases h
        have : lines.toNat = 0 := by omega
        rw [this]
        rfl
  · rw [short_fill_of_lines_gt lines columns f (by omega)] at h
    cases h

theorem crop_forall (P : pixel_t → Prop) (hd : P default) (image : image_t)
    (picture : List (List pixel_t)) (hp : image.picture = some picture)
    (hall : ∀ row ∈ picture, ∀ px ∈ row, P px) (selection : area_t)
    (r : image_t × area_t × List message) (h : crop image selection = some r) :
    r.1.color = image.color ∧
    ∃ out, r.1.picture = some out ∧ ∀ row ∈ out, ∀ px ∈ row, P px := by
  obtain ⟨⟨picture2, hp2⟩, h1, h2, h3, h4⟩ := crop_some_bounds image selection r h
  rw [hp] at hp2
  cases hp2
  rw [crop_eq_some image selection picture hp h1 h2 h3 h4] at h
  cases h
  refine ⟨rfl, _, rfl, ?_⟩
  apply fill_picture_forall
  intro line column _ _
  exact pixel_at_forall P picture hall hd _ _

theorem rotate_all_step_forall (P : pixel_t → Prop) (hd : P default) (image : image_t)
    (picture : List (List pixel_t)) (hall : ∀ row ∈ picture, ∀ px ∈ row, P px) :
    (rotate_all_step image picture).color = image.color ∧
    ∃ out, (rotate_all_step image picture).picture = some out ∧
      ∀ row ∈ out, ∀ px ∈ row, P px := by
  refine ⟨rfl, _, rfl, ?_⟩
  apply fill_picture_forall
  intro line column _ _
  apply pixel_at_forall P _ _ hd
  apply fill_picture_forall
  intro line2 column2 _ _
  exact pixel_at_forall P picture hall hd _ _

theorem rotate_all_loop_forall (P : pixel_t → Prop) (hd : P default) (index : Nat)
    (image : image_t) (picture : List (List pixel_t)) (hp : image.picture = some picture)
    (hall : ∀ row ∈ picture, ∀ px ∈ row, P px) (turned : image_t)
    (h : rotate_all_loop index image = some turned) :
    turned.color = image.color ∧
    ∃ out, turned.picture = some out ∧ ∀ row ∈ out, ∀ px ∈ row, P px := by
  induction index generalizing image picture with
  | zero =>
    simp only [rotate_all_loop, Option.some.injEq] at h
    subst h
    exact ⟨rfl, picture, hp, hall⟩
  | succ n ih =>
    simp only [rotate_all_loop, hp] at h
    obtain ⟨hc, out, hout, hall2⟩ := rotate_all_step_forall P hd image picture hall
    obtain ⟨hc2, res⟩ := ih (rotate_all_step image picture) out hout hall2 h
    exact ⟨hc2.trans hc, res⟩

theorem rotate_all_forall (P : pixel_t → Prop) (hd : P default) (image : image_t)
    (picture : List (List pixel_t)) (hp : image.picture = some picture)
    (hall : ∀ row ∈ picture, ∀ px ∈ row, P px) (angle : Int)
    (r : image_t × List message) (h : rotate_all image angle = some r) :
    r.1.color = image.color ∧
    ∃ out, r.1.picture = some out ∧ ∀ row ∈ out, ∀ px ∈ row, P px := by
  unfold rotate_all at h
  by_cases h0 : rotate_flip angle = 0
  · rw [if_pos h0] at h
    cases h
    exact ⟨rfl, picture, hp, hall⟩
  · rw [if_neg h0] at h
    cases hl : rotate_all_loop (to_ushort (rotate_flip angle)) image with
    | none => simp [hl] at h
    | some turned =>
      simp only [hl, Option.some.injEq] at h
      subst h
      exact rotate_all_loop_forall P hd _ image picture hp hall turned hl

theorem rotate_area_step_forall (P : pixel_t → Prop) (hd : P default) (height width : Nat)
    (selection : area_t) (picture : List (List pixel_t))
    (hall : ∀ row ∈ picture, ∀ px ∈ row, P px) (out : List (List pixel_t))
    (h : rotate_area_step height width selection picture = some out) :
    ∀ row ∈ out, ∀ px ∈ row, P px := by
  unfold rotate_area_step at h
  cases hs : short_fill ((selection.line_end : Int) - selection.line_start)
      ((selection.column_end : Int) - selection.column_start)
      (fun line column =>
        pixel_at picture (selection.line_end - 1 - column) (line + selection.column_start)) with
  | none => simp [hs] at h
  | some copy =>
    simp only [hs, Option.some.injEq] at h
    subst h
    have hcopy : ∀ row ∈ copy, ∀ px ∈ row, P px := by
      rw [short_fill_eq_some _ _ _ copy hs]
      apply fill_picture_forall
      intro line column _ _
      exact pixel_at_forall P picture hall hd _ _
    apply fill_picture_forall
    intro line column _ _
    dsimp only
    split_ifs
    · exact pixel_at_forall P copy hcopy hd _ _
    · exact pixel_at_forall P picture hall hd _ _

theorem rotate_area_loop_forall (P : pixel_t → Prop) (hd : P default) (height width : Nat)
    (selection : area_t) (index : Nat) (picture : List (List pixel_t))
    (hall : ∀ row ∈ picture, ∀ px ∈ row, P px) (out : List (List pixel_t))
    (h : rotate_area_loop height width selection index picture = some out) :
    ∀ row ∈ out, ∀ px ∈ row, P px := by
  induction index generalizing picture with
  | zero =>
    simp only [rotate_area_loop, Option.some.injEq] at h
    subst h
    exact hall
  | succ n ih =>
    simp only [rotate_area_loop] at h
    cases hs : rotate_area_step height width selection picture with
    | none => simp [hs] at h
    | some turned =>
      simp only [hs] at h
      exact ih turned (rotate_area_step_forall P hd height width selection picture hall turned hs) h

theorem rotate_area_forall (P : pixel_t → Prop) (hd : P default) (image : image_t)
    (picture : List (List pixel_t)) (hp : image.picture = some picture)
    (hall : ∀ row ∈ picture, ∀ px ∈ row, P px) (selection : area_t) (angle : Int)
    (r : image_t × List message) (h : rotate_area image selection angle = some r) :
    r.1.color = image.color ∧
    ∃ out, r.1.picture = some out ∧ ∀ row ∈ out, ∀ px ∈ row, P px := by
  unfold rotate_area at h
  simp only [hp] at h
  by_cases h0 : rotate_flip angle = 0
  · rw [if_pos h0] at h
    cases h
    exact ⟨rfl, picture, hp, hall⟩
  · rw [if_neg h0] at h
    cases hl : rotate_area_loop image.height image.width selection
        (to_ushort (rotate_flip angle)) picture with
    | none => simp [hl] at h
    | some turned =>
      simp only [hl, Option.some.injEq] at h
      subst h
      exact ⟨rfl, turned, rfl,
        rotate_area_loop_forall P hd _ _ selection _ picture hall turned hl⟩

theorem equalize_result (image : image_t) (r : image_t × List message)
    (h : equalize image = some r) :
    r.1.color = image.color ∧
    ∃ out, r.1.picture = some out ∧ grayscale out ∧ channels_in_range out := by
  unfold equalize at h
  cases hp : image.picture with
  | none => simp [hp] at h
  | some picture =>
    simp only [hp] at h
    split_ifs at h
    simp only [Option.some.injEq] at h
    subst h
    refine ⟨rfl, _, rfl, ?_, ?_⟩
    · unfold grayscale
      apply fill_picture_forall (fun p => p.green = p.red ∧ p.blue = p.red)
      intro line column _ _
      exact ⟨rfl, rfl⟩
    · have hcl : ∀ x, clamp x ≤ 255 := by
        intro x
        unfold clamp MAX_VALUE
        split_ifs <;> omega
      unfold channels_in_range
      apply fill_picture_forall (fun p => p.red ≤ 255 ∧ p.green ≤ 255 ∧ p.blue ≤ 255)
      intro line column _ _
      exact ⟨hcl _, hcl _, hcl _⟩

/-! ## The pixels the readers store -/

theorem clamp_le (x : Int) : clamp x ≤ 255 := by
  unfold clamp MAX_VALUE
  split_ifs <;> omega

theorem rescale_le (value max_value r : Nat) (h : rescale value max_value = some r) :
    r ≤ 255 := by
  unfold rescale at h
  split_ifs at h
  simp only [Option.some.injEq] at h
  rw [← h]
  exact clamp_le _

theorem fscanf_hd_lt (file rest : FILE) (v : Nat) (h : fscanf_hd file = (some v, rest)) :
    v < 65536 := by
  unfold fscanf_hd at h
  simp only [Prod.mk.injEq, Option.map_eq_some'] at h
  obtain ⟨⟨n, -, rfl⟩, -⟩ := h
  exact to_ushort_lt _

theorem read_P2_line_forall (P : pixel_t → Prop) (max_value : Nat)
    (hP : ∀ v r, rescale v max_value = some r → P ⟨r, r, r⟩) (n : Nat) (file : FILE)
    (value : Option Nat) (row : List pixel_t) (st : FILE × Option Nat)
    (h : read_P2_line max_value n file value = some (row, st)) :
    row.length = n ∧ ∀ px ∈ row, P px := by
  induction n generalizing file value row st with
  | zero =>
    simp only [read_P2_line, Option.some.injEq, Prod.mk.injEq] at h
    obtain ⟨rfl, -⟩ := h
    exact ⟨rfl, fun px hpx => absurd hpx (List.not_mem_nil px)⟩
  | succ n ih =>
    rw [read_P2_line] at h
    rcases hn : next_value file value with ⟨_ | v, file1⟩
    · simp [hn] at h
    · simp only [hn] at h
      cases hr : rescale v max_value with
      | none => simp [hr] at h
      | some red =>
        simp only [hr] at h
        cases hrest : read_P2_line max_value n file1 (some v) with
        | none => simp [hrest] at h
        | some res =>
          obtain ⟨rest, st2⟩ := res
          simp only [hrest, Option.some.injEq, Prod.mk.injEq] at h
          obtain ⟨rfl, rfl⟩ := h
          obtain ⟨hl, hall⟩ := ih file1 (some v) rest st2 hrest
          refine ⟨by simp [hl], ?_⟩
          intro px hpx
          rcases List.mem_cons.mp hpx with rfl | hpx
          · exact hP v red hr
          · exact hall px hpx

theorem read_P2_lines_forall (P : pixel_t → Prop) (max_value width : Nat)
    (hP : ∀ v r, rescale v max_value = some r → P ⟨r, r, r⟩) (n : Nat) (file : FILE)
    (value : Option Nat) (rows : List (List pixel_t))
    (h : read_P2_lines max_value width n file value = some rows) :
    rows.length = n ∧ ∀ row ∈ rows, row.length = width ∧ ∀ px ∈ row, P px := by
  induction n generalizing file value rows with
  | zero =>
    simp only [read_P2_lines, Option.some.injEq] at h
    subst h
    exact ⟨rfl, fun row hrow => absurd hrow (List.not_mem_nil row)⟩
  | succ n ih =>
    rw [read_P2_lines] at h
    cases hline : read_P2_line max_value width file value with
    | none => simp [hline] at h
    | some res =>
      obtain ⟨row, file1, value1⟩ := res
      simp only [hline] at h
      cases hrest : read_P2_lines max_value width n file1 value1 with
      | none => simp [hrest] at h
      | some rest =>
        simp only [hrest, Option.some.injEq] at h
        subst h
        obtain ⟨hl, hall⟩ := ih file1 value1 rest hrest
        refine ⟨by simp [hl], ?_⟩
        intro r hr
        rcases List.mem_cons.mp hr with rfl | hr
        · exact read_P2_line_forall P max_value hP width file value _ _ hline
        · exact hall r hr

theorem read_P5_line_forall (P : pixel_t → Prop) (max_value : Nat)
    (hP : ∀ v r, rescale v max_value = some r → P ⟨r, r, r⟩) (n : Nat) (file : FILE)
    (value : Option Nat) (row : List pixel_t) (st : FILE × Option Nat)
    (h : read_P5_line max_value n file value = some (row, st)) :
    row.length = n ∧ ∀ px ∈ row, P px := by
  induction n generalizing file value row st with
  | zero =>
    simp only [read_P5_line, Option.some.injEq, Prod.mk.injEq] at h
    obtain ⟨rfl, -⟩ := h
    exact ⟨rfl, fun px hpx => absurd hpx (List.not_mem_nil px)⟩
  | succ n ih =>
    rw [read_P5_line] at h
    rcases hn : next_byte file value with ⟨_ | v, file1⟩
    · simp [hn] at h
    · simp only [hn] at h
      cases hr : rescale v max_value with
      | none => simp [hr] at h
      | some red =>
        simp only [hr] at h
        cases hrest : read_P5_line max_value n file1 (some v) with
        | none => simp [hrest] at h
        | some res =>
          obtain ⟨rest, st2⟩ := res
          simp only [hrest, Option.some.injEq, Prod.mk.injEq] at h
          obtain ⟨rfl, rfl⟩ := h
          obtain ⟨hl, hall⟩ := ih file1 (some v) rest st2 hrest
          refine ⟨by simp [hl], ?_⟩
          intro px hpx
          rcases List.mem_cons.mp hpx with rfl | hpx
          · exact hP v red hr
          · exact hall px hpx

theorem read_P5_lines_forall (P : pixel_t → Prop) (max_value width : Nat)
    (hP : ∀ v r, rescale v max_value = some r → P ⟨r, r, r⟩) (n : Nat) (file : FILE)
    (value : Option Nat) (rows : List (List pixel_t))
    (h : read_P5_lines max_value width n file value = some rows) :
    rows.length = n ∧ ∀ row ∈ rows, row.length = width ∧ ∀ px ∈ row, P px := by
  induction n generalizing file value rows with
  | zero =>
    simp only [read_P5_lines, Option.some.injEq] at h
    subst h
    exact ⟨rfl, fun row hrow => absurd hrow (List.not_mem_nil row)⟩
  | succ n ih =>
    rw [read_P5_lines] at h
    cases hline : read_P5_line max_value width file value with
    | none => simp [hline] at h
    | some res =>
      obtain ⟨row, file1, value1⟩ := res
      simp only [hline] at h
      cases hrest : read_P5_lines max_value width n file1 value1 with
      | none => simp [hrest] at h
      | some rest =>
        simp only [hrest, Option.some.injEq] at h
        subst h
        obtain ⟨hl, hall⟩ := ih file1 value1 rest hrest
        refine ⟨by simp [hl], ?_⟩
        intro r hr
        rcases List.mem_cons.mp hr with rfl | hr
        · exact read_P5_line_forall P max_value hP width file value _ _ hline
        · exact hall r hr

theorem read_P3_line_forall (P : pixel_t → Prop) (max_value : Nat)
    (hP : ∀ v1 v2 v3 r g b, rescale v1 max_value = some r → rescale v2 max_value = some g →
      rescale v3 max_value = some b → P ⟨r, g, b⟩) (n : Nat) (file : FILE)
    (value : Option Nat) (row : List pixel_t) (st : FILE × Option Nat)
    (h : read_P3_line max_value n file value = some (row, st)) :
    row.length = n ∧ ∀ px ∈ row, P px := by
  induction n generalizing file value row st with
  | zero =>
    simp only [read_P3_line, Option.some.injEq, Prod.mk.injEq] at h
    obtain ⟨rfl, -⟩ := h
    exact ⟨rfl, fun px hpx => absurd hpx (List.not_mem_nil px)⟩
  | succ n ih =>
    rw [read_P3_line] at h
    rcases hn1 : next_value file value with ⟨_ | v1, file1⟩
    · simp [hn1] at h
    · simp only [hn1] at h
      rcases hn2 : next_value file1 (some v1) with ⟨_ | v2, file2⟩
      · simp [hn2] at h
      · simp only [hn2] at h
        rcases hn3 : next_value file2 (some v2) with ⟨_ | v3, file3⟩
        · simp [hn3] at h
        · simp only [hn3] at h
          cases hr1 : rescale v1 max_value with
          | none => simp [hr1] at h
          | some red =>
            cases hr2 : rescale v2 max_value with
            | none => simp [hr1, hr2] at h
            | some green =>
              cases hr3 : rescale v3 max_value with
              | none => simp [hr1, hr2, hr3] at h
              | some blue =>
                simp only [hr1, hr2, hr3] at h
                cases hrest : read_P3_line max_value n file3 (some v3) with
                | none => simp [hrest] at h
                | some res =>
                  obtain ⟨rest, st2⟩ := res
                  simp only [hrest, Option.some.injEq, Prod.mk.injEq] at h
                  obtain ⟨rfl, rfl⟩ := h
                  obtain ⟨hl, hall⟩ := ih file3 (some v3) rest st2 hrest
                  refine ⟨by simp [hl], ?_⟩
                  intro px hpx
                  rcases List.mem_cons.mp hpx with rfl | hpx
                  · exact hP v1 v2 v3 red green blue hr1 hr2 hr3
                  · exact hall px hpx

theorem read_P3_lines_forall (P : pixel_t → Prop) (max_value width : Nat)
    (hP : ∀ v1 v2 v3 r g b, rescale v1 max_value = some r → rescale v2 max_value = some g →
      rescale v3 max_value = some b → P ⟨r, g, b⟩) (n : Nat) (file : FILE)
    (value : Option Nat) (rows : List (List pixel_t))
    (h : read_P3_lines max_value width n file value = some rows) :
    rows.length = n ∧ ∀ row ∈ rows, row.length = width ∧ ∀ px ∈ row, P px := by
  induction n generalizing file value rows with
  | zero =>
    simp only [read_P3_lines, Option.some.injEq] at h
    subst h
    exact ⟨rfl, fun row hrow => absurd hrow (List.not_mem_nil row)⟩
  | succ n ih =>
    rw [read_P3_lines] at h
    cases hline : read_P3_line max_value width file value with
    | none => simp [hline] at h
    | some res =>
      obtain ⟨row, file1, value1⟩ := res
      simp only [hline] at h
      cases hrest : read_P3_lines max_value width n file1 value1 with
      | none => simp [hrest] at h
      | some rest =>
        simp only [hrest, Option.some.injEq] at h
        subst h
        obtain ⟨hl, hall⟩ := ih file1 value1 rest hrest
        refine ⟨by simp [hl], ?_⟩
        intro r hr
        rcases List.mem_cons.mp hr with rfl | hr
        · exact read_P3_line_forall P max_value hP width file value _ _ hline
        · exact hall r hr

theorem read_P6_line_forall (P : pixel_t → Prop) (max_value : Nat)
    (hP : ∀ v1 v2 v3 r g b, rescale v1 max_value = some r → rescale v2 max_value = some g →
      rescale v3 max_value = some b → P ⟨r, g, b⟩) (n : Nat) (file : FILE)
    (value : Option Nat) (row : List pixel_t) (st : FILE × Option Nat)
    (h : read_P6_line max_value n file value = some (row, st)) :
    row.length = n ∧ ∀ px ∈ row, P px := by
  induction n generalizing file value row st with
  | zero =>
    simp only [read_P6_line, Option.some.injEq, Prod.mk.injEq] at h
    obtain ⟨rfl, -⟩ := h
    exact ⟨rfl, fun px hpx => absurd hpx (List.not_mem_nil px)⟩
  | succ n ih =>
    rw [read_P6_line] at h
    rcases hn1 : next_byte file value with ⟨_ | v1, file1⟩
    · simp [hn1] at h
    · simp only [hn1] at h
      rcases hn2 : next_byte file1 (some v1) with ⟨_ | v2, file2⟩
      · simp [hn2] at h
      · simp only [hn2] at h
        rcases hn3 : next_byte file2 (some v2) with ⟨_ | v3, file3⟩
        · simp [hn3] at h
        · simp only [hn3] at h
          cases hr1 : rescale v1 max_value with
          | none => simp [hr1] at h
          | some red =>
            cases hr2 : rescale v2 max_value with
            | none => simp [hr1, hr2] at h
            | some green =>
              cases hr3 : rescale v3 max_value with
              | none => simp [hr1, hr2, hr3] at h
              | some blue =>
                simp only [hr1, hr2, hr3] at h
                cases hrest : read_P6_line max_value n file3 (some v3) with
                | none => simp [hrest] at h
                | some res =>
                  obtain ⟨rest, st2⟩ := res
                  simp only [hrest, Option.some.injEq, Prod.mk.injEq] at h
                  obtain ⟨rfl, rfl⟩ := h
                  obtain ⟨hl, hall⟩ := ih file3 (some v3) rest st2 hrest
                  refine ⟨by simp [hl], ?_⟩
                  intro px hpx
                  rcases List.mem_cons.mp hpx with rfl | hpx
                  · exact hP v1 v2 v3 red green blue hr1 hr2 hr3
                  · exact hall px hpx

theorem read_P6_lines_forall (P : pixel_t → Prop) (max_value width : Nat)
    (hP : ∀ v1 v2 v3 r g b, rescale v1 max_value = some r → rescale v2 max_value = some g →
      rescale v3 max_value = some b → P ⟨r, g, b⟩) (n : Nat) (file : FILE)
    (value : Option Nat) (rows : List (List pixel_t))
    (h : read_P6_lines max_value width n file value = some rows) :
    rows.length = n ∧ ∀ row ∈ rows, row.length = width ∧ ∀ px ∈ row, P px := by
  induction n generalizing file value rows with
  | zero =>
    simp only [read_P6_lines, Option.some.injEq] at h
    subst h
    exact ⟨rfl, fun row hrow => absurd hrow (List.not_mem_nil row)⟩
  | succ n ih =>
    rw [read_P6_lines] at h
    cases hline : read_P6_line max_value width file value with
    | none => simp [hline] at h
    | some res =>
      obtain ⟨row, file1, value1⟩ := res
      simp only [hline] at h
      cases hrest : read_P6_lines max_value width n file1 value1 with
      | none => simp [hrest] at h
      | some rest =>
        simp only [hrest, Option.some.injEq] at h
        subst h
        obtain ⟨hl, hall⟩ := ih file1 value1 rest hrest
        refine ⟨by simp [hl], ?_⟩
        intro r hr
        rcases List.mem_cons.mp hr with rfl | hr
        · exact read_P6_line_forall P max_value hP width file value _ _ hline
        · exact hall r hr

theorem read_pixels_result (magic : Nat) (file : FILE) (image : image_t) (max_value : Nat)
    (picture : List (List pixel_t))
    (h : read_pixels magic file image max_value = some picture) :
    picture_shape picture image.height image.width ∧ channels_in_range picture ∧
    (magic = 2 ∨ magic = 5 → grayscale picture) := by
  have hg : ∀ v r, rescale v max_value = some r →
      ((⟨r, r, r⟩ : pixel_t).red ≤ 255 ∧ (⟨r, r, r⟩ : pixel_t).green ≤ 255 ∧
        (⟨r, r, r⟩ : pixel_t).blue ≤ 255) ∧
      ((⟨r, r, r⟩ : pixel_t).green = (⟨r, r, r⟩ : pixel_t).red ∧
        (⟨r, r, r⟩ : pixel_t).blue = (⟨r, r, r⟩ : pixel_t).red) := by
    intro v r hr
    have := rescale_le v max_value r hr
    exact ⟨⟨this, this, this⟩, rfl, rfl⟩
  have hc : ∀ v1 v2 v3 r g b, rescale v1 max_value = some r → rescale v2 max_value = some g →
      rescale v3 max_value = some b →
      ((⟨r, g, b⟩ : pixel_t).red ≤ 255 ∧ (⟨r, g, b⟩ : pixel_t).green ≤ 255 ∧
        (⟨r, g, b⟩ : pixel_t).blue ≤ 255) := by
    intro v1 v2 v3 r g b h1 h2 h3
    exact ⟨rescale_le v1 max_value r h1, rescale_le v2 max_value g h2,
      rescale_le v3 max_value b h3⟩
  unfold read_pixels at h
  by_cases h2 : magic = 2
  · rw [if_pos h2] at h
    obtain ⟨hl, hall⟩ := read_P2_lines_forall (fun p => (p.red ≤ 255 ∧ p.green ≤ 255 ∧ p.blue ≤ 255) ∧ (p.green = p.red ∧ p.blue = p.red))
          max_value image.width hg image.height file none
      picture h
    exact ⟨⟨hl, fun row hrow => (hall row hrow).1⟩,
      fun row hrow px hpx => ((hall row hrow).2 px hpx).1,
      fun _ row hrow px hpx => ((hall row hrow).2 px hpx).2⟩
  · rw [if_neg h2] at h
    by_cases h3 : magic = 3
    · rw [if_pos h3] at h
      obtain ⟨hl, hall⟩ := read_P3_lines_forall (fun p => p.red ≤ 255 ∧ p.green ≤ 255 ∧ p.blue ≤ 255)
          max_value image.width hc image.height file none
        picture h
      exact ⟨⟨hl, fun row hrow => (hall row hrow).1⟩,
        fun row hrow px hpx => (hall row hrow).2 px hpx, fun hm => by omega⟩
    · rw [if_neg h3] at h
      by_cases h5 : magic = 5
      · rw [if_pos h5] at h
        obtain ⟨hl, hall⟩ := read_P5_lines_forall (fun p => (p.red ≤ 255 ∧ p.green ≤ 255 ∧ p.blue ≤ 255) ∧ (p.green = p.red ∧ p.blue = p.red))
          max_value image.width hg image.height file
          none picture h
        exact ⟨⟨hl, fun row hrow => (hall row hrow).1⟩,
          fun row hrow px hpx => ((hall row hrow).2 px hpx).1,
          fun _ row hrow px hpx => ((hall row hrow).2 px hpx).2⟩
      · rw [if_neg h5] at h
        obtain ⟨hl, hall⟩ := read_P6_lines_forall (fun p => p.red ≤ 255 ∧ p.green ≤ 255 ∧ p.blue ≤ 255)
          max_value image.width hc image.height file
          none picture h
        exact ⟨⟨hl, fun row hrow => (hall row hrow).1⟩,
          fun row hrow px hpx => (hall row hrow).2 px hpx, fun hm => by omega⟩

/-- When `read_image` returns `true`, the image holds a picture of the
dimensions read, the dimensions fit their `unsigned short` fields, every channel
is in `[0, 255]`, and the pixels of a P2 or P5 file have three equal channels. -/
theorem read_image_result (file : FILE) (image : image_t)
    (h : read_image file = some (some image)) :
    image_ok image ∧
    ∃ picture, image.picture = some picture ∧ channels_in_range picture ∧
      (image.color = false → grayscale picture) := by
  unfold read_image at h
  cases h1 : skip_comments file with
  | none => simp [h1] at h
  | some file1 =>
    simp only [h1] at h
    rcases h2 : fscanf_magic file1 with ⟨_ | magic, file2⟩
    · simp [h2] at h
    · simp only [h2] at h
      by_cases hm : magic = 2 ∨ magic = 5 ∨ magic = 3 ∨ magic = 6
      · rw [if_pos hm] at h
        cases h3 : skip_comments (fscanf_c file2) with
        | none => simp [h3] at h
        | some file3 =>
          simp only [h3] at h
          rcases h4 : fscanf_hd file3 with ⟨_ | width, file4⟩
          · simp [h4] at h
          · simp only [h4] at h
            rcases h5 : fscanf_hd file4 with ⟨_ | height, file5⟩
            · simp [h5] at h
            · simp only [h5] at h
              cases h6 : skip_comments file5 with
              | none => simp [h6] at h
              | some file6 =>
                simp only [h6] at h
                rcases h7 : fscanf_hd file6 with ⟨_ | max_value, file7⟩
                · simp [h7] at h
                · simp only [h7] at h
                  cases h8 : read_pixels magic (fscanf_c file7)
                      { picture := none, color := decide (magic = 3 ∨ magic = 6),
                        height := height, width := width } max_value with
                  | none =>
                    rw [h8] at h
                    cases h
                  | some picture =>
                    rw [h8] at h
                    simp only [Option.some.injEq] at h
                    subst h
                    obtain ⟨hs, hr, hg⟩ := read_pixels_result magic _ _ max_value picture h8
                    refine ⟨⟨fscanf_hd_lt _ _ _ h5, fscanf_hd_lt _ _ _ h4, picture, rfl, hs⟩,
                      picture, rfl, hr, ?_⟩
                    intro hcol
                    apply hg
                    simp only [decide_eq_false_iff_not] at hcol
                    omega
      · rw [if_neg hm] at h
        simp at h

/-! ## The values the filters store -/

theorem blur_kernel_le (picture : List (List pixel_t)) (hr : channels_in_range picture)
    (channel : pixel_t → Nat) (hchannel : channel ∈ channels) (line column : Nat) :
    blur_kernel picture channel line column ≤ 255 := by
  obtain ⟨s0, s1⟩ := neighbourhood_sum_range picture hr channel hchannel line column
  obtain ⟨n0, n1⟩ := round_quotient_range (neighbourhood_sum picture channel line column) 9
    (by norm_num) s0 (by exact_mod_cast s1)
  have h := blur_kernel_eq picture channel line column (by omega)
  omega

theorem gaussian_blur_kernel_le (picture : List (List pixel_t)) (hr : channels_in_range picture)
    (channel : pixel_t → Nat) (hchannel : channel ∈ channels) (line column : Nat) :
    gaussian_blur_kernel picture channel line column ≤ 255 := by
  obtain ⟨s0, s1⟩ := gaussian_sum_range picture hr channel hchannel line column
  obtain ⟨n0, n1⟩ := round_quotient_range (gaussian_sum picture channel line column) 16
    (by norm_num) s0 (by exact_mod_cast s1)
  have h := gaussian_blur_kernel_eq picture channel line column (by omega)
  omega

theorem apply_filter_range (kernel : List (List pixel_t) → (pixel_t → Nat) → Nat → Nat → Nat)
    (image : image_t) (selection : area_t) (picture : List (List pixel_t))
    (hp : image.picture = some picture) (hr : channels_in_range picture)
    (hk : ∀ channel ∈ channels, ∀ line column, kernel picture channel line column ≤ 255) :
    ∃ out, apply_filter kernel image selection = some out ∧
      picture_shape out image.height image.width ∧ channels_in_range out := by
  refine ⟨_, apply_filter_eq kernel image selection picture hp, fill_picture_shape _ _ _, ?_⟩
  unfold channels_in_range
  apply fill_picture_forall (fun p => p.red ≤ 255 ∧ p.green ≤ 255 ∧ p.blue ≤ 255)
  intro line column _ _
  dsimp only
  split_ifs
  · exact pixel_at_forall (fun p => p.red ≤ 255 ∧ p.green ≤ 255 ∧ p.blue ≤ 255) picture hr
      (by decide) line column
  · exact ⟨hk pixel_t.red (by simp [channels]) line column,
      hk pixel_t.green (by simp [channels]) line column,
      hk pixel_t.blue (by simp [channels]) line column⟩

theorem apply_edge_range (image : image_t) (selection : area_t) (picture : List (List pixel_t))
    (hp : image.picture = some picture) (hr : channels_in_range picture) :
    ∃ out, apply_edge image selection = some out ∧
      picture_shape out image.height image.width ∧ channels_in_range out :=
  apply_filter_range edge_kernel image selection picture hp hr (by
    intro channel _ line column
    unfold edge_kernel
    exact clamp_le _)

theorem apply_sharpen_range (image : image_t) (selection : area_t)
    (picture : List (List pixel_t))
    (hp : image.picture = some picture) (hr : channels_in_range picture) :
    ∃ out, apply_sharpen image selection = some out ∧
      picture_shape out image.height image.width ∧ channels_in_range out :=
  apply_filter_range sharpen_kernel image selection picture hp hr (by
    intro channel _ line column
    unfold sharpen_kernel
    exact clamp_le _)

theorem apply_blur_range (image : image_t) (selection : area_t) (picture : List (List pixel_t))
    (hp : image.picture = some picture) (hr : channels_in_range picture) :
    ∃ out, apply_blur image selection = some out ∧
      picture_shape out image.height image.width ∧ channels_in_range out :=
  apply_filter_range blur_kernel image selection picture hp hr
    (fun channel hchannel line column => blur_kernel_le picture hr channel hchannel line column)

theorem apply_gaussian_blur_range (image : image_t) (selection : area_t)
    (picture : List (List pixel_t))
    (hp : image.picture = some picture) (hr : channels_in_range picture) :
    ∃ out, apply_gaussian_blur image selection = some out ∧
      picture_shape out image.height image.width ∧ channels_in_range out :=
  apply_filter_range gaussian_blur_kernel image selection picture hp hr
    (fun channel hchannel line column =>
      gaussian_blur_kernel_le picture hr channel hchannel line column)

/-- What `apply_command` returns: the image as it was, or the image with the
picture one of the four filters gives. -/
theorem apply_command_result (image : image_t) (selection : area_t)
    (parameter_1 parameter_2 : List Nat) (picture : List (List pixel_t))
    (hp : image.picture = some picture) (r : image_t × List message)
    (h : apply_command image selection parameter_1 parameter_2 = some r) :
    r.1 = image ∨
    ∃ out, r.1 = { image with picture := some out } ∧
      (apply_edge image selection = some out ∨ apply_sharpen image selection = some out ∨
        apply_blur image selection = some out ∨ apply_gaussian_blur image selection = some out) := by
  unfold apply_command at h
  rw [if_neg (by simp [hp])] at h
  by_cases h1 : parameter_1.length = 0 ∨ parameter_2.length ≠ 0
  · rw [if_pos h1] at h
    cases h
    exact Or.inl rfl
  rw [if_neg h1] at h
  by_cases h2 : image.color = false
  · rw [if_pos h2] at h
    cases h
    exact Or.inl rfl
  rw [if_neg h2] at h
  by_cases e1 : parameter_1 = str "EDGE"
  · simp only [if_pos e1] at h
    cases ho : apply_edge image selection with
    | none => simp [ho] at h
    | some out =>
      simp only [ho, Option.some.injEq] at h
      subst h
      exact Or.inr ⟨out, rfl, Or.inl rfl⟩
  simp only [if_neg e1] at h
  by_cases e2 : parameter_1 = str "SHARPEN"
  · simp only [if_pos e2] at h
    cases ho : apply_sharpen image selection with
    | none => simp [ho] at h
    | some out =>
      simp only [ho, Option.some.injEq] at h
      subst h
      exact Or.inr ⟨out, rfl, Or.inr (Or.inl rfl)⟩
  simp only [if_neg e2] at h
  by_cases e3 : parameter_1 = str "BLUR"
  · simp only [if_pos e3] at h
    cases ho : apply_blur image selection with
    | none => simp [ho] at h
    | some out =>
      simp only [ho, Option.some.injEq] at h
      subst h
      exact Or.inr ⟨out, rfl, Or.inr (Or.inr (Or.inl rfl))⟩
  simp only [if_neg e3] at h
  by_cases e4 : parameter_1 = str "GAUSSIAN_BLUR"
  · simp only [if_pos e4] at h
    cases ho : apply_gaussian_blur image selection with
    | none => simp [ho] at h
    | some out =>
      simp only [ho, Option.some.injEq] at h
      subst h
      exact Or.inr ⟨out, rfl, Or.inr (Or.inr (Or.inr rfl))⟩
  simp only [if_neg e4, Option.some.injEq] at h
  subst h
  exact Or.inl rfl

/-- What `rotate_command` returns: the image as it was, or what `rotate_all` or
`rotate_area` returns. -/
theorem rotate_command_result (image : image_t) (selection : area_t) (parameter_1 : List Nat)
    (r : image_t × List message) (h : rotate_command image selection parameter_1 = some r) :
    r.1 = image ∨
    (image.picture.isSome = true ∧ selection.all = true ∧
      rotate_all image (to_short (atoi parameter_1)) = some r) ∨
    (image.picture.isSome = true ∧ selection.all = false ∧
      (selection.line_end : Int) - selection.line_start =
        (selection.column_end : Int) - selection.column_start ∧
      rotate_area image selection (to_short (atoi parameter_1)) = some r) := by
  unfold rotate_command at h
  by_cases h1 : parameter_1.length = 0
  · rw [if_pos h1] at h
    cases h
    exact Or.inl rfl
  rw [if_neg h1] at h
  dsimp only at h
  by_cases h2 : image.picture.isNone = true
  · rw [if_pos h2] at h
    cases h
    exact Or.inl rfl
  rw [if_neg h2] at h
  have hsome : image.picture.isSome = true := by
    cases hp : image.picture with
    | none => simp [hp] at h2
    | some p => rfl
  split_ifs at h with h3 h4 h5
  · cases h
    exact Or.inl rfl
  · exact Or.inr (Or.inl ⟨hsome, h4, h⟩)
  · cases h
    exact Or.inl rfl
  · refine Or.inr (Or.inr ⟨hsome, by simpa using h4, ?_, h⟩)
    by_contra hne
    exact h5 hne

theorem rotate_command_forall (P : pixel_t → Prop) (hd : P default) (image : image_t)
    (picture : List (List pixel_t)) (hp : image.picture = some picture)
    (hall : ∀ row ∈ picture, ∀ px ∈ row, P px) (selection : area_t) (parameter_1 : List Nat)
    (r : image_t × List message) (h : rotate_command image selection parameter_1 = some r) :
    r.1.color = image.color ∧
    ∃ out, r.1.picture = some out ∧ ∀ row ∈ out, ∀ px ∈ row, P px := by
  rcases rotate_command_result image selection parameter_1 r h with
    h1 | ⟨-, -, h1⟩ | ⟨-, -, -, h1⟩
  · rw [h1]
    exact ⟨rfl, picture, hp, hall⟩
  · exact rotate_all_forall P hd image picture hp hall _ r h1
  · exact rotate_area_forall P hd image picture hp hall selection _ r h1

/-! ## The invariants of the pixels -/

/-- Claim C31.  Grayscale invariant.  Every image that `read_image` returns for
a P2 or P5 stream (colour flag false) holds a picture in which every pixel has
`red = green = blue`; and for every image that holds a picture of its
dimensions, whose colour flag is false and whose pixels all have
`red = green = blue`, every image that `crop` (on an in-bounds selection),
`rotate_all`, `rotate_area` (on a square in-bounds selection), `rotate_command`
or `equalize` returns has the colour flag false and holds a picture in which
every pixel has `red = green = blue`. -/
theorem grayscale_invariant (image : image_t) (picture : List (List pixel_t))
    (hp : image.picture = some picture)
    (hshape : picture_shape picture image.height image.width)
    (hc : image.color = false) (hg : grayscale picture) :
    (∀ (file : FILE) (decoded : image_t), read_image file = some (some decoded) →
      decoded.color = false → ∃ out, decoded.picture = some out ∧ grayscale out) ∧
    (∀ (selection : area_t) (r : image_t × area_t × List message),
      selection_in_bounds image selection → crop image selection = some r →
      r.1.color = false ∧ ∃ out, r.1.picture = some out ∧ grayscale out) ∧
    (∀ (angle : Int) (r : image_t × List message), rotate_all image angle = some r →
      r.1.color = false ∧ ∃ out, r.1.picture = some out ∧ grayscale out) ∧
    (∀ (selection : area_t) (angle : Int) (r : image_t × List message),
      selection_in_bounds image selection → square_selection selection →
      rotate_area image selection angle = some r →
      r.1.color = false ∧ ∃ out, r.1.picture = some out ∧ grayscale out) ∧
    (∀ (selection : area_t) (parameter_1 : List Nat) (r : image_t × List message),
      (selection.all = false → selection_in_bounds image selection) →
      rotate_command image selection parameter_1 = some r →
      r.1.color = false ∧ ∃ out, r.1.picture = some out ∧ grayscale out) ∧
    (∀ r : image_t × List message, equalize image = some r →
      r.1.color = false ∧ ∃ out, r.1.picture = some out ∧ grayscale out) := by
  have hd : (fun p : pixel_t => p.green = p.red ∧ p.blue = p.red) default := ⟨rfl, rfl⟩
  refine ⟨?_, ?_, ?_, ?_, ?_, ?_⟩
  · intro file decoded h hcol
    obtain ⟨-, out, hout, -, hgray⟩ := read_image_result file decoded h
    exact ⟨out, hout, hgray hcol⟩
  · intro selection r _ h
    obtain ⟨h1, h2⟩ := crop_forall _ hd image picture hp hg selection r h
    exact ⟨h1.trans hc, h2⟩
  · intro angle r h
    obtain ⟨h1, h2⟩ := rotate_all_forall _ hd image picture hp hg angle r h
    exact ⟨h1.trans hc, h2⟩
  · intro selection angle r _ _ h
    obtain ⟨h1, h2⟩ := rotate_area_forall _ hd image picture hp hg selection angle r h
    exact ⟨h1.trans hc, h2⟩
  · intro selection parameter_1 r _ h
    obtain ⟨h1, h2⟩ := rotate_command_forall _ hd image picture hp hg selection parameter_1 r h
    exact ⟨h1.trans hc, h2⟩
  · intro r h
    obtain ⟨h1, out, hout, hgray, -⟩ := equalize_result image r h
    exact ⟨h1.trans hc, out, hout, hgray⟩

/-- Witness of `grayscale_invariant`: the upper left square of side 2 of the
grayscale image of 2 lines and 3 columns, cropped. -/
theorem grayscale_invariant_witness :
    crop small_image ⟨false, 0, 0, 2, 2⟩ =
      some (⟨some [[⟨1, 1, 1⟩, ⟨2, 2, 2⟩], [⟨4, 4, 4⟩, ⟨5, 5, 5⟩]], false, 2, 2⟩,
        ⟨true, 0, 0, 2, 2⟩, [message.image_cropped]) ∧
    grayscale [[⟨1, 1, 1⟩, ⟨2, 2, 2⟩], [⟨4, 4, 4⟩, ⟨5, 5, 5⟩]] := by
  have h : crop small_image ⟨false, 0, 0, 2, 2⟩ =
      some (⟨some [[⟨1, 1, 1⟩, ⟨2, 2, 2⟩], [⟨4, 4, 4⟩, ⟨5, 5, 5⟩]], false, 2, 2⟩,
        ⟨true, 0, 0, 2, 2⟩, [message.image_cropped]) := by decide
  obtain ⟨-, out, hout, hgray⟩ := (grayscale_invariant small_image
    [[⟨1, 1, 1⟩, ⟨2, 2, 2⟩, ⟨3, 3, 3⟩], [⟨4, 4, 4⟩, ⟨5, 5, 5⟩, ⟨6, 6, 6⟩]] rfl (by decide)
    rfl (by decide)).2.1 ⟨false, 0, 0, 2, 2⟩ _ (by decide) h
  cases hout
  exact ⟨h, hgray⟩

/-- Claim C32.  Channel-range invariant.  Every image that `read_image`
returns holds a picture in which every channel of every pixel is in `[0, 255]`;
and for every image that holds a picture of its dimensions whose channels are
all in `[0, 255]`, every picture that `crop` (on an in-bounds selection),
`rotate_all`, `rotate_area` (on a square in-bounds selection), `rotate_command`,
`apply_command` or `equalize` returns has all its channels in `[0, 255]`, and
each of the four filters `apply_edge`, `apply_sharpen`, `apply_blur`, `apply_gaussian_blur`
returns a picture of the dimensions of the image with all its channels in
`[0, 255]`. -/
theorem channel_range_invariant (image : image_t) (picture : List (List pixel_t))
    (hp : image.picture = some picture)
    (hshape : picture_shape picture image.height image.width)
    (hr : channels_in_range picture) :
    (∀ (file : FILE) (decoded : image_t), read_image file = some (some decoded) →
      ∃ out, decoded.picture = some out ∧ channels_in_range out) ∧
    (∀ (selection : area_t) (r : image_t × area_t × List message),
      selection_in_bounds image selection → crop image selection = some r →
      ∃ out, r.1.picture = some out ∧ channels_in_range out) ∧
    (∀ (angle : Int) (r : image_t × List message), rotate_all image angle = some r →
      ∃ out, r.1.picture = some out ∧ channels_in_range out) ∧
    (∀ (selection : area_t) (angle : Int) (r : image_t × List message),
      selection_in_bounds image selection → square_selection selection →
      rotate_area image selection angle = some r →
      ∃ out, r.1.picture = some out ∧ channels_in_range out) ∧
    (∀ (selection : area_t) (parameter_1 : List Nat) (r : image_t × List message),
      (selection.all = false → selection_in_bounds image selection) →
      rotate_command image selection parameter_1 = some r →
      ∃ out, r.1.picture = some out ∧ channels_in_range out) ∧
    (∀ selection : area_t,
      (∃ out, apply_edge image selection = some out ∧
        picture_shape out image.height image.width ∧ channels_in_range out) ∧
      (∃ out, apply_sharpen image selection = some out ∧
        picture_shape out image.height image.width ∧ channels_in_range out) ∧
      (∃ out, apply_blur image selection = some out ∧
        picture_shape out image.height image.width ∧ channels_in_range out) ∧
      (∃ out, apply_gaussian_blur image selection = some out ∧
        picture_shape out image.height image.width ∧ channels_in_range out)) ∧
    (∀ (selection : area_t) (parameter_1 parameter_2 : List Nat) (r : image_t × List message),
      apply_command image selection parameter_1 parameter_2 = some r →
      ∃ out, r.1.picture = some out ∧ channels_in_range out) ∧
    (∀ r : image_t × List message, equalize image = some r →
      ∃ out, r.1.picture = some out ∧ channels_in_range out) := by
  have hd : (fun p : pixel_t => p.red ≤ 255 ∧ p.green ≤ 255 ∧ p.blue ≤ 255) default := by
    decide
  refine ⟨?_, ?_, ?_, ?_, ?_, ?_, ?_, ?_⟩
  · intro file decoded h
    obtain ⟨-, out, hout, hrange, -⟩ := read_image_result file decoded h
    exact ⟨out, hout, hrange⟩
  · intro selection r _ h
    exact (crop_forall _ hd image picture hp hr selection r h).2
  · intro angle r h
    exact (rotate_all_forall _ hd image picture hp hr angle r h).2
  · intro selection angle r _ _ h
    exact (rotate_area_forall _ hd image picture hp hr selection angle r h).2
  · intro selection parameter_1 r _ h
    exact (rotate_command_forall _ hd image picture hp hr selection parameter_1 r h).2
  · intro selection
    exact ⟨apply_edge_range image selection picture hp hr,
      apply_sharpen_range image selection picture hp hr,
      apply_blur_range image selection picture hp hr,
      apply_gaussian_blur_range image selection picture hp hr⟩
  · intro selection parameter_1 parameter_2 r h
    rcases apply_command_result image selection parameter_1 parameter_2 picture hp r h with
      h1 | ⟨out, h1, h2⟩
    · rw [h1]
      exact ⟨picture, hp, hr⟩
    · refine ⟨out, by rw [h1], ?_⟩
      rcases h2 with h2 | h2 | h2 | h2
      · obtain ⟨out2, e, -, hrange⟩ := apply_edge_range image selection picture hp hr
        rw [h2] at e
        cases e
        exact hrange
      · obtain ⟨out2, e, -, hrange⟩ := apply_sharpen_range image selection picture hp hr
        rw [h2] at e
        cases e
        exact hrange
      · obtain ⟨out2, e, -, hrange⟩ := apply_blur_range image selection picture hp hr
        rw [h2] at e
        cases e
        exact hrange
      · obtain ⟨out2, e, -, hrange⟩ := apply_gaussian_blur_range image selection picture hp hr
        rw [h2] at e
        cases e
        exact hrange
  · intro r h
    obtain ⟨-, out, hout, -, hrange⟩ := equalize_result image r h
    exact ⟨out, hout, hrange⟩

/-- Witness of `channel_range_invariant`: the blur of a colour image of 3 lines
and 3 columns has all its channels in `[0, 255]`. -/
theorem channel_range_invariant_witness :
    ∃ out, apply_blur colour_image colour_selection = some out ∧
      picture_shape out colour_image.height colour_image.width ∧ channels_in_range out :=
  ((channel_range_invariant colour_image _ rfl (by decide)
    (by decide)).2.2.2.2.2.1 colour_selection).2.2.1

/-! ## The invariant of the session -/

end image_editor
